import Mathlib

/-!
# xfemm magnetics post-processor (`cfemm/fpproc/fpproc.cpp`)

A shallow embedding of the parts of `FPProc` that the mesh index, the element
flux density, the block integrals, the flux line integral, the contour
bending, the air-gap harmonics and the circuit voltage and flux linkage rest
on, with theorems about them.

Conventions of the embedding:

* a C++ `double` is an exact rational (`ℚ`): the theorems are statements of
  exact arithmetic, round-off is not modelled;
* a C++ `int` is an `Int` where it can be negative (element indices handed to
  `InTriangle`), and a `Nat` where it is an array index read from the mesh;
* `std::vector` and the `calloc`ed arrays are lists; reading outside a list
  yields a default value, writing outside it changes nothing.
-/

namespace Xfemm

/-! ## Complex numbers -/

/-- Modelled from the spec: the complex value type `CComplex` of libfemm, whose
declaration is not among the sources; a pair `re`, `im` with the standard
arithmetic. -/
@[ext]
structure CComplex where
  re : ℚ
  im : ℚ
deriving DecidableEq

namespace CComplex

instance : Zero CComplex := ⟨⟨0, 0⟩⟩

instance : Add CComplex := ⟨fun a b => ⟨a.re + b.re, a.im + b.im⟩⟩

instance : Sub CComplex := ⟨fun a b => ⟨a.re - b.re, a.im - b.im⟩⟩

instance : Neg CComplex := ⟨fun a => ⟨-a.re, -a.im⟩⟩

/-- Sum of a complex number and a `double`: `z + r`. -/
instance : HAdd CComplex ℚ CComplex := ⟨fun a r => ⟨a.re + r, a.im⟩⟩

/-- Product of a complex number and a `double`: `z * r`. -/
instance : HMul CComplex ℚ CComplex := ⟨fun a r => ⟨a.re * r, a.im * r⟩⟩

/-- Product of a `double` and a complex number: `r * z`. -/
instance : HMul ℚ CComplex CComplex := ⟨fun r a => ⟨r * a.re, r * a.im⟩⟩

/-- Quotient of a complex number by a `double`: `z / r`. -/
instance : HDiv CComplex ℚ CComplex := ⟨fun a r => ⟨a.re / r, a.im / r⟩⟩

/-- Product of two complex numbers. -/
instance : Mul CComplex := ⟨fun a b => ⟨a.re * b.re - a.im * b.im, a.re * b.im + a.im * b.re⟩⟩

/-- Quotient of two complex numbers: `a·conj(b) / |b|²`. -/
instance : Div CComplex :=
  ⟨fun a b => ⟨(a.re * b.re + a.im * b.im) / (b.re * b.re + b.im * b.im),
    (a.im * b.re - a.re * b.im) / (b.re * b.re + b.im * b.im)⟩⟩

/-- Quotient of a `double` by a complex number: `r / z`. -/
instance : HDiv ℚ CComplex CComplex :=
  ⟨fun r b => ⟨(r * b.re) / (b.re * b.re + b.im * b.im),
    (-(r * b.im)) / (b.re * b.re + b.im * b.im)⟩⟩

/-- The imaginary unit `I`. -/
def I : CComplex := ⟨0, 1⟩

/-- The complex conjugate `conj(z)`. -/
def conj (a : CComplex) : CComplex := ⟨a.re, -a.im⟩

end CComplex

/-! ## Solution model -/

/-- A mesh node (`femmsolver::CMMeshNode`): position in user length units and
the complex potential `A`. -/
structure CMMeshNode where
  x : ℚ
  y : ℚ
  A : CComplex

/-- A mesh element (`femmpostproc::CPostProcMElement`): the three node indices
`p[0..2]`, the block label index, the cached centroid and squared radius, the
element flux density, the smoothed nodal flux densities `b1[3]`, `b2[3]`, the
material index `blk`, the boundary-edge flags `n[3]`, the flux density
`B1p`, `B2p` of the previous solution and the magnetisation direction
`magdir`. -/
structure CPostProcMElement where
  p0 : Nat
  p1 : Nat
  p2 : Nat
  lbl : Nat
  ctr : CComplex
  rsqr : ℚ
  B1 : CComplex
  B2 : CComplex
  b1 : Nat → CComplex
  b2 : Nat → CComplex
  blk : Nat := 0
  n : Nat → Int := fun _ => 0
  B1p : ℚ := 0
  B2p : ℚ := 0
  magdir : ℚ := 0

/-- The node index `p[j]` of an element. -/
def CPostProcMElement.p (e : CPostProcMElement) (j : Nat) : Nat :=
  match j with
  | 0 => e.p0
  | 1 => e.p1
  | _ => e.p2

/-- A block label (`CMBlockLabel`): the selection flag, the circuit the label
belongs to (`-1` for none), the `Case` of the circuit data (`0` when a voltage
gradient `dVolts` is given, otherwise a current density `J`), the number of
turns, the effective conductivity `o`, the fill factor, the position `x`, `y`,
the flag `IsExternal` and the effective permeability `mu`. -/
structure CMBlockLabel where
  IsSelected : Bool
  InCircuit : Int := -1
  Case : Int := 0
  dVolts : CComplex := 0
  J : CComplex := 0
  Turns : Int := 1
  o : CComplex := 0
  FillFactor : ℚ := -1
  x : ℚ := 0
  y : ℚ := 0
  IsExternal : Bool := false
  mu : CComplex := 0

/-- A material (`CMMaterialProp`), reduced to the source current density, the
conductivity and the lamination data that `GetJA` reads, its name, and the
permeabilities `mu_x`, `mu_y`, `mu_fdx`, `mu_fdy` and the coercivity `H_c`
that `GetNodalB` compares. -/
structure CMMaterialProp where
  J : CComplex := 0
  Cduct : ℚ := 0
  Lam_d : ℚ := 0
  LamType : Int := 0
  BlockName : String := ""
  mu_x : ℚ := 0
  mu_y : ℚ := 0
  H_c : ℚ := 0
  mu_fdx : CComplex := 0
  mu_fdy : CComplex := 0

/-- A node of the geometry (`CNode`): position and the index of its point
property (`-1` for none). -/
structure CNode where
  x : ℚ
  y : ℚ
  BoundaryMarker : Int := -1

/-- A point property (`CMPointProp`), reduced to the point current `J`. -/
structure CMPointProp where
  J : CComplex := 0

/-- A circuit property: the circuit type (`0` parallel, `1` series) and the
total current. -/
structure CMCircuit where
  CircType : Int := 0
  Amps : CComplex := 0

/-- The two problem types. -/
inductive ProblemType where
  | PLANAR
  | AXISYMMETRIC
deriving DecidableEq

/-- The state of the post-processor that the modelled operations read. -/
structure FPProc where
  meshnode : List CMMeshNode
  meshelem : List CPostProcMElement
  blocklist : List CMBlockLabel
  problemType : ProblemType
  LengthUnits : Fin 6
  Depth : ℚ
  Frequency : ℚ
  Smooth : Bool
  contour : List CComplex
  NumList : List Nat
  ConList : List (List Nat)
  blockproplist : List CMMaterialProp := []
  circproplist : List CMCircuit := []
  extRo : ℚ := 0
  extRi : ℚ := 0
  extZo : ℚ := 0
  bIncremental : Int := 0
  PrevType : Int := 0
  nodelist : List CNode := []
  nodeproplist : List CMPointProp := []

/-- The table `LengthConv` set up by the constructor: metres per length unit
(inches, millimetres, centimetres, metres, mils, micrometres). -/
def LengthConv (u : Fin 6) : ℚ :=
  match u with
  | 0 => 254 / 10000
  | 1 => 1 / 1000
  | 2 => 1 / 100
  | 3 => 1
  | 4 => 254 / 10000000
  | 5 => 1 / 1000000

/-- The node `meshnode[n]`. -/
def FPProc.node (P : FPProc) (n : Nat) : CMMeshNode :=
  P.meshnode.getD n ⟨0, 0, 0⟩

/-- The element `meshelem[i]`. -/
def FPProc.elem (P : FPProc) (i : Nat) : CPostProcMElement :=
  P.meshelem.getD i
    { p0 := 0, p1 := 0, p2 := 0, lbl := 0, ctr := 0, rsqr := 0, B1 := 0, B2 := 0,
      b1 := fun _ => 0, b2 := fun _ => 0 }

/-- The flag `blocklist[l].IsSelected`. -/
def FPProc.selected (P : FPProc) (l : Nat) : Bool :=
  (P.blocklist.getD l { IsSelected := false }).IsSelected

/-- The helper `sqr` of the anonymous namespace. -/
def sqr (x : ℚ) : ℚ := x * x

/-! ## Element lookup -/

/-- One pass of the loop of `InTriangleTest` for the edge starting at vertex
`j`: `true` when the point is not rejected by that edge. -/
def edgeTest (P : FPProc) (x y : ℚ) (e : CPostProcMElement) (j : Nat) : Bool :=
  let k := if j + 1 = 3 then 0 else j + 1
  if e.p k > e.p j then
    let z := ((P.node (e.p k)).x - (P.node (e.p j)).x) * (y - (P.node (e.p j)).y) -
      ((P.node (e.p k)).y - (P.node (e.p j)).y) * (x - (P.node (e.p j)).x)
    !(z < 0)
  else
    let z := ((P.node (e.p j)).x - (P.node (e.p k)).x) * (y - (P.node (e.p k)).y) -
      ((P.node (e.p j)).y - (P.node (e.p k)).y) * (x - (P.node (e.p k)).x)
    !(z > 0)

/-- `FPProc::InTriangleTest(x, y, i)`. -/
def InTriangleTest (P : FPProc) (x y : ℚ) (i : Int) : Bool :=
  if i < 0 ∨ i ≥ (P.meshelem.length : Int) then false
  else [0, 1, 2].all (edgeTest P x y (P.elem i.toNat))

/-- The early rejection of `InTriangle`: the squared distance of the point to
the cached centroid of element `i` is at most the cached `rsqr`. -/
def nearElem (P : FPProc) (x y : ℚ) (i : Int) : Bool :=
  let z := ((P.elem i.toNat).ctr.re - x) * ((P.elem i.toNat).ctr.re - x) +
    ((P.elem i.toNat).ctr.im - y) * ((P.elem i.toNat).ctr.im - y)
  z ≤ (P.elem i.toNat).rsqr

/-- The update of `hi` in a pass of the loop of `InTriangle`: `hi++`, wrapping
to `0` at `sz`. -/
def nextHi (sz hi : Int) : Int := if hi + 1 ≥ sz then 0 else hi + 1

/-- The update of `lo` in a pass of the loop of `InTriangle`: `lo--`, wrapping
to `sz - 1` below `0`. -/
def nextLo (sz lo : Int) : Int := if lo - 1 < 0 then sz - 1 else lo - 1

/-- The loop `for(j=0; j<sz; j+=2)` of `InTriangle`, from the state `j, hi, lo`;
`k` is the cached index. The result is the returned index and the new cached
index. `fuel` bounds the number of passes; `sz` passes are always enough. -/
def scanLoop (P : FPProc) (x y : ℚ) (sz k : Int) : Nat → Int → Int → Int → Int × Int
  | 0, _, _, _ => (-1, k)
  | fuel + 1, j, hi, lo =>
    if j < sz then
      let hi := nextHi sz hi
      let lo := nextLo sz lo
      if nearElem P x y hi && InTriangleTest P x y hi then (hi, hi)
      else if nearElem P x y lo && InTriangleTest P x y lo then (lo, lo)
      else scanLoop P x y sz k fuel (j + 2) hi lo
    else (-1, k)

/-- `FPProc::InTriangle(x, y)` with the function-local `static int k` made an
argument: the result is the returned index and the value `k` is left with. -/
def InTriangle (P : FPProc) (k : Int) (x y : ℚ) : Int × Int :=
  let sz : Int := P.meshelem.length
  let k := if k < 0 ∨ k ≥ sz then 0 else k
  if InTriangleTest P x y k then (k, k)
  else scanLoop P x y sz k sz.toNat 0 k k

/-- `FPProc::Ctr(i)`: the mean of the three vertex positions of element `i`. -/
def Ctr (P : FPProc) (i : Nat) : CComplex :=
  [0, 1, 2].foldl
    (fun c j => c + ⟨(P.node ((P.elem i).p j)).x / 3, (P.node ((P.elem i).p j)).y / 3⟩) 0

/-- `FPProc::ElmArea(i)`: the signed area of element `i` in squared length
units. -/
def ElmArea (P : FPProc) (i : Nat) : ℚ :=
  let n := (P.elem i).p
  let b0 := (P.node (n 1)).y - (P.node (n 2)).y
  let b1 := (P.node (n 2)).y - (P.node (n 0)).y
  let c0 := (P.node (n 2)).x - (P.node (n 1)).x
  let c1 := (P.node (n 0)).x - (P.node (n 2)).x
  (b0 * c1 - b1 * c0) / 2


/-! ## Loader: centroids and radii -/

/-- The inner loop of "element centroids and radii" in `OpenDocument`: the
largest of `0` and the squared distances from `c` to the three vertices of
element `i`. -/
def radiusLoop (P : FPProc) (i : Nat) (c : CComplex) : ℚ :=
  [0, 1, 2].foldl
    (fun r j =>
      let b := sqr ((P.node ((P.elem i).p j)).x - c.re) + sqr ((P.node ((P.elem i).p j)).y - c.im)
      if b > r then b else r) 0

/-- One pass of the loop "element centroids and radii" of `OpenDocument`, for
element `i`. -/
def centroidStep (P : FPProc) (i : Nat) : FPProc :=
  let c := Ctr P i
  { P with meshelem := P.meshelem.set i { P.elem i with ctr := c, rsqr := radiusLoop P i c } }

/-- The loop "element centroids and radii" of `OpenDocument`. -/
def OpenDocument_centroids (P : FPProc) : FPProc :=
  (List.range P.meshelem.length).foldl centroidStep P

/-- The squared distance from the cached centroid of element `i` to its vertex
`j`. -/
def vertexDist (P : FPProc) (i j : Nat) : ℚ :=
  sqr ((P.node ((P.elem i).p j)).x - (P.elem i).ctr.re) +
    sqr ((P.node ((P.elem i).p j)).y - (P.elem i).ctr.im)

/-- The index `InTriangle` first tries: the cached index, reset to `0` when it
is out of range. -/
def firstTry (P : FPProc) (k : Int) : Int :=
  if k < 0 ∨ k ≥ (P.meshelem.length : Int) then 0 else k

/-- Two states with the same nodes and the same node indices in every
element. -/
def SameGeom (P Q : FPProc) : Prop :=
  Q.meshnode = P.meshnode ∧ Q.meshelem.length = P.meshelem.length ∧
    ∀ i, (Q.elem i).p0 = (P.elem i).p0 ∧ (Q.elem i).p1 = (P.elem i).p1 ∧
      (Q.elem i).p2 = (P.elem i).p2

/-! ## Loader: node-to-element lists -/

/-- The pass "find out number of connections to each node" of `OpenDocument`
for element `i`: `NumList[meshelem[i].p[j]]++` for `j = 0, 1, 2`. -/
def countStep (P : FPProc) (num : List Nat) (i : Nat) : List Nat :=
  (List.range 3).foldl
    (fun num j => num.set ((P.elem i).p j) (num.getD ((P.elem i).p j) 0 + 1)) num

/-- The pass "build list" of `OpenDocument` for element `i`, on the pair
`(ConList, NumList)`: `k = p[j]; ConList[k][NumList[k]] = i; NumList[k]++`. -/
def buildStep (P : FPProc) (s : List (List Nat) × List Nat) (i : Nat) :
    List (List Nat) × List Nat :=
  (List.range 3).foldl
    (fun s j =>
      let k := (P.elem i).p j
      (s.1.set k ((s.1.getD k []).set (s.2.getD k 0) i), s.2.set k (s.2.getD k 0 + 1))) s

/-- The block "build list of elements connected to each node" of
`OpenDocument`: count, allocate, reset the counts, fill. -/
def OpenDocument_connections (P : FPProc) : FPProc :=
  let n := P.meshnode.length
  let m := P.meshelem.length
  let num := (List.range m).foldl (countStep P) (List.replicate n 0)
  let con := (List.range n).map (fun i => List.replicate (num.getD i 0) 0)
  let num := (List.range n).foldl (fun num i => num.set i 0) num
  let s := (List.range m).foldl (buildStep P) (con, num)
  { P with NumList := s.2, ConList := s.1 }

/-- The element index `i`, once for every vertex slot `j' < j` of element `i`
that holds node `n`. -/
def slotsOf (P : FPProc) (i j n : Nat) : List Nat :=
  ((List.range j).filter (fun j' => decide ((P.elem i).p j' = n))).map (fun _ => i)

/-- The elements below `t` that have node `n` as a vertex, in increasing order,
once for every vertex slot that holds `n`. -/
def incident (P : FPProc) (n : Nat) : Nat → List Nat
  | 0 => []
  | t + 1 => incident P n t ++ slotsOf P t 3 n

/-- The number of pairs (element, vertex slot) at which node `n` occurs. -/
def incidences (P : FPProc) (n : Nat) : Nat :=
  ((List.range P.meshelem.length).map
    (fun e => ((List.range 3).filter (fun j => decide ((P.elem e).p j = n))).length)).sum

/-- The state of the pass "build list" when the list of node `k` is to hold
`cur k` so far: `NumList[k]` counts `cur k`, `ConList[k]` starts with `cur k`
and has the length it was allocated with. -/
def BuildInv (P : FPProc) (cur : Nat → List Nat) (s : List (List Nat) × List Nat) : Prop :=
  s.2.length = P.meshnode.length ∧ s.1.length = P.meshnode.length ∧
    ∀ k, k < P.meshnode.length →
      s.2.getD k 0 = (cur k).length ∧
        (s.1.getD k []).length = (incident P k P.meshelem.length).length ∧
        (s.1.getD k []).take (cur k).length = cur k

/-! ## Shape functions -/

/-- The array `a[3]` computed from the nodes of an element in `GetPointValues`
and `GetPointB`. -/
def coefA (P : FPProc) (e : CPostProcMElement) (i : Nat) : ℚ :=
  match i with
  | 0 => (P.node (e.p 1)).x * (P.node (e.p 2)).y - (P.node (e.p 2)).x * (P.node (e.p 1)).y
  | 1 => (P.node (e.p 2)).x * (P.node (e.p 0)).y - (P.node (e.p 0)).x * (P.node (e.p 2)).y
  | _ => (P.node (e.p 0)).x * (P.node (e.p 1)).y - (P.node (e.p 1)).x * (P.node (e.p 0)).y

/-- The array `b[3]` computed from the nodes of an element. -/
def coefB (P : FPProc) (e : CPostProcMElement) (i : Nat) : ℚ :=
  match i with
  | 0 => (P.node (e.p 1)).y - (P.node (e.p 2)).y
  | 1 => (P.node (e.p 2)).y - (P.node (e.p 0)).y
  | _ => (P.node (e.p 0)).y - (P.node (e.p 1)).y

/-- The array `c[3]` computed from the nodes of an element. -/
def coefC (P : FPProc) (e : CPostProcMElement) (i : Nat) : ℚ :=
  match i with
  | 0 => (P.node (e.p 2)).x - (P.node (e.p 1)).x
  | 1 => (P.node (e.p 0)).x - (P.node (e.p 2)).x
  | _ => (P.node (e.p 1)).x - (P.node (e.p 0)).x

/-- The value `da = b[0]*c[1] - b[1]*c[0]`, twice the signed area. -/
def coefDa (P : FPProc) (e : CPostProcMElement) : ℚ :=
  coefB P e 0 * coefC P e 1 - coefB P e 1 * coefC P e 0

/-- The mid-side value built from the corner values `va`, `vc` at radii `Ra`,
`Rb` in the axisymmetric branches (complex potentials). -/
def midside (Ra Rb : ℚ) (va vc : CComplex) : CComplex :=
  if Ra < 1 / 1000000 ∧ Rb < 1 / 1000000 then (va + vc) / (2 : ℚ)
  else (Rb * ((3 : ℚ) * va + vc) + Ra * (va + (3 : ℚ) * vc)) / (4 * (Ra + Rb))

/-- The mid-side value built from the corner values `va`, `vc` at radii `Ra`,
`Rb` in the axisymmetric branch at zero frequency (real potentials). -/
def midsideRe (Ra Rb va vc : ℚ) : ℚ :=
  if Ra < 1 / 1000000 ∧ Rb < 1 / 1000000 then (va + vc) / 2
  else (Rb * (3 * va + vc) + Ra * (va + 3 * vc)) / (4 * (Ra + Rb))

/-! ## Element flux density -/

/-- `FPProc::GetElementB(elm)`: the element with `B1`, `B2` set. `PI` is the
constant of that name, a `double`. The previous-solution fields `B1p`, `B2p` of
incremental problems are not part of the model. -/
def GetElementB (PI : ℚ) (P : FPProc) (elm : CPostProcMElement) : CPostProcMElement :=
  let b := coefB P elm
  let c := coefC P elm
  let da := b 0 * c 1 - b 1 * c 0
  if P.problemType = .PLANAR then
    let B := (List.range 3).foldl
      (fun (B : CComplex × CComplex) i =>
        (B.1 + (P.node (elm.p i)).A * c i / (da * LengthConv P.LengthUnits),
          B.2 - (P.node (elm.p i)).A * b i / (da * LengthConv P.LengthUnits))) (0, 0)
    { elm with B1 := B.1, B2 := B.2 }
  else
    let R := fun i => (P.node (elm.p i)).x
    let r := (List.range 3).foldl (fun r i => r + R i / 3) 0
    let v0 := (P.node (elm.p 0)).A
    let v2 := (P.node (elm.p 1)).A
    let v4 := (P.node (elm.p 2)).A
    let v1 := midside (R 0) (R 1) v0 v2
    let v3 := midside (R 1) (R 2) v2 v4
    let v5 := midside (R 2) (R 0) v4 v0
    let dp := (-v0 + v2 + (4 : ℚ) * v3 - (4 : ℚ) * v5) / (3 : ℚ)
    let dq := (-v0 - (4 : ℚ) * v1 + (4 : ℚ) * v3 + v4) / (3 : ℚ)
    let da := da * (2 * PI * r * LengthConv P.LengthUnits * LengthConv P.LengthUnits)
    { elm with B1 := (-(c 1 * dp + c 2 * dq)) / da, B2 := (b 1 * dp + b 2 * dq) / da }

/-- `FPProc::GetPointB(x, y, B1, B2, elm)`: the pair `(B1, B2)`. -/
def GetPointB (P : FPProc) (x y : ℚ) (elm : CPostProcMElement) : CComplex × CComplex :=
  if P.Smooth = false then (elm.B1, elm.B2)
  else
    let a := coefA P elm
    let b := coefB P elm
    let c := coefC P elm
    let da := b 0 * c 1 - b 1 * c 0
    (List.range 3).foldl
      (fun (B : CComplex × CComplex) i =>
        (B.1 + elm.b1 i * (a i + b i * x + c i * y) / da,
          B.2 + elm.b2 i * (a i + b i * x + c i * y) / da)) (0, 0)

/-! ## Block integrals -/

/-- The area `a = ElmArea(i) * pow(LengthConv[LengthUnits], 2)` of element `i`
in square metres. -/
def elemArea (P : FPProc) (i : Nat) : ℚ := ElmArea P i * LengthConv P.LengthUnits ^ 2

/-- The loop over the elements in `BlockIntegral(inttype)` for the integrands
`5` (cross-section area, accumulated in `z`) and `25` (centroid, accumulated
in `y`); the result is the pair `(z, y)`. The second switch of the loop body
only has cases `18` to `23` and leaves `z` and `y` alone for these two
integrands, and the call of `GetJA` is only used by other integrands. -/
def blockLoop (P : FPProc) (inttype : Nat) : CComplex × CComplex :=
  (List.range P.meshelem.length).foldl
    (fun (zy : CComplex × CComplex) i =>
      if P.selected (P.elem i).lbl = true then
        let a := elemArea P i
        match inttype with
        | 5 => (zy.1 + a, zy.2)
        | 25 => (zy.1, ⟨zy.2.re + (P.elem i).ctr.re * a, zy.2.im + (P.elem i).ctr.im * a⟩)
        | _ => zy
      else zy) (0, 0)

/-- `FPProc::BlockIntegral(inttype)` for the integrands `5` and `25`; the other
integrands are outside the model (`none`). -/
def BlockIntegral (P : FPProc) (inttype : Nat) : Option CComplex :=
  if inttype = 5 then some (blockLoop P 5).1
  else if inttype = 25 then
    let y := (blockLoop P 25).2
    let temp := (blockLoop P 5).1
    some ⟨y.re / temp.re, y.im / temp.re⟩
  else none

/-- The elements whose block label is selected. -/
def selectedElems (P : FPProc) : List Nat :=
  (List.range P.meshelem.length).filter (fun i => P.selected (P.elem i).lbl)

/-! ## Point values and the flux line integral -/

/-- The field `u.A` that `GetPointValues(x, y, k, u)` sets: the potential
interpolated in element `k`. -/
def pointA (P : FPProc) (x y : ℚ) (k : Nat) : CComplex :=
  let e := P.elem k
  let a := coefA P e
  let b := coefB P e
  let c := coefC P e
  let da := b 0 * c 1 - b 1 * c 0
  let R := fun i => (P.node (e.p i)).x
  let p := (b 1 * x + c 1 * y + a 1) / da
  let q := (b 2 * x + c 2 * y + a 2) / da
  if P.Frequency = 0 then
    if P.problemType = .PLANAR then
      (List.range 3).foldl
        (fun (A : CComplex) i =>
          ⟨A.re + (P.node (e.p i)).A.re * (a i + b i * x + c i * y) / da, A.im⟩) 0
    else
      let v0 := (P.node (e.p 0)).A.re
      let v2 := (P.node (e.p 1)).A.re
      let v4 := (P.node (e.p 2)).A.re
      let v1 := midsideRe (R 0) (R 1) v0 v2
      let v3 := midsideRe (R 1) (R 2) v2 v4
      let v5 := midsideRe (R 2) (R 0) v4 v0
      ⟨v0 - p * (3 * v0 - 4 * v1 + v2) + 2 * p * p * (v0 - 2 * v1 + v2) -
          q * (3 * v0 + v4 - 4 * v5) + 2 * q * q * (v0 + v4 - 2 * v5) +
          4 * p * q * (v0 - v1 + v3 - v5), 0⟩
  else
    if P.problemType = .PLANAR then
      (List.range 3).foldl
        (fun (A : CComplex) i => A + (P.node (e.p i)).A * (a i + b i * x + c i * y) / da) 0
    else
      let v0 := (P.node (e.p 0)).A
      let v2 := (P.node (e.p 1)).A
      let v4 := (P.node (e.p 2)).A
      let v1 := midside (R 0) (R 1) v0 v2
      let v3 := midside (R 1) (R 2) v2 v4
      let v5 := midside (R 2) (R 0) v4 v0
      v0 - p * ((3 : ℚ) * v0 - (4 : ℚ) * v1 + v2) + (2 * p * p) * (v0 - (2 : ℚ) * v1 + v2) -
        q * ((3 : ℚ) * v0 + v4 - (4 : ℚ) * v5) + (2 * q * q) * (v0 + v4 - (2 : ℚ) * v5) +
        (4 * p * q) * (v0 - v1 + v3 - v5)

/-- `FPProc::GetPointValues(x, y, u)`, reduced to the field `u.A`: whether the
point was found, the value of `u.A` afterwards (`uA` before), and the cached
index of `InTriangle` afterwards (`kc` before). -/
def GetPointValues (P : FPProc) (kc : Int) (x y : ℚ) (uA : CComplex) : Bool × CComplex × Int :=
  let r := InTriangle P kc x y
  if r.1 < 0 then (false, uA, r.2)
  else (true, pointA P x y r.1.toNat, r.2)

/-- `FPProc::LineIntegral(0, z)`, the entry `z[0]`: the flux through the
contour. `kc` is the cached index of `InTriangle` and `uA` the value of `u.A`
in a freshly constructed `CMPointVals`. The average `z[1]` is not part of the
model. -/
def LineIntegral0 (P : FPProc) (kc : Int) (uA : CComplex) : CComplex :=
  let k := P.contour.length
  let g0 := GetPointValues P kc (P.contour.getD 0 0).re (P.contour.getD 0 0).im uA
  let a0 := g0.2.1
  let g1 := GetPointValues P g0.2.2 (P.contour.getD (k - 1) 0).re (P.contour.getD (k - 1) 0).im a0
  let a1 := g1.2.1
  if P.problemType = .PLANAR then (a0 - a1) * P.Depth
  else a1 - a0

/-- The squared magnitude `|B1|² + |B2|²` of a flux density. -/
def magSq (B1 B2 : CComplex) : ℚ :=
  B1.re * B1.re + B1.im * B1.im + (B2.re * B2.re + B2.im * B2.im)

/-! ## Example meshes -/

/-- A node at `(x, y)` with potential `a`. -/
def mkNode (x y a : ℚ) : CMMeshNode := ⟨x, y, ⟨a, 0⟩⟩

/-- An element on the nodes `a, b, c` with block label `0`, as read from the
file: every derived field is still zero. -/
def mkElem (a b c : Nat) : CPostProcMElement :=
  { p0 := a, p1 := b, p2 := c, lbl := 0, ctr := 0, rsqr := 0, B1 := 0, B2 := 0,
    b1 := fun _ => 0, b2 := fun _ => 0 }

/-- A planar problem in metres with unit depth at zero frequency, one selected
block label, on the given nodes and elements. -/
def mkProblem (nodes : List CMMeshNode) (elems : List CPostProcMElement) : FPProc :=
  { meshnode := nodes
    meshelem := elems
    blocklist := [{ IsSelected := true }]
    problemType := .PLANAR
    LengthUnits := 3
    Depth := 1
    Frequency := 0
    Smooth := false
    contour := []
    NumList := []
    ConList := [] }

/-- The unit square meshed as two counter-clockwise triangles, with `A = y` at
the corners. -/
def squareMesh : FPProc :=
  mkProblem [mkNode 0 0 0, mkNode 1 0 0, mkNode 1 1 1, mkNode 0 1 1] [mkElem 0 1 2, mkElem 0 2 3]

/-- The single triangle `(0,0), (1,0), (0,1)` with potentials `A = (0, 1, 0)`. -/
def triangleMesh : FPProc :=
  mkProblem [mkNode 0 0 0, mkNode 1 0 1, mkNode 0 1 0] [mkElem 0 1 2]

/-- A mesh whose elements `0` and `1` are the same counter-clockwise triangle
and whose element `2` is a clockwise triangle away from them. -/
def overlapMesh : FPProc :=
  mkProblem [mkNode 0 0 0, mkNode 3 0 0, mkNode 0 3 0, mkNode 6 6 0, mkNode 6 9 0, mkNode 9 6 0]
    [mkElem 0 1 2, mkElem 0 1 2, mkElem 3 4 5]

/-- The unit square with centroids and radii computed, a contour and a problem
type. -/
def squareFlux (c : List CComplex) (t : ProblemType) : FPProc :=
  { OpenDocument_centroids squareMesh with contour := c, problemType := t }

/-- The element of `triangleMesh` with smoothed nodal flux densities
`b1 = (1, 2, 3)` and `b2 = (4, 5, 6)`, in a state with smoothing on. -/
def smoothElem : CPostProcMElement :=
  { mkElem 0 1 2 with
    b1 := fun i => ⟨[1, 2, 3].getD i 0, 0⟩
    b2 := fun i => ⟨[4, 5, 6].getD i 0, 0⟩ }

/-- The state `triangleMesh` with smoothing on. -/
def smoothMesh : FPProc := { triangleMesh with Smooth := true }

/-! ## Exact arithmetic over a field

The contour bending and the air-gap harmonics call `sin`, `cos`, `exp`, `sqrt`,
`ceil` and `round`. Their model is written over an arbitrary ordered field `K`
with the constants and functions of the mathematical library passed in: it runs
over `ℚ` with any stand-in for them, and it is reasoned about over `ℝ` with the
real functions. -/

/-- Modelled from the spec: the complex value type `CComplex` of libfemm (its
declaration is not among the sources) over the field `K`. -/
@[ext]
structure Cx (K : Type) where
  re : K
  im : K
deriving DecidableEq

namespace Cx

variable {K : Type} [Field K]

instance : Zero (Cx K) := ⟨⟨0, 0⟩⟩

instance : Add (Cx K) := ⟨fun a b => ⟨a.re + b.re, a.im + b.im⟩⟩

instance : Sub (Cx K) := ⟨fun a b => ⟨a.re - b.re, a.im - b.im⟩⟩

instance : Neg (Cx K) := ⟨fun a => ⟨-a.re, -a.im⟩⟩

/-- Product of two complex numbers. -/
instance : Mul (Cx K) := ⟨fun a b => ⟨a.re * b.re - a.im * b.im, a.re * b.im + a.im * b.re⟩⟩

/-- Product of a complex number and a `double`: `z * r`. -/
instance : HMul (Cx K) K (Cx K) := ⟨fun a r => ⟨a.re * r, a.im * r⟩⟩

/-- Product of a `double` and a complex number: `r * z`. -/
instance : HMul K (Cx K) (Cx K) := ⟨fun r a => ⟨r * a.re, r * a.im⟩⟩

/-- Quotient of a complex number by a `double`: `z / r`. -/
instance : HDiv (Cx K) K (Cx K) := ⟨fun a r => ⟨a.re / r, a.im / r⟩⟩

/-- The imaginary unit `I`. -/
def I : Cx K := ⟨0, 1⟩

/-- The complex conjugate `conj(z)`. -/
def conj (a : Cx K) : Cx K := ⟨a.re, -a.im⟩

end Cx

/-- Modelled from the spec: the constants `PI` and `muo` and the functions
`sin`, `cos`, `exp`, `sqrt` of the mathematical library, none of which is
declared among the sources. -/
structure MathEnv (K : Type) where
  PI : K
  muo : K
  sin : K → K
  cos : K → K
  exp : K → K
  sqrt : K → K

/-- Modelled from the spec: `exp(z)` for a complex `z`. -/
def cexp {K : Type} [Field K] (E : MathEnv K) (z : Cx K) : Cx K :=
  ⟨E.exp z.re * E.cos z.im, E.exp z.re * E.sin z.im⟩

/-- Modelled from the spec: `abs(z)` for a complex `z`. -/
def cabs {K : Type} [Field K] (E : MathEnv K) (z : Cx K) : K :=
  E.sqrt (z.re * z.re + z.im * z.im)

/-- Modelled from the spec: `round(x)` of the C library, the nearest integer
with halves rounded away from zero. -/
def cround {K : Type} [LinearOrderedField K] [FloorRing K] (x : K) : Int :=
  if 0 ≤ x then ⌊x + 1 / 2⌋ else ⌈x - 1 / 2⌉

/-! ## Contour bending -/

/-- The arc centre `c` computed in `BendContour` from the last two contour
points `a0`, `a1` and the angle `tta` in radians. -/
def bendCentre {K : Type} [LinearOrderedField K] (E : MathEnv K) (a0 a1 : Cx K) (tta : K) : Cx K :=
  let d := cabs E (a1 - a0)
  let R := d / (2 * E.sin |tta / 2|)
  if tta > 0 then a0 + ((R / d) * (a1 - a0)) * cexp E (((Cx.I : Cx K) * (E.PI - tta)) / (2 : K))
  else a0 + ((R / d) * (a1 - a0)) * cexp E (((-(Cx.I : Cx K)) * (E.PI + tta)) / (2 : K))

/-- `FPProc::BendContour(angle, anglestep)` on the contour: the contour it
leaves. -/
def BendContour {K : Type} [LinearOrderedField K] [FloorRing K] (E : MathEnv K)
    (angle anglestep : K) (contour : List (Cx K)) : List (Cx K) :=
  if angle = 0 then contour
  else
    let anglestep := if anglestep = 0 then 1 else anglestep
    let k : Int := (contour.length : Int) - 1
    if k < 1 then contour
    else if angle < -180 ∨ angle > 180 then contour
    else
      let n : Int := ⌈|angle / anglestep|⌉
      let tta := angle * E.PI / 180
      let dtta := tta / (n : K)
      let a1 := contour.getD k.toNat 0
      let contour := contour.eraseIdx k.toNat
      let a0 := contour.getD (k - 1).toNat 0
      let c := bendCentre E a0 a1 tta
      (List.range n.toNat).foldl
        (fun ct i => ct ++ [c + (a0 - c) * cexp E ((((i + 1 : Nat) : K) * (Cx.I : Cx K)) * dtta)]) contour

/-- A stand-in for the mathematical library over `ℚ`, for running the model:
`PI = 3`, `muo = 1`, `sin = 0`, `cos = exp = 1`, `sqrt = id`. -/
def stubEnv : MathEnv ℚ := ⟨3, 1, fun _ => 0, fun _ => 1, fun _ => 1, fun x => x⟩

/-- The mathematical library over the reals: `PI` is `π` and `sin`, `cos`,
`exp`, `sqrt` are the real functions. -/
def MathEnv.IsReal (E : MathEnv ℝ) : Prop :=
  E.PI = Real.pi ∧ E.sin = Real.sin ∧ E.cos = Real.cos ∧ E.exp = Real.exp ∧ E.sqrt = Real.sqrt

/-! ## Air-gap elements -/

/-- Sum of a complex number and a `double`: `z + r`. -/
instance {K : Type} [Field K] : HAdd (Cx K) K (Cx K) := ⟨fun a r => ⟨a.re + r, a.im⟩⟩

/-- An air-gap element (`CAirGapElement`): name, boundary format (`0` periodic,
otherwise antiperiodic), the number of pads `totalArcElements` (the loader keeps
only elements with a positive number), arc span in degrees, inner and outer
radius, the per-pad flux densities `br`, `bt`, and what the loader derives from
them: the number of harmonics `nn`, their orders `nh` and the coefficients
`brc`, `brs`, `btc`, `bts`; `aco` and the previous-solution coefficients. -/
structure CAirGapElement (K : Type) where
  BdryName : String
  BdryFormat : Int
  totalArcElements : Nat
  totalArcLength : K
  ri : K
  ro : K
  br : List (Cx K)
  bt : List (Cx K)
  nn : Nat
  nh : List Int
  brc : List (Cx K)
  brs : List (Cx K)
  btc : List (Cx K)
  bts : List (Cx K)
  aco : Cx K
  brcPrev : List K
  brsPrev : List K
  btcPrev : List K
  btsPrev : List K

/-- An air-gap element as read from the file, before the loader derives the
harmonics. -/
def mkAGE {K : Type} [Field K] (name : String) (format : Int) (N : Nat) (arc ri ro : K)
    (br bt : List (Cx K)) : CAirGapElement K :=
  { BdryName := name, BdryFormat := format, totalArcElements := N, totalArcLength := arc,
    ri := ri, ro := ro, br := br, bt := bt, nn := 0, nh := [], brc := [], brs := [], btc := [],
    bts := [], aco := 0, brcPrev := [], brsPrev := [], btcPrev := [], btsPrev := [] }

/-- The members of `FPProc` that the air-gap queries read. -/
structure FPProcGap (K : Type) where
  agelist : List (CAirGapElement K)
  Depth : K
  Frequency : K

/-- The element `agelist[i]`. -/
def FPProcGap.age {K : Type} [Field K] (S : FPProcGap K) (i : Nat) : CAirGapElement K :=
  S.agelist.getD i (mkAGE "" 0 0 0 0 0 [] [])

/-- The error codes of the air-gap queries. -/
inductive FPProcError where
  | NoError
  | AGENameNotFound
  | AGENoHarmonics
  | AGENegativeHarmonicRequested
  | AGERequestedHarmonicTooLarge
deriving DecidableEq

/-- The base harmonic order `m` the loader chooses for an air-gap element. -/
def ageBaseOrder {K : Type} [LinearOrderedField K] [FloorRing K] (age : CAirGapElement K) :
    Int :=
  if age.BdryFormat = 0 then cround (360 / age.totalArcLength)
  else cround (180 / age.totalArcLength)

/-- The number of harmonics `nn` the loader chooses for an air-gap element. -/
def ageCount {K : Type} (age : CAirGapElement K) : Nat :=
  if age.BdryFormat = 0 then age.totalArcElements / 2 + 1
  else (age.totalArcElements + 1) / 2

/-- The harmonic order `nh[j]` the loader assigns. -/
def ageOrder {K : Type} [LinearOrderedField K] [FloorRing K] (age : CAirGapElement K)
    (j : Nat) : Int :=
  if age.BdryFormat = 0 then ageBaseOrder age * j else ageBaseOrder age * (2 * j + 1)

/-- The pad angle step `dt` in radians. -/
def ageStep {K : Type} [Field K] (E : MathEnv K) (age : CAirGapElement K) : K :=
  (E.PI / 180) * age.totalArcLength / (age.totalArcElements : K)

/-- The inner loop of "Convolve with sines and cosines" in `OpenDocument`: the
sums of `b[k]·f(tta)` over the pads, with `tta = (k + 0.5)·dt·n`. -/
def ageProject {K : Type} [Field K] (f : K → K) (dt n : K) (N : Nat) (b : List (Cx K)) :
    Cx K :=
  (List.range N).foldl (fun acc k => acc + b.getD k 0 * f ((((k : K) + 1 / 2) * dt) * n)) 0

/-- The divisor applied to the sums of harmonic `j`: the number of pads for the
order `0` and for the last harmonic of a periodic element with an even number
of pads, half the number of pads otherwise. -/
def ageDivisor {K : Type} [LinearOrderedField K] [FloorRing K] (age : CAirGapElement K)
    (j : Nat) : K :=
  if ageOrder age j = 0 ∨
      (((j : Int) = (ageCount age : Int) - 1 ∧ age.BdryFormat = 0) ∧
        age.totalArcElements % 2 = 0) then
    (age.totalArcElements : K)
  else (age.totalArcElements : K) / 2

/-- The part of `OpenDocument` that figures out the amplitudes of the harmonics
of one air-gap element from its per-pad flux densities: `nn`, and for every
`j < nn` the order `nh[j]` and the coefficients `brc[j]`, `brs[j]`, `btc[j]`,
`bts[j]`. -/
def OpenDocument_harmonics {K : Type} [LinearOrderedField K] [FloorRing K] (E : MathEnv K)
    (age : CAirGapElement K) : CAirGapElement K :=
  let dt := ageStep E age
  let N := age.totalArcElements
  let nn := ageCount age
  { age with
    nn := nn
    nh := (List.range nn).map (ageOrder age)
    brc := (List.range nn).map
      (fun j => ageProject E.cos dt (ageOrder age j : K) N age.br / ageDivisor age j)
    brs := (List.range nn).map
      (fun j => ageProject E.sin dt (ageOrder age j : K) N age.br / ageDivisor age j)
    btc := (List.range nn).map
      (fun j => ageProject E.cos dt (ageOrder age j : K) N age.bt / ageDivisor age j)
    bts := (List.range nn).map
      (fun j => ageProject E.sin dt (ageOrder age j : K) N age.bt / ageDivisor age j) }

/-- The loop of `AGEBoundNumFromName`: the index of the first air-gap element
with the given name at or after position `k`, or `-1`. -/
def ageScan {K : Type} (name : String) : List (CAirGapElement K) → Nat → Int
  | [], _ => -1
  | a :: rest, k => if a.BdryName = name then (k : Int) else ageScan name rest (k + 1)

/-- `FPProc::AGEBoundNumFromName(myBdryName, n)`: the returned flag and `n`. -/
def AGEBoundNumFromName {K : Type} (S : FPProcGap K) (name : String) : Bool × Int :=
  let n := ageScan name S.agelist 0
  if n < 0 then (false, n) else (true, n)

/-- `FPProc::gapDCTorqueIntegral(myBdryName, tq)`: the error code and `tq`. -/
def gapDCTorqueIntegral {K : Type} [LinearOrderedField K] (E : MathEnv K) (S : FPProcGap K)
    (name : String) (tq : K) : FPProcError × K :=
  let f := AGEBoundNumFromName S name
  if f.1 = false then (.AGENameNotFound, tq)
  else
    let age := S.age f.2.toNat
    let R := (age.ri + age.ro) / 2
    let tq := (List.range age.nn).foldl
      (fun tq k => tq + (age.brc.getD k 0 * (age.btc.getD k 0).conj +
        age.brs.getD k 0 * (age.bts.getD k 0).conj).re) 0
    let tq := tq * ((E.PI * R * R * S.Depth) / E.muo)
    (.NoError, if S.Frequency ≠ 0 then tq / 2 else tq)

/-- `FPProc::gap2XTorqueIntegral(myBdryName, tq)`. -/
def gap2XTorqueIntegral {K : Type} [LinearOrderedField K] (E : MathEnv K) (S : FPProcGap K)
    (name : String) (tq : Cx K) : FPProcError × Cx K :=
  let f := AGEBoundNumFromName S name
  if f.1 = false then (.AGENameNotFound, tq)
  else
    let age := S.age f.2.toNat
    let R := (age.ri + age.ro) / 2
    if S.Frequency ≠ 0 then
      let tq := (List.range age.nn).foldl
        (fun tq k => tq + (age.brc.getD k 0 * age.btc.getD k 0 +
          age.brs.getD k 0 * age.bts.getD k 0)) 0
      (.NoError, tq * ((E.PI * R * R * S.Depth) / (2 * E.muo)))
    else (.NoError, 0)

/-- `FPProc::gapDCForceIntegral(myBdryName, fx, fy)`. -/
def gapDCForceIntegral {K : Type} [LinearOrderedField K] [FloorRing K] (E : MathEnv K)
    (S : FPProcGap K) (name : String) (fx fy : Cx K) : FPProcError × Cx K × Cx K :=
  let f := AGEBoundNumFromName S name
  if f.1 = false then (.AGENameNotFound, fx, fy)
  else
    let age := S.age f.2.toNat
    let R := (age.ri + age.ro) / 2
    let brc := fun k => age.brc.getD k 0
    let brs := fun k => age.brs.getD k 0
    let btc := fun k => age.btc.getD k 0
    let bts := fun k => age.bts.getD k 0
    if cround age.totalArcLength = 360 then
      let F := (List.range (age.nn - 1)).foldl
        (fun (F : Cx K × Cx K) i =>
          let k := i + 1
          let dfx := (brs k + btc k) * (brs (k - 1) - btc (k - 1)).conj +
            (brs (k - 1) - btc (k - 1)) * (brs k + btc k).conj +
            (brc k - bts k) * (brc (k - 1) + bts (k - 1)).conj +
            (brc (k - 1) + bts (k - 1)) * (brc k - bts k).conj
          let dfy := (-brc k + bts k) * (brs (k - 1) - btc (k - 1)).conj +
            (brc (k - 1) + bts (k - 1)) * (brs k + btc k).conj +
            (brs k + btc k) * (brc (k - 1) + bts (k - 1)).conj +
            (-brs (k - 1) + btc (k - 1)) * (brc k - bts k).conj
          (F.1 + dfx.re, F.2 + dfy.re)) (0, 0)
      let fx := F.1 * (S.Depth * E.PI * R / (4 * E.muo))
      let fy := F.2 * (S.Depth * E.PI * R / (4 * E.muo))
      if S.Frequency ≠ 0 then (.NoError, fx / (2 : K), fy / (2 : K)) else (.NoError, fx, fy)
    else (.NoError, 0, 0)

/-- `FPProc::gap2XForceIntegral(myBdryName, fx, fy)`. -/
def gap2XForceIntegral {K : Type} [LinearOrderedField K] [FloorRing K] (E : MathEnv K)
    (S : FPProcGap K) (name : String) (fx fy : Cx K) : FPProcError × Cx K × Cx K :=
  let f := AGEBoundNumFromName S name
  if f.1 = false then (.AGENameNotFound, fx, fy)
  else
    let age := S.age f.2.toNat
    let R := (age.ri + age.ro) / 2
    let brc := fun k => age.brc.getD k 0
    let brs := fun k => age.brs.getD k 0
    let btc := fun k => age.btc.getD k 0
    let bts := fun k => age.bts.getD k 0
    if cround age.totalArcLength = 360 ∧ S.Frequency ≠ 0 then
      let F := (List.range (age.nn - 1)).foldl
        (fun (F : Cx K × Cx K) i =>
          let k := i + 1
          let dfx := (brs (k - 1) - btc (k - 1)) * (brs k + btc k) +
            (brc (k - 1) + bts (k - 1)) * (brc k - bts k)
          let dfy := (brs k + btc k) * (brc (k - 1) + bts (k - 1)) -
            (brs (k - 1) - btc (k - 1)) * (brc k - bts k)
          (F.1 + dfx, F.2 + dfy)) (0, 0)
      (.NoError, F.1 * (S.Depth * E.PI * R / (4 * E.muo)),
        F.2 * (S.Depth * E.PI * R / (4 * E.muo)))
    else (.NoError, 0, 0)

/-- `FPProc::gapIncrementalTorqueIntegral(myBdryName, tq)`. -/
def gapIncrementalTorqueIntegral {K : Type} [LinearOrderedField K] (E : MathEnv K)
    (S : FPProcGap K) (name : String) (tq : Cx K) : FPProcError × Cx K :=
  let f := AGEBoundNumFromName S name
  if f.1 = false then (.AGENameNotFound, tq)
  else
    let age := S.age f.2.toNat
    let R := (age.ri + age.ro) / 2
    let tq := (List.range age.nn).foldl
      (fun (tq : Cx K) k => tq + (age.btcPrev.getD k 0 * age.brc.getD k 0 +
        age.brcPrev.getD k 0 * age.btc.getD k 0 +
        age.btsPrev.getD k 0 * age.brs.getD k 0 +
        age.brsPrev.getD k 0 * age.bts.getD k 0)) 0
    (.NoError, tq * ((E.PI * R * R * S.Depth) / E.muo))

/-- `FPProc::gapIncrementalForceIntegral(myBdryName, fx, fy)`. -/
def gapIncrementalForceIntegral {K : Type} [LinearOrderedField K] [FloorRing K]
    (E : MathEnv K) (S : FPProcGap K) (name : String) (fx fy : Cx K) :
    FPProcError × Cx K × Cx K :=
  let f := AGEBoundNumFromName S name
  if f.1 = false then (.AGENameNotFound, fx, fy)
  else
    let age := S.age f.2.toNat
    let R := (age.ri + age.ro) / 2
    let brc := fun k => age.brc.getD k 0
    let brs := fun k => age.brs.getD k 0
    let btc := fun k => age.btc.getD k 0
    let bts := fun k => age.bts.getD k 0
    let brcPrev := fun k => age.brcPrev.getD k 0
    let brsPrev := fun k => age.brsPrev.getD k 0
    let btcPrev := fun k => age.btcPrev.getD k 0
    let btsPrev := fun k => age.btsPrev.getD k 0
    if cround age.totalArcLength = 360 ∧ S.Frequency ≠ 0 then
      let F := (List.range (age.nn - 1)).foldl
        (fun (F : Cx K × Cx K) i =>
          let k := i + 1
          let dfx := (brs k + btc k) * (brsPrev (k - 1) - btcPrev (k - 1)) +
            (brs (k - 1) - btc (k - 1)) * (brsPrev k + btcPrev k) +
            (brc k - bts k) * (brcPrev (k - 1) + btsPrev (k - 1)) +
            (brc (k - 1) + bts (k - 1)) * (brcPrev k - btsPrev k)
          let dfy := (brsPrev k + btcPrev k) * (brc (k - 1) + bts (k - 1)) -
            (brsPrev (k - 1) - btcPrev (k - 1)) * (brc k - bts k) +
            (brs k + btc k) * (brcPrev (k - 1) + btsPrev (k - 1)) -
            (brs (k - 1) - btc (k - 1)) * (brcPrev k - btsPrev k)
          (F.1 + dfx, F.2 + dfy)) (0, 0)
      (.NoError, F.1 * (S.Depth * E.PI * R / (2 * E.muo)),
        F.2 * (S.Depth * E.PI * R / (2 * E.muo)))
    else (.NoError, 0, 0)

/-- The sum accumulated in `W` by the loop of
`gapTimeAvgStoredEnergyIntegral`. -/
def gapEnergySum {K : Type} [LinearOrderedField K] (age : CAirGapElement K) (dr : K) : Cx K :=
  (List.range age.nn).foldl
    (fun (W : Cx K) k =>
      if age.nh.getD k 0 ≠ 0 then
        W + (age.brs.getD k 0 * age.brs.getD k 0 + age.brc.getD k 0 * age.brc.getD k 0 +
          age.bts.getD k 0 * age.bts.getD k 0 + age.btc.getD k 0 * age.btc.getD k 0) * dr
      else W + ((2 * dr) * age.btc.getD k 0) * age.btc.getD k 0) 0

/-- `FPProc::gapTimeAvgStoredEnergyIntegral(myBdryName, W)`. -/
def gapTimeAvgStoredEnergyIntegral {K : Type} [LinearOrderedField K] (E : MathEnv K)
    (S : FPProcGap K) (name : String) (W : Cx K) : FPProcError × Cx K :=
  let f := AGEBoundNumFromName S name
  if f.1 = false then (.AGENameNotFound, W)
  else
    let age := S.age f.2.toNat
    let R := (age.ri + age.ro) / 2
    let Ri := age.ri / R
    let Ro := age.ro / R
    let dr := R * (Ro - Ri)
    let W := gapEnergySum age dr
    let W : Cx K := ⟨W.re * (E.PI * R * S.Depth) / (2 * E.muo), 0⟩
    (.NoError, if S.Frequency ≠ 0 then W / (2 : K) else W)

/-- `FPProc::getAGEflux(myBdryName, angle, br, bt)`. -/
def getAGEflux {K : Type} [LinearOrderedField K] (E : MathEnv K) (S : FPProcGap K)
    (name : String) (angle : K) (br bt : Cx K) : FPProcError × Cx K × Cx K :=
  let f := AGEBoundNumFromName S name
  if f.1 = false then (.AGENameNotFound, br, bt)
  else
    if f.2 ≥ 0 then
      let age := S.age f.2.toNat
      let tta := angle * E.PI / 180
      let B := (List.range age.nn).foldl
        (fun (B : Cx K × Cx K) k =>
          let n : K := (age.nh.getD k 0 : Int)
          (B.1 + (age.brc.getD k 0 * E.cos (n * tta) + age.brs.getD k 0 * E.sin (n * tta)),
            B.2 + (age.btc.getD k 0 * E.cos (n * tta) + age.bts.getD k 0 * E.sin (n * tta))))
        (0, 0)
      (.NoError, B.1, B.2)
    else (.NoError, 0, 0)

/-- `FPProc::getGapA(myBdryName, tta, ac)`. -/
def getGapA {K : Type} [LinearOrderedField K] (E : MathEnv K) (S : FPProcGap K)
    (name : String) (tta : K) (ac : Cx K) : FPProcError × Cx K :=
  let f := AGEBoundNumFromName S name
  if f.1 = false then (.AGENameNotFound, ac)
  else
    if f.2 ≥ 0 then
      let age := S.age f.2.toNat
      let R := (age.ri + age.ro) / 2
      let tta := tta * E.PI / 180
      let ac := (List.range age.nn).foldl
        (fun (ac : Cx K) k =>
          let n : K := (age.nh.getD k 0 : Int)
          if n = 0 then ac + age.aco
          else ac + (R / n) * ((-age.brs.getD k 0) * E.cos (n * tta) +
            age.brc.getD k 0 * E.sin (n * tta))) 0
      (.NoError, ac)
    else (.NoError, ac)

/-- `FPProc::numGapHarmonics(myBdryName, nh)`. -/
def numGapHarmonics {K : Type} [Field K] (S : FPProcGap K) (name : String) (nh : Int) :
    FPProcError × Int :=
  let f := AGEBoundNumFromName S name
  if f.1 = false then (.AGENameNotFound, nh)
  else
    let age := S.age f.2.toNat
    if age.nn = 0 then (.NoError, 0) else (.NoError, age.nh.getD (age.nn - 1) 0)

/-- The loop of `getGapHarmonics` that looks for the harmonic of order `n`:
the value `k` is left with, starting from `k`. `fuel` bounds the number of
passes. -/
def harmonicScan (nh : List Int) (nn : Nat) (n : Int) : Nat → Nat → Nat
  | 0, k => k
  | fuel + 1, k => if k < nn then (if nh.getD k 0 = n then k else harmonicScan nh nn n fuel (k + 1))
    else k

/-- The output arguments of `getGapHarmonics`. -/
structure GapHarmonics (K : Type) where
  acc : Cx K
  acs : Cx K
  brc : Cx K
  brs : Cx K
  btc : Cx K
  bts : Cx K

/-- `FPProc::getGapHarmonics(myBdryName, n, acc, acs, brc, brs, btc, bts)`. -/
def getGapHarmonics {K : Type} [LinearOrderedField K] (S : FPProcGap K) (name : String)
    (n : Int) (out : GapHarmonics K) : FPProcError × GapHarmonics K :=
  let f := AGEBoundNumFromName S name
  if f.1 = false then (.AGENameNotFound, out)
  else
    let age := S.age f.2.toNat
    if age.nn = 0 then (.AGENoHarmonics, out)
    else if n < 0 then (.AGENegativeHarmonicRequested, out)
    else if n > (age.nn : Int) then (.AGERequestedHarmonicTooLarge, out)
    else
      let k := harmonicScan age.nh age.nn n age.nn 0
      if k < age.nn then
        if n = 0 then (.NoError, { out with acc := age.aco, acs := 0 })
        else
          let R := (age.ri + age.ro) / 2
          (.NoError,
            { acc := (-(R / (n : K))) * age.brs.getD k 0
              acs := (R / (n : K)) * age.brc.getD k 0
              brc := age.brc.getD k 0
              brs := age.brs.getD k 0
              btc := age.btc.getD k 0
              bts := age.bts.getD k 0 })
      else (.NoError, out)

/-- An antiperiodic air-gap element of 18 pads over 180 degrees between the
radii 1 and 2, with zero flux density in every pad. -/
def age18 : CAirGapElement ℚ :=
  mkAGE "gap" 1 18 180 1 2 (List.replicate 18 0) (List.replicate 18 0)

/-- The first air-gap element with the given name. -/
def firstAGE {K : Type} [Field K] (S : FPProcGap K) (name : String) : CAirGapElement K :=
  S.age (AGEBoundNumFromName S name).2.toNat

/-- The squared modulus `|z|²` of a complex number. -/
def Cx.normSq {K : Type} [Field K] (z : Cx K) : K := z.re * z.re + z.im * z.im

/-- The stored energy as the specification words it: `(π·R·Depth/(2·μ0))·dr`
times the sum over all harmonics of `|brc|² + |brs|² + |btc|² + |bts|²`, with
`R = (ri+ro)/2` and `dr = ro - ri`. -/
def gapEnergyClaimed {K : Type} [Field K] (E : MathEnv K) (S : FPProcGap K)
    (age : CAirGapElement K) : K :=
  (E.PI * ((age.ri + age.ro) / 2) * S.Depth / (2 * E.muo)) * (age.ro - age.ri) *
    ((List.range age.nn).map
      (fun k => (age.brc.getD k 0).normSq + (age.brs.getD k 0).normSq +
        (age.btc.getD k 0).normSq + (age.bts.getD k 0).normSq)).sum

/-- The term of harmonic `k` in the stored energy as the code sums it, for real
coefficients: all four squares for a harmonic of non-zero order, twice the
square of `btc` for the order `0`. -/
def gapEnergyTerm {K : Type} [LinearOrderedField K] (age : CAirGapElement K) (k : Nat) : K :=
  if age.nh.getD k 0 ≠ 0 then
    (age.brc.getD k 0).normSq + (age.brs.getD k 0).normSq +
      (age.btc.getD k 0).normSq + (age.bts.getD k 0).normSq
  else 2 * (age.btc.getD k 0).normSq

/-- A periodic air-gap element of 36 pads over 360 degrees between the radii 1
and 2, with `B_r = 1` and `B_t = 0` in every pad. -/
def age36 : CAirGapElement ℚ :=
  mkAGE "gap" 0 36 360 1 2 (List.replicate 36 ⟨1, 0⟩) (List.replicate 36 0)

/-- The state holding the loaded `age36`, unit depth, zero frequency. -/
def gapState36 : FPProcGap ℚ := ⟨[OpenDocument_harmonics stubEnv age36], 1, 0⟩

/-- A periodic air-gap element of one pad over 360 degrees between the radii 1
and 2, with `B_r = 1` and `B_t = 0`. -/
def age1 : CAirGapElement ℚ := mkAGE "gap" 0 1 360 1 2 [⟨1, 0⟩] [0]

/-- The state holding the loaded `age1`, unit depth, zero frequency. Its only
harmonic has order `0`, where the stand-ins `cos = 1`, `sin = 0` of `stubEnv`
are the values of the real functions. -/
def gapState1 : FPProcGap ℚ := ⟨[OpenDocument_harmonics stubEnv age1], 1, 0⟩

/-- The state in which the first air-gap element with the given name is the
only air-gap element. -/
def onlyFirstAGE {K : Type} [Field K] (S : FPProcGap K) (name : String) : FPProcGap K :=
  ⟨[firstAGE S name], S.Depth, S.Frequency⟩

/-! ## Circuits -/

/-- The block label `blocklist[l]`. -/
def FPProc.label (P : FPProc) (l : Nat) : CMBlockLabel :=
  P.blocklist.getD l { IsSelected := false }

/-- The material `blockproplist[b]`. -/
def FPProc.blockprop (P : FPProc) (b : Nat) : CMMaterialProp :=
  P.blockproplist.getD b {}

/-- The circuit `circproplist[c]`. -/
def FPProc.circ (P : FPProc) (c : Nat) : CMCircuit :=
  P.circproplist.getD c {}

/-- The conductivity `c` of `FPProc::GetJA` for element `k`: the material's
`Cduct`, zeroed for laminations of type `0` and for stranded regions. -/
def eddyCduct (P : FPProc) (k : Nat) : ℚ :=
  let m := P.blockprop (P.elem k).blk
  let c := if m.Lam_d ≠ 0 ∧ m.LamType = 0 then 0 else m.Cduct
  if (P.label (P.elem k).lbl).FillFactor > 0 then 0 else c

/-- The potentials `A[i]` that `FPProc::GetJA(k, J, A)` writes: the nodal
potential in planar problems, `A/(2π r)` (zero on the axis) in axisymmetric
ones. -/
def GetJA_A (PI : ℚ) (P : FPProc) (k i : Nat) : CComplex :=
  let nd := P.node ((P.elem k).p i)
  if P.problemType = .PLANAR then nd.A
  else
    let rn := nd.x * LengthConv P.LengthUnits
    if |rn / LengthConv P.LengthUnits| < 1 / 1000000 then 0
    else nd.A / (2 * PI * rn)

/-- The eddy-current term `I*Frequency*2.*PI*c*A[i]` of `FPProc::GetJA`. -/
def eddyTerm (PI : ℚ) (P : FPProc) (k i : Nat) : CComplex :=
  ((((CComplex.I * P.Frequency) * (2 : ℚ)) * PI) * eddyCduct P k) * GetJA_A PI P k i

/-- The current densities `J[i]` that `FPProc::GetJA(k, J, A)` writes, in
A/m². -/
def GetJA_J (PI : ℚ) (P : FPProc) (k i : Nat) : CComplex :=
  let e := P.elem k
  let lab := P.label e.lbl
  let r := if P.problemType = .AXISYMMETRIC then (Ctr P k).re * LengthConv P.LengthUnits else 0
  let c := eddyCduct P k
  let J := (P.blockprop e.blk).J
  let J := if P.Frequency ≠ 0 then J - eddyTerm PI P k i else J
  let J :=
    if lab.InCircuit ≥ 0 then
      if lab.Case = 0 then
        if P.problemType = .PLANAR then J - c * lab.dVolts
        else
          let rn := (P.node (e.p i)).x
          if |rn / LengthConv P.LengthUnits| < 1 / 1000000 then J - (c * lab.dVolts) / r
          else J - (c * lab.dVolts) / (rn * LengthConv P.LengthUnits)
      else J + lab.J
    else J
  J * (1000000 : ℚ)

/-- The return value of `FPProc::GetJA(k, J, A)`: the average current density
of element `k` in A/m². -/
def GetJA (PI : ℚ) (P : FPProc) (k : Nat) : CComplex :=
  let e := P.elem k
  let lab := P.label e.lbl
  let r := if P.problemType = .AXISYMMETRIC then (Ctr P k).re * LengthConv P.LengthUnits else 0
  let c := eddyCduct P k
  let Javg := (P.blockprop e.blk).J
  let Javg :=
    if P.Frequency ≠ 0 then [0, 1, 2].foldl (fun s i => s - eddyTerm PI P k i / (3 : ℚ)) Javg
    else Javg
  let Javg :=
    if lab.InCircuit ≥ 0 then
      if lab.Case = 0 then
        if P.problemType = .PLANAR then Javg - c * lab.dVolts
        else Javg - (c * lab.dVolts) / r
      else Javg + lab.J
    else Javg
  Javg * (1000000 : ℚ)

/-- `FPProc::PlnInt(a, u, v)`: the integral of `u·v` over a planar element of
area `a`, `u` and `v` given by their nodal values. -/
def PlnInt (a : ℚ) (u v : Nat → CComplex) : CComplex :=
  let z : Nat → CComplex := fun i =>
    match i with
    | 0 => (2 : ℚ) * u 0 + u 1 + u 2
    | 1 => u 0 + (2 : ℚ) * u 1 + u 2
    | _ => u 0 + u 1 + (2 : ℚ) * u 2
  let x := [0, 1, 2].foldl (fun x i => x + v i * z i) 0
  (a * x) / (12 : ℚ)

/-- `FPProc::AxiInt(a, u, v, r)`: the integral of `u·v` over the volume swept
by an axisymmetric element of area `a` with nodal radii `r`. -/
def AxiInt (PI a : ℚ) (u v : Nat → CComplex) (r : Nat → ℚ) : CComplex :=
  let M : Nat → Nat → CComplex := fun i j =>
    match i, j with
    | 0, 0 => ⟨6 * r 0 + 2 * r 1 + 2 * r 2, 0⟩
    | 0, 1 => ⟨2 * r 0 + 2 * r 1 + 1 * r 2, 0⟩
    | 0, _ => ⟨2 * r 0 + 1 * r 1 + 2 * r 2, 0⟩
    | 1, 0 => ⟨2 * r 0 + 2 * r 1 + 1 * r 2, 0⟩
    | 1, 1 => ⟨2 * r 0 + 6 * r 1 + 2 * r 2, 0⟩
    | 1, _ => ⟨1 * r 0 + 2 * r 1 + 2 * r 2, 0⟩
    | _, 0 => ⟨2 * r 0 + 1 * r 1 + 2 * r 2, 0⟩
    | _, 1 => ⟨1 * r 0 + 2 * r 1 + 2 * r 2, 0⟩
    | _, _ => ⟨2 * r 0 + 2 * r 1 + 6 * r 2, 0⟩
  let z : Nat → CComplex := fun i => M i 0 * u 0 + M i 1 * u 1 + M i 2 * u 2
  let x := [0, 1, 2].foldl (fun x i => x + v i * z i) 0
  ((PI * a) * x) / (30 : ℚ)

/-- The element area in m², `ElmArea(i)*LengthConv*LengthConv`. -/
def elemAreaSI (P : FPProc) (i : Nat) : ℚ :=
  ElmArea P i * LengthConv P.LengthUnits * LengthConv P.LengthUnits

/-- The nodal radii `r[k]` of element `i` in metres. -/
def elemR (P : FPProc) (i k : Nat) : ℚ :=
  (P.node ((P.elem i).p k)).x * LengthConv P.LengthUnits

/-- The nodal values `U[0] = U[1] = U[2] = 1`. -/
def unitU : Nat → CComplex := fun _ => ⟨1, 0⟩

/-- The integral of the potential over element `i`: `PlnInt(a,A,U)*Depth` in
planar problems, `AxiInt(a,A,U,r)` in axisymmetric ones. -/
def elemIntA (PI : ℚ) (P : FPProc) (i : Nat) : CComplex :=
  if P.problemType = .PLANAR then PlnInt (elemAreaSI P i) (GetJA_A PI P i) unitU * P.Depth
  else AxiInt PI (elemAreaSI P i) (GetJA_A PI P i) unitU (elemR P i)

/-- `FPProc::GetStrandedVoltageDrop(lbl)`: the voltage drop of a stranded,
current-carrying region. -/
def GetStrandedVoltageDrop (PI : ℚ) (P : FPProc) (lbl : Nat) : CComplex :=
  let s := (List.range P.meshelem.length).foldl
    (fun (s : CComplex × ℚ) i =>
      if (P.elem i).lbl = lbl then
        let rho := (P.label (P.elem i).lbl).o * (1000000 : ℚ)
        let rho := if P.Frequency = 0 then (⟨rho.re, 0⟩ : CComplex) else rho
        let rho := if rho ≠ 0 then (1 : ℚ) / rho else rho
        let a := elemAreaSI P i
        let V : Nat → CComplex := fun k =>
          (((2 * PI) * CComplex.I) * P.Frequency) * GetJA_A PI P i k + rho * GetJA_J PI P i k
        if P.problemType = .PLANAR then (s.1 + PlnInt a V unitU * P.Depth, s.2 + a)
        else (s.1 + AxiInt PI a V unitU (elemR P i), s.2 + a)
      else s) (0, 0)
  s.1 * ((((P.label lbl).Turns : Int) : ℚ) / s.2)

/-- `FPProc::GetStrandedLinkage(lbl)`: the flux linkage of a stranded region
at zero frequency and zero current. -/
def GetStrandedLinkage (PI : ℚ) (P : FPProc) (lbl : Nat) : CComplex :=
  let s := (List.range P.meshelem.length).foldl
    (fun (s : CComplex × ℚ) i =>
      if (P.elem i).lbl = lbl then (s.1 + elemIntA PI P i, s.2 + elemAreaSI P i) else s) (0, 0)
  s.1 * ((((P.label lbl).Turns : Int) : ℚ) / s.2)

/-- `FPProc::GetSolidAxisymmetricLinkage(lbl)`: the flux linkage of a solid
axisymmetric region at zero frequency and zero current. -/
def GetSolidAxisymmetricLinkage (PI : ℚ) (P : FPProc) (lbl : Nat) : CComplex :=
  let s := (List.range P.meshelem.length).foldl
    (fun (s : CComplex × ℚ) i =>
      if (P.elem i).lbl = lbl then
        let Aa := (GetJA_A PI P i 0 + GetJA_A PI P i 1 + GetJA_A PI P i 2) / (3 : ℚ)
        let a := elemAreaSI P i
        let R := (elemR P i 0 + elemR P i 1 + elemR P i 2) / 3
        (s.1 + (((2 * PI) * R) * a) * (Aa / R), s.2 + a / R)
      else s) (0, 0)
  s.1 * ((((P.label lbl).Turns : Int) : ℚ) / s.2)

/-- `FPProc::GetParallelLinkage(numcirc)`: the flux linkage of a parallel
circuit at zero frequency and zero current, the current divided according to
conductivity. -/
def GetParallelLinkage (PI : ℚ) (P : FPProc) (numcirc : Int) : CComplex :=
  let s := (List.range P.meshelem.length).foldl
    (fun (s : CComplex × ℚ) i =>
      if (P.label (P.elem i).lbl).InCircuit = numcirc then
        let c := (P.blockprop (P.elem i).blk).Cduct
        let a := elemAreaSI P i
        if P.problemType = .PLANAR then
          (s.1 + (PlnInt a (GetJA_A PI P i) unitU * P.Depth) * c, s.2 + a * c)
        else
          let R := (elemR P i 0 + elemR P i 1 + elemR P i 2) / 3
          let Aa := (GetJA_A PI P i 0 + GetJA_A PI P i 1 + GetJA_A PI P i 2) / (3 : ℚ)
          (s.1 + (((2 * PI) * R) * c) * (Aa / R), s.2 + a * c / R)
      else s) (0, 0)
  s.1 / s.2

/-- `FPProc::GetParallelLinkageAlt(numcirc)`: the flux linkage of a parallel
circuit at zero frequency and zero current, an even current density applied
to all its regions. -/
def GetParallelLinkageAlt (PI : ℚ) (P : FPProc) (numcirc : Int) : CComplex :=
  let s := (List.range P.meshelem.length).foldl
    (fun (s : CComplex × ℚ) i =>
      if (P.label (P.elem i).lbl).InCircuit = numcirc then
        (s.1 + elemIntA PI P i, s.2 + elemAreaSI P i)
      else s) (0, 0)
  s.1 / s.2

/-- The brute-force sums of `FPProc::GetVoltageDrop` over the elements of
circuit `circnum`: the integral of the potential and the total area. -/
def circuitSums (PI : ℚ) (P : FPProc) (circnum : Nat) : CComplex × ℚ :=
  (List.range P.meshelem.length).foldl
    (fun (s : CComplex × ℚ) i =>
      if (P.label (P.elem i).lbl).InCircuit = (circnum : Int) then
        (s.1 + elemIntA PI P i, s.2 + elemAreaSI P i)
      else s) (0, 0)

/-- `FPProc::GetVoltageDrop(circnum)`. -/
def GetVoltageDrop (PI : ℚ) (P : FPProc) (circnum : Nat) : CComplex :=
  if (P.circ circnum).CircType = 1 then
    (List.range P.blocklist.length).foldl
      (fun (Volts : CComplex) i =>
        if (P.label i).InCircuit = (circnum : Int) then
          if (P.label i).Case = 0 then
            if P.problemType = .AXISYMMETRIC then
              Volts - ((2 * PI) * (P.label i).dVolts) * (((P.label i).Turns : Int) : ℚ)
            else Volts - (P.Depth * (P.label i).dVolts) * (((P.label i).Turns : Int) : ℚ)
          else Volts + GetStrandedVoltageDrop PI P i
        else Volts) 0
  else if (P.circ circnum).CircType = 0 then
    match (List.range P.blocklist.length).find?
        (fun i => decide ((P.label i).InCircuit = (circnum : Int) ∧ (P.label i).Case = 0)) with
    | some i =>
      if P.problemType = .AXISYMMETRIC then (0 : CComplex) - (2 * PI) * (P.label i).dVolts
      else (0 : CComplex) - P.Depth * (P.label i).dVolts
    | none =>
      let s := circuitSums PI P circnum
      (((2 * PI) * P.Frequency) / s.2) * s.1
  else 0

/-- `FPProc::GetFluxLinkage(circnum)`. -/
def GetFluxLinkage (PI : ℚ) (P : FPProc) (circnum : Nat) : CComplex :=
  let Amps := (P.circ circnum).Amps
  if Amps.re ≠ 0 ∨ Amps.im ≠ 0 then
    let FluxLinkage := (List.range P.meshelem.length).foldl
      (fun (FluxLinkage : CComplex) i =>
        if (P.label (P.elem i).lbl).InCircuit = (circnum : Int) then
          let o := (P.label (P.elem i).lbl).o
          let a := elemAreaSI P i
          let A : Nat → CComplex := fun k =>
            if o.im ≠ 0 then
              let u :=
                if P.Frequency = 0 then o.im
                else (((1 / 1000000 : ℚ) / o).im) / ((2 * PI) * P.Frequency)
              GetJA_A PI P i k + u * GetJA_J PI P i k
            else GetJA_A PI P i k
          let J : Nat → CComplex := fun k => (GetJA_J PI P i k).conj
          if P.problemType = .PLANAR then FluxLinkage + PlnInt a A J * P.Depth
          else FluxLinkage + AxiInt PI a A J (elemR P i)
        else FluxLinkage) 0
    FluxLinkage / Amps.conj
  else if P.Frequency ≠ 0 then GetVoltageDrop PI P circnum / ((2 * PI) * P.Frequency)
  else if (P.circ circnum).CircType = 1 then
    (List.range P.blocklist.length).foldl
      (fun (FluxLinkage : CComplex) i =>
        if (P.label i).InCircuit = (circnum : Int) then
          if (P.label i).Case = 1 ∨ P.problemType = .PLANAR then
            FluxLinkage + GetStrandedLinkage PI P i
          else FluxLinkage + GetSolidAxisymmetricLinkage PI P i
        else FluxLinkage) 0
  else
    let flag := (List.range P.blocklist.length).any
      (fun i => decide ((P.label i).Case = 0 ∧ (P.label i).InCircuit = (circnum : Int)))
    if flag then GetParallelLinkage PI P (P.blocklist.length : Int)
    else GetParallelLinkageAlt PI P (P.blocklist.length : Int)

/-- The elements whose block label belongs to circuit `c`. -/
def circuitElems (P : FPProc) (c : Nat) : List Nat :=
  (List.range P.meshelem.length).filter
    (fun i => decide ((P.label (P.elem i).lbl).InCircuit = (c : Int)))

/-- The single triangle `(0,0), (1,0), (0,1)` with potentials `A = (0, 1, 0)`
at the frequency `f`, its one block label a stranded region (`Case = 1`, one
turn) of circuit `0`, the circuit of type `t` carrying no current. -/
def coilMesh (t : Int) (f : ℚ) : FPProc :=
  { triangleMesh with
    Frequency := f
    blocklist := [{ IsSelected := true, InCircuit := 0, Case := 1 }]
    blockproplist := [{}]
    circproplist := [{ CircType := t }] }

/-- The total area, in m², of the elements of circuit `c`. -/
def circuitArea (P : FPProc) (c : Nat) : ℚ :=
  ((circuitElems P c).map (elemAreaSI P)).sum

/-- The integral of the potential over the elements of circuit `c`. -/
def circuitIntA (PI : ℚ) (P : FPProc) (c : Nat) : CComplex :=
  ((circuitElems P c).map (elemIntA PI P)).sum

/-! ## Example air-gap elements over any field -/

/-- A periodic air-gap element of two pads over the full turn between the radii
1 and 2, with `B_r = (1, 2)` and `B_t = (3, 4)`. -/
def age2 (K : Type) [Field K] : CAirGapElement K :=
  mkAGE "gap" 0 2 360 1 2 [⟨1, 0⟩, ⟨2, 0⟩] [⟨3, 0⟩, ⟨4, 0⟩]

/-- An antiperiodic air-gap element of one pad over the half turn between the
radii 1 and 2, with `B_r = 1` and `B_t = 0`. -/
def ageHalf (K : Type) [Field K] : CAirGapElement K :=
  mkAGE "gap" 1 1 180 1 2 [⟨1, 0⟩] [0]

/-- The state holding one loaded air-gap element, unit depth, zero frequency. -/
def loadedGap {K : Type} [LinearOrderedField K] [FloorRing K] (E : MathEnv K)
    (age : CAirGapElement K) : FPProcGap K :=
  ⟨[OpenDocument_harmonics E age], 1, 0⟩

/-- An antiperiodic air-gap element of 18 pads over 180 degrees between the
radii 1 and 2 whose radial pad values are the first harmonic
`c·cos(t_k) + s·sin(t_k)`, `t_k = (k+1/2)·PI/18`, with `B_t = 0`. -/
def firstHarmonicAGE {K : Type} [Field K] (E : MathEnv K) (c s : Cx K) : CAirGapElement K :=
  mkAGE "gap" 1 18 180 1 2
    ((List.range 18).map (fun k : Nat =>
      c * E.cos ((((k : Nat) : K) + 1 / 2) * E.PI / 18) +
        s * E.sin ((((k : Nat) : K) + 1 / 2) * E.PI / 18)))
    (List.replicate 18 0)

/-- A periodic air-gap element of 36 pads over 360 degrees between the radii 1
and 2 with `B_r = cos θ` at the bin centres `θ_k = (k+1/2)·PI/18` and
`B_t = 0`. -/
def cosineAGE {K : Type} [Field K] (E : MathEnv K) : CAirGapElement K :=
  mkAGE "gap" 0 36 360 1 2
    ((List.range 36).map
      (fun k : Nat => (⟨E.cos ((((k : Nat) : K) + 1 / 2) * E.PI / 18), 0⟩ : Cx K)))
    (List.replicate 36 0)

/-- The unit square meshed as two triangles with potentials `A = (0, 0, 3, 6)`
at zero frequency: element `0` carries label `0`, which belongs to circuit `0`,
element `1` carries label `1`, which belongs to circuit `2`; both labels are
stranded (`Case = 1`) and the three circuits are parallel and carry no
current. -/
def twoCoilMesh : FPProc :=
  { mkProblem [mkNode 0 0 0, mkNode 1 0 0, mkNode 1 1 3, mkNode 0 1 6]
      [mkElem 0 1 2, { mkElem 0 2 3 with lbl := 1 }] with
    blocklist := [{ IsSelected := false, InCircuit := 0, Case := 1 },
      { IsSelected := false, InCircuit := 2, Case := 1 }]
    blockproplist := [{}]
    circproplist := [{}, {}, {}] }

/-- The triangle `(0,0), (1,0), (0,1)` listed twice: element `0` with the
vertices in counter-clockwise order `(0, 1, 2)`, element `1` with the same
vertices in the opposite orientation `(0, 2, 1)`. -/
def windingMesh : FPProc :=
  mkProblem [mkNode 0 0 0, mkNode 1 0 1, mkNode 0 1 0] [mkElem 0 1 2, mkElem 0 2 1]

/-- The barycentric numerator `a[j] + b[j]*x + c[j]*y` of vertex `j` of an
element at the point `(x, y)`. -/
def baryNum (P : FPProc) (e : CPostProcMElement) (x y : ℚ) (j : Nat) : ℚ :=
  coefA P e j + coefB P e j * x + coefC P e j * y

/-! ## Boundary edges -/

/-- The table `plus1mod3` of `FindBoundaryEdges`. -/
def plus1mod3 (j : Nat) : Nat := [1, 2, 0].getD j 0

/-- The table `minus1mod3` of `FindBoundaryEdges`. -/
def minus1mod3 (j : Nat) : Nat := [2, 0, 1].getD j 0

/-- The search of `FindBoundaryEdges` through the elements listed for the node
`orgi` of edge `j` of element `i`: the value `done` is left with, `true` when
an element other than `i` in `ConList[orgi][0..NumList[orgi])` has the node
`desti` among its vertices. -/
def edgeDone (P : FPProc) (i j : Nat) : Bool :=
  let orgi := (P.elem i).p (plus1mod3 j)
  let desti := (P.elem i).p (minus1mod3 j)
  ((P.ConList.getD orgi []).take (P.NumList.getD orgi 0)).any (fun ei =>
    ei != i && ((P.elem ei).p 0 == desti || (P.elem ei).p 1 == desti ||
      (P.elem ei).p 2 == desti))

/-- The body of the main loop of `FindBoundaryEdges` for edge `j` of element
`i`. -/
def boundaryStep (P : FPProc) (i j : Nat) : FPProc :=
  if (P.elem i).n j = 0 then
    if edgeDone P i j then P
    else
      { P with
        meshelem := P.meshelem.set i
          { P.elem i with n := fun t => if t = j then 1 else (P.elem i).n t } }
  else P

/-- `FPProc::FindBoundaryEdges()`: reset the flags `n[0..2]` of every element,
then flag the edges that no other element shares. -/
def FindBoundaryEdges (P : FPProc) : FPProc :=
  let P0 : FPProc :=
    { P with
      meshelem := P.meshelem.map (fun e => { e with n := fun j => if j < 3 then 0 else e.n j }) }
  (List.range P0.meshelem.length).foldl
    (fun Q i => [0, 1, 2].foldl (fun Q j => boundaryStep Q i j) Q) P0

/-- Element `e` has node `n` among its three vertices. -/
def hasNode (P : FPProc) (e n : Nat) : Prop :=
  (P.elem e).p 0 = n ∨ (P.elem e).p 1 = n ∨ (P.elem e).p 2 = n

/-- The node-to-element lists are complete: for every node `n` that is a vertex
of some element, `ConList[n][0..NumList[n])` holds exactly the elements that
have `n` as a vertex. -/
def ConListComplete (P : FPProc) : Prop :=
  ∀ n, (∃ i, i < P.meshelem.length ∧ hasNode P i n) →
    ∀ e, e ∈ (P.ConList.getD n []).take (P.NumList.getD n 0) ↔
      e < P.meshelem.length ∧ hasNode P e n

/-- The state of the main loop of `FindBoundaryEdges` before edge `jj` of
element `t`: the lists and the vertices are those of `P`, and the flags of the
edges already visited are set. -/
def BdryInv (P Q : FPProc) (t jj : Nat) : Prop :=
  Q.NumList = P.NumList ∧ Q.ConList = P.ConList ∧ Q.meshelem.length = P.meshelem.length ∧
    (∀ i k, (Q.elem i).p k = (P.elem i).p k) ∧
    ∀ i j, i < P.meshelem.length → j < 3 →
      (Q.elem i).n j = if i < t ∨ (i = t ∧ j < jj) then (if edgeDone P i j then 0 else 1) else 0

/-! ## Permeability -/

/-- The functions that the permeability code calls and that are taken as
given: `sqrt` of the C library, `abs` of `complex.h`, and the two overloads of
`CMMaterialProp::GetMu(b1, b2, mu1, mu2)`, each returning the pair
`(mu1, mu2)`. -/
structure LibEnv where
  sqrt : ℚ → ℚ
  abs : CComplex → ℚ
  GetMu : CMMaterialProp → ℚ → ℚ → ℚ × ℚ
  GetMuC : CMMaterialProp → CComplex → CComplex → CComplex × CComplex

/-- A stand-in for the library over `ℚ`, for running the model: `sqrt = id`
(exact at `0` and `1`), `abs z = |re z| + |im z|` (exact on the two axes), and
a material with `GetMu` returning `(2, 1)` whatever the flux density. -/
def stubLib : LibEnv :=
  ⟨fun x => x, fun z => |z.re| + |z.im|, fun _ _ _ => (2, 1), fun _ _ _ => (⟨2, 0⟩, ⟨1, 0⟩)⟩

/-- `FPProc::AECF(k)`: the permeability correction factor for axisymmetric
external regions. -/
def AECF (E : LibEnv) (P : FPProc) (k : Nat) : ℚ :=
  if P.problemType ≠ ProblemType.AXISYMMETRIC then 1
  else if (P.label (P.elem k).lbl).IsExternal = false then 1
  else
    let r := E.abs ((P.elem k).ctr - CComplex.I * P.extZo)
    (r * r * P.extRi) / (P.extRo * P.extRo * P.extRo)

/-- `FPProc::GetMu(double b1, double b2, double &mu1, double &mu2, int i)`:
the pair `(mu1, mu2)`. -/
def GetMu (E : LibEnv) (P : FPProc) (b1 b2 : ℚ) (i : Nat) : ℚ × ℚ :=
  let m := E.GetMu (P.blockprop (P.elem i).blk) b1 b2
  let aecf := AECF E P i
  (m.1 / aecf, m.2 / aecf)

/-- `FPProc::GetMu(CComplex b1, CComplex b2, CComplex &mu1, CComplex &mu2,
int i)`: the pair `(mu1, mu2)`. -/
def GetMu_complex (E : LibEnv) (P : FPProc) (b1 b2 : CComplex) (i : Nat) : CComplex × CComplex :=
  let m :=
    if (P.blockprop (P.elem i).blk).LamType > 2 then
      ((P.label (P.elem i).lbl).mu, (P.label (P.elem i).lbl).mu)
    else E.GetMuC (P.blockprop (P.elem i).blk) b1 b2
  let aecf := AECF E P i
  (m.1 / aecf, m.2 / aecf)

/-- The test on the material name with which `OpenDocument` leaves elements
out of the plot bounds: the name starts with `u` followed by a digit `1` to
`9`. -/
def OpenDocument_isExtName (myBlockName : String) : Bool :=
  match myBlockName.toList with
  | c0 :: c1 :: _ => c0 == 'u' && (List.range' 1 9).any (fun k => c1 == Char.ofNat (48 + k))
  | _ => false

/-- The permeabilities `u.mu1`, `u.mu2`, `u.mu12` of a point value. -/
structure PointMu where
  mu1 : CComplex
  mu2 : CComplex
  mu12 : CComplex
deriving DecidableEq

/-- `FPProc::GetPointValues(x, y, k, u)`, reduced to the permeabilities
`u.mu1`, `u.mu2`, `u.mu12` that it stores for element `k`; `B1`, `B2` are the
values of `u.B1`, `u.B2` that the function has computed before. -/
def GetPointValues_mu (E : LibEnv) (P : FPProc) (B1 B2 : CComplex) (k : Nat) : PointMu :=
  let B1p := (P.elem k).B1p
  let B2p := (P.elem k).B2p
  let B := E.sqrt (B1p * B1p + B2p * B2p)
  if P.Frequency = 0 then
    if P.bIncremental = 0 then
      let m := GetMu E P B1.re B2.re k
      ⟨⟨m.1, 0⟩, ⟨m.2, 0⟩, 0⟩
    else
      let m := GetMu E P B1p B2p k
      let muinc := m.1
      let murel := m.2
      if B = 0 then ⟨⟨muinc, 0⟩, ⟨muinc, 0⟩, 0⟩
      else if P.PrevType = 1 then
        ⟨⟨(B1p * B1p * muinc + B2p * B2p * murel) / (B * B), 0⟩,
          ⟨(B2p * B2p * muinc + B1p * B1p * murel) / (B * B), 0⟩,
          ⟨(B1p * B2p * (muinc - murel)) / (B * B), 0⟩⟩
      else ⟨⟨murel, 0⟩, ⟨murel, 0⟩, 0⟩
  else
    if P.bIncremental = 0 then
      let m := GetMu_complex E P B1 B2 k
      ⟨m.1, m.2, 0⟩
    else
      let m := GetMu_complex E P ⟨B1p, 0⟩ ⟨B2p, 0⟩ k
      let muinc := m.1
      let murel := m.2
      if B = 0 then ⟨murel, murel, 0⟩
      else
        ⟨((B1p * B1p) * muinc + (B2p * B2p) * murel) / (B * B),
          ((B2p * B2p) * muinc + (B1p * B1p) * murel) / (B * B),
          ((B1p * B2p) * (muinc - murel)) / (B * B)⟩

/-- An axisymmetric problem with one element at centroid `(2, 0)`; its block
label is not external and its material is named `u1`. -/
def shellMesh : FPProc :=
  { mkProblem [mkNode 1 0 0, mkNode 3 0 0, mkNode 2 0 0]
      [{ mkElem 0 1 2 with ctr := ⟨2, 0⟩ }] with
    problemType := ProblemType.AXISYMMETRIC
    blocklist := [{ IsSelected := false, IsExternal := false }]
    blockproplist := [{ BlockName := "u1" }]
    extRo := 1
    extRi := 1
    extZo := 0 }

/-- The mesh `shellMesh` with the block label flagged external. -/
def externalMesh : FPProc :=
  { shellMesh with blocklist := [{ IsSelected := false, IsExternal := true }] }

/-- A planar incremental problem with one element whose previous-solution flux
density is `(B1p, B2p) = (1, 0)`, at frequency `f` and with `PrevType = t`. -/
def frozenMesh (f : ℚ) (t : Int) : FPProc :=
  { mkProblem [mkNode 0 0 0, mkNode 1 0 0, mkNode 0 1 0]
      [{ mkElem 0 1 2 with B1p := 1, B2p := 0 }] with
    Frequency := f
    bIncremental := t
    PrevType := t
    blocklist := [{ IsSelected := false }]
    blockproplist := [{}] }

/-! ## Loader: reading the solution file -/

/-- The C cast `(int) x` of a `double`: truncation toward zero. -/
def ctrunc (x : ℚ) : Int := if 0 ≤ x then ⌊x⌋ else ⌈x⌉

/-- The messages that `OpenDocument` sends to `WarnMessage`, with the numbers
that it prints into them. -/
inductive Warning where
  | cannotRead
  | differentVersion
  | noSolution
  | nodeInputs (sscnt : Int) (i : Nat) (expected : Nat)
  | nodeSection
  | elementInputs (sscnt : Int) (i : Nat)
  | elementSection
  | quadNode (j : Nat) (n0 n1 n2 n3 : Int)
  | multiplyDefined (k l : Nat)
deriving DecidableEq

/-- A line of the header of a solution file, by the key that `OpenDocument`
recognises in it; the keys that only set scalar attributes or fields of the
property being read are `other`. A count key stands for its line and the rows
that the loader reads after it. -/
inductive HeaderEntry where
  | format (vers : ℚ)
  | frequency (f : ℚ)
  | prevsoln (name : String)
  | prevtype (t : Int)
  | endpoint
  | endbdry
  | endblock
  | endcircuit
  | numpoints (k : Int)
  | numsegments (k : Int)
  | numarcsegments (k : Int)
  | numblocklabels (k : Int)
  | solution
  | other
deriving DecidableEq

/-- A row of the mesh sections, field by field in the order of the conversions
of the `sscanf` that reads it: `some v` where the conversion reads the number
`v`, `none` where it fails. -/
abbrev Row := List (Option ℚ)

/-- The value that `sscanf` returns for a row read with `n` conversions: the
number of leading conversions that succeed, and `EOF = -1` for an empty row. -/
def sscanfCount (n : Nat) (row : Row) : Int :=
  match row with
  | [] => -1
  | _ => (((row.take n).takeWhile Option.isSome).length : Int)

/-- An air-gap element of the solution file: `totalArcElements` and, for each
pass `j` of the loop over its `quadNode` rows, the node numbers
`(n0, n1, n2, n3)` that `sscanf` leaves in `q`. -/
structure AGERows where
  totalArcElements : Int
  quad : Nat → Int × Int × Int × Int

/-- A solution file as the loader reads it: whether `fopen` succeeds, the
lines of the header up to the end of the file or the `[solution]` line, and
after it the announced number of mesh nodes and the rows read as mesh nodes,
the announced number of elements and the rows read as elements, and the
air-gap elements. A section that stops short of its announced count ends the
file. -/
structure AnsFile where
  readable : Bool
  header : List HeaderEntry
  numNodes : Nat := 0
  nodeRows : List Row := []
  numElems : Nat := 0
  elemRows : List Row := []
  ages : List AGERows := []

/-- The members of `FPProc` that the reading part of `OpenDocument` writes,
every list reduced to its size, with the local variable `sscnt` and the
messages sent to `WarnMessage`. -/
structure LoadState where
  Frequency : ℚ := 0
  bIncremental : Int := 0
  PrevType : Int := 0
  nodelist : Nat := 0
  linelist : Nat := 0
  arclist : Nat := 0
  blocklist : Nat := 0
  nodeproplist : Nat := 0
  lineproplist : Nat := 0
  blockproplist : Nat := 0
  circproplist : Nat := 0
  meshnode : Nat := 0
  meshelem : Nat := 0
  agelist : Nat := 0
  sscnt : Int := 0
  warnings : List Warning := []
deriving DecidableEq

/-- `FPProc::ClearDocument()`: every list is emptied. -/
def ClearDocument (s : LoadState) : LoadState :=
  { s with
    nodelist := 0, linelist := 0, blocklist := 0, arclist := 0, nodeproplist := 0,
    lineproplist := 0, blockproplist := 0, circproplist := 0, meshnode := 0, meshelem := 0,
    agelist := 0 }

/-- `FPProc::NewDocument()`: `ClearDocument()` and the default attributes. -/
def NewDocument (s : LoadState) : LoadState :=
  { ClearDocument s with Frequency := 0 }

/-- `WarnMessage(msg)`. -/
def LoadState.warn (s : LoadState) (w : Warning) : LoadState :=
  { s with warnings := s.warnings ++ [w] }

/-- How the header loop of `OpenDocument` ends. -/
inductive HeaderEnd where
  | badVersion
  | endOfFile
  | solution
deriving DecidableEq

/-- The header loop of `OpenDocument`,
`while ((flag == false) && (fgets(s, 1024, fp) != NULL))`, over the lines of
the header. -/
def readHeader (s : LoadState) : List HeaderEntry → HeaderEnd × LoadState
  | [] => (HeaderEnd.endOfFile, s)
  | HeaderEntry.format vers :: es =>
      if ctrunc (10 * vers + 1 / 2) ≠ 40 then
        (HeaderEnd.badVersion, s.warn Warning.differentVersion)
      else readHeader s es
  | HeaderEntry.frequency f :: es => readHeader { s with Frequency := f } es
  | HeaderEntry.prevsoln name :: es =>
      readHeader { s with bIncremental := if name.isEmpty then 0 else s.PrevType } es
  | HeaderEntry.prevtype t :: es => readHeader { s with PrevType := t } es
  | HeaderEntry.endpoint :: es => readHeader { s with nodeproplist := s.nodeproplist + 1 } es
  | HeaderEntry.endbdry :: es => readHeader { s with lineproplist := s.lineproplist + 1 } es
  | HeaderEntry.endblock :: es => readHeader { s with blockproplist := s.blockproplist + 1 } es
  | HeaderEntry.endcircuit :: es => readHeader { s with circproplist := s.circproplist + 1 } es
  | HeaderEntry.numpoints k :: es => readHeader { s with nodelist := s.nodelist + k.toNat } es
  | HeaderEntry.numsegments k :: es => readHeader { s with linelist := s.linelist + k.toNat } es
  | HeaderEntry.numarcsegments k :: es => readHeader { s with arclist := s.arclist + k.toNat } es
  | HeaderEntry.numblocklabels k :: es =>
      readHeader { s with blocklist := s.blocklist + k.toNat } es
  | HeaderEntry.solution :: _ => (HeaderEnd.solution, s)
  | HeaderEntry.other :: es => readHeader s es

/-- The number of fields that a mesh-node row is tested for: `4` or `6` at
`Frequency != 0`, `3` or `5` at `Frequency == 0`, the larger when
`bIncremental` is set. -/
def nodeFields (s : LoadState) : Nat :=
  if s.Frequency ≠ 0 then (if s.bIncremental = 0 then 4 else 6)
  else (if s.bIncremental = 0 then 3 else 5)

/-- The body of the loop over mesh-node rows for a row that `fgets` has read:
`sscnt` is assigned from `sscanf` in every mode but the incremental one at
`Frequency != 0`, then tested. The result is `false` where the loader
returns. -/
def readNodeRow (s : LoadState) (i : Nat) (row : Row) : Bool × LoadState :=
  let s : LoadState :=
    if s.Frequency ≠ 0 ∧ s.bIncremental ≠ 0 then s
    else { s with sscnt := sscanfCount (nodeFields s) row }
  if s.sscnt ≠ (nodeFields s : Int) then
    (false, s.warn (Warning.nodeInputs s.sscnt i (nodeFields s)))
  else (true, s)

/-- The loop `for (i = 0; i < k; i++)` over the mesh-node rows, with `n` rows
still to read, the next of them row `i`. -/
def readNodes (s : LoadState) : Nat → Nat → List Row → Bool × LoadState
  | 0, _, _ => (true, s)
  | _ + 1, _, [] => (false, s.warn Warning.nodeSection)
  | n + 1, i, row :: rows =>
      let r := readNodeRow s i row
      if r.1 then readNodes r.2 n (i + 1) rows else r

/-- The body of the loop over mesh-element rows for a row that `fgets` has
read: `sscnt` is assigned from `sscanf` when `bIncremental` is not set, then
tested against `4`, or against `5` when `bIncremental` is set. -/
def readElemRow (s : LoadState) (i : Nat) (row : Row) : Bool × LoadState :=
  if s.bIncremental = 0 then
    let s : LoadState := { s with sscnt := sscanfCount 4 row }
    if s.sscnt ≠ 4 then (false, s.warn (Warning.elementInputs s.sscnt i)) else (true, s)
  else
    if s.sscnt ≠ 5 then (false, s.warn (Warning.elementInputs s.sscnt i)) else (true, s)

/-- The loop `for (i = 0; i < k; i++)` over the mesh-element rows. -/
def readElems (s : LoadState) : Nat → Nat → List Row → Bool × LoadState
  | 0, _, _ => (true, s)
  | _ + 1, _, [] => (false, s.warn Warning.elementSection)
  | n + 1, i, row :: rows =>
      let r := readElemRow s i row
      if r.1 then readElems r.2 n (i + 1) rows else r

/-- The loop `for (j = 0; j <= age.totalArcElements; j++)` over the `quadNode`
rows of an air-gap element, with `n` rows still to read, the next of them row
`j`. -/
def readQuadNodes (s : LoadState) (a : AGERows) : Nat → Nat → Bool × LoadState
  | 0, _ => (true, s)
  | n + 1, j =>
      let q := a.quad j
      if q.1 < 0 ∨ q.2.1 < 0 ∨ q.2.2.1 < 0 ∨ q.2.2.2 < 0 then
        (false, s.warn (Warning.quadNode j q.1 q.2.1 q.2.2.1 q.2.2.2))
      else readQuadNodes s a n (j + 1)

/-- The loop over the air-gap elements of the file. -/
def readAGEs (s : LoadState) : List AGERows → Bool × LoadState
  | [] => (true, s)
  | a :: as =>
      let r := readQuadNodes s a (a.totalArcElements + 1).toNat 0
      if r.1 then
        readAGEs (if a.totalArcElements > 0 then { r.2 with agelist := r.2.agelist + 1 } else r.2) as
      else r

/-- The statement `meshnode.resize(k)`. -/
def LoadState.resizeMeshnode (s : LoadState) (k : Nat) : LoadState := { s with meshnode := k }

/-- The statement `meshelem.resize(k)`. -/
def LoadState.resizeMeshelem (s : LoadState) (k : Nat) : LoadState := { s with meshelem := k }

/-- The part of `OpenDocument` that follows the header loop once `[solution]`
has been found: the mesh nodes, the elements and the air-gap elements. -/
def readBody (s : LoadState) (f : AnsFile) : Bool × LoadState :=
  let r := readNodes (s.resizeMeshnode f.numNodes) f.numNodes 0 f.nodeRows
  if r.1 then
    let r := readElems (r.2.resizeMeshelem f.numElems) f.numElems 0 f.elemRows
    if r.1 then readAGEs r.2 f.ages else r
  else r

/-- The state in which `OpenDocument` starts to read: `NewDocument()` has run
and the local variable `sscnt` holds the indeterminate value `sscnt0`. -/
def LoadState.start (prior : LoadState) (sscnt0 : Int) : LoadState :=
  { NewDocument prior with sscnt := sscnt0 }

/-- `FPProc::OpenDocument(pathname)` from `NewDocument()` to `fclose(fp)`: the
value returned where the loader returns in this part (`true` stands for
reaching `fclose(fp)`; the remainder of the function has no other exit than
its final `return true`), and the state it leaves. `sscnt0` is the
indeterminate value that the local variable `sscnt` starts with. -/
def OpenDocument_read (prior : LoadState) (sscnt0 : Int) (f : AnsFile) : Bool × LoadState :=
  if f.readable = false then (false, (prior.start sscnt0).warn Warning.cannotRead)
  else
    match readHeader (prior.start sscnt0) f.header with
    | (HeaderEnd.badVersion, h) => (false, h)
    | (HeaderEnd.endOfFile, h) => (false, h.warn Warning.noSolution)
    | (HeaderEnd.solution, h) => readBody h f

/-- The state `s'` has the frequency, the incremental flag and the property,
geometry and block-label lists of `s`. -/
def LoadState.SameHeader (s s' : LoadState) : Prop :=
  s'.Frequency = s.Frequency ∧ s'.bIncremental = s.bIncremental ∧ s'.nodelist = s.nodelist ∧
    s'.linelist = s.linelist ∧ s'.arclist = s.arclist ∧ s'.blocklist = s.blocklist ∧
    s'.nodeproplist = s.nodeproplist ∧ s'.lineproplist = s.lineproplist ∧
    s'.blockproplist = s.blockproplist ∧ s'.circproplist = s.circproplist

/-- The step `r` from state `s` sends no message when it goes on and exactly
one when the loader returns. -/
def LoadState.Warned (s : LoadState) (r : Bool × LoadState) : Prop :=
  (r.1 = true → r.2.warnings = s.warnings) ∧
    (r.1 = false → r.2.warnings.length = s.warnings.length + 1)

/-- A state with a document loaded: four mesh nodes, two elements, two block
labels and one material. -/
def loadedState : LoadState :=
  { nodelist := 4, linelist := 4, blocklist := 2, blockproplist := 1, meshnode := 4,
    meshelem := 2 }

/-- A solution file of version `3.0`. -/
def oldVersionFile : AnsFile := { readable := true, header := [HeaderEntry.format 3, HeaderEntry.solution] }

/-- A solution file whose `[Format]` line reads `4.01`, with an empty mesh. -/
def nearVersionFile : AnsFile :=
  { readable := true, header := [HeaderEntry.format (401 / 100), HeaderEntry.solution] }

/-- A magnetostatic solution file with one block label and one announced mesh
node, whose row has a single field. -/
def shortRowFile : AnsFile :=
  { readable := true
    header := [HeaderEntry.format 4, HeaderEntry.numblocklabels 1, HeaderEntry.solution]
    numNodes := 1
    nodeRows := [[some 0]] }

/-- A magnetostatic solution file with one mesh node, whose row has four
fields where three are read. -/
def longRowFile : AnsFile :=
  { readable := true
    header := [HeaderEntry.format 4, HeaderEntry.solution]
    numNodes := 1
    nodeRows := [[some 0, some 0, some 1, some 7]] }

/-- A file that cannot be opened. -/
def missingFile : AnsFile := { readable := false, header := [] }

/-- A solution file with one block label, one mesh node, one element and two
air-gap elements of one arc element each; the first `quadNode` row of the
second air-gap element has the node number `-1`. -/
def badQuadFile : AnsFile :=
  { readable := true
    header := [HeaderEntry.format 4, HeaderEntry.numblocklabels 1, HeaderEntry.solution]
    numNodes := 1
    nodeRows := [[some 0, some 0, some 1]]
    numElems := 1
    elemRows := [[some 0, some 0, some 0, some 0]]
    ages := [⟨1, fun _ => (0, 0, 0, 0)⟩, ⟨1, fun _ => (-1, 0, 0, 0)⟩] }

/-- The test of the loader on a `quadNode` row with the node numbers `q`:
`(q.n0 < 0) || (q.n1 < 0) || (q.n2 < 0) || (q.n3 < 0)`. -/
def quadNegative (q : Int × Int × Int × Int) : Prop :=
  q.1 < 0 ∨ q.2.1 < 0 ∨ q.2.2.1 < 0 ∨ q.2.2.2 < 0

instance (q : Int × Int × Int × Int) : Decidable (quadNegative q) :=
  inferInstanceAs (Decidable (q.1 < 0 ∨ q.2.1 < 0 ∨ q.2.2.1 < 0 ∨ q.2.2.2 < 0))

/-! ## Loader: multiply defined regions -/

/-- The variables of the loop of `OpenDocument` that looks for multiply defined
regions: the block labels, the flag `bMultiplyDefinedLabels`, the messages sent
to `WarnMessage` and the `static int k` of `InTriangle`. -/
structure LabelScan where
  blocklist : List CMBlockLabel
  bMultiplyDefinedLabels : Bool
  warnings : List Warning
  k : Int

/-- The block label `blocklist[l]` of the scan. -/
def LabelScan.label (s : LabelScan) (l : Nat) : CMBlockLabel :=
  s.blocklist.getD l { IsSelected := false }

/-- The body of the loop over the block labels `k`: when the label lies in an
element `i` whose label differs from `k`, the label of that element is
selected and, the first time, a message is sent. -/
def labelStep (P : FPProc) (s : LabelScan) (k : Nat) : LabelScan :=
  let r := InTriangle P s.k (s.label k).x (s.label k).y
  if r.1 ≥ 0 then
    let l := (P.elem r.1.toNat).lbl
    if l ≠ k then
      let bl := s.blocklist.set l { s.label l with IsSelected := true }
      if s.bMultiplyDefinedLabels = false then
        { blocklist := bl, bMultiplyDefinedLabels := true,
          warnings := s.warnings ++ [Warning.multiplyDefined k l], k := r.2 }
      else { s with blocklist := bl, k := r.2 }
    else { s with k := r.2 }
  else { s with k := r.2 }

/-- The end of `FPProc::OpenDocument`, from the check for multiply defined
regions to `return true`: the value returned, the state with the labels
selected, the messages sent (`warnings` before) and the `static int k` of
`InTriangle` (`kc` before). The energy of the permanent magnets, computed in
between, is left out. -/
def OpenDocument_labels (P : FPProc) (kc : Int) (warnings : List Warning) :
    Bool × FPProc × List Warning × Int :=
  let s := (List.range P.blocklist.length).foldl (labelStep P) ⟨P.blocklist, false, warnings, kc⟩
  (true, { P with blocklist := s.blocklist }, s.warnings, s.k)

/-- The `static int k` of `InTriangle` before the pass of the loop for block
label `t`. -/
def labelCache (P : FPProc) (kc : Int) : Nat → Int
  | 0 => kc
  | t + 1 => (InTriangle P (labelCache P kc t) (P.label t).x (P.label t).y).2

/-- The element in which the loop finds block label `k`, or `-1`. -/
def labelElem (P : FPProc) (kc : Int) (k : Nat) : Int :=
  (InTriangle P (labelCache P kc k) (P.label k).x (P.label k).y).1

/-- The label `l` of the element in which the loop finds block label `k`, when
there is such an element and `l` differs from `k`. -/
def labelHit (P : FPProc) (kc : Int) (k : Nat) : Option Nat :=
  if labelElem P kc k ≥ 0 ∧ (P.elem (labelElem P kc k).toNat).lbl ≠ k then
    some (P.elem (labelElem P kc k).toNat).lbl
  else none

/-- The messages that would be sent for the block labels below `t` if every
multiply defined region were reported. -/
def labelHits (P : FPProc) (kc : Int) (t : Nat) : List Warning :=
  (List.range t).filterMap (fun k => (labelHit P kc k).map (Warning.multiplyDefined k))

/-- The unit square cut along its diagonal, centroids and radii computed, with
both elements tagged by block label `0`; label `0` lies at `(2/3, 1/3)` and
label `1` at `(1/3, 2/3)`. -/
def doubleLabelMesh : FPProc :=
  { OpenDocument_centroids squareMesh with
    blocklist := [{ IsSelected := false, x := 2 / 3, y := 1 / 3 },
      { IsSelected := false, x := 1 / 3, y := 2 / 3 }] }

/-- The state of the label scan before the pass for label `t`. -/
def LabelInv (P : FPProc) (kc : Int) (w : List Warning) (t : Nat) (s : LabelScan) : Prop :=
  s.blocklist.length = P.blocklist.length ∧
    (∀ l, (s.label l).x = (P.label l).x ∧ (s.label l).y = (P.label l).y) ∧
    s.k = labelCache P kc t ∧
    (∀ l, l < P.blocklist.length →
      ((s.label l).IsSelected = true ↔
        (P.label l).IsSelected = true ∨ ∃ k, k < t ∧ labelHit P kc k = some l)) ∧
    s.warnings = w ++ (labelHits P kc t).head?.toList ∧
    (s.bMultiplyDefinedLabels = false ↔ labelHits P kc t = [])

/-! ## Example states: air-gap query and solution headers -/

/-- The state holding the loaded antiperiodic element `age18`, unit depth, zero
frequency; its harmonic orders are `1, 3, ..., 17`. -/
def gapState18 : FPProcGap ℚ := ⟨[OpenDocument_harmonics stubEnv age18], 1, 0⟩

/-- The output arguments of `getGapHarmonics` before a call, all zero. -/
def noHarmonics : GapHarmonics ℚ := ⟨0, 0, 0, 0, 0, 0⟩

/-- A state in which a frozen-permeability problem is loaded (`PrevType = 2`). -/
def frozenLoaded : LoadState := { loadedState with bIncremental := 2, PrevType := 2 }

/-- An incremental solution file (`PrevType = 1`) with an empty mesh whose
header has the `[PrevType]` line before the `[PrevSoln]` line. -/
def prevTypeFirstFile : AnsFile :=
  { readable := true
    header := [HeaderEntry.format 4, HeaderEntry.prevtype 1, HeaderEntry.prevsoln "dc.ans",
      HeaderEntry.solution] }

/-- The file `prevTypeFirstFile` with the `[PrevSoln]` line before the
`[PrevType]` line. -/
def prevSolnFirstFile : AnsFile :=
  { readable := true
    header := [HeaderEntry.format 4, HeaderEntry.prevsoln "dc.ans", HeaderEntry.prevtype 1,
      HeaderEntry.solution] }

/-! ## Closest node -/

/-- The node `nodelist[j]` of the geometry. -/
def FPProc.gnode (P : FPProc) (j : Nat) : CNode :=
  P.nodelist.getD j { x := 0, y := 0 }

/-- `FPProc::ClosestNode(x, y)`. `GetDistance` stands for `CNode::GetDistance`,
which is not among the sources. The loop carries the pair `(j, d0)`. -/
def ClosestNode (GetDistance : CNode → ℚ → ℚ → ℚ) (P : FPProc) (x y : ℚ) : Int :=
  if P.nodelist.length = 0 then -1
  else
    ((List.range P.nodelist.length).foldl
      (fun (s : Int × ℚ) i =>
        let d1 := GetDistance (P.gnode i) x y
        if d1 < s.2 then ((i : Int), d1) else s)
      (0, GetDistance (P.gnode 0) x y)).1

/-! ## Local stored energy of a wound region -/

/-- The square `[0,2]²` meshed as four triangles around its centre; elements
`0, 1, 2` carry block label `0` and element `3` carries block label `1`; both
labels are wound regions of the same material (`LamType = 3`, source current
density `1`), with effective conductivities `o = 1 + 2i` and `o = 1 + 6i`. -/
def woundMesh : FPProc :=
  { mkProblem [mkNode 0 0 0, mkNode 2 0 0, mkNode 2 2 0, mkNode 0 2 0, mkNode 1 1 0]
      [mkElem 0 1 4, mkElem 1 2 4, mkElem 2 3 4, { mkElem 3 0 4 with lbl := 1 }] with
    blocklist := [{ IsSelected := false, o := ⟨1, 2⟩ }, { IsSelected := false, o := ⟨1, 6⟩ }]
    blockproplist := [{ J := ⟨1, 0⟩, LamType := 3 }] }

/-- `FPProc::GetPointValues(x, y, k, u)` at `Frequency == 0`, reduced to the
source current density `u.Js`. -/
def GetPointValues_Js (P : FPProc) (x y : ℚ) (k : Nat) : CComplex :=
  let e := P.elem k
  let ravg := LengthConv P.LengthUnits *
    ((P.node (e.p 0)).x + (P.node (e.p 1)).x + (P.node (e.p 2)).x) / 3
  let Js : CComplex := ⟨(P.blockprop e.blk).J.re, 0⟩
  let lbl := e.lbl
  if (P.label lbl).InCircuit ≥ 0 then
    if (P.label lbl).Case = 0 then
      if P.problemType = ProblemType.PLANAR then
        Js - (P.label e.lbl).o.re * (P.label lbl).dVolts
      else
        let R : Nat → ℚ := fun tn =>
          if (P.node (e.p tn)).x < 1 / 1000000 then ravg
          else (P.node (e.p tn)).x * LengthConv P.LengthUnits
        let ravg := [0, 1, 2].foldl
          (fun r tn => r + (1 / R tn) * (coefA P e tn + coefB P e tn * x + coefC P e tn * y) /
            coefDa P e) 0
        Js - ((P.label e.lbl).o.re * (P.label lbl).dVolts) * ravg
    else Js + (P.label lbl).J
  else Js

/-- `FPProc::GetPointValues(x, y, k, u)` at `Frequency == 0`: the "local"
stored energy that the function adds to `u.E` for a wound region. The index
variable `i` of the function holds `3` at this statement, the value that the
loops over the three vertices leave it with. -/
def GetPointValues_localE (P : FPProc) (x y : ℚ) (k : Nat) : ℚ :=
  let i := 3
  if (P.blockprop (P.elem k).blk).LamType > 2 then
    let J := GetPointValues_Js P x y k * (1000000 : ℚ)
    (J * J).re * (P.label (P.elem i).lbl).o.im / 2
  else 0

/-! ## Nodal flux density -/

/-- The elements `ConList[k][0..NumList[k])` around node `k`, in the order of
the list. -/
def patch (P : FPProc) (k : Nat) : List Nat :=
  (List.range (P.NumList.getD k 0)).map (fun j => (P.ConList.getD k []).getD j 0)

/-- The test of `GetNodalB` that counts element `e` of the patch in `m`: the
same block label as `elm`, or a material that is compatible with the one of
`elm`. -/
def patchCompatible (P : FPProc) (elm : CPostProcMElement) (e : Nat) : Bool :=
  if elm.lbl = (P.elem e).lbl then true
  else if P.Frequency = 0 then
    if (P.blockprop elm.blk).mu_x = (P.blockprop (P.elem e).blk).mu_x ∧
        (P.blockprop elm.blk).mu_y = (P.blockprop (P.elem e).blk).mu_y ∧
        (P.blockprop elm.blk).H_c = (P.blockprop (P.elem e).blk).H_c ∧
        elm.magdir = (P.elem e).magdir then true
    else if elm.blk = (P.elem e).blk ∧ elm.magdir = (P.elem e).magdir then true
    else false
  else if (P.blockprop elm.blk).mu_fdx = (P.blockprop (P.elem e).blk).mu_fdx ∧
      (P.blockprop elm.blk).mu_fdy = (P.blockprop (P.elem e).blk).mu_fdy then true
  else false

/-- The "normal smoothing method" of `GetNodalB` for the node at `p`: the loop
over the patch that accumulates `(R, b1, b2)`, and the division by `R`. -/
def patchAverage (E : LibEnv) (P : FPProc) (p : CComplex) (l : List Nat) :
    CComplex × CComplex :=
  let s := l.foldl
    (fun (s : ℚ × CComplex × CComplex) m =>
      let z := 1 / E.abs (p - Ctr P m)
      (s.1 + z, s.2.1 + z * (P.elem m).B1, s.2.2 + z * (P.elem m).B2))
    (0, 0, 0)
  (s.2.1 / s.1, s.2.2 / s.1)

/-- The test of `GetNodalB` for a point current at the node at `p`: the
geometry node `j` lies within `1e-8` of `p` and has a point property with a
current that is not zero. -/
def pointCurrentAt (E : LibEnv) (P : FPProc) (p : CComplex) (j : Nat) : Bool :=
  decide (E.abs (p - ((P.gnode j).y * CComplex.I + (P.gnode j).x)) < 1 / 100000000) &&
    decide ((P.gnode j).BoundaryMarker ≥ 0) &&
    (decide ((P.nodeproplist.getD (P.gnode j).BoundaryMarker.toNat {}).J.re ≠ 0) ||
      decide ((P.nodeproplist.getD (P.gnode j).BoundaryMarker.toNat {}).J.im ≠ 0))

/-- The body of the loop of `GetNodalB` for vertex `i` of `elm`: the pair
`(b1[i], b2[i])`. `interfaceB` stands for the branch that scans for a material
interface around the node, taken when some element of the patch is not
compatible with `elm`; it is not modelled. -/
def GetNodalB_vertex (E : LibEnv)
    (interfaceB : FPProc → CPostProcMElement → Nat → CComplex × CComplex) (P : FPProc)
    (elm : CPostProcMElement) (i : Nat) : CComplex × CComplex :=
  let k := elm.p i
  let p : CComplex := ⟨(P.node k).x, (P.node k).y⟩
  let m := ((patch P k).filter (patchCompatible P elm)).length
  let b : CComplex × CComplex :=
    if m = P.NumList.getD k 0 then patchAverage E P p (patch P k)
    else interfaceB P elm i
  let b : CComplex × CComplex :=
    if P.nodeproplist.length ≠ 0 then
      (List.range P.nodelist.length).foldl
        (fun b j => if pointCurrentAt E P p j then (elm.B1, elm.B2) else b) b
    else b
  if |p.re| < 1 / 1000000 ∧ P.problemType = ProblemType.AXISYMMETRIC then (0, b.2) else b

/-- `FPProc::GetNodalB(b1, b2, elm)`: the element with the smoothed nodal flux
densities `b1[0..2]`, `b2[0..2]`. -/
def GetNodalB (E : LibEnv)
    (interfaceB : FPProc → CPostProcMElement → Nat → CComplex × CComplex) (P : FPProc)
    (elm : CPostProcMElement) : CPostProcMElement :=
  { elm with
    b1 := fun i => if i < 3 then (GetNodalB_vertex E interfaceB P elm i).1 else elm.b1 i
    b2 := fun i => if i < 3 then (GetNodalB_vertex E interfaceB P elm i).2 else elm.b2 i }

/-- The unit square cut along its diagonal, node-to-element lists built, with
the flux density `(3, 4)` in both elements. -/
def uniformB : FPProc :=
  let P := OpenDocument_connections squareMesh
  { P with meshelem := P.meshelem.map (fun e => { e with B1 := ⟨3, 0⟩, B2 := ⟨4, 0⟩ }) }

/-- A stand-in library for `uniformB`: `abs` is the constant `1`. -/
def unitLib : LibEnv := { stubLib with abs := fun _ => 1 }

/-! ## Air-gap elements: mid-gap reconstruction -/

/-- A row of the `quadNode` table of an air-gap element (`CQuadPoint`): four
node numbers and their weights. -/
structure CQuadPoint (K : Type) where
  n0 : Nat
  w0 : K
  n1 : Nat
  w1 : K
  n2 : Nat
  w2 : K
  n3 : Nat
  w3 : K

/-- The members of an air-gap element that the reconstruction at the centre of
the gap reads besides those of `CAirGapElement`: the `quadNode` table and the
shifts of the inner and the outer side. -/
structure AGEQuad (K : Type) where
  quadNode : List (CQuadPoint K)
  InnerShift : K
  OuterShift : K

/-- The row `quadNode[k]`. -/
def AGEQuad.quad {K : Type} [Field K] (g : AGEQuad K) (k : Nat) : CQuadPoint K :=
  g.quadNode.getD k ⟨0, 0, 0, 0, 0, 0, 0, 0⟩

/-- The node number `nn[kk]` gathered for pad `k` of an air-gap element with
`N` pads. -/
def agePadNode {K : Type} [Field K] (g : AGEQuad K) (N k : Nat) (kk : Nat) : Nat :=
  match kk with
  | 0 => if (k : Int) - 1 < 0 then (g.quad (N - 1)).n0 else (g.quad (k - 1)).n0
  | 1 => (g.quad k).n0
  | 2 => (g.quad k).n1
  | 3 => (g.quad (k + 1)).n1
  | 4 => if k + 2 > N then (g.quad 1).n1 else (g.quad (k + 2)).n1
  | 5 => if (k : Int) - 1 < 0 then (g.quad (N - 1)).n2 else (g.quad (k - 1)).n2
  | 6 => (g.quad k).n2
  | 7 => (g.quad k).n3
  | 8 => (g.quad (k + 1)).n3
  | _ => if k + 2 > N then (g.quad 1).n3 else (g.quad (k + 2)).n3

/-- The weight `ww[kk]` gathered for pad `k`, with the signs of an antiperiodic
element (`BdryFormat = 1`) fixed at the first and the last pad. -/
def agePadWeight {K : Type} [Field K] (g : AGEQuad K) (format : Int) (N k : Nat) (kk : Nat) : K :=
  let ww : K :=
    match kk with
    | 0 => if (k : Int) - 1 < 0 then (g.quad (N - 1)).w0 else (g.quad (k - 1)).w0
    | 1 => (g.quad k).w0
    | 2 => (g.quad k).w1
    | 3 => (g.quad (k + 1)).w1
    | 4 => if k + 2 > N then (g.quad 1).w1 else (g.quad (k + 2)).w1
    | 5 => if (k : Int) - 1 < 0 then (g.quad (N - 1)).w2 else (g.quad (k - 1)).w2
    | 6 => (g.quad k).w2
    | 7 => (g.quad k).w3
    | 8 => (g.quad (k + 1)).w3
    | _ => if k + 2 > N then (g.quad 1).w3 else (g.quad (k + 2)).w3
  if (kk = 0 ∨ kk = 5) ∧ k = 0 ∧ format = 1 then -ww
  else if (kk = 4 ∨ kk = 9) ∧ k + 1 = N ∧ format = 1 then -ww
  else ww

/-- The weighted nodal potential `a[kk] = meshnode[nn[kk]].A * ww[kk]` of pad
`k`; `A n` is the potential of mesh node `n`. -/
def agePadA {K : Type} [Field K] (A : Nat → Cx K) (g : AGEQuad K) (format : Int) (N k : Nat)
    (kk : Nat) : Cx K :=
  A (agePadNode g N k kk) * agePadWeight g format N k kk

/-- The potential `ac` at the centre of a pad from the ten weighted nodal
potentials, `ci` and `co` being the shifts. -/
def agePadAc {K : Type} [Field K] (a : Nat → Cx K) (ci co : K) : Cx K :=
  ((2 : K) * a 2 + (2 : K) * a 3 + (2 : K) * a 7 + (2 : K) * a 8 + a 1 * ci +
      (a 2 - a 3 - a 4) * ci -
      (a 0 - (3 : K) * a 1 + a 2 + (3 : K) * a 3 - (2 : K) * a 4) * ci ^ 2 +
      (a 0 - (2 : K) * a 1 + (2 : K) * a 3 - a 4) * ci ^ 3 +
      (a 6 + a 7 - a 8 - a 9) * co -
      (a 5 - (3 : K) * a 6 + a 7 + (3 : K) * a 8 - (2 : K) * a 9) * co ^ 2 +
      (a 5 - (2 : K) * a 6 + (2 : K) * a 8 - a 9) * co ^ 3) / (8 : K)

/-- The radial flux density `br[k]` of a pad from the ten weighted nodal
potentials. -/
def agePadBr {K : Type} [Field K] (a : Nat → Cx K) (ci co dt R : K) : Cx K :=
  (-(ci * a 1) - (2 : K) * a 2 + (2 : K) * a 3 + ci * (a 2 + a 3 - a 4) -
      (ci * ci * ci) * (a 0 - (4 : K) * a 1 + (6 : K) * a 2 - (4 : K) * a 3 + a 4) +
      (ci * ci) * (a 0 - (5 : K) * a 1 + (9 : K) * a 2 - (7 : K) * a 3 + (2 : K) * a 4) -
      (2 : K) * a 7 + (2 : K) * a 8 + co * (-(a 6) + a 7 + a 8 - a 9) -
      (co * co * co) * (a 5 - (4 : K) * a 6 + (6 : K) * a 7 - (4 : K) * a 8 + a 9) +
      (co * co) * (a 5 - (5 : K) * a 6 + (9 : K) * a 7 - (7 : K) * a 8 + (2 : K) * a 9)) /
    (4 * dt * R)

/-- The tangential flux density `bt[k]` of a pad from the ten weighted nodal
potentials. -/
def agePadBt {K : Type} [Field K] (a : Nat → Cx K) (ci co dr : K) : Cx K :=
  (ci * a 1 + (2 : K) * a 2 + (2 : K) * a 3 -
      (ci * ci) * (a 0 - (3 : K) * a 1 + a 2 + (3 : K) * a 3 - (2 : K) * a 4) +
      ci * (a 2 - a 3 - a 4) + (ci * ci * ci) * (a 0 - (2 : K) * a 1 + (2 : K) * a 3 - a 4) -
      co * a 6 + ((-2 + co) * (1 + co)) * a 7 - (2 : K) * a 8 +
      co * (a 8 + co * (a 5 - (3 : K) * a 6 + (3 : K) * a 8 - (2 : K) * a 9) + a 9 +
        (co * co) * (-(a 5) + (2 : K) * a 6 - (2 : K) * a 8 + a 9))) / (4 * dr)

/-- The part of `OpenDocument` that computes `A` and `B` at the centre of each
pad of an air-gap element: `aco` (accumulated for a periodic element only) and
the lists `br`, `bt`. `A n` is the potential of mesh node `n`. -/
def OpenDocument_midgap {K : Type} [Field K] (E : MathEnv K) (A : Nat → Cx K)
    (age : CAirGapElement K) (g : AGEQuad K) : CAirGapElement K :=
  let R := (age.ri + age.ro) / 2
  let dr := age.ro - age.ri
  let dt := ageStep E age
  let N := age.totalArcElements
  { age with
    aco := (List.range N).foldl
      (fun aco k =>
        if age.BdryFormat = 0 then
          aco + agePadAc (agePadA A g age.BdryFormat N k) g.InnerShift g.OuterShift / (N : K)
        else aco) 0
    br := (List.range N).map
      (fun k => agePadBr (agePadA A g age.BdryFormat N k) g.InnerShift g.OuterShift dt R)
    bt := (List.range N).map
      (fun k => agePadBt (agePadA A g age.BdryFormat N k) g.InnerShift g.OuterShift dr) }

/-- A `quadNode` table of five rows in which every entry is node `0` with
weight `1`, with the shifts `1/4` and `3/4`. -/
def unitQuad : AGEQuad ℚ :=
  ⟨List.replicate 5 ⟨0, 1, 0, 1, 0, 1, 0, 1⟩, 1 / 4, 3 / 4⟩

/-- A periodic air-gap element of four pads over 360 degrees between the radii
1 and 2, not yet loaded. -/
def age4 : CAirGapElement ℚ := mkAGE "gap" 0 4 360 1 2 [] []

/-! ## Fill factor of a wound region -/

/-- Sum of a `double` and a complex number: `r + z`. -/
instance Cx.instHAddLeft {K : Type} [Field K] : HAdd K (Cx K) (Cx K) :=
  ⟨fun r a => ⟨r + a.re, a.im⟩⟩

/-- Quotient of two complex numbers: `a·conj(b) / |b|²`. -/
instance Cx.instDiv {K : Type} [Field K] : Div (Cx K) :=
  ⟨fun a b => ⟨(a.re * b.re + a.im * b.im) / (b.re * b.re + b.im * b.im),
    (a.im * b.re - a.re * b.im) / (b.re * b.re + b.im * b.im)⟩⟩

/-- Quotient of a `double` by a complex number: `r / z`. -/
instance Cx.instHDivLeft {K : Type} [Field K] : HDiv K (Cx K) (Cx K) :=
  ⟨fun r b => ⟨(r * b.re) / (b.re * b.re + b.im * b.im),
    (-(r * b.im)) / (b.re * b.re + b.im * b.im)⟩⟩

/-- Modelled from the spec: `sqrt(z)` for a complex `z`, the root in the right
half plane. -/
def csqrt {K : Type} [LinearOrderedField K] (E : MathEnv K) (z : Cx K) : Cx K :=
  ⟨E.sqrt ((cabs E z + z.re) / 2),
    (if z.im < 0 then -1 else 1) * E.sqrt ((cabs E z - z.re) / 2)⟩

/-- Modelled from the spec: `tanh(z)` for a complex `z = a + ib`,
`(sinh 2a + i·sin 2b)/(cosh 2a + cos 2b)`. -/
def ctanh {K : Type} [Field K] (E : MathEnv K) (z : Cx K) : Cx K :=
  let sh := (E.exp (2 * z.re) - E.exp (-(2 * z.re))) / 2
  let ch := (E.exp (2 * z.re) + E.exp (-(2 * z.re))) / 2
  ⟨sh / (ch + E.cos (2 * z.im)), E.sin (2 * z.im) / (ch + E.cos (2 * z.im))⟩

/-- A material (`CMMaterialProp`) over `K`, reduced to what `GetFillFactor`
reads: the wire type, the wire diameter in millimetres, the conductivity and
the number of strands. -/
structure CMWireProp (K : Type) where
  LamType : Int
  WireD : K
  Cduct : K
  NStrands : Int

/-- A block label (`CMBlockLabel`) over `K`, reduced to what `GetFillFactor`
reads and writes: the material index, the number of turns, the fill factor and
the effective conductivity and permeability. -/
structure CMWireLabel (K : Type) where
  BlockType : Nat
  Turns : Int
  FillFactor : K
  o : Cx K
  mu : Cx K

/-- A mesh element over `K`, reduced to its block label and the value of
`ElmArea(i)`. -/
structure WireElem (K : Type) where
  lbl : Nat
  area : K

/-- The members of `FPProc` that `GetFillFactor` reads, over `K`; `LengthConv`
is the entry `LengthConv[LengthUnits]`. -/
structure FPProcWire (K : Type) where
  meshelem : List (WireElem K)
  blocklist : List (CMWireLabel K)
  blockproplist : List (CMWireProp K)
  LengthConv : K
  Frequency : K

/-- The block label `blocklist[l]`. -/
def FPProcWire.label {K : Type} [Field K] (S : FPProcWire K) (l : Nat) : CMWireLabel K :=
  S.blocklist.getD l ⟨0, 1, -1, 0, 0⟩

/-- The material `blockproplist[b]`. -/
def FPProcWire.blockprop {K : Type} [Field K] (S : FPProcWire K) (b : Nat) : CMWireProp K :=
  S.blockproplist.getD b ⟨0, 0, 0, 0⟩

/-- The loop of `GetFillFactor` that computes the total area `atot` of the
block in m². -/
def wireAtot {K : Type} [Field K] (S : FPProcWire K) (lbl : Nat) : K :=
  S.meshelem.foldl
    (fun atot e => if e.lbl = lbl then atot + e.area * (S.LengthConv * S.LengthConv) else atot) 0

/-- The branch `if(wiretype==3)` of `GetFillFactor`, rectangular wire. -/
def GetFillFactor_rect {K : Type} [LinearOrderedField K] (E : MathEnv K) (bp : CMWireProp K)
    (bl : CMWireLabel K) (atot f : K) : CMWireLabel K :=
  let W := 2 * E.PI * f
  let d := bp.WireD * (1 / 1000)
  let FF := |d * d * (bl.Turns : K) / atot|
  let dd := d / E.sqrt FF
  let fill := d / dd
  let o := bp.Cduct * (d / dd) * 1000000
  if f = 0 then
    { bl with
      FillFactor := FF
      o := (bp.Cduct * FF) + ((((Cx.I : Cx K) * (dd - d)) * dd) * E.muo) / (6 : K)
      mu := ⟨1, 0⟩ }
  else if o ≠ 0 then
    let z := (csqrt E ((((Cx.I : Cx K) * W) * o) * E.muo) * d) / (2 : K)
    let ufd := (E.muo * ctanh E z) / z
    let ueff := fill * ufd + (1 - fill) * E.muo
    let o2 : Cx K := (1 : K) / ((E.muo / ((fill * o) * ufd) +
      ((((((Cx.I : Cx K) * dd) * dd) * (1 - fill)) * E.muo) * W) / (4 : K)) -
      (((((Cx.I : Cx K) * dd) * dd) * ueff) * W) / (12 : K))
    { bl with FillFactor := FF, o := o2 * (1 / 1000000 : K), mu := ueff / E.muo }
  else
    { bl with
      FillFactor := FF
      mu := ⟨1, 0⟩
      o := (6 : K) / (((((Cx.I : Cx K) * W) * (dd - d)) * dd) * E.muo) }

/-- The wire radius `R` that the `switch (wiretype)` of `GetFillFactor` leaves. -/
def wireRadius {K : Type} [Field K] (E : MathEnv K) (bp : CMWireProp K) (wiretype : Int) : K :=
  if wiretype = 0 then bp.WireD * (5 / 10000)
  else if wiretype = 1 then bp.WireD * (5 / 10000) * E.sqrt (bp.NStrands : K)
  else if wiretype = 2 then bp.WireD * (5 / 10000)
  else 0

/-- The total wire area `awire` that the `switch (wiretype)` of `GetFillFactor`
leaves. -/
def wireArea {K : Type} [Field K] (E : MathEnv K) (bp : CMWireProp K) (bl : CMWireLabel K)
    (wiretype : Int) : K :=
  let R := wireRadius E bp wiretype
  if wiretype = 0 then E.PI * R * R * (bp.NStrands : K) * (bl.Turns : K)
  else if wiretype = 1 then E.PI * R * R * (bl.Turns : K)
  else if wiretype = 2 then E.PI * R * R * (bp.NStrands : K) * (bl.Turns : K)
  else 0

/-- The "procedure for round wires" of `GetFillFactor`; `log` is the logarithm
of the mathematical library. -/
def GetFillFactor_round {K : Type} [LinearOrderedField K] (E : MathEnv K) (log : K → K)
    (bp : CMWireProp K) (bl : CMWireLabel K) (atot f : K) (wiretype : Int) : CMWireLabel K :=
  let R := wireRadius E bp wiretype
  let awire := wireArea E bp bl wiretype
  let fill := |awire / atot|
  let w := 2 * E.PI * f
  let o := bp.Cduct * 1000000
  let W := w * o * E.muo * R * R / 2
  let dd := ((16494541661869013 / 10000000000000000) * R) / E.sqrt fill
  let lg := log ((15299240194394943 / 10000000000000000) / E.sqrt fill)
  if f = 0 then
    { bl with
      FillFactor := fill
      o := ((bp.Cduct * fill) + ((((((Cx.I : Cx K) / (2 : K)) * E.muo) * R) * R) * lg) / fill) -
        ((((Cx.I : Cx K) / (12 : K)) * E.muo) * dd) * dd
      mu := ⟨1, 0⟩ }
  else if bp.Cduct = 0 then
    { bl with
      FillFactor := fill
      o := (1 : K) / (((((((((Cx.I : Cx K) / (2 : K)) * w) * E.muo) * R) * R) * lg) / fill) -
        ((((Cx.I : Cx K) / (12 : K)) * E.muo) * dd) * dd)
      mu := ⟨1, 0⟩ }
  else
    let c1 := 7756067409818643 / 10000000000000000 +
      fill * (6873854335408803 / 10000000000000000 +
        fill * (6841584481674128 / 100000000000000000 -
          (7143732702512284 / 100000000000000000) * fill))
    let c2 := (15 / 10) * fill / c1
    let ufd : Cx K :=
      c2 * (ctanh E (csqrt E ((c1 * (Cx.I : Cx K)) * W)) / csqrt E ((c1 * (Cx.I : Cx K)) * W)) +
        (1 - c2)
    let c3 := 8824642871525136 / 10000000000000000 +
      fill * (-(8605512994838827 / 1000000000000000000) +
        fill * (7223208744682307 / 10000000000000000 -
          (2157183942377177 / 10000000000000000) * fill))
    let c4 := lg - c3 / 3
    let ofd : Cx K := (o * fill) / ((((Cx.I : Cx K) * c4) * W) +
      csqrt E (((Cx.I : Cx K) * c3) * W) *
        ((1 : K) / ctanh E (csqrt E (((Cx.I : Cx K) * c3) * W))))
    let ofd2 : Cx K := (1 : K) / ((1 : K) / ofd -
      ((((((Cx.I : Cx K) * w) * ufd) * E.muo) * dd) * dd) / (12 : K))
    { bl with FillFactor := fill, mu := ufd, o := ofd2 * (1 / 1000000 : K) }

/-- `FPProc::GetFillFactor(lbl)`: the block label `blocklist[lbl]` as the
function leaves it. -/
def GetFillFactor_label {K : Type} [LinearOrderedField K] (E : MathEnv K) (log : K → K)
    (S : FPProcWire K) (lbl : Nat) : CMWireLabel K :=
  let bp := S.blockprop (S.label lbl).BlockType
  let bl : CMWireLabel K :=
    { S.label lbl with
      FillFactor := if |(S.label lbl).Turns| > 1 then 1 else -1
      o := ⟨bp.Cduct, 0⟩
      mu := 0 }
  if bp.LamType < 3 then bl
  else
    let atot := wireAtot S lbl
    if atot = 0 then bl
    else
      let wiretype := bp.LamType - 3
      if wiretype = 3 then GetFillFactor_rect E bp bl atot S.Frequency
      else GetFillFactor_round E log bp bl atot S.Frequency wiretype

/-- `FPProc::GetFillFactor(lbl)`: the state with `blocklist[lbl]` updated. -/
def GetFillFactor {K : Type} [LinearOrderedField K] (E : MathEnv K) (log : K → K)
    (S : FPProcWire K) (lbl : Nat) : FPProcWire K :=
  { S with blocklist := S.blocklist.set lbl (GetFillFactor_label E log S lbl) }

/-- The total wire area of a block: `d²·Turns` with `d = WireD·0.001` for
rectangular wire (`LamType = 6`), `awire` for the round wires. -/
def totalWireArea {K : Type} [Field K] (E : MathEnv K) (bp : CMWireProp K)
    (bl : CMWireLabel K) : K :=
  if bp.LamType - 3 = 3 then
    (bp.WireD * (1 / 1000)) * (bp.WireD * (1 / 1000)) * (bl.Turns : K)
  else wireArea E bp bl (bp.LamType - 3)

/-- A winding of two turns of wire of diameter `1000` mm, one strand, of
material type `lam`, meshed by one element of area `4` m², at frequency `f`. -/
def coilWire {K : Type} [Field K] (lam : Int) (f : K) : FPProcWire K :=
  { meshelem := [⟨0, 4⟩]
    blocklist := [⟨0, 2, -1, 0, 0⟩]
    blockproplist := [⟨lam, 1000, 1, 1⟩]
    LengthConv := 1
    Frequency := f }

/-! # Theorems -/

namespace CComplex

@[simp] theorem zero_re : (0 : CComplex).re = 0 := rfl

@[simp] theorem zero_im : (0 : CComplex).im = 0 := rfl

@[simp] theorem add_re (a b : CComplex) : (a + b).re = a.re + b.re := rfl

@[simp] theorem add_im (a b : CComplex) : (a + b).im = a.im + b.im := rfl

@[simp] theorem sub_re (a b : CComplex) : (a - b).re = a.re - b.re := rfl

@[simp] theorem sub_im (a b : CComplex) : (a - b).im = a.im - b.im := rfl

@[simp] theorem neg_re (a : CComplex) : (-a).re = -a.re := rfl

@[simp] theorem neg_im (a : CComplex) : (-a).im = -a.im := rfl

@[simp] theorem addr_re (a : CComplex) (r : ℚ) : (a + r).re = a.re + r := rfl

@[simp] theorem addr_im (a : CComplex) (r : ℚ) : (a + r).im = a.im := rfl

@[simp] theorem mulr_re (a : CComplex) (r : ℚ) : (a * r).re = a.re * r := rfl

@[simp] theorem mulr_im (a : CComplex) (r : ℚ) : (a * r).im = a.im * r := rfl

@[simp] theorem rmul_re (r : ℚ) (a : CComplex) : (r * a).re = r * a.re := rfl

@[simp] theorem rmul_im (r : ℚ) (a : CComplex) : (r * a).im = r * a.im := rfl

@[simp] theorem divr_re (a : CComplex) (r : ℚ) : (a / r).re = a.re / r := rfl

@[simp] theorem divr_im (a : CComplex) (r : ℚ) : (a / r).im = a.im / r := rfl

end CComplex

/-! ## Theorems: element lookup -/

theorem InTriangleTest_bounds (P : FPProc) (x y : ℚ) (i : Int)
    (h : InTriangleTest P x y i = true) : 0 ≤ i ∧ i < (P.meshelem.length : Int) := by
  unfold InTriangleTest at h
  by_contra hc
  rw [if_pos (by omega)] at h
  exact absurd h (by simp)

theorem InTriangleTest_neg_one (P : FPProc) (x y : ℚ) :
    InTriangleTest P x y (-1) = false := by
  simp [InTriangleTest]

/-- Every index the loop returns is `-1` or passes `InTriangleTest`. -/
theorem scanLoop_sound (P : FPProc) (x y : ℚ) (sz k : Int) :
    ∀ (fuel : Nat) (j hi lo : Int),
      (scanLoop P x y sz k fuel j hi lo).1 = -1 ∨
        InTriangleTest P x y (scanLoop P x y sz k fuel j hi lo).1 = true := by
  intro fuel
  induction fuel with
  | zero => intro j hi lo; left; rfl
  | succ f ih =>
    intro j hi lo
    simp only [scanLoop]
    split_ifs with hj h1 h2
    · right
      simp only [Bool.and_eq_true] at h1
      exact h1.2
    · right
      simp only [Bool.and_eq_true] at h2
      exact h2.2
    · exact ih _ _ _
    · left; rfl

/-- When the loop returns `-1`, every pair `hi`, `lo` it went through was
rejected. -/
theorem scanLoop_miss (P : FPProc) (x y : ℚ) (sz k : Int) :
    ∀ (fuel : Nat) (j hi lo : Int), (scanLoop P x y sz k fuel j hi lo).1 = -1 →
      ∀ t : Nat, t < fuel → j + 2 * (t : Int) < sz →
        (nearElem P x y ((nextHi sz)^[t + 1] hi) &&
            InTriangleTest P x y ((nextHi sz)^[t + 1] hi)) = false ∧
          (nearElem P x y ((nextLo sz)^[t + 1] lo) &&
            InTriangleTest P x y ((nextLo sz)^[t + 1] lo)) = false := by
  intro fuel
  induction fuel with
  | zero => intro j hi lo _ t ht; omega
  | succ f ih =>
    intro j hi lo hres t ht hj
    have hjs : j < sz := by omega
    simp only [scanLoop, if_pos hjs] at hres
    split_ifs at hres with h1 h2
    · exfalso
      simp only [Bool.and_eq_true] at h1
      have := InTriangleTest_bounds P x y _ h1.2
      simp only at hres
      omega
    · exfalso
      simp only [Bool.and_eq_true] at h2
      have := InTriangleTest_bounds P x y _ h2.2
      simp only at hres
      omega
    · cases t with
      | zero =>
        simp only [Function.iterate_succ, Function.iterate_zero, Function.comp_apply, id_eq]
        exact ⟨by simpa using h1, by simpa using h2⟩
      | succ t =>
        have := ih (j + 2) (nextHi sz hi) (nextLo sz lo) hres t (by omega)
          (by push_cast at hj ⊢; omega)
        simpa only [Function.iterate_succ_apply] using this

/-- The passes the loop makes do not depend on the bound `fuel` once it covers
the remaining values of `j`: the bound `sz` chosen in `InTriangle` never cuts
the loop short. -/
theorem scanLoop_fuel (P : FPProc) (x y : ℚ) (sz k : Int) :
    ∀ (fuel d : Nat) (j hi lo : Int), sz - j ≤ 2 * (fuel : Int) →
      scanLoop P x y sz k (fuel + d) j hi lo = scanLoop P x y sz k fuel j hi lo := by
  intro fuel
  induction fuel with
  | zero =>
    intro d j hi lo hj
    cases d with
    | zero => rfl
    | succ d =>
      simp only [Nat.zero_add, scanLoop]
      rw [if_neg (by push_cast at hj; omega)]
  | succ f ih =>
    intro d j hi lo hj
    rw [show f + 1 + d = (f + d) + 1 by omega]
    simp only [scanLoop]
    rw [ih d (j + 2) _ _ (by push_cast at hj; omega)]

theorem nextHi_iterate (sz k : Int) (hk : k < sz) :
    ∀ n : Nat, (n : Int) ≤ sz →
      (nextHi sz)^[n] k = if k + n < sz then k + n else k + n - sz := by
  intro n
  induction n with
  | zero => intro _; simp [hk]
  | succ n ih =>
    intro hn
    rw [Function.iterate_succ_apply', ih (by push_cast at hn; omega)]
    unfold nextHi
    push_cast at hn ⊢
    split_ifs <;> omega

theorem nextLo_iterate (sz k : Int) (hk0 : 0 ≤ k) :
    ∀ n : Nat, (n : Int) ≤ sz →
      (nextLo sz)^[n] k = if (n : Int) ≤ k then k - n else k - n + sz := by
  intro n
  induction n with
  | zero => intro _; simp [hk0]
  | succ n ih =>
    intro hn
    rw [Function.iterate_succ_apply', ih (by push_cast at hn; omega)]
    unfold nextLo
    push_cast at hn ⊢
    split_ifs <;> omega

/-- Every index other than the start is reached by `hi` or by `lo` within the
passes the loop makes. -/
theorem scan_cover (sz k i : Int) (hk0 : 0 ≤ k) (hk : k < sz) (hi0 : 0 ≤ i) (hi : i < sz)
    (hne : i ≠ k) :
    ∃ t : Nat, 2 * (t : Int) < sz ∧
      ((nextHi sz)^[t + 1] k = i ∨ (nextLo sz)^[t + 1] k = i) := by
  by_cases hgt : k < i
  · by_cases hd : 2 * (i - k) ≤ sz + 1
    · refine ⟨(i - k - 1).toNat, by omega, Or.inl ?_⟩
      rw [nextHi_iterate sz k hk _ (by push_cast; omega)]
      push_cast
      split_ifs <;> omega
    · refine ⟨(sz - (i - k) - 1).toNat, by omega, Or.inr ?_⟩
      rw [nextLo_iterate sz k hk0 _ (by push_cast; omega)]
      push_cast
      split_ifs <;> omega
  · by_cases hd : 2 * (k - i) ≤ sz + 1
    · refine ⟨(k - i - 1).toNat, by omega, Or.inr ?_⟩
      rw [nextLo_iterate sz k hk0 _ (by push_cast; omega)]
      push_cast
      split_ifs <;> omega
    · refine ⟨(sz - (k - i) - 1).toNat, by omega, Or.inl ?_⟩
      rw [nextHi_iterate sz k hk _ (by push_cast; omega)]
      push_cast
      split_ifs <;> omega

theorem InTriangle_eq (P : FPProc) (k : Int) (x y : ℚ) :
    InTriangle P k x y =
      if InTriangleTest P x y (firstTry P k) then (firstTry P k, firstTry P k)
      else scanLoop P x y P.meshelem.length (firstTry P k) (P.meshelem.length : Int).toNat 0
        (firstTry P k) (firstTry P k) := rfl

/-- The index `InTriangle` returns is `-1` or passes `InTriangleTest`. -/
theorem InTriangle_hit (P : FPProc) (k : Int) (x y : ℚ) :
    (InTriangle P k x y).1 = -1 ∨ InTriangleTest P x y (InTriangle P k x y).1 = true := by
  rw [InTriangle_eq]
  split_ifs with h
  · right; exact h
  · exact scanLoop_sound _ _ _ _ _ _ _ _ _

/-- When `InTriangle` returns `-1`, no element both passes `InTriangleTest` and
lies within its cached radius of the point. -/
theorem InTriangle_miss (P : FPProc) (k : Int) (x y : ℚ) (h : (InTriangle P k x y).1 = -1)
    (j : Int) (hnear : nearElem P x y j = true) :
    InTriangleTest P x y j = false := by
  by_contra htest
  simp only [Bool.not_eq_false] at htest
  obtain ⟨hj0, hj⟩ := InTriangleTest_bounds P x y j htest
  have hk : 0 ≤ firstTry P k ∧ firstTry P k < (P.meshelem.length : Int) := by
    unfold firstTry
    split_ifs <;> omega
  rw [InTriangle_eq] at h
  split_ifs at h with h1
  · simp only at h
    omega
  · have hne : j ≠ firstTry P k := by
      rintro rfl
      exact h1 htest
    obtain ⟨t, ht, hcov⟩ := scan_cover _ _ j hk.1 hk.2 hj0 hj hne
    have := scanLoop_miss P x y _ _ _ _ _ _ h t (by omega) (by omega)
    rcases hcov with hc | hc
    · rw [hc, hnear, htest] at this
      simp at this
    · rw [hc, hnear, htest] at this
      simp at this

/-- C2. For every point, mesh and cached index: an index `i ≥ 0` returned by
`InTriangle` passes `InTriangleTest`, and when `-1` is returned no element
index passes `InTriangleTest` while lying within its `rsqr` of the point; the
alternating `hi`/`lo` scan leaves no element index out. It holds for any cached
`ctr` and `rsqr`, so also for the ones the loader computes. -/
theorem InTriangle_scan_complete (P : FPProc) (k : Int) (x y : ℚ) :
    (0 ≤ (InTriangle P k x y).1 → InTriangleTest P x y (InTriangle P k x y).1 = true) ∧
      ((InTriangle P k x y).1 = -1 →
        ∀ j : Int, ¬(InTriangleTest P x y j = true ∧ nearElem P x y j = true)) := by
  refine ⟨fun h0 => ?_, fun hm j hj => ?_⟩
  · rcases InTriangle_hit P k x y with h | h
    · omega
    · exact h
  · have := InTriangle_miss P k x y hm j hj.2
    rw [hj.1] at this
    exact absurd this (by simp)

/-! ## Theorems: loader -/

theorem foldl_range_invariant {S : Type} (step : S → Nat → S) (Inv : Nat → S → Prop) (s : S)
    (n : Nat) (h0 : Inv 0 s) (hs : ∀ t s, t < n → Inv t s → Inv (t + 1) (step s t)) :
    Inv n ((List.range n).foldl step s) := by
  have key : ∀ m, m ≤ n → Inv m ((List.range m).foldl step s) := by
    intro m
    induction m with
    | zero => intro _; simpa using h0
    | succ m ih =>
      intro hm
      rw [List.range_succ, List.foldl_append]
      exact hs m _ (by omega) (ih (by omega))
  exact key n le_rfl

theorem getD_set_self {α : Type} (l : List α) (i : Nat) (a d : α) (h : i < l.length) :
    (l.set i a).getD i d = a := by
  simp [List.getD_eq_getElem?_getD, List.getElem?_set, h]

theorem getD_set_ne {α : Type} (l : List α) (i j : Nat) (a d : α) (h : i ≠ j) :
    (l.set i a).getD j d = l.getD j d := by
  simp [List.getD_eq_getElem?_getD, List.getElem?_set, h]

theorem SameGeom.p_eq {P Q : FPProc} (h : SameGeom P Q) (i j : Nat) :
    (Q.elem i).p j = (P.elem i).p j := by
  obtain ⟨_, _, hp⟩ := h
  obtain ⟨h0, h1, h2⟩ := hp i
  unfold CPostProcMElement.p
  split <;> assumption

theorem SameGeom.node_eq {P Q : FPProc} (h : SameGeom P Q) (n : Nat) : Q.node n = P.node n := by
  unfold FPProc.node
  rw [h.1]

theorem SameGeom.Ctr_congr {P Q : FPProc} (h : SameGeom P Q) (i : Nat) : Ctr Q i = Ctr P i := by
  simp only [Ctr, h.p_eq, h.node_eq]

theorem SameGeom.radiusLoop_congr {P Q : FPProc} (h : SameGeom P Q) (i : Nat) (c : CComplex) :
    radiusLoop Q i c = radiusLoop P i c := by
  simp only [radiusLoop, h.p_eq, h.node_eq]

theorem centroidStep_elem_self (P : FPProc) (i : Nat) (hi : i < P.meshelem.length) :
    (centroidStep P i).elem i =
      { P.elem i with ctr := Ctr P i, rsqr := radiusLoop P i (Ctr P i) } := by
  simp only [centroidStep, FPProc.elem]
  rw [getD_set_self _ _ _ _ hi]

theorem centroidStep_elem_ne (P : FPProc) (i j : Nat) (h : i ≠ j) :
    (centroidStep P i).elem j = P.elem j := by
  simp only [centroidStep, FPProc.elem]
  rw [getD_set_ne _ _ _ _ _ h]

theorem centroidStep_sameGeom (P : FPProc) (i : Nat) : SameGeom P (centroidStep P i) := by
  refine ⟨rfl, by simp [centroidStep], fun j => ?_⟩
  by_cases hij : i = j
  · subst hij
    by_cases hi : i < P.meshelem.length
    · rw [centroidStep_elem_self P i hi]
      exact ⟨rfl, rfl, rfl⟩
    · have : (centroidStep P i).meshelem = P.meshelem := by
        simp only [centroidStep]
        exact List.set_eq_of_length_le (by omega)
      simp only [FPProc.elem, this, and_self]
  · rw [centroidStep_elem_ne P i j hij]
    exact ⟨rfl, rfl, rfl⟩

theorem SameGeom.trans {P Q R : FPProc} (h1 : SameGeom P Q) (h2 : SameGeom Q R) :
    SameGeom P R := by
  refine ⟨h2.1.trans h1.1, h2.2.1.trans h1.2.1, fun i => ?_⟩
  obtain ⟨a, b, c⟩ := h1.2.2 i
  obtain ⟨a2, b2, c2⟩ := h2.2.2 i
  exact ⟨a2.trans a, b2.trans b, c2.trans c⟩

/-- What the loop "element centroids and radii" leaves: the geometry is
untouched, and every element carries the centroid and radius computed from
it. -/
theorem OpenDocument_centroids_spec (P : FPProc) :
    SameGeom P (OpenDocument_centroids P) ∧
      ∀ i, i < P.meshelem.length →
        ((OpenDocument_centroids P).elem i).ctr = Ctr P i ∧
          ((OpenDocument_centroids P).elem i).rsqr = radiusLoop P i (Ctr P i) := by
  unfold OpenDocument_centroids
  refine foldl_range_invariant centroidStep
    (fun t Q => SameGeom P Q ∧ ∀ i, i < t →
      (Q.elem i).ctr = Ctr P i ∧ (Q.elem i).rsqr = radiusLoop P i (Ctr P i))
    P P.meshelem.length ⟨⟨rfl, rfl, fun _ => ⟨rfl, rfl, rfl⟩⟩, fun i hi => by omega⟩ ?_
  rintro t Q ht ⟨hg, hQ⟩
  refine ⟨hg.trans (centroidStep_sameGeom Q t), fun i hi => ?_⟩
  by_cases hit : t = i
  · subst hit
    rw [centroidStep_elem_self Q t (by rw [hg.2.1]; exact ht)]
    simp only [hg.Ctr_congr, hg.radiusLoop_congr, and_self]
  · rw [centroidStep_elem_ne Q t i hit]
    exact hQ i (by omega)

theorem radiusLoop_eq_max (P : FPProc) (i : Nat) (c : CComplex) :
    radiusLoop P i c =
      max (sqr ((P.node ((P.elem i).p 0)).x - c.re) + sqr ((P.node ((P.elem i).p 0)).y - c.im))
        (max (sqr ((P.node ((P.elem i).p 1)).x - c.re) + sqr ((P.node ((P.elem i).p 1)).y - c.im))
          (sqr ((P.node ((P.elem i).p 2)).x - c.re) +
            sqr ((P.node ((P.elem i).p 2)).y - c.im))) := by
  have hmax : ∀ b r : ℚ, (if b > r then b else r) = max r b := by
    intro b r
    split_ifs with h
    · exact (max_eq_right (le_of_lt h)).symm
    · exact (max_eq_left (not_lt.mp h)).symm
  have h0 : ∀ a b : ℚ, 0 ≤ sqr a + sqr b := by
    intro a b
    unfold sqr
    nlinarith [mul_self_nonneg a, mul_self_nonneg b]
  simp only [radiusLoop, List.foldl, hmax]
  rw [max_eq_right (h0 _ _), max_assoc]

theorem radiusLoop_nonneg (P : FPProc) (i : Nat) (c : CComplex) : 0 ≤ radiusLoop P i c := by
  rw [radiusLoop_eq_max]
  refine le_trans ?_ (le_max_left _ _)
  unfold sqr
  nlinarith [mul_self_nonneg ((P.node ((P.elem i).p 0)).x - c.re),
    mul_self_nonneg ((P.node ((P.elem i).p 0)).y - c.im)]

theorem Ctr_eq (P : FPProc) (i : Nat) :
    Ctr P i =
      ⟨((P.node ((P.elem i).p 0)).x + (P.node ((P.elem i).p 1)).x +
          (P.node ((P.elem i).p 2)).x) / 3,
        ((P.node ((P.elem i).p 0)).y + (P.node ((P.elem i).p 1)).y +
          (P.node ((P.elem i).p 2)).y) / 3⟩ := by
  simp only [Ctr, List.foldl]
  ext
  · simp only [CComplex.add_re, CComplex.zero_re]
    ring
  · simp only [CComplex.add_im, CComplex.zero_im]
    ring

/-- C3. After the loader has computed centroids and radii, for every element:
`ctr` is the mean of the three vertex positions, `rsqr` is at least the squared
distance from `ctr` to each of the three vertices, and `rsqr` equals the
largest of the three. -/
theorem rsqr_bounds_vertices (P : FPProc) (i : Nat) (hi : i < P.meshelem.length) :
    ((OpenDocument_centroids P).elem i).ctr =
        ⟨(((OpenDocument_centroids P).node (((OpenDocument_centroids P).elem i).p 0)).x +
            ((OpenDocument_centroids P).node (((OpenDocument_centroids P).elem i).p 1)).x +
            ((OpenDocument_centroids P).node (((OpenDocument_centroids P).elem i).p 2)).x) / 3,
          (((OpenDocument_centroids P).node (((OpenDocument_centroids P).elem i).p 0)).y +
            ((OpenDocument_centroids P).node (((OpenDocument_centroids P).elem i).p 1)).y +
            ((OpenDocument_centroids P).node (((OpenDocument_centroids P).elem i).p 2)).y) / 3⟩ ∧
      (∀ j, j < 3 →
        vertexDist (OpenDocument_centroids P) i j ≤ ((OpenDocument_centroids P).elem i).rsqr) ∧
      ((OpenDocument_centroids P).elem i).rsqr =
        max (vertexDist (OpenDocument_centroids P) i 0)
          (max (vertexDist (OpenDocument_centroids P) i 1)
            (vertexDist (OpenDocument_centroids P) i 2)) := by
  obtain ⟨hg, hspec⟩ := OpenDocument_centroids_spec P
  obtain ⟨hc, hr⟩ := hspec i hi
  have hmax : ((OpenDocument_centroids P).elem i).rsqr =
      max (vertexDist (OpenDocument_centroids P) i 0)
        (max (vertexDist (OpenDocument_centroids P) i 1)
          (vertexDist (OpenDocument_centroids P) i 2)) := by
    rw [hr, radiusLoop_eq_max]
    simp only [vertexDist, hg.p_eq, hg.node_eq, hc]
  refine ⟨?_, ?_, hmax⟩
  · rw [hc, Ctr_eq]
    simp only [hg.p_eq, hg.node_eq]
  · intro j hj
    rw [hmax]
    interval_cases j
    · exact le_max_left _ _
    · exact le_trans (le_max_left _ _) (le_max_right _ _)
    · exact le_trans (le_max_right _ _) (le_max_right _ _)

/-- At the mean of its three vertices an element of non-negative signed area
passes `InTriangleTest`. -/
theorem InTriangleTest_Ctr (P : FPProc) (e : Nat) (he : e < P.meshelem.length)
    (harea : 0 ≤ ElmArea P e) :
    InTriangleTest P (Ctr P e).re (Ctr P e).im e = true := by
  have ha : 0 ≤ ((P.node ((P.elem e).p 1)).y - (P.node ((P.elem e).p 2)).y) *
        ((P.node ((P.elem e).p 0)).x - (P.node ((P.elem e).p 2)).x) -
      ((P.node ((P.elem e).p 2)).y - (P.node ((P.elem e).p 0)).y) *
        ((P.node ((P.elem e).p 2)).x - (P.node ((P.elem e).p 1)).x) := by
    have h := harea
    simp only [ElmArea] at h
    linarith
  unfold InTriangleTest
  rw [if_neg (by omega)]
  simp only [Int.toNat_ofNat, Ctr_eq, List.all_cons, List.all_nil, Bool.and_true,
    Bool.and_eq_true, edgeTest]
  refine ⟨?_, ?_, ?_⟩
  all_goals
    norm_num only
    split_ifs
    all_goals
      first
      | contradiction
      | (simp only [decide_not, Bool.not_eq_true', decide_eq_false_iff_not, not_lt, not_not,
          Bool.not_not, decide_eq_true_eq, ge_iff_le, gt_iff_lt]
         linarith)

/-- C1 (amended). In a loaded mesh, for an element `e` of non-negative signed
area whose centroid lies in no other element (no other index passes
`InTriangleTest` there), `InTriangle` called at the centroid returns `e`,
whatever the cached index. -/
theorem InTriangle_centroid (P : FPProc) (k : Int) (e : Nat) (he : e < P.meshelem.length)
    (harea : 0 ≤ ElmArea (OpenDocument_centroids P) e)
    (huniq : ∀ j : Int,
      InTriangleTest (OpenDocument_centroids P) ((OpenDocument_centroids P).elem e).ctr.re
        ((OpenDocument_centroids P).elem e).ctr.im j = true → j = e) :
    (InTriangle (OpenDocument_centroids P) k ((OpenDocument_centroids P).elem e).ctr.re
      ((OpenDocument_centroids P).elem e).ctr.im).1 = e := by
  obtain ⟨hg, hspec⟩ := OpenDocument_centroids_spec P
  obtain ⟨hc, hr⟩ := hspec e he
  have hc2 : ((OpenDocument_centroids P).elem e).ctr = Ctr (OpenDocument_centroids P) e := by
    rw [hc, hg.Ctr_congr]
  have hlen : e < (OpenDocument_centroids P).meshelem.length := by rw [hg.2.1]; exact he
  have htest := InTriangleTest_Ctr (OpenDocument_centroids P) e hlen harea
  rw [← hc2] at htest
  rcases InTriangle_hit (OpenDocument_centroids P) k
      ((OpenDocument_centroids P).elem e).ctr.re ((OpenDocument_centroids P).elem e).ctr.im
    with h | h
  · exfalso
    have hnear : nearElem (OpenDocument_centroids P) ((OpenDocument_centroids P).elem e).ctr.re
        ((OpenDocument_centroids P).elem e).ctr.im (e : Int) = true := by
      simp only [nearElem, Int.toNat_ofNat, sub_self, mul_zero, add_zero, decide_eq_true_eq]
      rw [hr]
      exact radiusLoop_nonneg _ _ _
    have := InTriangle_miss _ _ _ _ h _ hnear
    rw [htest] at this
    exact absurd this (by simp)
  · exact huniq _ h

/-- C1, witness of the amended statement: in the unit square of two triangles,
looking up the centroid of element `1` from the cached index `0` returns
`1`. -/
theorem InTriangle_centroid_witness :
    1 < squareMesh.meshelem.length ∧ 0 ≤ ElmArea (OpenDocument_centroids squareMesh) 1 ∧
      (InTriangle (OpenDocument_centroids squareMesh) 0
        ((OpenDocument_centroids squareMesh).elem 1).ctr.re
        ((OpenDocument_centroids squareMesh).elem 1).ctr.im).1 = ((1 : Nat) : Int) :=
  ⟨by decide, by decide!,
    InTriangle_centroid squareMesh 0 1 (by decide) (by decide!) (by
      intro j hj
      obtain ⟨h0, h1⟩ := InTriangleTest_bounds _ _ _ _ hj
      have hlen : ((OpenDocument_centroids squareMesh).meshelem.length : Int) = 2 := by decide!
      rw [hlen] at h1
      interval_cases j
      · exact absurd hj (by decide!)
      · rfl)⟩

/-- C1, counterexample to the claim as stated: in a loaded mesh whose elements
`0` and `1` coincide and whose element `2` is clockwise, looking up the
centroid of element `1` from the cached index `0` returns `0`, and looking up
the centroid of element `2` returns `-1`. -/
theorem InTriangle_centroid_counterexample :
    (InTriangle (OpenDocument_centroids overlapMesh) 0
        ((OpenDocument_centroids overlapMesh).elem 1).ctr.re
        ((OpenDocument_centroids overlapMesh).elem 1).ctr.im).1 = 0 ∧
      (InTriangle (OpenDocument_centroids overlapMesh) 0
        ((OpenDocument_centroids overlapMesh).elem 2).ctr.re
        ((OpenDocument_centroids overlapMesh).elem 2).ctr.im).1 = -1 := by
  decide!

/-- C3, witness: the loaded unit square, element `0`. -/
theorem rsqr_bounds_vertices_witness :
    ((OpenDocument_centroids squareMesh).elem 0).rsqr =
      max (vertexDist (OpenDocument_centroids squareMesh) 0 0)
        (max (vertexDist (OpenDocument_centroids squareMesh) 0 1)
          (vertexDist (OpenDocument_centroids squareMesh) 0 2)) :=
  (rsqr_bounds_vertices squareMesh 0 (by decide)).2.2

/-! ## Theorems: node-to-element lists -/

theorem slotsOf_zero (P : FPProc) (i n : Nat) : slotsOf P i 0 n = [] := rfl

theorem slotsOf_succ (P : FPProc) (i j n : Nat) :
    slotsOf P i (j + 1) n = slotsOf P i j n ++ (if (P.elem i).p j = n then [i] else []) := by
  unfold slotsOf
  rw [List.range_succ, List.filter_append, List.map_append]
  by_cases h : (P.elem i).p j = n <;> simp [List.filter_cons, h]

theorem slotsOf_length_mono (P : FPProc) (i n : Nat) :
    ∀ d j : Nat, (slotsOf P i j n).length ≤ (slotsOf P i (j + d) n).length := by
  intro d
  induction d with
  | zero => intro j; exact le_rfl
  | succ d ih =>
    intro j
    refine le_trans (ih j) ?_
    rw [← Nat.add_assoc, slotsOf_succ, List.length_append]
    omega

theorem incident_length_mono (P : FPProc) (n : Nat) :
    ∀ d t : Nat, (incident P n t).length ≤ (incident P n (t + d)).length := by
  intro d
  induction d with
  | zero => intro t; exact le_rfl
  | succ d ih =>
    intro t
    refine le_trans (ih t) ?_
    rw [← Nat.add_assoc]
    simp only [incident, List.length_append]
    omega

/-- Room is left in the list of node `n` for one more entry while an incidence
of `n` is still to come. -/
theorem incident_room (P : FPProc) (n t j : Nat) (ht : t < P.meshelem.length) (hj : j < 3)
    (hp : (P.elem t).p j = n) :
    (incident P n t ++ slotsOf P t j n).length <
      (incident P n P.meshelem.length).length := by
  have h1 : (slotsOf P t (j + 1) n).length ≤ (slotsOf P t 3 n).length := by
    have := slotsOf_length_mono P t n (3 - (j + 1)) (j + 1)
    rwa [show j + 1 + (3 - (j + 1)) = 3 by omega] at this
  have h2 : (incident P n (t + 1)).length ≤ (incident P n P.meshelem.length).length := by
    have := incident_length_mono P n (P.meshelem.length - (t + 1)) (t + 1)
    rwa [show t + 1 + (P.meshelem.length - (t + 1)) = P.meshelem.length by omega] at this
  rw [slotsOf_succ, if_pos hp, List.length_append, List.length_singleton] at h1
  simp only [incident, List.length_append] at h2 ⊢
  omega

theorem mem_slotsOf (P : FPProc) (i j n e : Nat) :
    e ∈ slotsOf P i j n ↔ e = i ∧ ∃ j', j' < j ∧ (P.elem i).p j' = n := by
  unfold slotsOf
  simp only [List.mem_map, List.mem_filter, List.mem_range, decide_eq_true_eq]
  constructor
  · rintro ⟨a, ⟨ha, hp⟩, rfl⟩
    exact ⟨rfl, a, ha, hp⟩
  · rintro ⟨rfl, a, ha, hp⟩
    exact ⟨a, ⟨ha, hp⟩, rfl⟩

theorem mem_incident (P : FPProc) (n e : Nat) :
    ∀ t, e ∈ incident P n t ↔ e < t ∧ ∃ j, j < 3 ∧ (P.elem e).p j = n := by
  intro t
  induction t with
  | zero => simp [incident]
  | succ t ih =>
    simp only [incident, List.mem_append, ih, mem_slotsOf]
    constructor
    · rintro (⟨h1, h2⟩ | ⟨rfl, h2⟩)
      · exact ⟨by omega, h2⟩
      · exact ⟨by omega, h2⟩
    · rintro ⟨h1, h2⟩
      by_cases he : e = t
      · right
        subst he
        exact ⟨rfl, h2⟩
      · left
        exact ⟨by omega, h2⟩

theorem incident_length (P : FPProc) (n : Nat) :
    ∀ t, (incident P n t).length =
      ((List.range t).map
        (fun e => ((List.range 3).filter (fun j => decide ((P.elem e).p j = n))).length)).sum := by
  intro t
  induction t with
  | zero => rfl
  | succ t ih =>
    simp only [incident, List.length_append, ih, List.range_succ, List.map_append, List.sum_append,
      List.map_cons, List.map_nil, List.sum_cons, List.sum_nil, Nat.add_zero]
    simp [slotsOf, List.range_succ]

theorem take_set_succ {α : Type} (l : List α) (c : Nat) (a : α) (hc : c < l.length) :
    (l.set c a).take (c + 1) = l.take c ++ [a] := by
  rw [List.take_succ, List.set_take,
    List.set_eq_of_length_le (by rw [List.length_take]; omega), List.getElem?_set_self hc]
  rfl

theorem countStep_spec (P : FPProc) (t : Nat) (num : List Nat)
    (h : num.length = P.meshnode.length ∧
      ∀ k, k < P.meshnode.length → num.getD k 0 = (incident P k t).length) :
    (countStep P num t).length = P.meshnode.length ∧
      ∀ k, k < P.meshnode.length →
        (countStep P num t).getD k 0 = (incident P k (t + 1)).length := by
  unfold countStep
  refine foldl_range_invariant _
    (fun j num' => num'.length = P.meshnode.length ∧
      ∀ k, k < P.meshnode.length →
        num'.getD k 0 = (incident P k t ++ slotsOf P t j k).length)
    num 3 ⟨h.1, fun k hk => by rw [slotsOf_zero, List.append_nil]; exact h.2 k hk⟩ ?_
  rintro j num' _ ⟨hl, hk⟩
  refine ⟨by rw [List.length_set]; exact hl, fun k hkn => ?_⟩
  by_cases hq : (P.elem t).p j = k
  · rw [hq, getD_set_self _ _ _ _ (by omega), hk k hkn, slotsOf_succ, if_pos hq]
    simp only [List.length_append, List.length_singleton]
    omega
  · rw [getD_set_ne _ _ _ _ _ hq, hk k hkn, slotsOf_succ, if_neg hq, List.append_nil]

theorem buildStep_inner (P : FPProc) (t j : Nat) (s : List (List Nat) × List Nat)
    (ht : t < P.meshelem.length) (hj : j < 3)
    (h : BuildInv P (fun k => incident P k t ++ slotsOf P t j k) s) :
    BuildInv P (fun k => incident P k t ++ slotsOf P t (j + 1) k)
      (s.1.set ((P.elem t).p j) ((s.1.getD ((P.elem t).p j) []).set (s.2.getD ((P.elem t).p j) 0) t),
        s.2.set ((P.elem t).p j) (s.2.getD ((P.elem t).p j) 0 + 1)) := by
  obtain ⟨hl2, hl1, hk⟩ := h
  refine ⟨by simp only [List.length_set]; exact hl2, by simp only [List.length_set]; exact hl1,
    fun k hkn => ?_⟩
  obtain ⟨hnum, hlen, htake⟩ := hk k hkn
  by_cases hq : (P.elem t).p j = k
  · have hroom := incident_room P k t j ht hj hq
    simp only [hq, slotsOf_succ, if_pos]
    rw [getD_set_self _ _ _ _ (by omega), getD_set_self _ _ _ _ (by omega), hnum]
    refine ⟨by simp only [List.length_append, List.length_singleton]; omega,
      by rw [List.length_set]; exact hlen, ?_⟩
    have : (incident P k t ++ slotsOf P t j k ++ [t]).length =
        (incident P k t ++ slotsOf P t j k).length + 1 := by
      simp only [List.length_append, List.length_singleton]
    rw [← List.append_assoc, this, take_set_succ _ _ _ (by omega), htake]
  · simp only [slotsOf_succ, if_neg hq, List.append_nil]
    rw [getD_set_ne _ _ _ _ _ hq, getD_set_ne _ _ _ _ _ hq]
    exact ⟨hnum, hlen, htake⟩

theorem buildStep_spec (P : FPProc) (t : Nat) (s : List (List Nat) × List Nat)
    (ht : t < P.meshelem.length) (h : BuildInv P (fun k => incident P k t) s) :
    BuildInv P (fun k => incident P k (t + 1)) (buildStep P s t) := by
  unfold buildStep
  refine foldl_range_invariant _
    (fun j s' => BuildInv P (fun k => incident P k t ++ slotsOf P t j k) s') s 3
    (by simpa only [slotsOf_zero, List.append_nil] using h) ?_
  intro j s' hj hs'
  exact buildStep_inner P t j s' ht hj hs'

/-- What the block "build list of elements connected to each node" leaves: the
list of node `n` is the list of its incident elements and `NumList[n]` is its
length. -/
theorem OpenDocument_connections_spec (P : FPProc) (n : Nat) (hn : n < P.meshnode.length) :
    (OpenDocument_connections P).ConList.getD n [] = incident P n P.meshelem.length ∧
      (OpenDocument_connections P).NumList.getD n 0 =
        (incident P n P.meshelem.length).length := by
  simp only [OpenDocument_connections]
  have hcount : ((List.range P.meshelem.length).foldl (countStep P)
        (List.replicate P.meshnode.length 0)).length = P.meshnode.length ∧
      ∀ k, k < P.meshnode.length →
        ((List.range P.meshelem.length).foldl (countStep P)
          (List.replicate P.meshnode.length 0)).getD k 0 =
          (incident P k P.meshelem.length).length := by
    refine foldl_range_invariant (countStep P)
      (fun t num => num.length = P.meshnode.length ∧
        ∀ k, k < P.meshnode.length → num.getD k 0 = (incident P k t).length)
      _ _ ⟨by simp, fun k hk => by simp [incident, List.getElem?_replicate, hk]⟩ ?_
    intro t num _ h
    exact countStep_spec P t num h
  generalize (List.range P.meshelem.length).foldl (countStep P)
    (List.replicate P.meshnode.length 0) = num1 at hcount ⊢
  have hreset : ((List.range P.meshnode.length).foldl (fun num i => num.set i 0) num1).length =
        P.meshnode.length ∧
      ∀ k, k < P.meshnode.length →
        ((List.range P.meshnode.length).foldl (fun num i => num.set i 0) num1).getD k 0 = 0 := by
    have := foldl_range_invariant (fun (num : List Nat) i => num.set i 0)
      (fun t num => num.length = P.meshnode.length ∧ ∀ k, k < t → num.getD k 0 = 0)
      num1 P.meshnode.length ⟨hcount.1, fun k hk => by omega⟩ (by
        rintro t num ht ⟨hl, hk⟩
        refine ⟨by rw [List.length_set]; exact hl, fun k hkt => ?_⟩
        by_cases htk : t = k
        · rw [htk, getD_set_self _ _ _ _ (by omega)]
        · rw [getD_set_ne _ _ _ _ _ htk]
          exact hk k (by omega))
    exact this
  generalize (List.range P.meshnode.length).foldl (fun num i => num.set i 0) num1 = num2
    at hreset ⊢
  have hbuild := foldl_range_invariant (buildStep P)
    (fun t s => BuildInv P (fun k => incident P k t) s)
    ((List.range P.meshnode.length).map (fun i => List.replicate (num1.getD i 0) 0), num2)
    P.meshelem.length
    ⟨hreset.1, by simp, fun k hk =>
      ⟨by simpa [incident] using hreset.2 k hk,
        by simpa [List.getElem?_range, hk] using hcount.2 k hk, by simp [incident]⟩⟩
    (fun t s ht hs => buildStep_spec P t s ht hs)
  obtain ⟨_, _, hk⟩ := hbuild
  obtain ⟨hnum, hlen, htake⟩ := hk n hn
  refine ⟨?_, hnum⟩
  rw [← hlen, List.take_length] at htake
  exact htake

/-- C4. After the loader has built the node-to-element lists, for every node
`n`: every element that has `n` at one of its three vertex slots occurs in
`ConList[n][0..NumList[n])`, every entry there is an element with `n` as a
vertex, and `NumList[n]` is the number of (element, vertex slot) incidences of
`n`. -/
theorem ConList_incident (P : FPProc) (n : Nat) (hn : n < P.meshnode.length) :
    (∀ e j, e < P.meshelem.length → j < 3 → (P.elem e).p j = n →
        e ∈ ((OpenDocument_connections P).ConList.getD n []).take
          ((OpenDocument_connections P).NumList.getD n 0)) ∧
      (∀ e, e ∈ ((OpenDocument_connections P).ConList.getD n []).take
          ((OpenDocument_connections P).NumList.getD n 0) →
        e < P.meshelem.length ∧ ∃ j, j < 3 ∧ (P.elem e).p j = n) ∧
      (OpenDocument_connections P).NumList.getD n 0 = incidences P n := by
  obtain ⟨hcon, hnum⟩ := OpenDocument_connections_spec P n hn
  rw [hcon, hnum, List.take_length]
  refine ⟨fun e j he hj hp => ?_, fun e he => ?_, ?_⟩
  · exact (mem_incident P n e _).2 ⟨he, j, hj, hp⟩
  · exact (mem_incident P n e _).1 he
  · exact incident_length P n _

/-- C4, witness: node `2` of the unit square. -/
theorem ConList_incident_witness :
    2 < squareMesh.meshnode.length ∧
      (OpenDocument_connections squareMesh).NumList.getD 2 0 = incidences squareMesh 2 :=
  ⟨by decide, (ConList_incident squareMesh 2 (by decide)).2.2⟩

/-! ## Theorems: element flux density -/

theorem range_three : List.range 3 = [0, 1, 2] := rfl

theorem LengthConv_pos (u : Fin 6) : 0 < LengthConv u := by
  fin_cases u <;> simp [LengthConv]

theorem GetElementB_planar_eq (PI : ℚ) (P : FPProc) (elm : CPostProcMElement)
    (hpl : P.problemType = .PLANAR) :
    (GetElementB PI P elm).B1 =
        0 + (P.node (elm.p 0)).A * coefC P elm 0 / (coefDa P elm * LengthConv P.LengthUnits) +
          (P.node (elm.p 1)).A * coefC P elm 1 / (coefDa P elm * LengthConv P.LengthUnits) +
          (P.node (elm.p 2)).A * coefC P elm 2 / (coefDa P elm * LengthConv P.LengthUnits) ∧
      (GetElementB PI P elm).B2 =
        0 - (P.node (elm.p 0)).A * coefB P elm 0 / (coefDa P elm * LengthConv P.LengthUnits) -
          (P.node (elm.p 1)).A * coefB P elm 1 / (coefDa P elm * LengthConv P.LengthUnits) -
          (P.node (elm.p 2)).A * coefB P elm 2 / (coefDa P elm * LengthConv P.LengthUnits) := by
  simp only [GetElementB, if_pos hpl, range_three, List.foldl, coefDa, and_self]

/-- C5. In a planar problem `GetElementB` sets `B1 = Σ A_i c_i / (da·len)` and
`B2 = -Σ A_i b_i / (da·len)`; when the element has non-zero signed area and its
three nodal potentials are the values of an affine function
`α + β x + γ y` at the vertices, these are `B1 = γ / len` and
`B2 = -β / len`, with `len = LengthConv[LengthUnits]`. -/
theorem GetElementB_planar (PI : ℚ) (P : FPProc) (elm : CPostProcMElement)
    (hpl : P.problemType = .PLANAR) :
    ((GetElementB PI P elm).B1 =
        0 + (P.node (elm.p 0)).A * coefC P elm 0 / (coefDa P elm * LengthConv P.LengthUnits) +
          (P.node (elm.p 1)).A * coefC P elm 1 / (coefDa P elm * LengthConv P.LengthUnits) +
          (P.node (elm.p 2)).A * coefC P elm 2 / (coefDa P elm * LengthConv P.LengthUnits) ∧
      (GetElementB PI P elm).B2 =
        0 - (P.node (elm.p 0)).A * coefB P elm 0 / (coefDa P elm * LengthConv P.LengthUnits) -
          (P.node (elm.p 1)).A * coefB P elm 1 / (coefDa P elm * LengthConv P.LengthUnits) -
          (P.node (elm.p 2)).A * coefB P elm 2 / (coefDa P elm * LengthConv P.LengthUnits)) ∧
      ∀ α β γ : CComplex, coefDa P elm ≠ 0 →
        (∀ i, i < 3 →
          (P.node (elm.p i)).A = α + β * (P.node (elm.p i)).x + γ * (P.node (elm.p i)).y) →
        (GetElementB PI P elm).B1 = γ / LengthConv P.LengthUnits ∧
          (GetElementB PI P elm).B2 = -(β / LengthConv P.LengthUnits) := by
  refine ⟨GetElementB_planar_eq PI P elm hpl, fun α β γ hda hA => ?_⟩
  obtain ⟨h1, h2⟩ := GetElementB_planar_eq PI P elm hpl
  have hlen : LengthConv P.LengthUnits ≠ 0 := (LengthConv_pos _).ne'
  rw [h1, h2, hA 0 (by norm_num), hA 1 (by norm_num), hA 2 (by norm_num)]
  simp only [coefDa, coefB, coefC] at hda ⊢
  constructor
  · ext
    · simp only [CComplex.add_re, CComplex.zero_re, CComplex.divr_re, CComplex.mulr_re]
      field_simp
      ring
    · simp only [CComplex.add_im, CComplex.zero_im, CComplex.divr_im, CComplex.mulr_im]
      field_simp
      ring
  · ext
    · simp only [CComplex.add_re, CComplex.sub_re, CComplex.zero_re, CComplex.divr_re,
        CComplex.mulr_re, CComplex.neg_re]
      field_simp
      ring
    · simp only [CComplex.add_im, CComplex.sub_im, CComplex.zero_im, CComplex.divr_im,
        CComplex.mulr_im, CComplex.neg_im]
      field_simp
      ring

/-- C5, witness: the single triangle with `A = (0, 1, 0)`, that is `A = x`. -/
theorem GetElementB_planar_witness :
    triangleMesh.problemType = .PLANAR ∧
      (GetElementB 3 triangleMesh (triangleMesh.elem 0)).B1 = (0 : CComplex) / (1 : ℚ) ∧
      (GetElementB 3 triangleMesh (triangleMesh.elem 0)).B2 = -((⟨1, 0⟩ : CComplex) / (1 : ℚ)) :=
  ⟨rfl, (GetElementB_planar 3 triangleMesh (triangleMesh.elem 0) rfl).2 0 ⟨1, 0⟩ 0 (by decide!)
    (by
      intro i hi
      interval_cases i <;> decide!)⟩

theorem GetElementB_planar_PI (PI PI' : ℚ) (P : FPProc) (elm : CPostProcMElement)
    (hpl : P.problemType = .PLANAR) : GetElementB PI P elm = GetElementB PI' P elm := by
  simp only [GetElementB, if_pos hpl]

/-- C6 (amended). For the single-triangle planar mesh with nodes
`(0,0), (1,0), (0,1)`, nodal potentials `A = (0, 1, 0)`, unit depth, `f = 0` and
metres as length unit, `GetElementB` computes the element flux density
`B = (0, -1)`, so `|B|² = 1` and `|B| = 1`. -/
theorem GetElementB_triangle (PI : ℚ) :
    (GetElementB PI triangleMesh (triangleMesh.elem 0)).B1 = ⟨0, 0⟩ ∧
      (GetElementB PI triangleMesh (triangleMesh.elem 0)).B2 = ⟨-1, 0⟩ ∧
      magSq (GetElementB PI triangleMesh (triangleMesh.elem 0)).B1
        (GetElementB PI triangleMesh (triangleMesh.elem 0)).B2 = 1 ∧
      Real.sqrt ((magSq (GetElementB PI triangleMesh (triangleMesh.elem 0)).B1
        (GetElementB PI triangleMesh (triangleMesh.elem 0)).B2 : ℚ) : ℝ) = 1 := by
  rw [GetElementB_planar_PI PI 0 triangleMesh _ rfl]
  have h : magSq (GetElementB 0 triangleMesh (triangleMesh.elem 0)).B1
      (GetElementB 0 triangleMesh (triangleMesh.elem 0)).B2 = 1 := by decide!
  refine ⟨by decide!, by decide!, h, ?_⟩
  rw [h]
  simp

/-- C6, counterexample to the claim as stated: for that mesh no value of the
constant `PI` makes `GetElementB` compute `B = (-1, 1)`, and `|B|²` is not
`2`. -/
theorem GetElementB_triangle_counterexample :
    ¬ ∃ PI : ℚ,
      ((GetElementB PI triangleMesh (triangleMesh.elem 0)).B1 = ⟨-1, 0⟩ ∧
        (GetElementB PI triangleMesh (triangleMesh.elem 0)).B2 = ⟨1, 0⟩) ∨
      magSq (GetElementB PI triangleMesh (triangleMesh.elem 0)).B1
        (GetElementB PI triangleMesh (triangleMesh.elem 0)).B2 = 2 := by
  rintro ⟨PI, h⟩
  rw [GetElementB_planar_PI PI 0 triangleMesh _ rfl] at h
  revert h
  decide!

/-! ## Theorems: block integrals -/

theorem blockLoop_five (P : FPProc) :
    blockLoop P 5 = (⟨((selectedElems P).map (elemArea P)).sum, 0⟩, 0) := by
  unfold blockLoop selectedElems
  refine foldl_range_invariant _
    (fun t zy => zy = ((⟨(((List.range t).filter
      (fun i => P.selected (P.elem i).lbl)).map (elemArea P)).sum, 0⟩ : CComplex), (0 : CComplex)))
    (0, 0) P.meshelem.length rfl ?_
  rintro t zy _ rfl
  simp only [List.range_succ, List.filter_append, List.map_append, List.sum_append]
  by_cases hsel : P.selected (P.elem t).lbl = true
  · simp only [if_pos hsel, List.filter_cons, hsel, List.filter_nil, List.map_cons, List.map_nil,
      List.sum_cons, List.sum_nil, add_zero, if_true]
    rfl
  · simp only [Bool.not_eq_true] at hsel
    simp [List.filter_cons, hsel]

theorem blockLoop_twentyfive (P : FPProc) :
    blockLoop P 25 =
      (0, ⟨((selectedElems P).map (fun i => (P.elem i).ctr.re * elemArea P i)).sum,
        ((selectedElems P).map (fun i => (P.elem i).ctr.im * elemArea P i)).sum⟩) := by
  unfold blockLoop selectedElems
  refine foldl_range_invariant _
    (fun t zy => zy = ((0 : CComplex),
      (⟨(((List.range t).filter (fun i => P.selected (P.elem i).lbl)).map
          (fun i => (P.elem i).ctr.re * elemArea P i)).sum,
        (((List.range t).filter (fun i => P.selected (P.elem i).lbl)).map
          (fun i => (P.elem i).ctr.im * elemArea P i)).sum⟩ : CComplex)))
    (0, 0) P.meshelem.length rfl ?_
  rintro t zy _ rfl
  simp only [List.range_succ, List.filter_append, List.map_append, List.sum_append]
  by_cases hsel : P.selected (P.elem t).lbl = true
  · simp only [if_pos hsel, List.filter_cons, hsel, List.filter_nil, List.map_cons, List.map_nil,
      List.sum_cons, List.sum_nil, add_zero, if_true]
  · simp only [Bool.not_eq_true] at hsel
    simp [List.filter_cons, hsel]

/-- C7. `BlockIntegral(5)` is the sum over the elements whose block label is
selected of `ElmArea(i)·len²`, where `ElmArea` is the signed area
`(b0·c1 - b1·c0)/2`; with nothing selected it is `0`; for the single selected
triangle `(0,0), (1,0), (0,1)` in metres it is `1/2`. -/
theorem BlockIntegral_area (P : FPProc) :
    BlockIntegral P 5 =
        some ⟨((selectedElems P).map
          (fun i => ElmArea P i * LengthConv P.LengthUnits ^ 2)).sum, 0⟩ ∧
      (∀ i, ElmArea P i =
        (coefB P (P.elem i) 0 * coefC P (P.elem i) 1 -
          coefB P (P.elem i) 1 * coefC P (P.elem i) 0) / 2) ∧
      (selectedElems P = [] → BlockIntegral P 5 = some 0) ∧
      BlockIntegral triangleMesh 5 = some ⟨1 / 2, 0⟩ := by
  have h : BlockIntegral P 5 =
      some ⟨((selectedElems P).map
        (fun i => ElmArea P i * LengthConv P.LengthUnits ^ 2)).sum, 0⟩ := by
    simp only [BlockIntegral, if_true, blockLoop_five]
    rfl
  refine ⟨h, fun i => rfl, fun hs => ?_, by decide!⟩
  rw [h, hs]
  rfl

/-- C8. When the total selected area is non-zero, `BlockIntegral(25)` is the
complex number `(Σ ctr_i·a_i) / (Σ a_i)` over the selected elements, `a_i` the
element area; when a single element is selected it is the centroid `ctr` of
that element. -/
theorem BlockIntegral_centroid (P : FPProc)
    (harea : ((selectedElems P).map (elemArea P)).sum ≠ 0) :
    BlockIntegral P 25 =
        some ⟨((selectedElems P).map (fun i => (P.elem i).ctr.re * elemArea P i)).sum /
            ((selectedElems P).map (elemArea P)).sum,
          ((selectedElems P).map (fun i => (P.elem i).ctr.im * elemArea P i)).sum /
            ((selectedElems P).map (elemArea P)).sum⟩ ∧
      ∀ e, selectedElems P = [e] → BlockIntegral P 25 = some (P.elem e).ctr := by
  have h : BlockIntegral P 25 =
      some ⟨((selectedElems P).map (fun i => (P.elem i).ctr.re * elemArea P i)).sum /
          ((selectedElems P).map (elemArea P)).sum,
        ((selectedElems P).map (fun i => (P.elem i).ctr.im * elemArea P i)).sum /
          ((selectedElems P).map (elemArea P)).sum⟩ := by
    simp only [BlockIntegral, blockLoop_five, blockLoop_twentyfive]
    rfl
  refine ⟨h, fun e he => ?_⟩
  rw [h]
  rw [he] at harea ⊢
  simp only [List.map_cons, List.map_nil, List.sum_cons, List.sum_nil, add_zero] at harea ⊢
  rw [mul_div_assoc, mul_div_assoc, div_self harea, mul_one, mul_one]

/-- C8, witness: the loaded single triangle, whose centroid is `(1/3, 1/3)`. -/
theorem BlockIntegral_centroid_witness :
    ((selectedElems (OpenDocument_centroids triangleMesh)).map
        (elemArea (OpenDocument_centroids triangleMesh))).sum ≠ 0 ∧
      BlockIntegral (OpenDocument_centroids triangleMesh) 25 = some ⟨1 / 3, 1 / 3⟩ :=
  ⟨by decide!,
    ((BlockIntegral_centroid (OpenDocument_centroids triangleMesh) (by decide!)).2 0
      (by decide!)).trans (by decide!)⟩

/-! ## Theorems: point values -/

theorem GetPointB_smooth_eq (P : FPProc) (elm : CPostProcMElement) (hs : P.Smooth = true)
    (x y : ℚ) :
    GetPointB P x y elm =
      (0 + elm.b1 0 * (coefA P elm 0 + coefB P elm 0 * x + coefC P elm 0 * y) / coefDa P elm +
          elm.b1 1 * (coefA P elm 1 + coefB P elm 1 * x + coefC P elm 1 * y) / coefDa P elm +
          elm.b1 2 * (coefA P elm 2 + coefB P elm 2 * x + coefC P elm 2 * y) / coefDa P elm,
        0 + elm.b2 0 * (coefA P elm 0 + coefB P elm 0 * x + coefC P elm 0 * y) / coefDa P elm +
          elm.b2 1 * (coefA P elm 1 + coefB P elm 1 * x + coefC P elm 1 * y) / coefDa P elm +
          elm.b2 2 * (coefA P elm 2 + coefB P elm 2 * x + coefC P elm 2 * y) / coefDa P elm) := by
  simp only [GetPointB, hs, range_three, List.foldl, coefDa]
  rfl

/-- C9. `GetPointB` returns the element's `B1`, `B2` when `Smooth` is false.
When `Smooth` is true it returns `Σ b[i]·(a_i + b_i x + c_i y)/da`; for an
element with `da ≠ 0` the value at vertex `j` is the smoothed nodal value
`(b1[j], b2[j])`, and when the three nodal values are equal the value at every
point is that common value. -/
theorem GetPointB_interpolates (P : FPProc) (elm : CPostProcMElement) :
    (P.Smooth = false → ∀ x y, GetPointB P x y elm = (elm.B1, elm.B2)) ∧
      (P.Smooth = true →
        (∀ x y, GetPointB P x y elm =
          (0 + elm.b1 0 * (coefA P elm 0 + coefB P elm 0 * x + coefC P elm 0 * y) / coefDa P elm +
              elm.b1 1 * (coefA P elm 1 + coefB P elm 1 * x + coefC P elm 1 * y) / coefDa P elm +
              elm.b1 2 * (coefA P elm 2 + coefB P elm 2 * x + coefC P elm 2 * y) / coefDa P elm,
            0 + elm.b2 0 * (coefA P elm 0 + coefB P elm 0 * x + coefC P elm 0 * y) / coefDa P elm +
              elm.b2 1 * (coefA P elm 1 + coefB P elm 1 * x + coefC P elm 1 * y) / coefDa P elm +
              elm.b2 2 * (coefA P elm 2 + coefB P elm 2 * x + coefC P elm 2 * y) /
                coefDa P elm)) ∧
        (coefDa P elm ≠ 0 → ∀ j, j < 3 →
          GetPointB P (P.node (elm.p j)).x (P.node (elm.p j)).y elm = (elm.b1 j, elm.b2 j)) ∧
        (coefDa P elm ≠ 0 → ∀ v w : CComplex,
          (∀ i, i < 3 → elm.b1 i = v) → (∀ i, i < 3 → elm.b2 i = w) →
          ∀ x y, GetPointB P x y elm = (v, w))) := by
  refine ⟨fun hs x y => by simp [GetPointB, hs], fun hs =>
    ⟨GetPointB_smooth_eq P elm hs, fun hda j hj => ?_, fun hda v w hv hw x y => ?_⟩⟩
  · rw [GetPointB_smooth_eq P elm hs]
    simp only [coefDa, coefA, coefB, coefC] at hda ⊢
    interval_cases j
    all_goals
      refine Prod.ext (CComplex.ext ?_ ?_) (CComplex.ext ?_ ?_)
      all_goals
        simp only [CComplex.add_re, CComplex.add_im, CComplex.zero_re, CComplex.zero_im,
          CComplex.divr_re, CComplex.divr_im, CComplex.mulr_re, CComplex.mulr_im]
        field_simp
        ring
  · rw [GetPointB_smooth_eq P elm hs, hv 0 (by norm_num), hv 1 (by norm_num),
      hv 2 (by norm_num), hw 0 (by norm_num), hw 1 (by norm_num), hw 2 (by norm_num)]
    simp only [coefDa, coefA, coefB, coefC] at hda ⊢
    refine Prod.ext (CComplex.ext ?_ ?_) (CComplex.ext ?_ ?_)
    all_goals
      simp only [CComplex.add_re, CComplex.add_im, CComplex.zero_re, CComplex.zero_im,
        CComplex.divr_re, CComplex.divr_im, CComplex.mulr_re, CComplex.mulr_im]
      field_simp
      ring

/-- C9, witness: with smoothing on, the value at vertex `1` of the triangle
`(0,0), (1,0), (0,1)` with nodal values `b1 = (1, 2, 3)`, `b2 = (4, 5, 6)` is
`(2, 5)`. -/
theorem GetPointB_interpolates_witness :
    smoothMesh.Smooth = true ∧ coefDa smoothMesh smoothElem ≠ 0 ∧
      GetPointB smoothMesh 1 0 smoothElem = (⟨2, 0⟩, ⟨5, 0⟩) :=
  ⟨rfl, by decide!,
    ((GetPointB_interpolates smoothMesh smoothElem).2 rfl).2.1 (by decide!) 1 (by decide)⟩

/-- C10 (amended). When both ends of the contour are found in the mesh,
`LineIntegral(0)` sets `z[0]` to `(A_start - A_end)·Depth` in a planar problem
and to `A_end - A_start` in an axisymmetric problem, where `A_start` and
`A_end` are the potentials interpolated at the first and at the last point of
the contour. -/
theorem LineIntegral0_flux (P : FPProc) (kc : Int) (uA : CComplex)
    (h0 : 0 ≤ (InTriangle P kc (P.contour.getD 0 0).re (P.contour.getD 0 0).im).1)
    (h1 : 0 ≤ (InTriangle P
      (InTriangle P kc (P.contour.getD 0 0).re (P.contour.getD 0 0).im).2
      (P.contour.getD (P.contour.length - 1) 0).re
      (P.contour.getD (P.contour.length - 1) 0).im).1) :
    LineIntegral0 P kc uA =
      if P.problemType = .PLANAR then
        (pointA P (P.contour.getD 0 0).re (P.contour.getD 0 0).im
            (InTriangle P kc (P.contour.getD 0 0).re (P.contour.getD 0 0).im).1.toNat -
          pointA P (P.contour.getD (P.contour.length - 1) 0).re
            (P.contour.getD (P.contour.length - 1) 0).im
            (InTriangle P
              (InTriangle P kc (P.contour.getD 0 0).re (P.contour.getD 0 0).im).2
              (P.contour.getD (P.contour.length - 1) 0).re
              (P.contour.getD (P.contour.length - 1) 0).im).1.toNat) * P.Depth
      else
        pointA P (P.contour.getD (P.contour.length - 1) 0).re
            (P.contour.getD (P.contour.length - 1) 0).im
            (InTriangle P
              (InTriangle P kc (P.contour.getD 0 0).re (P.contour.getD 0 0).im).2
              (P.contour.getD (P.contour.length - 1) 0).re
              (P.contour.getD (P.contour.length - 1) 0).im).1.toNat -
          pointA P (P.contour.getD 0 0).re (P.contour.getD 0 0).im
            (InTriangle P kc (P.contour.getD 0 0).re (P.contour.getD 0 0).im).1.toNat := by
  simp only [LineIntegral0, GetPointValues, if_neg (not_lt.mpr h0), if_neg (not_lt.mpr h1)]

/-- C10, witness: the unit square meshed as two triangles with `A = y`, planar,
unit depth: the contour `(0,0) → (1,0)` gives `0` and `(0,0) → (0,1)` gives
`-1`. -/
theorem LineIntegral0_flux_witness :
    LineIntegral0 (squareFlux [⟨0, 0⟩, ⟨1, 0⟩] .PLANAR) 0 0 = ⟨0, 0⟩ ∧
      LineIntegral0 (squareFlux [⟨0, 0⟩, ⟨0, 1⟩] .PLANAR) 0 0 = ⟨-1, 0⟩ :=
  ⟨(LineIntegral0_flux (squareFlux [⟨0, 0⟩, ⟨1, 0⟩] .PLANAR) 0 0 (by decide!)
      (by decide!)).trans (by decide!),
    (LineIntegral0_flux (squareFlux [⟨0, 0⟩, ⟨0, 1⟩] .PLANAR) 0 0 (by decide!)
      (by decide!)).trans (by decide!)⟩

/-- C10, counterexample to the claim as stated: in the axisymmetric unit
square with `A = y`, both ends of the contour `(0,0) → (0,1)` are found,
`A_start - A_end = -1`, and `LineIntegral(0)` sets `z[0] = 1`. -/
theorem LineIntegral0_flux_counterexample :
    (InTriangle (squareFlux [⟨0, 0⟩, ⟨0, 1⟩] .AXISYMMETRIC) 0 0 0).1 = 0 ∧
      (InTriangle (squareFlux [⟨0, 0⟩, ⟨0, 1⟩] .AXISYMMETRIC) 0 0 1).1 = 1 ∧
      pointA (squareFlux [⟨0, 0⟩, ⟨0, 1⟩] .AXISYMMETRIC) 0 0 0 -
        pointA (squareFlux [⟨0, 0⟩, ⟨0, 1⟩] .AXISYMMETRIC) 0 1 1 = ⟨-1, 0⟩ ∧
      LineIntegral0 (squareFlux [⟨0, 0⟩, ⟨0, 1⟩] .AXISYMMETRIC) 0 0 = ⟨1, 0⟩ := by
  decide!

/-! ## Theorems: contour bending -/

theorem foldl_push {α : Type} (f : Nat → α) (n : Nat) (l : List α) :
    (List.range n).foldl (fun ct i => ct ++ [f i]) l = l ++ (List.range n).map f := by
  induction n with
  | zero => simp
  | succ n ih =>
    rw [List.range_succ, List.foldl_append, ih, List.map_append, ← List.append_assoc]
    rfl

/-- What `BendContour` leaves when it does not return early: the contour
without its last point, followed by the points of the arc. -/
theorem BendContour_eq {K : Type} [LinearOrderedField K] [FloorRing K] (E : MathEnv K)
    (angle anglestep : K) (contour : List (Cx K)) (hs : 2 ≤ contour.length) (ha0 : angle ≠ 0)
    (ha : |angle| ≤ 180) :
    BendContour E angle anglestep contour =
      contour.take (contour.length - 1) ++
        (List.range ⌈|angle / (if anglestep = 0 then 1 else anglestep)|⌉.toNat).map
          (fun i =>
            bendCentre E (contour.getD (contour.length - 2) 0)
                (contour.getD (contour.length - 1) 0) (angle * E.PI / 180) +
              (contour.getD (contour.length - 2) 0 -
                  bendCentre E (contour.getD (contour.length - 2) 0)
                    (contour.getD (contour.length - 1) 0) (angle * E.PI / 180)) *
                cexp E ((((i + 1 : Nat) : K) * (Cx.I : Cx K)) *
                  (angle * E.PI / 180 /
                    ((⌈|angle / (if anglestep = 0 then 1 else anglestep)|⌉ : Int) : K)))) := by
  have hk : ¬ ((contour.length : Int) - 1 < 1) := by omega
  have hrange : ¬ (angle < -180 ∨ angle > 180) := by
    rw [abs_le] at ha
    rintro (h | h)
    · linarith [ha.1]
    · linarith [ha.2]
  have hidx : ((contour.length : Int) - 1).toNat = contour.length - 1 := by omega
  have hidx2 : ((contour.length : Int) - 1 - 1).toNat = contour.length - 2 := by omega
  have herase : contour.eraseIdx (contour.length - 1) = contour.take (contour.length - 1) := by
    rw [List.eraseIdx_eq_take_drop_succ, show contour.length - 1 + 1 = contour.length by omega,
      List.drop_length, List.append_nil]
  have hget : (contour.take (contour.length - 1)).getD (contour.length - 2) 0 =
      contour.getD (contour.length - 2) 0 := by
    simp only [List.getD_eq_getElem?_getD]
    rw [List.getElem?_take_of_lt (by omega)]
  simp only [BendContour, if_neg ha0, if_neg hk, if_neg hrange, hidx, hidx2, herase, hget]
  rw [foldl_push]

/-- C11. For a contour of `s ≥ 2` points, an angle with `0 < |angle| ≤ 180` and
`anglestep ≠ 0`, `BendContour` leaves the first `s - 1` points unchanged and
makes the contour have exactly `s - 1 + n` points with
`n = ⌈|angle / anglestep|⌉ ≥ 1`: the last segment is replaced by `n` straight
pieces. -/
theorem BendContour_length {K : Type} [LinearOrderedField K] [FloorRing K] (E : MathEnv K)
    (angle anglestep : K) (contour : List (Cx K)) (hs : 2 ≤ contour.length) (ha0 : angle ≠ 0)
    (ha : |angle| ≤ 180) (hstep : anglestep ≠ 0) :
    ((BendContour E angle anglestep contour).length : Int) =
        (contour.length : Int) - 1 + ⌈|angle / anglestep|⌉ ∧
      (BendContour E angle anglestep contour).take (contour.length - 1) =
        contour.take (contour.length - 1) ∧
      1 ≤ ⌈|angle / anglestep|⌉ := by
  have hn : 1 ≤ ⌈|angle / anglestep|⌉ := by
    have hpos : 0 < |angle / anglestep| := abs_pos.mpr (div_ne_zero ha0 hstep)
    have := Int.ceil_pos.mpr hpos
    omega
  rw [BendContour_eq E angle anglestep contour hs ha0 ha, if_neg hstep]
  refine ⟨?_, ?_, hn⟩
  · rw [List.length_append, List.length_map, List.length_range, List.length_take]
    push_cast
    rw [Int.toNat_of_nonneg (by omega), min_eq_left (by omega)]
    omega
  · rw [List.take_append_of_le_length (by rw [List.length_take]; omega), List.take_take,
      min_self]

/-- C11, witness: bending the contour `(0,0), (1,0), (2,0)` by 90 degrees in
steps of 25 degrees leaves `2 + 4` points, the first two unchanged. -/
theorem BendContour_length_witness :
    ((BendContour stubEnv 90 25 [⟨0, 0⟩, ⟨1, 0⟩, ⟨2, 0⟩]).length : Int) = 3 - 1 + 4 ∧
      (BendContour stubEnv 90 25 [⟨0, 0⟩, ⟨1, 0⟩, ⟨2, 0⟩]).take 2 = [⟨0, 0⟩, ⟨1, 0⟩] := by
  have h := BendContour_length stubEnv 90 25 [⟨0, 0⟩, ⟨1, 0⟩, ⟨2, 0⟩] (by decide)
    (by norm_num) (by norm_num [abs_le]) (by norm_num)
  have hc : ⌈|(90 : ℚ) / 25|⌉ = 4 := by
    rw [Int.ceil_eq_iff]
    norm_num [abs_of_pos]
  rw [hc] at h
  exact ⟨h.1, h.2.1⟩

/-! ## Theorems: the arc of a bent contour -/

theorem cx_add_re {K : Type} [Field K] (a b : Cx K) : (a + b).re = a.re + b.re := rfl

theorem cx_add_im {K : Type} [Field K] (a b : Cx K) : (a + b).im = a.im + b.im := rfl

theorem cx_sub_re {K : Type} [Field K] (a b : Cx K) : (a - b).re = a.re - b.re := rfl

theorem cx_sub_im {K : Type} [Field K] (a b : Cx K) : (a - b).im = a.im - b.im := rfl

theorem cx_neg_re {K : Type} [Field K] (a : Cx K) : (-a).re = -a.re := rfl

theorem cx_neg_im {K : Type} [Field K] (a : Cx K) : (-a).im = -a.im := rfl

theorem cx_mul_re {K : Type} [Field K] (a b : Cx K) :
    (a * b).re = a.re * b.re - a.im * b.im := rfl

theorem cx_mul_im {K : Type} [Field K] (a b : Cx K) :
    (a * b).im = a.re * b.im + a.im * b.re := rfl

theorem cx_mulr_re {K : Type} [Field K] (a : Cx K) (r : K) : (a * r).re = a.re * r := rfl

theorem cx_mulr_im {K : Type} [Field K] (a : Cx K) (r : K) : (a * r).im = a.im * r := rfl

theorem cx_rmul_re {K : Type} [Field K] (r : K) (a : Cx K) : (r * a).re = r * a.re := rfl

theorem cx_rmul_im {K : Type} [Field K] (r : K) (a : Cx K) : (r * a).im = r * a.im := rfl

theorem cx_divr_re {K : Type} [Field K] (a : Cx K) (r : K) : (a / r).re = a.re / r := rfl

theorem cx_divr_im {K : Type} [Field K] (a : Cx K) (r : K) : (a / r).im = a.im / r := rfl

theorem cx_zero_re {K : Type} [Field K] : (0 : Cx K).re = 0 := rfl

theorem cx_zero_im {K : Type} [Field K] : (0 : Cx K).im = 0 := rfl

theorem cx_I_re {K : Type} [Field K] : (Cx.I : Cx K).re = 0 := rfl

theorem cx_I_im {K : Type} [Field K] : (Cx.I : Cx K).im = 1 := rfl

/-- The arc centre over the reals: the midpoint of `a0 a1` moved along the
perpendicular by `cot(tta/2)/2` times the chord. -/
theorem bendCentre_real (E : MathEnv ℝ) (hpi : E.PI = Real.pi) (hsin : E.sin = Real.sin)
    (hcos : E.cos = Real.cos) (hexp : E.exp = Real.exp) (hsqrt : E.sqrt = Real.sqrt)
    (a0 a1 : Cx ℝ) (hne : a0 ≠ a1) (tta : ℝ) (ht0 : tta ≠ 0) (ht : |tta| ≤ Real.pi) :
    bendCentre E a0 a1 tta =
      ⟨a0.re + ((a1.re - a0.re) / 2 -
          (a1.im - a0.im) * Real.cos (tta / 2) / (2 * Real.sin (tta / 2))),
        a0.im + ((a1.im - a0.im) / 2 +
          (a1.re - a0.re) * Real.cos (tta / 2) / (2 * Real.sin (tta / 2)))⟩ := by
  have hd : Real.sqrt ((a1.re - a0.re) * (a1.re - a0.re) + (a1.im - a0.im) * (a1.im - a0.im)) ≠ 0 := by
    intro h
    rw [Real.sqrt_eq_zero (by nlinarith [mul_self_nonneg (a1.re - a0.re), mul_self_nonneg (a1.im - a0.im)])] at h
    apply hne
    have h1 : a1.re - a0.re = 0 := by nlinarith [mul_self_nonneg (a1.re - a0.re), mul_self_nonneg (a1.im - a0.im)]
    have h2 : a1.im - a0.im = 0 := by nlinarith [mul_self_nonneg (a1.re - a0.re), mul_self_nonneg (a1.im - a0.im)]
    ext <;> linarith
  rw [abs_le] at ht
  unfold bendCentre
  simp only [cabs, cexp, hpi, hsin, hcos, hexp, hsqrt, cx_sub_re, cx_sub_im, cx_mulr_re, cx_mulr_im, cx_divr_re, cx_divr_im, cx_I_re, cx_I_im, cx_neg_re, cx_neg_im, zero_mul, neg_zero, zero_div, Real.exp_zero, one_mul]
  rcases lt_or_gt_of_ne ht0 with hneg | hpos
  · rw [if_neg (by linarith)]
    have habs : |tta / 2| = -(tta / 2) := abs_of_neg (by linarith)
    have hs : Real.sin (tta / 2) < 0 :=
      Real.sin_neg_of_neg_of_neg_pi_lt (by linarith) (by linarith [Real.pi_pos])
    have e1 : -1 * (Real.pi + tta) / 2 = -(Real.pi / 2 + tta / 2) := by ring
    rw [habs, e1, Real.sin_neg, Real.cos_neg, Real.sin_neg, Real.cos_add, Real.sin_add]
    simp only [Real.cos_pi_div_two, Real.sin_pi_div_two]
    have hs' : Real.sin (tta / 2) ≠ 0 := hs.ne
    generalize Real.sin (tta / 2) = s at hs' ⊢
    generalize Real.cos (tta / 2) = c
    generalize Real.sqrt ((a1.re - a0.re) * (a1.re - a0.re) +
      (a1.im - a0.im) * (a1.im - a0.im)) = d at hd ⊢
    ext
    · simp only [cx_add_re, cx_mul_re, cx_rmul_re, cx_rmul_im, cx_sub_re, cx_sub_im]
      field_simp
      ring
    · simp only [cx_add_im, cx_mul_im, cx_rmul_re, cx_rmul_im, cx_sub_re, cx_sub_im]
      field_simp
      ring
  · rw [if_pos hpos]
    have habs : |tta / 2| = tta / 2 := abs_of_pos (by linarith)
    have hs : 0 < Real.sin (tta / 2) := Real.sin_pos_of_pos_of_lt_pi (by linarith) (by linarith [Real.pi_pos])
    have e1 : (Real.pi - tta) / 2 = Real.pi / 2 - tta / 2 := by ring
    rw [habs, e1, Real.cos_pi_div_two_sub, Real.sin_pi_div_two_sub]
    have hs' : Real.sin (tta / 2) ≠ 0 := hs.ne'
    generalize Real.sin (tta / 2) = s at hs' ⊢
    generalize Real.cos (tta / 2) = c
    generalize Real.sqrt ((a1.re - a0.re) * (a1.re - a0.re) +
      (a1.im - a0.im) * (a1.im - a0.im)) = d at hd ⊢
    ext
    · simp only [cx_add_re, cx_mul_re, cx_rmul_re, cx_rmul_im, cx_sub_re, cx_sub_im]
      field_simp
      ring
    · simp only [cx_add_im, cx_mul_im, cx_rmul_re, cx_rmul_im, cx_sub_re, cx_sub_im]
      field_simp
      ring

theorem cabs_real_rot (E : MathEnv ℝ) (z : Cx ℝ) (θ : ℝ) :
    cabs E (z * ⟨Real.cos θ, Real.sin θ⟩) = cabs E z := by
  simp only [cabs, cx_mul_re, cx_mul_im]
  congr 1
  have h := Real.sin_sq_add_cos_sq θ
  linear_combination (z.re * z.re + z.im * z.im) * h

theorem cexp_real_turn (E : MathEnv ℝ) (hsin : E.sin = Real.sin) (hcos : E.cos = Real.cos)
    (hexp : E.exp = Real.exp) (k dtta : ℝ) :
    cexp E ((k * (Cx.I : Cx ℝ)) * dtta) = ⟨Real.cos (k * dtta), Real.sin (k * dtta)⟩ := by
  simp only [cexp, hsin, hcos, hexp, cx_mulr_re, cx_mulr_im, cx_rmul_re, cx_rmul_im, cx_I_re,
    cx_I_im, mul_zero, zero_mul, Real.exp_zero, one_mul, mul_one]

theorem bend_radius_real (E : MathEnv ℝ) (hpi : E.PI = Real.pi) (hsin : E.sin = Real.sin)
    (hcos : E.cos = Real.cos) (hexp : E.exp = Real.exp) (hsqrt : E.sqrt = Real.sqrt)
    (a0 a1 : Cx ℝ) (hne : a0 ≠ a1) (tta : ℝ) (ht0 : tta ≠ 0) (ht : |tta| ≤ Real.pi) :
    cabs E (a0 - bendCentre E a0 a1 tta) = cabs E (a1 - a0) / (2 * Real.sin |tta / 2|) := by
  rw [bendCentre_real E hpi hsin hcos hexp hsqrt a0 a1 hne tta ht0 ht]
  have hsabs : Real.sin |tta / 2| = |Real.sin (tta / 2)| := by
    rw [abs_le] at ht
    rcases lt_or_gt_of_ne ht0 with hneg | hpos
    · rw [abs_of_neg (by linarith), Real.sin_neg, abs_of_neg]
      exact Real.sin_neg_of_neg_of_neg_pi_lt (by linarith) (by linarith [Real.pi_pos])
    · rw [abs_of_pos (by linarith), abs_of_pos]
      exact Real.sin_pos_of_pos_of_lt_pi (by linarith) (by linarith [Real.pi_pos])
  have hs' : Real.sin (tta / 2) ≠ 0 := by
    rw [abs_le] at ht
    rcases lt_or_gt_of_ne ht0 with hneg | hpos
    · exact (Real.sin_neg_of_neg_of_neg_pi_lt (by linarith) (by linarith [Real.pi_pos])).ne
    · exact (Real.sin_pos_of_pos_of_lt_pi (by linarith) (by linarith [Real.pi_pos])).ne'
  have hsc := Real.sin_sq_add_cos_sq (tta / 2)
  rw [hsabs]
  simp only [cabs, hsqrt, cx_sub_re, cx_sub_im]
  generalize Real.sin (tta / 2) = s at hs' hsc ⊢
  generalize Real.cos (tta / 2) = c at hsc ⊢
  have h4 : (2 * |s|) = Real.sqrt (4 * s ^ 2) := by
    rw [show (4 : ℝ) * s ^ 2 = (2 * s) ^ 2 by ring, Real.sqrt_sq_eq_abs, abs_mul]
    norm_num
  have hX : 0 ≤ (a1.re - a0.re) * (a1.re - a0.re) + (a1.im - a0.im) * (a1.im - a0.im) :=
    add_nonneg (mul_self_nonneg _) (mul_self_nonneg _)
  rw [h4, ← Real.sqrt_div hX]
  congr 1
  field_simp
  linear_combination ((a1.re - a0.re) ^ 2 + (a1.im - a0.im) ^ 2) * 16 * s ^ 2 * hsc

theorem bend_end_real (E : MathEnv ℝ) (hpi : E.PI = Real.pi) (hsin : E.sin = Real.sin)
    (hcos : E.cos = Real.cos) (hexp : E.exp = Real.exp) (hsqrt : E.sqrt = Real.sqrt)
    (a0 a1 : Cx ℝ) (hne : a0 ≠ a1) (tta : ℝ) (ht0 : tta ≠ 0) (ht : |tta| ≤ Real.pi) :
    bendCentre E a0 a1 tta +
      (a0 - bendCentre E a0 a1 tta) * ⟨Real.cos tta, Real.sin tta⟩ = a1 := by
  rw [bendCentre_real E hpi hsin hcos hexp hsqrt a0 a1 hne tta ht0 ht]
  have hs' : Real.sin (tta / 2) ≠ 0 := by
    rw [abs_le] at ht
    rcases lt_or_gt_of_ne ht0 with hneg | hpos
    · exact (Real.sin_neg_of_neg_of_neg_pi_lt (by linarith) (by linarith [Real.pi_pos])).ne
    · exact (Real.sin_pos_of_pos_of_lt_pi (by linarith) (by linarith [Real.pi_pos])).ne'
  have hsc := Real.sin_sq_add_cos_sq (tta / 2)
  have hC : Real.cos tta = 1 - 2 * Real.sin (tta / 2) ^ 2 := by
    have := Real.cos_two_mul (tta / 2)
    rw [show 2 * (tta / 2) = tta by ring] at this
    rw [this]
    linear_combination (2 : ℝ) * hsc
  have hS : Real.sin tta = 2 * Real.sin (tta / 2) * Real.cos (tta / 2) := by
    have := Real.sin_two_mul (tta / 2)
    rwa [show 2 * (tta / 2) = tta by ring] at this
  rw [hC, hS]
  generalize Real.sin (tta / 2) = s at hs' hsc ⊢
  generalize Real.cos (tta / 2) = c at hsc ⊢
  ext
  · simp only [cx_add_re, cx_mul_re, cx_sub_re, cx_sub_im]
    field_simp
    linear_combination (4 * s * (a1.re - a0.re)) * hsc
  · simp only [cx_add_im, cx_mul_im, cx_sub_re, cx_sub_im]
    field_simp
    linear_combination (4 * s * (a1.im - a0.im)) * hsc

theorem getD_map_range {α : Type} (f : Nat → α) (n j : Nat) (d : α) (hj : j < n) :
    ((List.range n).map f).getD j d = f j := by
  simp [List.getD_eq_getElem?_getD, List.getElem?_range, hj]

/-- C12. Over the reals, for a contour whose last two points `a0 ≠ a1` and an
angle with `0 < |angle| ≤ 180` of either sign, after `BendContour` the final
contour point is the original last point `a1`, and `a0` and every added point
lie at the distance `R = |a1 - a0| / (2 sin(|angle|·π/360))` from the arc
centre `c`. -/
theorem BendContour_circle (E : MathEnv ℝ) (hE : E.IsReal) (angle anglestep : ℝ)
    (contour : List (Cx ℝ)) (hs : 2 ≤ contour.length)
    (hne : contour.getD (contour.length - 2) 0 ≠ contour.getD (contour.length - 1) 0)
    (ha0 : angle ≠ 0) (ha : |angle| ≤ 180) :
    (BendContour E angle anglestep contour).getD
        ((BendContour E angle anglestep contour).length - 1) 0 =
        contour.getD (contour.length - 1) 0 ∧
      cabs E (contour.getD (contour.length - 2) 0 -
          bendCentre E (contour.getD (contour.length - 2) 0)
            (contour.getD (contour.length - 1) 0) (angle * E.PI / 180)) =
        cabs E (contour.getD (contour.length - 1) 0 - contour.getD (contour.length - 2) 0) /
          (2 * Real.sin (|angle| * Real.pi / 360)) ∧
      ∀ i, contour.length - 1 ≤ i → i < (BendContour E angle anglestep contour).length →
        cabs E ((BendContour E angle anglestep contour).getD i 0 -
          bendCentre E (contour.getD (contour.length - 2) 0)
            (contour.getD (contour.length - 1) 0) (angle * E.PI / 180)) =
        cabs E (contour.getD (contour.length - 1) 0 - contour.getD (contour.length - 2) 0) /
          (2 * Real.sin (|angle| * Real.pi / 360)) := by
  obtain ⟨hpi, hsin, hcos, hexp, hsqrt⟩ := hE
  have hstep : (if anglestep = 0 then (1 : ℝ) else anglestep) ≠ 0 := by
    split_ifs with h
    · exact one_ne_zero
    · exact h
  have hn : 1 ≤ ⌈|angle / (if anglestep = 0 then (1 : ℝ) else anglestep)|⌉ := by
    have hpos : 0 < |angle / (if anglestep = 0 then (1 : ℝ) else anglestep)| :=
      abs_pos.mpr (div_ne_zero ha0 hstep)
    have := Int.ceil_pos.mpr hpos
    omega
  have ht0 : angle * E.PI / 180 ≠ 0 := by
    rw [hpi]
    exact div_ne_zero (mul_ne_zero ha0 Real.pi_ne_zero) (by norm_num)
  have ht : |angle * E.PI / 180| ≤ Real.pi := by
    rw [hpi, abs_div, abs_mul, abs_of_pos Real.pi_pos, abs_of_pos (by norm_num : (0 : ℝ) < 180)]
    rw [div_le_iff₀ (by norm_num)]
    nlinarith [Real.pi_pos]
  have hR : Real.sin |angle * E.PI / 180 / 2| = Real.sin (|angle| * Real.pi / 360) := by
    congr 1
    rw [hpi, abs_div, abs_div, abs_mul, abs_of_pos Real.pi_pos,
      abs_of_pos (by norm_num : (0 : ℝ) < 180), abs_of_pos (by norm_num : (0 : ℝ) < 2)]
    ring
  have hrad := bend_radius_real E hpi hsin hcos hexp hsqrt _ _ hne _ ht0 ht
  rw [hR] at hrad
  have hend := bend_end_real E hpi hsin hcos hexp hsqrt _ _ hne _ ht0 ht
  rw [BendContour_eq E angle anglestep contour hs ha0 ha]
  generalize hN : ⌈|angle / (if anglestep = 0 then (1 : ℝ) else anglestep)|⌉ = n at hn
  have hlen : (contour.take (contour.length - 1)).length = contour.length - 1 := by
    rw [List.length_take]
    omega
  have hcast : ((n.toNat : ℕ) : ℝ) = (n : ℝ) := by
    have : ((n.toNat : ℕ) : ℤ) = n := Int.toNat_of_nonneg (by omega)
    exact_mod_cast this
  have hnR : (n : ℝ) ≠ 0 := by
    have : (1 : ℝ) ≤ (n : ℝ) := by exact_mod_cast hn
    linarith
  refine ⟨?_, hrad, ?_⟩
  · rw [List.length_append, List.length_map, List.length_range, hlen,
      List.getD_append_right _ _ _ _ (by rw [hlen]; omega), hlen,
      getD_map_range _ _ _ _ (by omega), cexp_real_turn E hsin hcos hexp]
    have hk : ((contour.length - 1 + n.toNat - 1 - (contour.length - 1) + 1 : ℕ) : ℝ) *
        (angle * E.PI / 180 / (n : ℝ)) = angle * E.PI / 180 := by
      rw [show contour.length - 1 + n.toNat - 1 - (contour.length - 1) + 1 = n.toNat by omega,
        hcast]
      field_simp
      ring
    rw [hk]
    exact hend
  · intro i hi1 hi2
    rw [List.length_append, List.length_map, List.length_range, hlen] at hi2
    rw [List.getD_append_right _ _ _ _ (by rw [hlen]; omega), hlen,
      getD_map_range _ _ _ _ (by omega), cexp_real_turn E hsin hcos hexp]
    have : ∀ c a z : Cx ℝ, c + (a - c) * z - c = (a - c) * z := by
      intro c a z
      ext
      · simp only [cx_sub_re, cx_add_re]
        ring
      · simp only [cx_sub_im, cx_add_im]
        ring
    rw [this, cabs_real_rot]
    exact hrad

/-- C12, witness: bending the contour `(0,0), (1,0)` by 90 degrees in steps of
30 degrees ends at `(1,0)` again. -/
theorem BendContour_circle_witness :
    (2 : ℕ) ≤ ([⟨0, 0⟩, ⟨1, 0⟩] : List (Cx ℝ)).length ∧ |(90 : ℝ)| ≤ 180 ∧
      (BendContour (⟨Real.pi, 1, Real.sin, Real.cos, Real.exp, Real.sqrt⟩ : MathEnv ℝ) 90 30
          [⟨0, 0⟩, ⟨1, 0⟩]).getD
        ((BendContour (⟨Real.pi, 1, Real.sin, Real.cos, Real.exp, Real.sqrt⟩ : MathEnv ℝ) 90 30
          [⟨0, 0⟩, ⟨1, 0⟩]).length - 1) 0 = ⟨1, 0⟩ :=
  ⟨by decide, by norm_num [abs_le],
    (BendContour_circle ⟨Real.pi, 1, Real.sin, Real.cos, Real.exp, Real.sqrt⟩
      ⟨rfl, rfl, rfl, rfl, rfl⟩ 90 30 [⟨0, 0⟩, ⟨1, 0⟩] (by decide)
      (by
        intro h
        have := congrArg Cx.re h
        simp at this)
      (by norm_num) (by norm_num [abs_le])).1⟩

/-! ## Theorems: air-gap harmonics -/

/-- C13. For an air-gap element with `N` pads the loader sets
`m = round(360/arc)`, `nn = ⌊N/2⌋ + 1` and `nh[j] = m·j` when the element is
periodic (`BdryFormat = 0`), and `m = round(180/arc)`, `nn = (N+1) div 2` and
`nh[j] = m·(2j+1)` otherwise, for every `j < nn`. -/
theorem OpenDocument_harmonics_orders {K : Type} [LinearOrderedField K] [FloorRing K]
    (E : MathEnv K) (age : CAirGapElement K) (hN : 0 < age.totalArcElements) :
    (age.BdryFormat = 0 →
        ageBaseOrder age = cround (360 / age.totalArcLength) ∧
          (OpenDocument_harmonics E age).nn = age.totalArcElements / 2 + 1 ∧
          ∀ j, j < (OpenDocument_harmonics E age).nn →
            (OpenDocument_harmonics E age).nh.getD j 0 =
              cround (360 / age.totalArcLength) * j) ∧
      (age.BdryFormat ≠ 0 →
        ageBaseOrder age = cround (180 / age.totalArcLength) ∧
          (OpenDocument_harmonics E age).nn = (age.totalArcElements + 1) / 2 ∧
          ∀ j, j < (OpenDocument_harmonics E age).nn →
            (OpenDocument_harmonics E age).nh.getD j 0 =
              cround (180 / age.totalArcLength) * (2 * j + 1)) ∧
      0 < (OpenDocument_harmonics E age).nn := by
  refine ⟨fun h => ⟨?_, ?_, fun j hj => ?_⟩, fun h => ⟨?_, ?_, fun j hj => ?_⟩, ?_⟩
  · simp [ageBaseOrder, h]
  · simp [OpenDocument_harmonics, ageCount, h]
  · have hj' : j < ageCount age := hj
    simp only [OpenDocument_harmonics]
    rw [getD_map_range _ _ _ _ hj']
    simp [ageOrder, ageBaseOrder, h]
  · simp [ageBaseOrder, h]
  · simp [OpenDocument_harmonics, ageCount, h]
  · have hj' : j < ageCount age := hj
    simp only [OpenDocument_harmonics]
    rw [getD_map_range _ _ _ _ hj']
    simp [ageOrder, ageBaseOrder, h]
  · show 0 < ageCount age
    unfold ageCount
    split_ifs <;> omega

/-- C13, witness: antiperiodic, `arc = 180`, `N = 18` gives `m = 1`, `nn = 9`
and `nh = 1, 3, 5, …, 17`. -/
theorem OpenDocument_harmonics_orders_witness :
    0 < age18.totalArcElements ∧ age18.BdryFormat ≠ 0 ∧ ageBaseOrder age18 = 1 ∧
      (OpenDocument_harmonics stubEnv age18).nn = 9 ∧
      (OpenDocument_harmonics stubEnv age18).nh = [1, 3, 5, 7, 9, 11, 13, 15, 17] ∧
      (OpenDocument_harmonics stubEnv age18).nh.getD 8 0 = cround ((180 : ℚ) / 180) * (2 * 8 + 1) :=
  ⟨by decide, by decide, by decide!, by decide!, by decide!,
    ((OpenDocument_harmonics_orders stubEnv age18 (by decide)).2.1 (by decide)).2.2 8
      (by decide!)⟩

/-! ## Theorems: air-gap queries -/

theorem ageScan_none {K : Type} (name : String) :
    ∀ (l : List (CAirGapElement K)) (k : Nat), (∀ a ∈ l, a.BdryName ≠ name) →
      ageScan name l k = -1 := by
  intro l
  induction l with
  | nil => intro k _; rfl
  | cons a rest ih =>
    intro k h
    simp only [ageScan]
    rw [if_neg (h a (List.mem_cons_self _ _))]
    exact ih (k + 1) (fun b hb => h b (List.mem_cons_of_mem _ hb))

theorem ageScan_some {K : Type} (name : String) (d : CAirGapElement K) :
    ∀ (l : List (CAirGapElement K)) (k : Nat), (∃ a ∈ l, a.BdryName = name) →
      ∃ i, i < l.length ∧ ageScan name l k = ((k + i : Nat) : Int) ∧
        (l.getD i d).BdryName = name ∧ ∀ j, j < i → (l.getD j d).BdryName ≠ name := by
  intro l
  induction l with
  | nil => intro k h; obtain ⟨a, ha, _⟩ := h; cases ha
  | cons a rest ih =>
    intro k h
    by_cases ha : a.BdryName = name
    · exact ⟨0, by simp, by simp [ageScan, ha], by simpa using ha, fun j hj => by omega⟩
    · have hrest : ∃ b ∈ rest, b.BdryName = name := by
        obtain ⟨b, hb, hbn⟩ := h
        rcases List.mem_cons.mp hb with rfl | hb'
        · exact absurd hbn ha
        · exact ⟨b, hb', hbn⟩
      obtain ⟨i, hi, hscan, hname, hmin⟩ := ih (k + 1) hrest
      refine ⟨i + 1, by simp; omega, ?_, by simpa using hname, fun j hj => ?_⟩
      · simp only [ageScan, if_neg ha, hscan]
        push_cast
        ring
      · cases j with
        | zero => simpa using ha
        | succ j => simpa using hmin j (by omega)

/-- `AGEBoundNumFromName` fails exactly when no air-gap element has the
name. -/
theorem AGEBoundNumFromName_false {K : Type} (S : FPProcGap K) (name : String) :
    (AGEBoundNumFromName S name).1 = false ↔ ∀ a ∈ S.agelist, a.BdryName ≠ name := by
  constructor
  · intro h a ha hn
    obtain ⟨i, _, hscan, _, _⟩ := ageScan_some name a S.agelist 0 ⟨a, ha, hn⟩
    simp only [AGEBoundNumFromName, hscan] at h
    rw [if_neg (by omega)] at h
    exact absurd h (by simp)
  · intro h
    simp [AGEBoundNumFromName, ageScan_none name S.agelist 0 h]

/-- When `AGEBoundNumFromName` succeeds, its index is that of the first air-gap
element with the name. -/
theorem AGEBoundNumFromName_true {K : Type} [Field K] (S : FPProcGap K) (name : String)
    (h : (AGEBoundNumFromName S name).1 = true) :
    ∃ i : Nat, (AGEBoundNumFromName S name).2 = (i : Int) ∧ i < S.agelist.length ∧
      (S.age i).BdryName = name ∧ ∀ j, j < i → (S.age j).BdryName ≠ name := by
  have hex : ∃ a ∈ S.agelist, a.BdryName = name := by
    by_contra hne
    push_neg at hne
    rw [(AGEBoundNumFromName_false S name).2 hne] at h
    exact absurd h (by simp)
  obtain ⟨i, hi, hscan, hname, hmin⟩ := ageScan_some name (mkAGE "" 0 0 0 0 0 [] []) S.agelist 0 hex
  refine ⟨i, ?_, hi, hname, hmin⟩
  simp only [AGEBoundNumFromName, hscan]
  rw [if_neg (by omega)]
  simp

theorem foldl_add_sum {M : Type} [AddCommMonoid M] (g : Nat → M) (n : Nat) :
    (List.range n).foldl (fun acc k => acc + g k) 0 = ((List.range n).map g).sum := by
  induction n with
  | zero => rfl
  | succ n ih =>
    rw [List.range_succ, List.foldl_append, ih, List.map_append, List.sum_append]
    simp

theorem cx_zero_mulr {K : Type} [Field K] (r : K) : (0 : Cx K) * r = 0 := by
  ext
  · simp [cx_mulr_re, cx_zero_re]
  · simp [cx_mulr_im, cx_zero_im]

theorem cx_add_zero {K : Type} [Field K] (a : Cx K) : a + 0 = a := by
  ext
  · simp [cx_add_re, cx_zero_re]
  · simp [cx_add_im, cx_zero_im]

theorem cx_zero_divr {K : Type} [Field K] (r : K) : (0 : Cx K) / r = 0 := by
  ext
  · simp [cx_divr_re, cx_zero_re]
  · simp [cx_divr_im, cx_zero_im]

/-- The sums over the pads vanish when every pad value is zero. -/
theorem ageProject_zero {K : Type} [Field K] (f : K → K) (dt n : K) (N : Nat)
    (b : List (Cx K)) (hb : ∀ k, b.getD k 0 = 0) : ageProject f dt n N b = 0 := by
  unfold ageProject
  refine foldl_range_invariant _ (fun _ acc => acc = 0) 0 N rfl ?_
  rintro t acc _ rfl
  rw [hb t, cx_zero_mulr, cx_add_zero]

/-- C16. For an existing air-gap element `gapDCTorqueIntegral` returns `NoError`
and sets `tq = (π·R²·Depth/μ0)·Σ_{k<nn} Re(brc[k]·conj(btc[k]) +
brs[k]·conj(bts[k]))` with `R = (ri+ro)/2`, halved when `Frequency ≠ 0`; so
`tq = 0` when all `btc`, `bts` are zero, as they are when the loader derived
them from pads with `B_t = 0`. -/
theorem gapDCTorqueIntegral_spec {K : Type} [LinearOrderedField K] [FloorRing K]
    (E : MathEnv K) (S : FPProcGap K) (name : String) (tq : K)
    (hex : ∃ a ∈ S.agelist, a.BdryName = name) :
    (gapDCTorqueIntegral E S name tq).1 = .NoError ∧
      (gapDCTorqueIntegral E S name tq).2 =
        (if S.Frequency ≠ 0 then
          ((List.range (firstAGE S name).nn).map
            (fun k => ((firstAGE S name).brc.getD k 0 * ((firstAGE S name).btc.getD k 0).conj +
              (firstAGE S name).brs.getD k 0 * ((firstAGE S name).bts.getD k 0).conj).re)).sum *
            (E.PI * (((firstAGE S name).ri + (firstAGE S name).ro) / 2) *
              (((firstAGE S name).ri + (firstAGE S name).ro) / 2) * S.Depth / E.muo) / 2
        else
          ((List.range (firstAGE S name).nn).map
            (fun k => ((firstAGE S name).brc.getD k 0 * ((firstAGE S name).btc.getD k 0).conj +
              (firstAGE S name).brs.getD k 0 * ((firstAGE S name).bts.getD k 0).conj).re)).sum *
            (E.PI * (((firstAGE S name).ri + (firstAGE S name).ro) / 2) *
              (((firstAGE S name).ri + (firstAGE S name).ro) / 2) * S.Depth / E.muo)) ∧
      ((∀ k, k < (firstAGE S name).nn →
          (firstAGE S name).btc.getD k 0 = 0 ∧ (firstAGE S name).bts.getD k 0 = 0) →
        (gapDCTorqueIntegral E S name tq).2 = 0) ∧
      (∀ age : CAirGapElement K, firstAGE S name = OpenDocument_harmonics E age →
        (∀ k, age.bt.getD k 0 = 0) → (gapDCTorqueIntegral E S name tq).2 = 0) := by
  have hfound : ¬ (AGEBoundNumFromName S name).1 = false := by
    rw [AGEBoundNumFromName_false]
    push_neg
    exact hex
  have hval : (gapDCTorqueIntegral E S name tq).2 =
      (if S.Frequency ≠ 0 then
        ((List.range (firstAGE S name).nn).map
          (fun k => ((firstAGE S name).brc.getD k 0 * ((firstAGE S name).btc.getD k 0).conj +
            (firstAGE S name).brs.getD k 0 * ((firstAGE S name).bts.getD k 0).conj).re)).sum *
          (E.PI * (((firstAGE S name).ri + (firstAGE S name).ro) / 2) *
            (((firstAGE S name).ri + (firstAGE S name).ro) / 2) * S.Depth / E.muo) / 2
      else
        ((List.range (firstAGE S name).nn).map
          (fun k => ((firstAGE S name).brc.getD k 0 * ((firstAGE S name).btc.getD k 0).conj +
            (firstAGE S name).brs.getD k 0 * ((firstAGE S name).bts.getD k 0).conj).re)).sum *
          (E.PI * (((firstAGE S name).ri + (firstAGE S name).ro) / 2) *
            (((firstAGE S name).ri + (firstAGE S name).ro) / 2) * S.Depth / E.muo)) := by
    simp only [gapDCTorqueIntegral, if_neg hfound, foldl_add_sum, firstAGE]
  have hzero : (∀ k, k < (firstAGE S name).nn →
      (firstAGE S name).btc.getD k 0 = 0 ∧ (firstAGE S name).bts.getD k 0 = 0) →
      (gapDCTorqueIntegral E S name tq).2 = 0 := by
    intro hz
    rw [hval]
    have hsum : ((List.range (firstAGE S name).nn).map
        (fun k => ((firstAGE S name).brc.getD k 0 * ((firstAGE S name).btc.getD k 0).conj +
          (firstAGE S name).brs.getD k 0 * ((firstAGE S name).bts.getD k 0).conj).re)).sum = 0 := by
      apply List.sum_eq_zero
      intro x hx
      obtain ⟨k, hk, rfl⟩ := List.mem_map.mp hx
      obtain ⟨h1, h2⟩ := hz k (List.mem_range.mp hk)
      rw [h1, h2]
      simp [cx_add_re, cx_mul_re, Cx.conj, cx_zero_re, cx_zero_im]
    rw [hsum]
    split_ifs <;> simp
  refine ⟨by simp [gapDCTorqueIntegral, if_neg hfound], hval, hzero, fun age hage hbt => ?_⟩
  apply hzero
  intro k hk
  rw [hage] at hk ⊢
  have hk' : k < ageCount age := hk
  simp only [OpenDocument_harmonics]
  rw [getD_map_range _ _ _ _ hk', getD_map_range _ _ _ _ hk', ageProject_zero _ _ _ _ _ hbt,
    ageProject_zero _ _ _ _ _ hbt, cx_zero_divr]
  exact ⟨rfl, rfl⟩

theorem getD_replicate_zero {α : Type} [Zero α] (n k : Nat) :
    (List.replicate n (0 : α)).getD k 0 = 0 := by
  simp only [List.getD_eq_getElem?_getD, List.getElem?_replicate]
  split_ifs <;> rfl

/-- C16, witness: a loaded periodic element of 36 pads over 360 degrees with
`B_t = 0` in every pad has zero torque. -/
theorem gapDCTorqueIntegral_spec_witness :
    (∃ a ∈ gapState36.agelist, a.BdryName = "gap") ∧
      gapDCTorqueIntegral stubEnv gapState36 "gap" 5 = (.NoError, 0) :=
  ⟨⟨_, List.mem_cons_self _ _, rfl⟩,
    Prod.ext (gapDCTorqueIntegral_spec stubEnv gapState36 "gap" 5
        ⟨_, List.mem_cons_self _ _, rfl⟩).1
      ((gapDCTorqueIntegral_spec stubEnv gapState36 "gap" 5
        ⟨_, List.mem_cons_self _ _, rfl⟩).2.2.2 age36 rfl
        (fun k => getD_replicate_zero 36 k))⟩

theorem gapEnergySum_re {K : Type} [LinearOrderedField K] (age : CAirGapElement K) (dr : K)
    (hreal : ∀ k, k < age.nn →
      (age.brc.getD k 0).im = 0 ∧ (age.brs.getD k 0).im = 0 ∧
        (age.btc.getD k 0).im = 0 ∧ (age.bts.getD k 0).im = 0) :
    (gapEnergySum age dr).re =
      ((List.range age.nn).map (gapEnergyTerm age)).sum * dr := by
  unfold gapEnergySum
  refine foldl_range_invariant _
    (fun t (W : Cx K) => W.re = ((List.range t).map (gapEnergyTerm age)).sum * dr) 0 age.nn
    (by simp [cx_zero_re]) ?_
  intro t W ht hW
  obtain ⟨h1, h2, h3, h4⟩ := hreal t ht
  rw [List.range_succ, List.map_append, List.sum_append]
  simp only [List.map_cons, List.map_nil, List.sum_cons, List.sum_nil, add_zero, gapEnergyTerm]
  split_ifs with hn
  · simp only [cx_add_re, cx_mulr_re, cx_mul_re, hW, Cx.normSq, h1, h2, h3, h4]
    ring
  · simp only [cx_add_re, cx_mul_re, cx_rmul_re, cx_rmul_im, cx_mul_im, hW, Cx.normSq, h3]
    ring

/-- C17 (amended). For an existing air-gap element with `R = (ri+ro)/2 ≠ 0`
whose harmonic coefficients are real, `gapTimeAvgStoredEnergyIntegral` returns
`NoError` and `W = (π·R·Depth/(2·μ0))·dr·Σ_{k<nn} t_k` with `dr = ro - ri`,
where `t_k = |brc[k]|² + |brs[k]|² + |btc[k]|² + |bts[k]|²` for a harmonic of
non-zero order and `t_k = 2·|btc[k]|²` for the order `0`; `W` is halved when
`Frequency ≠ 0`. -/
theorem gapTimeAvgStoredEnergyIntegral_spec {K : Type} [LinearOrderedField K]
    (E : MathEnv K) (S : FPProcGap K) (name : String) (W : Cx K)
    (hex : ∃ a ∈ S.agelist, a.BdryName = name)
    (hR : ((firstAGE S name).ri + (firstAGE S name).ro) / 2 ≠ 0)
    (hreal : ∀ k, k < (firstAGE S name).nn →
      ((firstAGE S name).brc.getD k 0).im = 0 ∧ ((firstAGE S name).brs.getD k 0).im = 0 ∧
        ((firstAGE S name).btc.getD k 0).im = 0 ∧ ((firstAGE S name).bts.getD k 0).im = 0) :
    (gapTimeAvgStoredEnergyIntegral E S name W).1 = .NoError ∧
      (gapTimeAvgStoredEnergyIntegral E S name W).2 =
        (if S.Frequency ≠ 0 then
          ⟨(E.PI * (((firstAGE S name).ri + (firstAGE S name).ro) / 2) * S.Depth /
              (2 * E.muo)) * ((firstAGE S name).ro - (firstAGE S name).ri) *
              ((List.range (firstAGE S name).nn).map (gapEnergyTerm (firstAGE S name))).sum / 2,
            0⟩
        else
          ⟨(E.PI * (((firstAGE S name).ri + (firstAGE S name).ro) / 2) * S.Depth /
              (2 * E.muo)) * ((firstAGE S name).ro - (firstAGE S name).ri) *
              ((List.range (firstAGE S name).nn).map (gapEnergyTerm (firstAGE S name))).sum,
            0⟩) := by
  have hfound : ¬ (AGEBoundNumFromName S name).1 = false := by
    rw [AGEBoundNumFromName_false]
    push_neg
    exact hex
  refine ⟨by simp [gapTimeAvgStoredEnergyIntegral, if_neg hfound], ?_⟩
  simp only [gapTimeAvgStoredEnergyIntegral, if_neg hfound]
  rw [show S.age (AGEBoundNumFromName S name).2.toNat = firstAGE S name from rfl,
    gapEnergySum_re _ _ hreal]
  generalize ((List.range (firstAGE S name).nn).map (gapEnergyTerm (firstAGE S name))).sum = T
  generalize hRR : ((firstAGE S name).ri + (firstAGE S name).ro) / 2 = R at hR
  split_ifs
  · ext
    · simp only [cx_divr_re]
      field_simp
      ring
    · simp only [cx_divr_im]
      simp
  · ext
    · simp only
      field_simp
      ring
    · rfl

/-- C17, counterexample to the claim as stated: for the loaded periodic element
of one pad with `B_r = 1`, `B_t = 0`, whose only harmonic has order `0` and
`brc[0] = 1`, the query returns `W = 0`, while the claimed expression is
`9/4` (with `PI = 3`, `muo = 1`). -/
theorem gapTimeAvgStoredEnergyIntegral_counterexample :
    (firstAGE gapState1 "gap").nh = [0] ∧ (firstAGE gapState1 "gap").brc = [⟨1, 0⟩] ∧
      gapTimeAvgStoredEnergyIntegral stubEnv gapState1 "gap" 0 = (.NoError, ⟨0, 0⟩) ∧
      gapEnergyClaimed stubEnv gapState1 (firstAGE gapState1 "gap") = 9 / 4 := by
  decide!

theorem onlyFirstAGE_lookup {K : Type} [Field K] (S : FPProcGap K) (name : String)
    (h : (AGEBoundNumFromName S name).1 = true) :
    AGEBoundNumFromName (onlyFirstAGE S name) name = (true, 0) ∧
      (onlyFirstAGE S name).age 0 = S.age (AGEBoundNumFromName S name).2.toNat := by
  obtain ⟨i, hi, _, hname, _⟩ := AGEBoundNumFromName_true S name h
  have hn : (firstAGE S name).BdryName = name := by
    unfold firstAGE
    rw [hi]
    simpa using hname
  refine ⟨?_, rfl⟩
  simp [AGEBoundNumFromName, onlyFirstAGE, ageScan, hn]

/-- C18. Every air-gap query returns `AGENameNotFound` exactly when no air-gap
element of `agelist` has the requested name, and then leaves its output
arguments as they were; otherwise it works on the first element with that
name: its index is the least one with the name, and the query gives what it
gives when that element is the only one in `agelist`. -/
theorem AGE_query_name_lookup {K : Type} [LinearOrderedField K] [FloorRing K] (E : MathEnv K)
    (S : FPProcGap K) (name : String) (tq angle tta : K) (tqc fx fy W br bt ac : Cx K)
    (nh n : Int) (out : GapHarmonics K) :
    (((gapDCTorqueIntegral E S name tq).1 = .AGENameNotFound ↔
          ∀ a ∈ S.agelist, a.BdryName ≠ name) ∧
        ((gap2XTorqueIntegral E S name tqc).1 = .AGENameNotFound ↔
          ∀ a ∈ S.agelist, a.BdryName ≠ name) ∧
        ((gapDCForceIntegral E S name fx fy).1 = .AGENameNotFound ↔
          ∀ a ∈ S.agelist, a.BdryName ≠ name) ∧
        ((gap2XForceIntegral E S name fx fy).1 = .AGENameNotFound ↔
          ∀ a ∈ S.agelist, a.BdryName ≠ name) ∧
        ((gapIncrementalTorqueIntegral E S name tqc).1 = .AGENameNotFound ↔
          ∀ a ∈ S.agelist, a.BdryName ≠ name) ∧
        ((gapIncrementalForceIntegral E S name fx fy).1 = .AGENameNotFound ↔
          ∀ a ∈ S.agelist, a.BdryName ≠ name) ∧
        ((gapTimeAvgStoredEnergyIntegral E S name W).1 = .AGENameNotFound ↔
          ∀ a ∈ S.agelist, a.BdryName ≠ name) ∧
        ((getAGEflux E S name angle br bt).1 = .AGENameNotFound ↔
          ∀ a ∈ S.agelist, a.BdryName ≠ name) ∧
        ((getGapA E S name tta ac).1 = .AGENameNotFound ↔
          ∀ a ∈ S.agelist, a.BdryName ≠ name) ∧
        ((numGapHarmonics S name nh).1 = .AGENameNotFound ↔
          ∀ a ∈ S.agelist, a.BdryName ≠ name) ∧
        ((getGapHarmonics S name n out).1 = .AGENameNotFound ↔
          ∀ a ∈ S.agelist, a.BdryName ≠ name)) ∧
      ((∀ a ∈ S.agelist, a.BdryName ≠ name) →
        (gapDCTorqueIntegral E S name tq).2 = tq ∧
          (gap2XTorqueIntegral E S name tqc).2 = tqc ∧
          (gapDCForceIntegral E S name fx fy).2 = (fx, fy) ∧
          (gap2XForceIntegral E S name fx fy).2 = (fx, fy) ∧
          (gapIncrementalTorqueIntegral E S name tqc).2 = tqc ∧
          (gapIncrementalForceIntegral E S name fx fy).2 = (fx, fy) ∧
          (gapTimeAvgStoredEnergyIntegral E S name W).2 = W ∧
          (getAGEflux E S name angle br bt).2 = (br, bt) ∧
          (getGapA E S name tta ac).2 = ac ∧
          (numGapHarmonics S name nh).2 = nh ∧
          (getGapHarmonics S name n out).2 = out) ∧
      ((∃ a ∈ S.agelist, a.BdryName = name) →
        (∃ i : Nat, (AGEBoundNumFromName S name).2 = (i : Int) ∧ i < S.agelist.length ∧
          (S.age i).BdryName = name ∧ ∀ j, j < i → (S.age j).BdryName ≠ name) ∧
          gapDCTorqueIntegral E S name tq =
            gapDCTorqueIntegral E (onlyFirstAGE S name) name tq ∧
          gap2XTorqueIntegral E S name tqc =
            gap2XTorqueIntegral E (onlyFirstAGE S name) name tqc ∧
          gapDCForceIntegral E S name fx fy =
            gapDCForceIntegral E (onlyFirstAGE S name) name fx fy ∧
          gap2XForceIntegral E S name fx fy =
            gap2XForceIntegral E (onlyFirstAGE S name) name fx fy ∧
          gapIncrementalTorqueIntegral E S name tqc =
            gapIncrementalTorqueIntegral E (onlyFirstAGE S name) name tqc ∧
          gapIncrementalForceIntegral E S name fx fy =
            gapIncrementalForceIntegral E (onlyFirstAGE S name) name fx fy ∧
          gapTimeAvgStoredEnergyIntegral E S name W =
            gapTimeAvgStoredEnergyIntegral E (onlyFirstAGE S name) name W ∧
          getAGEflux E S name angle br bt =
            getAGEflux E (onlyFirstAGE S name) name angle br bt ∧
          getGapA E S name tta ac = getGapA E (onlyFirstAGE S name) name tta ac ∧
          numGapHarmonics S name nh = numGapHarmonics (onlyFirstAGE S name) name nh ∧
          getGapHarmonics S name n out =
            getGapHarmonics (onlyFirstAGE S name) name n out) := by
  have hiff := AGEBoundNumFromName_false S name
  by_cases hf : (AGEBoundNumFromName S name).1 = false
  · have hno := hiff.1 hf
    refine ⟨?_, ?_, ?_⟩
    · simp only [gapDCTorqueIntegral, gap2XTorqueIntegral, gapDCForceIntegral,
        gap2XForceIntegral, gapIncrementalTorqueIntegral, gapIncrementalForceIntegral,
        gapTimeAvgStoredEnergyIntegral, getAGEflux, getGapA, numGapHarmonics, getGapHarmonics,
        if_pos hf, true_iff, and_self]
      exact hno
    · intro _
      simp only [gapDCTorqueIntegral, gap2XTorqueIntegral, gapDCForceIntegral,
        gap2XForceIntegral, gapIncrementalTorqueIntegral, gapIncrementalForceIntegral,
        gapTimeAvgStoredEnergyIntegral, getAGEflux, getGapA, numGapHarmonics, getGapHarmonics,
        if_pos hf, and_self]
    · rintro ⟨a, ha, hn⟩
      exact absurd hn (hno a ha)
  · have ht : (AGEBoundNumFromName S name).1 = true := by simpa using hf
    have hyes : ¬ ∀ a ∈ S.agelist, a.BdryName ≠ name := fun h => hf (hiff.2 h)
    obtain ⟨h1, h2⟩ := onlyFirstAGE_lookup S name ht
    have hf' : ¬ (AGEBoundNumFromName (onlyFirstAGE S name) name).1 = false := by
      rw [h1]
      simp
    have hge : (AGEBoundNumFromName S name).2 ≥ 0 := by
      obtain ⟨i, hi, _⟩ := AGEBoundNumFromName_true S name ht
      omega
    refine ⟨?_, fun h => absurd h hyes, fun _ => ⟨AGEBoundNumFromName_true S name ht, ?_⟩⟩
    · simp only [gapDCTorqueIntegral, gap2XTorqueIntegral, gapDCForceIntegral,
        gap2XForceIntegral, gapIncrementalTorqueIntegral, gapIncrementalForceIntegral,
        gapTimeAvgStoredEnergyIntegral, getAGEflux, getGapA, numGapHarmonics, getGapHarmonics,
        if_neg hf, hyes, iff_false]
      refine ⟨by simp, ?_, ?_, ?_, by simp, ?_, by simp, ?_, ?_, ?_, ?_⟩
      all_goals
        repeat' split
        all_goals simp
    · have hD : (onlyFirstAGE S name).Depth = S.Depth := rfl
      have hF : (onlyFirstAGE S name).Frequency = S.Frequency := rfl
      have h0 : (AGEBoundNumFromName (onlyFirstAGE S name) name).2.toNat = 0 := by
        rw [h1]
        rfl
      have h0' : (AGEBoundNumFromName (onlyFirstAGE S name) name).2 ≥ 0 := by
        rw [h1]
      simp only [gapDCTorqueIntegral, gap2XTorqueIntegral, gapDCForceIntegral,
        gap2XForceIntegral, gapIncrementalTorqueIntegral, gapIncrementalForceIntegral,
        gapTimeAvgStoredEnergyIntegral, getAGEflux, getGapA, numGapHarmonics, getGapHarmonics,
        if_neg hf, if_neg hf', if_pos hge, if_pos h0', h0, h2, hD, hF, and_self]

/-! ## Theorems: circuits -/

@[simp] theorem CComplex.mul_re (a b : CComplex) : (a * b).re = a.re * b.re - a.im * b.im := rfl

@[simp] theorem CComplex.mul_im (a b : CComplex) : (a * b).im = a.re * b.im + a.im * b.re := rfl

@[simp] theorem CComplex.I_re : CComplex.I.re = 0 := rfl

@[simp] theorem CComplex.I_im : CComplex.I.im = 1 := rfl

theorem CComplex.div_re (a b : CComplex) :
    (a / b).re = (a.re * b.re + a.im * b.im) / (b.re * b.re + b.im * b.im) := rfl

theorem CComplex.div_im (a b : CComplex) :
    (a / b).im = (a.im * b.re - a.re * b.im) / (b.re * b.re + b.im * b.im) := rfl

/-- A conditional accumulation of a complex and a real sum is the pair of sums
over the filtered list. -/
theorem foldl_pair_sum (p : Nat → Prop) [DecidablePred p] (f : Nat → CComplex) (g : Nat → ℚ)
    (l : List Nat) (s : CComplex × ℚ) :
    l.foldl (fun s i => if p i then (s.1 + f i, s.2 + g i) else s) s =
      (s.1 + ((l.filter (fun i => decide (p i))).map f).sum,
        s.2 + ((l.filter (fun i => decide (p i))).map g).sum) := by
  induction l generalizing s with
  | nil =>
    refine Prod.ext ?_ ?_
    · ext <;> simp
    · simp
  | cons a l ih =>
    rw [List.foldl_cons, ih]
    by_cases h : p a
    · refine Prod.ext ?_ ?_
      · ext <;> simp [h, List.filter_cons, add_assoc]
      · simp [h, List.filter_cons, add_assoc]
    · simp [h, List.filter_cons]

/-- The brute-force sums of `GetVoltageDrop` are the integral of the potential
and the area over the elements of the circuit. -/
theorem circuitSums_eq (PI : ℚ) (P : FPProc) (c : Nat) :
    circuitSums PI P c = (circuitIntA PI P c, circuitArea P c) := by
  unfold circuitSums circuitIntA circuitArea circuitElems
  rw [foldl_pair_sum (fun i => (P.label (P.elem i).lbl).InCircuit = (c : Int))]
  refine Prod.ext ?_ ?_
  · ext <;> simp
  · simp

/-- C19. For a parallel circuit none of whose block labels has `Case = 0`,
`GetVoltageDrop` returns `(2πf / A_total)·∫A dA`, the integral and the area
taken over the elements of the circuit: a real multiple of the integral,
without the imaginary unit. Whenever that value is not zero it differs from
`(2πf·i / A_total)·∫A dA`. -/
theorem GetVoltageDrop_parallel (PI : ℚ) (P : FPProc) (c : Nat)
    (hT : (P.circ c).CircType = 0)
    (hno : ∀ i, i < P.blocklist.length →
      ¬((P.label i).InCircuit = (c : Int) ∧ (P.label i).Case = 0)) :
    GetVoltageDrop PI P c =
        (((2 * PI) * P.Frequency) / circuitArea P c) * circuitIntA PI P c ∧
      ((((2 * PI) * P.Frequency) / circuitArea P c) * circuitIntA PI P c ≠ 0 →
        GetVoltageDrop PI P c ≠
          ((((2 * PI) * P.Frequency) * CComplex.I) / circuitArea P c) * circuitIntA PI P c) := by
  have hfind : (List.range P.blocklist.length).find?
      (fun i => decide ((P.label i).InCircuit = (c : Int) ∧ (P.label i).Case = 0)) = none := by
    rw [List.find?_eq_none]
    intro i hi
    simpa using hno i (List.mem_range.mp hi)
  have h : GetVoltageDrop PI P c =
      (((2 * PI) * P.Frequency) / circuitArea P c) * circuitIntA PI P c := by
    unfold GetVoltageDrop
    rw [hT, hfind, circuitSums_eq]
    simp
  refine ⟨h, fun hne heq => hne ?_⟩
  rw [h] at heq
  have h1 := congrArg CComplex.re heq
  have h2 := congrArg CComplex.im heq
  simp only [CComplex.rmul_re, CComplex.rmul_im, CComplex.mul_re, CComplex.mul_im,
    CComplex.divr_re, CComplex.divr_im, CComplex.I_re, CComplex.I_im, mul_zero, mul_one,
    zero_div, zero_mul, zero_sub, zero_add] at h1 h2
  ext
  · simp only [CComplex.rmul_re, CComplex.zero_re]; linarith
  · simp only [CComplex.rmul_im, CComplex.zero_im]; linarith

/-- Evaluation of C19 on the single triangle with `A = (0, 1, 0)` and `π`
replaced by `3`, at 1 Hz: the code returns the real number `2`, the claimed
expression is `2i`. -/
theorem GetVoltageDrop_parallel_witness :
    ((coilMesh 0 1).circ 0).CircType = 0 ∧
      (∀ i, i < (coilMesh 0 1).blocklist.length →
        ¬(((coilMesh 0 1).label i).InCircuit = ((0 : Nat) : Int) ∧
          ((coilMesh 0 1).label i).Case = 0)) ∧
      GetVoltageDrop 3 (coilMesh 0 1) 0 = ⟨2, 0⟩ ∧
      ((((2 * 3) * (coilMesh 0 1).Frequency) * CComplex.I) / circuitArea (coilMesh 0 1) 0) *
        circuitIntA 3 (coilMesh 0 1) 0 = ⟨0, 2⟩ := by
  have hno : ∀ i, i < (coilMesh 0 1).blocklist.length →
      ¬(((coilMesh 0 1).label i).InCircuit = ((0 : Nat) : Int) ∧
        ((coilMesh 0 1).label i).Case = 0) := by
    intro i hi
    have h1 : (coilMesh 0 1).blocklist.length = 1 := rfl
    have h0 : i = 0 := by omega
    subst h0
    decide!
  have h := GetVoltageDrop_parallel 3 (coilMesh 0 1) 0 (by decide!) hno
  refine ⟨by decide!, hno, ?_, by decide!⟩
  rw [h.1]
  decide!

/-- C20. For a circuit whose total current is zero, at a frequency `f ≠ 0`,
`GetFluxLinkage` returns `GetVoltageDrop / (2πf)`, a division by a real
number. Whenever the voltage drop is not zero (and `π ≠ 0`) the result differs
from `GetVoltageDrop / (2πf·i)`. -/
theorem GetFluxLinkage_zero_current (PI : ℚ) (P : FPProc) (c : Nat)
    (hA : (P.circ c).Amps = 0) (hf : P.Frequency ≠ 0) :
    GetFluxLinkage PI P c = GetVoltageDrop PI P c / ((2 * PI) * P.Frequency) ∧
      (PI ≠ 0 → GetVoltageDrop PI P c ≠ 0 →
        GetFluxLinkage PI P c ≠
          GetVoltageDrop PI P c / (((2 * PI) * P.Frequency) * CComplex.I)) := by
  have h : GetFluxLinkage PI P c = GetVoltageDrop PI P c / ((2 * PI) * P.Frequency) := by
    unfold GetFluxLinkage
    simp [hA, hf]
  refine ⟨h, fun hPI hne heq => hne ?_⟩
  rw [h] at heq
  have hr : (2 * PI) * P.Frequency ≠ 0 := mul_ne_zero (mul_ne_zero two_ne_zero hPI) hf
  generalize (2 * PI) * P.Frequency = r at hr heq
  generalize GetVoltageDrop PI P c = V at heq
  have h1 := congrArg CComplex.re heq
  have h2 := congrArg CComplex.im heq
  simp only [CComplex.divr_re, CComplex.divr_im, CComplex.div_re, CComplex.div_im,
    CComplex.rmul_re, CComplex.rmul_im, CComplex.I_re, CComplex.I_im, mul_zero, mul_one,
    zero_add, add_zero, sub_zero, zero_sub] at h1 h2
  field_simp at h1 h2
  have e1 : V.re = V.im := by
    have : r * r * (V.re - V.im) = 0 := by linarith
    have := (mul_eq_zero.mp this).resolve_left (mul_ne_zero hr hr)
    linarith
  have e2 : V.im = -V.re := by
    have : r * r * (V.im + V.re) = 0 := by linarith
    have := (mul_eq_zero.mp this).resolve_left (mul_ne_zero hr hr)
    linarith
  ext
  · simp only [CComplex.zero_re]; linarith
  · simp only [CComplex.zero_im]; linarith

/-- Evaluation of C20 on the single triangle with `A = (0, 1, 0)` as a
one-turn stranded region of a series circuit, `π` replaced by `3`, at 1 Hz:
the voltage drop is `2i`, the code returns the flux linkage `i/3`, while
`GetVoltageDrop / (2πf·i)` is `1/3`, the value that the code itself returns at
zero frequency. -/
theorem GetFluxLinkage_zero_current_witness :
    ((coilMesh 1 1).circ 0).Amps = 0 ∧ (coilMesh 1 1).Frequency ≠ 0 ∧
      GetVoltageDrop 3 (coilMesh 1 1) 0 = ⟨0, 2⟩ ∧
      GetFluxLinkage 3 (coilMesh 1 1) 0 = ⟨0, 1 / 3⟩ ∧
      GetVoltageDrop 3 (coilMesh 1 1) 0 / (((2 * 3) * (coilMesh 1 1).Frequency) * CComplex.I) =
        ⟨1 / 3, 0⟩ ∧
      GetFluxLinkage 3 (coilMesh 1 0) 0 = ⟨1 / 3, 0⟩ := by
  have h := GetFluxLinkage_zero_current 3 (coilMesh 1 1) 0 (by decide!) (by decide!)
  refine ⟨by decide!, by decide!, by decide!, ?_, by decide!, by decide!⟩
  rw [h.1]
  decide!

/-! ## Theorems: synthesis of the air-gap flux from its harmonics -/

/-- Telescoping sum of cosines in arithmetic progression. -/
theorem sum_cos_arith (a b : ℝ) (n : Nat) :
    2 * Real.sin (b / 2) * (∑ j in Finset.range n, Real.cos (a + j * b)) =
      Real.sin (a + (n - 1 / 2) * b) - Real.sin (a - b / 2) := by
  induction n with
  | zero =>
    simp
    ring_nf
  | succ n ih =>
    rw [Finset.sum_range_succ, mul_add, ih]
    have e1 : a + ((n + 1 : Nat) - 1 / 2 : ℝ) * b = (a + n * b) + b / 2 := by
      push_cast; ring
    have e2 : a + ((n : ℝ) - 1 / 2) * b = (a + n * b) - b / 2 := by ring
    rw [e1, e2, Real.sin_add (a + n * b) (b / 2), Real.sin_sub (a + n * b) (b / 2)]
    ring

/-- Telescoping sum of sines in arithmetic progression. -/
theorem sum_sin_arith (a b : ℝ) (n : Nat) :
    2 * Real.sin (b / 2) * (∑ j in Finset.range n, Real.sin (a + j * b)) =
      Real.cos (a - b / 2) - Real.cos (a + (n - 1 / 2) * b) := by
  induction n with
  | zero =>
    simp
    ring_nf
  | succ n ih =>
    rw [Finset.sum_range_succ, mul_add, ih]
    have e1 : a + ((n + 1 : Nat) - 1 / 2 : ℝ) * b = (a + n * b) + b / 2 := by
      push_cast; ring
    have e2 : a + ((n : ℝ) - 1 / 2) * b = (a + n * b) - b / 2 := by ring
    rw [e1, e2, Real.cos_add (a + n * b) (b / 2), Real.cos_sub (a + n * b) (b / 2)]
    ring

/-- The sine of `π·d/N` does not vanish for an integer `d` with `0 < |d| < N`. -/
theorem sin_pi_div_ne_zero (N : Nat) (d : Int) (hd0 : d ≠ 0) (hd : |d| < (N : Int)) :
    Real.sin (Real.pi * d / N) ≠ 0 := by
  intro h
  rw [Real.sin_eq_zero_iff] at h
  obtain ⟨n, hn⟩ := h
  have hNpos : (0 : ℝ) < N := by
    have : (0 : Int) < N := lt_of_le_of_lt (abs_nonneg d) hd
    exact_mod_cast this
  have hpi := Real.pi_pos
  have h1 : (n : ℝ) * N = d := by
    field_simp at hn
    have : Real.pi * ((n : ℝ) * N) = Real.pi * d := by linarith
    exact mul_left_cancel₀ hpi.ne' this
  have h2 : n * (N : Int) = d := by exact_mod_cast h1
  have hn0 : n ≠ 0 := by
    rintro rfl
    simp at h2
    exact hd0 h2.symm
  have : (N : Int) ≤ |d| := by
    rw [← h2, abs_mul]
    have h3 : (1 : Int) ≤ |n| := Int.one_le_abs hn0
    have h4 : |(N : Int)| = N := abs_of_nonneg (by positivity)
    rw [h4]
    nlinarith [abs_nonneg n]
  omega

/-- Synthesis kernel of an antiperiodic element with an even number `N` of pads:
the harmonics `(2j+1)`, `j < N/2`, weighted by `2/N`, select the pad. -/
theorem ker_antiperiodic (N : Nat) (hN : 0 < N) (hpar : N % 2 = 0) (d : Int)
    (hd : |d| < (N : Int)) :
    (∑ j in Finset.range ((N + 1) / 2),
        Real.cos ((2 * (j : ℝ) + 1) * (Real.pi * d / N)) / ((N : ℝ) / 2)) =
      if d = 0 then 1 else 0 := by
  obtain ⟨M, rfl⟩ : ∃ M, N = 2 * M := ⟨N / 2, by omega⟩
  have hM : 0 < M := by omega
  have hMr : (0 : ℝ) < M := by exact_mod_cast hM
  have hcount : (2 * M + 1) / 2 = M := by omega
  rw [hcount, ← Finset.sum_div]
  by_cases hd0 : d = 0
  · subst hd0
    simp
    field_simp
  · rw [if_neg hd0]
    have hs := sin_pi_div_ne_zero (2 * M) d hd0 hd
    have hsum := sum_cos_arith (Real.pi * d / (2 * M : Nat)) (2 * (Real.pi * d / (2 * M : Nat))) M
    have e1 : Real.pi * d / (2 * M : Nat) + ((M : ℝ) - 1 / 2) * (2 * (Real.pi * d / (2 * M : Nat))) =
        d * Real.pi := by
      push_cast
      field_simp
      ring
    have e2 : Real.pi * d / (2 * M : Nat) - 2 * (Real.pi * d / (2 * M : Nat)) / 2 = 0 := by ring
    rw [e1, e2, Real.sin_int_mul_pi, Real.sin_zero, sub_zero,
      show 2 * (Real.pi * d / (2 * M : Nat)) / 2 = Real.pi * d / (2 * M : Nat) by ring] at hsum
    have hz : (∑ j in Finset.range M,
        Real.cos (Real.pi * d / (2 * M : Nat) + j * (2 * (Real.pi * d / (2 * M : Nat))))) = 0 := by
      rcases mul_eq_zero.mp hsum with h | h
      · rcases mul_eq_zero.mp h with h | h
        · norm_num at h
        · exact absurd h hs
      · exact h
    have hz' : (∑ j in Finset.range M,
        Real.cos ((2 * (j : ℝ) + 1) * (Real.pi * d / (2 * M : Nat)))) = 0 := by
      rw [← hz]
      refine Finset.sum_congr rfl fun j _ => ?_
      congr 1
      ring
    rw [hz', zero_div]

/-- Synthesis kernel of a periodic element with `N` pads: the harmonics `j`,
`j ≤ N/2`, weighted by `1/N` for the order `0` and the Nyquist harmonic and by
`2/N` otherwise, select the pad. -/
theorem ker_periodic (N : Nat) (hN : 0 < N) (d : Int) (hd : |d| < (N : Int)) :
    (∑ j in Finset.range (N / 2 + 1),
        Real.cos ((j : ℝ) * (2 * Real.pi * d / N)) /
          (if j = 0 ∨ (j = N / 2 ∧ N % 2 = 0) then (N : ℝ) else (N : ℝ) / 2)) =
      if d = 0 then 1 else 0 := by
  have hNr : (0 : ℝ) < N := by exact_mod_cast hN
  have hterm : ∀ j ∈ Finset.range (N / 2 + 1),
      Real.cos ((j : ℝ) * (2 * Real.pi * d / N)) /
          (if j = 0 ∨ (j = N / 2 ∧ N % 2 = 0) then (N : ℝ) else (N : ℝ) / 2) =
        (2 * Real.cos ((j : ℝ) * (2 * Real.pi * d / N)) -
          (if j = 0 then Real.cos ((j : ℝ) * (2 * Real.pi * d / N)) else 0) -
          (if j = N / 2 then
            (if N % 2 = 0 then Real.cos ((j : ℝ) * (2 * Real.pi * d / N)) else 0) else 0)) / N := by
    intro j _
    by_cases h0 : j = 0
    · have hne : ¬ (j = N / 2 ∧ N % 2 = 0) := by omega
      by_cases h1 : j = N / 2
      · have hodd : ¬ N % 2 = 0 := fun h => hne ⟨h1, h⟩
        rw [if_pos (Or.inl h0), if_pos h0, if_pos h1, if_neg hodd]
        ring
      · rw [if_pos (Or.inl h0), if_pos h0, if_neg h1]
        ring
    · by_cases h1 : j = N / 2
      · by_cases hpar : N % 2 = 0
        · rw [if_pos (Or.inr ⟨h1, hpar⟩), if_neg h0, if_pos h1, if_pos hpar]
          ring
        · rw [if_neg (by tauto), if_neg h0, if_pos h1, if_neg hpar]
          field_simp
          ring
      · rw [if_neg (by tauto), if_neg h0, if_neg h1]
        field_simp
        ring
  rw [Finset.sum_congr rfl hterm, ← Finset.sum_div, Finset.sum_sub_distrib,
    Finset.sum_sub_distrib, ← Finset.mul_sum, Finset.sum_ite_eq', Finset.sum_ite_eq',
    if_pos (Finset.mem_range.mpr (Nat.succ_pos _)),
    if_pos (Finset.mem_range.mpr (Nat.lt_succ_self _))]
  by_cases hd0 : d = 0
  · subst hd0
    simp only [Int.cast_zero, mul_zero, zero_div, Real.cos_zero, Finset.sum_const,
      Finset.card_range, nsmul_eq_mul, mul_one, if_true]
    rw [div_eq_one_iff_eq hNr.ne']
    by_cases hpar : N % 2 = 0
    · rw [if_pos hpar]
      obtain ⟨M, rfl⟩ : ∃ M, N = 2 * M := ⟨N / 2, by omega⟩
      rw [show 2 * M / 2 = M by omega]
      push_cast
      ring
    · rw [if_neg hpar]
      obtain ⟨M, rfl⟩ : ∃ M, N = 2 * M + 1 := ⟨N / 2, by omega⟩
      rw [show (2 * M + 1) / 2 = M by omega]
      push_cast
      ring
  · rw [if_neg hd0]
    have hs := sin_pi_div_ne_zero N d hd0 hd
    have hsum := sum_cos_arith 0 (2 * Real.pi * d / N) (N / 2 + 1)
    simp only [zero_add, zero_sub, Real.sin_neg, sub_neg_eq_add] at hsum
    rw [show 2 * Real.pi * d / N / 2 = Real.pi * d / N by ring] at hsum
    rw [div_eq_zero_iff]
    left
    by_cases hpar : N % 2 = 0
    · rw [if_pos hpar]
      obtain ⟨M, rfl⟩ : ∃ M, N = 2 * M := ⟨N / 2, by omega⟩
      have hM : (0 : ℝ) < M := by
        have : 0 < M := by omega
        exact_mod_cast this
      rw [show 2 * M / 2 = M by omega] at hsum ⊢
      have e1 : (((M + 1 : Nat) : ℝ) - 1 / 2) * (2 * Real.pi * d / (2 * M : Nat)) =
          d * Real.pi + Real.pi * d / (2 * M : Nat) := by
        push_cast
        field_simp
        ring
      have e2 : (M : ℝ) * (2 * Real.pi * d / (2 * M : Nat)) = d * Real.pi := by
        push_cast
        field_simp
        ring
      rw [e1, Real.sin_add, Real.sin_int_mul_pi, zero_mul, zero_add] at hsum
      rw [e2, Nat.cast_zero, zero_mul, Real.cos_zero]
      have h2 : Real.sin (Real.pi * d / (2 * M : Nat)) *
          (2 * (∑ j in Finset.range (M + 1), Real.cos ((j : ℝ) * (2 * Real.pi * d / (2 * M : Nat)))) -
            1 - Real.cos (d * Real.pi)) = 0 := by
        linear_combination hsum
      rcases mul_eq_zero.mp h2 with h | h
      · exact absurd h hs
      · exact h
    · rw [if_neg hpar]
      obtain ⟨M, rfl⟩ : ∃ M, N = 2 * M + 1 := ⟨N / 2, by omega⟩
      rw [show (2 * M + 1) / 2 = M by omega] at hsum ⊢
      have e1 : (((M + 1 : Nat) : ℝ) - 1 / 2) * (2 * Real.pi * d / (2 * M + 1 : Nat)) =
          d * Real.pi := by
        push_cast
        field_simp
        ring
      rw [e1, Real.sin_int_mul_pi, zero_add] at hsum
      rw [Nat.cast_zero, zero_mul, Real.cos_zero, sub_zero]
      have h2 : Real.sin (Real.pi * d / (2 * M + 1 : Nat)) *
          (2 * (∑ j in Finset.range (M + 1),
            Real.cos ((j : ℝ) * (2 * Real.pi * d / (2 * M + 1 : Nat)))) - 1) = 0 := by
        linear_combination hsum
      rcases mul_eq_zero.mp h2 with h | h
      · exact absurd h hs
      · exact h

/-- Analysis followed by synthesis: when the synthesis kernel selects the pad
`k'`, projecting pad values `x` on the harmonics and summing the harmonics at
the angle `t'` returns `x k'`. -/
theorem recon_sum (N nn : Nat) (n D t x : Nat → ℝ) (t' : ℝ) (k' : Nat) (hk' : k' < N)
    (hker : ∀ k, k < N →
      (∑ j in Finset.range nn, Real.cos (t k * n j - n j * t') / D j) = if k = k' then 1 else 0) :
    (∑ j in Finset.range nn,
        ((∑ k in Finset.range N, x k * Real.cos (t k * n j)) / D j * Real.cos (n j * t') +
          (∑ k in Finset.range N, x k * Real.sin (t k * n j)) / D j * Real.sin (n j * t'))) =
      x k' := by
  have h1 : ∀ j ∈ Finset.range nn,
      ((∑ k in Finset.range N, x k * Real.cos (t k * n j)) / D j * Real.cos (n j * t') +
        (∑ k in Finset.range N, x k * Real.sin (t k * n j)) / D j * Real.sin (n j * t')) =
      ∑ k in Finset.range N, x k * (Real.cos (t k * n j - n j * t') / D j) := by
    intro j _
    rw [Finset.sum_div, Finset.sum_mul, Finset.sum_div, Finset.sum_mul, ← Finset.sum_add_distrib]
    refine Finset.sum_congr rfl fun k _ => ?_
    rw [Real.cos_sub]
    ring
  rw [Finset.sum_congr rfl h1, Finset.sum_comm]
  have h2 : ∀ k ∈ Finset.range N,
      (∑ j in Finset.range nn, x k * (Real.cos (t k * n j - n j * t') / D j)) =
        if k = k' then x k else 0 := by
    intro k hk
    rw [← Finset.mul_sum, hker k (Finset.mem_range.mp hk)]
    split_ifs <;> simp
  rw [Finset.sum_congr rfl h2, Finset.sum_ite_eq', if_pos (Finset.mem_range.mpr hk')]

theorem cx_foldl_re {K : Type} [Field K] (g : Nat → Cx K) (n : Nat) :
    ((List.range n).foldl (fun acc k => acc + g k) 0).re = ∑ k in Finset.range n, (g k).re := by
  induction n with
  | zero => rfl
  | succ n ih =>
    rw [List.range_succ, List.foldl_append, Finset.sum_range_succ, ← ih]
    rfl

theorem cx_foldl_im {K : Type} [Field K] (g : Nat → Cx K) (n : Nat) :
    ((List.range n).foldl (fun acc k => acc + g k) 0).im = ∑ k in Finset.range n, (g k).im := by
  induction n with
  | zero => rfl
  | succ n ih =>
    rw [List.range_succ, List.foldl_append, Finset.sum_range_succ, ← ih]
    rfl

theorem foldl_pair_split {K : Type} [Field K] (g h : Nat → Cx K) (n : Nat) :
    (List.range n).foldl (fun (B : Cx K × Cx K) k => (B.1 + g k, B.2 + h k)) (0, 0) =
      ((List.range n).foldl (fun acc k => acc + g k) 0,
        (List.range n).foldl (fun acc k => acc + h k) 0) := by
  induction n with
  | zero => rfl
  | succ n ih =>
    rw [List.range_succ, List.foldl_append, List.foldl_append, List.foldl_append, ih]
    rfl

theorem ageProject_re {K : Type} [Field K] (f : K → K) (dt n : K) (N : Nat) (b : List (Cx K)) :
    (ageProject f dt n N b).re =
      ∑ k in Finset.range N, (b.getD k 0).re * f ((((k : K) + 1 / 2) * dt) * n) := by
  unfold ageProject
  rw [cx_foldl_re]
  rfl

theorem ageProject_im {K : Type} [Field K] (f : K → K) (dt n : K) (N : Nat) (b : List (Cx K)) :
    (ageProject f dt n N b).im =
      ∑ k in Finset.range N, (b.getD k 0).im * f ((((k : K) + 1 / 2) * dt) * n) := by
  unfold ageProject
  rw [cx_foldl_im]
  rfl

/-- The synthesis kernel of a loaded air-gap element whose arc is the `m`-th
part of the full (periodic) or half (antiperiodic, even number of pads) turn:
summed over the harmonics at pad `k` and bin centre `k'` it is `1` for
`k = k'` and `0` otherwise. -/
theorem age_kernel (E : MathEnv ℝ) (hE : E.IsReal) (age : CAirGapElement ℝ)
    (hN : 0 < age.totalArcElements)
    (harc : (age.BdryFormat = 0 ∧ (ageBaseOrder age : ℝ) * age.totalArcLength = 360) ∨
      (age.BdryFormat ≠ 0 ∧ (ageBaseOrder age : ℝ) * age.totalArcLength = 180 ∧
        age.totalArcElements % 2 = 0))
    (k k' : Nat) (hk : k < age.totalArcElements) (hk' : k' < age.totalArcElements) :
    (∑ j in Finset.range (ageCount age),
        Real.cos ((((k : ℝ) + 1 / 2) * ageStep E age) * ((ageOrder age j : Int) : ℝ) -
          ((ageOrder age j : Int) : ℝ) *
            ((((k' : ℝ) + 1 / 2) * age.totalArcLength / age.totalArcElements) * E.PI / 180)) /
          ageDivisor age j) = if k = k' then 1 else 0 := by
  obtain ⟨hPI, -, -, -, -⟩ := hE
  have hNr : (0 : ℝ) < age.totalArcElements := by exact_mod_cast hN
  have hd : |(k : Int) - k'| < (age.totalArcElements : Int) := by
    rw [abs_lt]
    constructor <;> omega
  have hdk : ((k : Int) - k' = 0) ↔ k = k' := by omega
  rcases harc with ⟨hfmt, hm⟩ | ⟨hfmt, hm, hpar⟩
  · have hm0 : ageBaseOrder age ≠ 0 := by
      intro h
      rw [h] at hm
      norm_num at hm
    have hcount : ageCount age = age.totalArcElements / 2 + 1 := by simp [ageCount, hfmt]
    rw [hcount, ← ker_periodic age.totalArcElements hN ((k : Int) - k') hd |>.trans
      (if_congr hdk rfl rfl)]
    refine Finset.sum_congr rfl fun j _ => ?_
    have hord : ageOrder age j = ageBaseOrder age * j := by simp [ageOrder, hfmt]
    have hdiv : ageDivisor age j =
        if j = 0 ∨ (j = age.totalArcElements / 2 ∧ age.totalArcElements % 2 = 0) then
          (age.totalArcElements : ℝ) else (age.totalArcElements : ℝ) / 2 := by
      unfold ageDivisor
      refine if_congr ?_ rfl rfl
      rw [hord, hcount]
      constructor
      · rintro (h | ⟨⟨h1, -⟩, h2⟩)
        · left
          rcases mul_eq_zero.mp h with h | h
          · exact absurd h hm0
          · exact_mod_cast h
        · right
          exact ⟨by push_cast at h1; omega, h2⟩
      · rintro (h | ⟨h1, h2⟩)
        · left
          subst h
          simp
        · right
          exact ⟨⟨by push_cast; omega, hfmt⟩, h2⟩
    rw [hdiv, hord]
    congr 2
    unfold ageStep
    rw [hPI]
    push_cast
    linear_combination
      ((j : ℝ) * ((k : ℝ) - k') * Real.pi / (180 * (age.totalArcElements : ℝ))) * hm
  · have hcount : ageCount age = (age.totalArcElements + 1) / 2 := by simp [ageCount, hfmt]
    rw [hcount, ← ker_antiperiodic age.totalArcElements hN hpar ((k : Int) - k') hd |>.trans
      (if_congr hdk rfl rfl)]
    refine Finset.sum_congr rfl fun j _ => ?_
    have hord : ageOrder age j = ageBaseOrder age * (2 * j + 1) := by simp [ageOrder, hfmt]
    have hm0 : ageBaseOrder age ≠ 0 := by
      intro h
      rw [h] at hm
      norm_num at hm
    have hdiv : ageDivisor age j = (age.totalArcElements : ℝ) / 2 := by
      unfold ageDivisor
      rw [if_neg]
      rintro (h | ⟨⟨-, h1⟩, -⟩)
      · rw [hord] at h
        rcases mul_eq_zero.mp h with h | h
        · exact hm0 h
        · omega
      · exact hfmt h1
    rw [hdiv, hord]
    congr 2
    unfold ageStep
    rw [hPI]
    push_cast
    linear_combination
      ((2 * (j : ℝ) + 1) * ((k : ℝ) - k') * Real.pi / (180 * (age.totalArcElements : ℝ))) * hm

/-- Summing the harmonics of a loaded pad sequence `b` at the bin centre of pad
`k'` gives `b[k']`. -/
theorem age_recon (E : MathEnv ℝ) (hE : E.IsReal) (age : CAirGapElement ℝ)
    (hN : 0 < age.totalArcElements)
    (harc : (age.BdryFormat = 0 ∧ (ageBaseOrder age : ℝ) * age.totalArcLength = 360) ∨
      (age.BdryFormat ≠ 0 ∧ (ageBaseOrder age : ℝ) * age.totalArcLength = 180 ∧
        age.totalArcElements % 2 = 0))
    (b : List (Cx ℝ)) (k' : Nat) (hk' : k' < age.totalArcElements) :
    (List.range (ageCount age)).foldl
        (fun acc j => acc +
          (((List.range (ageCount age)).map (fun j =>
              ageProject E.cos (ageStep E age) ((ageOrder age j : Int) : ℝ) age.totalArcElements b /
                ageDivisor age j)).getD j 0 *
              E.cos (((((List.range (ageCount age)).map (ageOrder age)).getD j 0 : Int) : ℝ) *
                ((((k' : ℝ) + 1 / 2) * age.totalArcLength / age.totalArcElements) * E.PI / 180)) +
            ((List.range (ageCount age)).map (fun j =>
              ageProject E.sin (ageStep E age) ((ageOrder age j : Int) : ℝ) age.totalArcElements b /
                ageDivisor age j)).getD j 0 *
              E.sin (((((List.range (ageCount age)).map (ageOrder age)).getD j 0 : Int) : ℝ) *
                ((((k' : ℝ) + 1 / 2) * age.totalArcLength / age.totalArcElements) * E.PI / 180))))
        0 = b.getD k' 0 := by
  have hker := fun k hk => age_kernel E hE age hN harc k k' hk hk'
  obtain ⟨-, hsin, hcos, -, -⟩ := hE
  ext
  · rw [cx_foldl_re]
    rw [Finset.sum_congr rfl (fun j hj => by
      rw [getD_map_range _ _ _ _ (Finset.mem_range.mp hj),
        getD_map_range _ _ _ _ (Finset.mem_range.mp hj),
        getD_map_range _ _ _ _ (Finset.mem_range.mp hj)])]
    simp only [cx_add_re, cx_mulr_re, cx_divr_re, ageProject_re, hsin, hcos]
    exact recon_sum age.totalArcElements (ageCount age) (fun j => ((ageOrder age j : Int) : ℝ))
      (ageDivisor age) (fun k => ((k : ℝ) + 1 / 2) * ageStep E age) (fun k => (b.getD k 0).re)
      _ k' hk' hker
  · rw [cx_foldl_im]
    rw [Finset.sum_congr rfl (fun j hj => by
      rw [getD_map_range _ _ _ _ (Finset.mem_range.mp hj),
        getD_map_range _ _ _ _ (Finset.mem_range.mp hj),
        getD_map_range _ _ _ _ (Finset.mem_range.mp hj)])]
    simp only [cx_add_im, cx_mulr_im, cx_divr_im, ageProject_im, hsin, hcos]
    exact recon_sum age.totalArcElements (ageCount age) (fun j => ((ageOrder age j : Int) : ℝ))
      (ageDivisor age) (fun k => ((k : ℝ) + 1 / 2) * ageStep E age) (fun k => (b.getD k 0).im)
      _ k' hk' hker

/-- C14 (amended). Over the reals, for a loaded air-gap element with `N ≥ 1`
pads whose arc is exactly the `m`-th part of the full turn (periodic, `m·arc =
360`) or of the half turn (antiperiodic, `m·arc = 180`, `N` even), `m` the
base order chosen by the loader, `getAGEflux` evaluated at the bin centre
`(k+1/2)·arc/N` degrees returns `br[k]` and `bt[k]`, for every `k < N`. -/
theorem getAGEflux_bin_centre (E : MathEnv ℝ) (hE : E.IsReal) (S : FPProcGap ℝ) (name : String)
    (age : CAirGapElement ℝ) (hex : ∃ a ∈ S.agelist, a.BdryName = name)
    (hload : firstAGE S name = OpenDocument_harmonics E age)
    (hN : 0 < age.totalArcElements)
    (harc : (age.BdryFormat = 0 ∧ (ageBaseOrder age : ℝ) * age.totalArcLength = 360) ∨
      (age.BdryFormat ≠ 0 ∧ (ageBaseOrder age : ℝ) * age.totalArcLength = 180 ∧
        age.totalArcElements % 2 = 0))
    (k : Nat) (hk : k < age.totalArcElements) (br0 bt0 : Cx ℝ) :
    getAGEflux E S name (((k : ℝ) + 1 / 2) * age.totalArcLength / age.totalArcElements) br0 bt0 =
      (.NoError, age.br.getD k 0, age.bt.getD k 0) := by
  have hfound : (AGEBoundNumFromName S name).1 = true := by
    by_contra h
    have h' : (AGEBoundNumFromName S name).1 = false := by simpa using h
    rw [AGEBoundNumFromName_false] at h'
    obtain ⟨a, ha, hn⟩ := hex
    exact h' a ha hn
  obtain ⟨i, hi, -, -, -⟩ := AGEBoundNumFromName_true S name hfound
  have hge : (AGEBoundNumFromName S name).2 ≥ 0 := by rw [hi]; positivity
  unfold getAGEflux
  simp only [hfound, if_pos hge, Bool.true_eq_false, if_false]
  rw [show S.age (AGEBoundNumFromName S name).2.toNat = firstAGE S name from rfl, hload]
  simp only [OpenDocument_harmonics]
  rw [foldl_pair_split, age_recon E hE age hN harc age.br k hk,
    age_recon E hE age hN harc age.bt k hk]

theorem cround_one {K : Type} [LinearOrderedField K] [FloorRing K] : cround (1 : K) = 1 := by
  unfold cround
  rw [if_pos zero_le_one, Int.floor_eq_iff]
  constructor <;> norm_num

/-- C14, witness: the periodic element of two pads over 360 degrees, evaluated
at the centre of pad `1` (270 degrees), gives `B_r = 2` and `B_t = 4`. -/
theorem getAGEflux_bin_centre_witness :
    0 < (age2 ℝ).totalArcElements ∧
      ((ageBaseOrder (age2 ℝ) : Int) : ℝ) * (age2 ℝ).totalArcLength = 360 ∧
      getAGEflux (⟨Real.pi, 1, Real.sin, Real.cos, Real.exp, Real.sqrt⟩ : MathEnv ℝ)
          (loadedGap ⟨Real.pi, 1, Real.sin, Real.cos, Real.exp, Real.sqrt⟩ (age2 ℝ)) "gap"
          ((((1 : Nat) : ℝ) + 1 / 2) * (age2 ℝ).totalArcLength / (age2 ℝ).totalArcElements) 0 0 =
        (.NoError, ⟨2, 0⟩, ⟨4, 0⟩) := by
  have hm : ((ageBaseOrder (age2 ℝ) : Int) : ℝ) * (age2 ℝ).totalArcLength = 360 := by
    have h1 : ageBaseOrder (age2 ℝ) = 1 := by
      simp only [ageBaseOrder, age2, mkAGE, if_true]
      rw [div_self (by norm_num), cround_one]
    rw [h1]
    simp [age2, mkAGE]
  exact ⟨by decide, hm,
    getAGEflux_bin_centre ⟨Real.pi, 1, Real.sin, Real.cos, Real.exp, Real.sqrt⟩
      ⟨rfl, rfl, rfl, rfl, rfl⟩
      (loadedGap ⟨Real.pi, 1, Real.sin, Real.cos, Real.exp, Real.sqrt⟩ (age2 ℝ)) "gap" (age2 ℝ)
      ⟨_, List.mem_singleton_self _, rfl⟩ rfl (by decide) (Or.inl ⟨rfl, hm⟩) 1 (by decide) 0 0⟩

/-- C14, counterexample to the claim as stated: for the antiperiodic element of
one pad over 180 degrees with `B_r = 1`, the loader computes `brc[0] = 0` and
`brs[0] = 2`, and `getAGEflux` at the bin centre (90 degrees) returns
`B_r = 2`, not the pad value `1`. -/
theorem getAGEflux_bin_centre_counterexample :
    (ageHalf ℝ).br.getD 0 0 = ⟨1, 0⟩ ∧
      getAGEflux (⟨Real.pi, 1, Real.sin, Real.cos, Real.exp, Real.sqrt⟩ : MathEnv ℝ)
          (loadedGap ⟨Real.pi, 1, Real.sin, Real.cos, Real.exp, Real.sqrt⟩ (ageHalf ℝ)) "gap"
          ((((0 : Nat) : ℝ) + 1 / 2) * (ageHalf ℝ).totalArcLength /
            (ageHalf ℝ).totalArcElements) 0 0 =
        (.NoError, ⟨2, 0⟩, ⟨0, 0⟩) := by
  refine ⟨rfl, ?_⟩
  have h1 : ageBaseOrder (ageHalf ℝ) = 1 := by
    simp only [ageBaseOrder, ageHalf, mkAGE]
    rw [if_neg (by decide), div_self (by norm_num), cround_one]
  have hl : AGEBoundNumFromName
      (loadedGap ⟨Real.pi, 1, Real.sin, Real.cos, Real.exp, Real.sqrt⟩ (ageHalf ℝ)) "gap" =
        (true, 0) := rfl
  have hnn : ageCount (ageHalf ℝ) = 1 := rfl
  have r1 : List.range 1 = [0] := rfl
  have ho : ageOrder (ageHalf ℝ) 0 = 1 := by
    unfold ageOrder
    rw [h1]
    simp [ageHalf, mkAGE]
  have hdt : ageStep ⟨Real.pi, 1, Real.sin, Real.cos, Real.exp, Real.sqrt⟩ (ageHalf ℝ) =
      Real.pi := by
    simp only [ageStep, ageHalf, mkAGE]
    norm_num
  have hdiv : ageDivisor (ageHalf ℝ) 0 = 1 / 2 := by
    unfold ageDivisor
    rw [ho]
    simp [ageHalf, mkAGE]
  have e1 : ((((0 : Nat) : ℝ) + 1 / 2) * Real.pi) * ((1 : Int) : ℝ) = Real.pi / 2 := by
    push_cast
    ring
  have hpc : ageProject Real.cos Real.pi ((1 : Int) : ℝ) 1 (ageHalf ℝ).br = 0 := by
    simp only [ageProject, r1, List.foldl_cons, List.foldl_nil, e1,
      Real.cos_pi_div_two]
    ext <;> simp [cx_add_re, cx_add_im, cx_mulr_re, cx_mulr_im, cx_zero_re, cx_zero_im]
  have hps : ageProject Real.sin Real.pi ((1 : Int) : ℝ) 1 (ageHalf ℝ).br = ⟨1, 0⟩ := by
    simp only [ageProject, r1, List.foldl_cons, List.foldl_nil, e1,
      Real.sin_pi_div_two]
    ext <;> simp [cx_add_re, cx_add_im, cx_mulr_re, cx_mulr_im, cx_zero_re, cx_zero_im,
      ageHalf, mkAGE]
  have hpt : ∀ f : ℝ → ℝ, ageProject f Real.pi ((1 : Int) : ℝ) 1 (ageHalf ℝ).bt = 0 := by
    intro f
    simp only [ageProject, r1, List.foldl_cons, List.foldl_nil]
    ext <;> simp [cx_add_re, cx_add_im, cx_mulr_re, cx_mulr_im, cx_zero_re, cx_zero_im,
      ageHalf, mkAGE]
  have e2 : ((1 : Int) : ℝ) * ((((0 : Nat) : ℝ) + 1 / 2) * (ageHalf ℝ).totalArcLength /
      ((ageHalf ℝ).totalArcElements : ℝ) * Real.pi / 180) = Real.pi / 2 := by
    simp only [ageHalf, mkAGE]
    push_cast
    ring
  unfold getAGEflux
  simp only [hl]
  rw [show (loadedGap ⟨Real.pi, 1, Real.sin, Real.cos, Real.exp, Real.sqrt⟩ (ageHalf ℝ)).age
      (Int.toNat 0) = OpenDocument_harmonics ⟨Real.pi, 1, Real.sin, Real.cos, Real.exp, Real.sqrt⟩
        (ageHalf ℝ) from rfl]
  simp only [OpenDocument_harmonics, hnn, r1, List.map_cons, List.map_nil,
    List.foldl_cons, List.foldl_nil, List.getD_cons_zero, ho, hdt, hdiv, hpc, hps, hpt, e2,
    Real.cos_pi_div_two, Real.sin_pi_div_two]
  simp only [show (ageHalf ℝ).totalArcElements = 1 from rfl, hpc, hps, hpt]
  rw [if_neg (by decide), if_pos (le_refl _)]
  refine Prod.ext rfl (Prod.ext ?_ ?_)
  · ext <;> norm_num [cx_add_re, cx_add_im, cx_mulr_re, cx_mulr_im, cx_divr_re, cx_divr_im,
      cx_zero_re, cx_zero_im]
  · ext <;> norm_num [cx_add_re, cx_add_im, cx_mulr_re, cx_mulr_im, cx_divr_re, cx_divr_im,
      cx_zero_re, cx_zero_im]

/-! ## Theorems: projection of a pure harmonic -/

/-- Over a full set of `N` bin centres the cosines of a harmonic `u` with
`|u| < N` sum to `N` for `u = 0` and to `0` otherwise. -/
theorem sum_cos_bins (N : Nat) (u : Int) (hu : |u| < (N : Int)) :
    (∑ k in Finset.range N, Real.cos (((k : ℝ) + 1 / 2) * (2 * Real.pi * u / N))) =
      if u = 0 then (N : ℝ) else 0 := by
  by_cases hu0 : u = 0
  · subst hu0
    simp
  · rw [if_neg hu0]
    have hN : (0 : ℝ) < N := by
      have : (0 : Int) < N := lt_of_le_of_lt (abs_nonneg u) hu
      exact_mod_cast this
    have hs := sin_pi_div_ne_zero N u hu0 hu
    have hsum := sum_cos_arith (Real.pi * u / N) (2 * Real.pi * u / N) N
    have e1 : Real.pi * u / N + ((N : ℝ) - 1 / 2) * (2 * Real.pi * u / N) =
        ((2 * u : Int) : ℝ) * Real.pi := by
      push_cast
      field_simp
      ring
    have e2 : Real.pi * u / N - 2 * Real.pi * u / N / 2 = 0 := by ring
    rw [e1, e2, Real.sin_int_mul_pi, Real.sin_zero, sub_zero,
      show 2 * Real.pi * u / N / 2 = Real.pi * u / N by ring] at hsum
    have hz : (∑ j in Finset.range N,
        Real.cos (Real.pi * u / N + j * (2 * Real.pi * u / N))) = 0 := by
      rcases mul_eq_zero.mp hsum with h | h
      · rcases mul_eq_zero.mp h with h | h
        · norm_num at h
        · exact absurd h hs
      · exact h
    rw [← hz]
    refine Finset.sum_congr rfl fun k _ => ?_
    congr 1
    ring

/-- Over a full set of `N` bin centres the sines of a harmonic `u` with
`|u| < N` sum to `0`. -/
theorem sum_sin_bins (N : Nat) (u : Int) (hu : |u| < (N : Int)) :
    (∑ k in Finset.range N, Real.sin (((k : ℝ) + 1 / 2) * (2 * Real.pi * u / N))) = 0 := by
  by_cases hu0 : u = 0
  · subst hu0
    simp
  · have hN : (0 : ℝ) < N := by
      have : (0 : Int) < N := lt_of_le_of_lt (abs_nonneg u) hu
      exact_mod_cast this
    have hs := sin_pi_div_ne_zero N u hu0 hu
    have hsum := sum_sin_arith (Real.pi * u / N) (2 * Real.pi * u / N) N
    have e1 : Real.pi * u / N + ((N : ℝ) - 1 / 2) * (2 * Real.pi * u / N) =
        (u : ℝ) * (2 * Real.pi) := by
      field_simp
      ring
    have e2 : Real.pi * u / N - 2 * Real.pi * u / N / 2 = 0 := by ring
    rw [e1, e2, Real.cos_int_mul_two_pi, Real.cos_zero, sub_self,
      show 2 * Real.pi * u / N / 2 = Real.pi * u / N by ring] at hsum
    have hz : (∑ j in Finset.range N,
        Real.sin (Real.pi * u / N + j * (2 * Real.pi * u / N))) = 0 := by
      rcases mul_eq_zero.mp hsum with h | h
      · rcases mul_eq_zero.mp h with h | h
        · norm_num at h
        · exact absurd h hs
      · exact h
    rw [← hz]
    refine Finset.sum_congr rfl fun k _ => ?_
    congr 1
    ring

/-- Projection of a first harmonic sampled at the 18 bin centres of a half turn
on the cosine of the odd harmonic `2j+1`. -/
theorem first_harmonic_cos (cr sr : ℝ) (j : Nat) (hj : j < 9) :
    (∑ k in Finset.range 18,
        (cr * Real.cos (((k : ℝ) + 1 / 2) * Real.pi / 18) +
            sr * Real.sin (((k : ℝ) + 1 / 2) * Real.pi / 18)) *
          Real.cos ((((k : ℝ) + 1 / 2) * (Real.pi / 18)) * (2 * (j : ℝ) + 1))) =
      if j = 0 then 9 * cr else 0 := by
  have hterm : ∀ k ∈ Finset.range 18,
      (cr * Real.cos (((k : ℝ) + 1 / 2) * Real.pi / 18) +
            sr * Real.sin (((k : ℝ) + 1 / 2) * Real.pi / 18)) *
          Real.cos ((((k : ℝ) + 1 / 2) * (Real.pi / 18)) * (2 * (j : ℝ) + 1)) =
        cr / 2 * Real.cos (((k : ℝ) + 1 / 2) * (2 * Real.pi * ((j : Int) : ℝ) / (18 : Nat))) +
          cr / 2 * Real.cos (((k : ℝ) + 1 / 2) * (2 * Real.pi * ((j + 1 : Int) : ℝ) / (18 : Nat))) +
          sr / 2 * Real.sin (((k : ℝ) + 1 / 2) * (2 * Real.pi * ((j + 1 : Int) : ℝ) / (18 : Nat))) -
          sr / 2 * Real.sin (((k : ℝ) + 1 / 2) * (2 * Real.pi * ((j : Int) : ℝ) / (18 : Nat))) := by
    intro k _
    have ea : ((k : ℝ) + 1 / 2) * (2 * Real.pi * ((j : Int) : ℝ) / (18 : Nat)) =
        (((k : ℝ) + 1 / 2) * (Real.pi / 18)) * (2 * (j : ℝ) + 1) -
          ((k : ℝ) + 1 / 2) * Real.pi / 18 := by
      push_cast
      ring
    have eb : ((k : ℝ) + 1 / 2) * (2 * Real.pi * ((j + 1 : Int) : ℝ) / (18 : Nat)) =
        (((k : ℝ) + 1 / 2) * (Real.pi / 18)) * (2 * (j : ℝ) + 1) +
          ((k : ℝ) + 1 / 2) * Real.pi / 18 := by
      push_cast
      ring
    rw [ea, eb, Real.cos_sub, Real.cos_add, Real.sin_sub, Real.sin_add]
    ring
  rw [Finset.sum_congr rfl hterm, Finset.sum_sub_distrib, Finset.sum_add_distrib,
    Finset.sum_add_distrib, ← Finset.mul_sum, ← Finset.mul_sum, ← Finset.mul_sum,
    ← Finset.mul_sum, sum_cos_bins 18 j (by rw [abs_lt]; constructor <;> omega),
    sum_cos_bins 18 (j + 1) (by rw [abs_lt]; constructor <;> omega),
    sum_sin_bins 18 j (by rw [abs_lt]; constructor <;> omega),
    sum_sin_bins 18 (j + 1) (by rw [abs_lt]; constructor <;> omega),
    if_neg (show ¬ ((j : Int) + 1 = 0) by omega)]
  by_cases h0 : j = 0
  · rw [if_pos h0, if_pos (by exact_mod_cast h0)]
    push_cast
    ring
  · rw [if_neg h0, if_neg (by exact_mod_cast h0)]
    ring

/-- Projection of a first harmonic sampled at the 18 bin centres of a half turn
on the sine of the odd harmonic `2j+1`. -/
theorem first_harmonic_sin (cr sr : ℝ) (j : Nat) (hj : j < 9) :
    (∑ k in Finset.range 18,
        (cr * Real.cos (((k : ℝ) + 1 / 2) * Real.pi / 18) +
            sr * Real.sin (((k : ℝ) + 1 / 2) * Real.pi / 18)) *
          Real.sin ((((k : ℝ) + 1 / 2) * (Real.pi / 18)) * (2 * (j : ℝ) + 1))) =
      if j = 0 then 9 * sr else 0 := by
  have hterm : ∀ k ∈ Finset.range 18,
      (cr * Real.cos (((k : ℝ) + 1 / 2) * Real.pi / 18) +
            sr * Real.sin (((k : ℝ) + 1 / 2) * Real.pi / 18)) *
          Real.sin ((((k : ℝ) + 1 / 2) * (Real.pi / 18)) * (2 * (j : ℝ) + 1)) =
        cr / 2 * Real.sin (((k : ℝ) + 1 / 2) * (2 * Real.pi * ((j : Int) : ℝ) / (18 : Nat))) +
          cr / 2 * Real.sin (((k : ℝ) + 1 / 2) * (2 * Real.pi * ((j + 1 : Int) : ℝ) / (18 : Nat))) +
          sr / 2 * Real.cos (((k : ℝ) + 1 / 2) * (2 * Real.pi * ((j : Int) : ℝ) / (18 : Nat))) -
          sr / 2 * Real.cos (((k : ℝ) + 1 / 2) * (2 * Real.pi * ((j + 1 : Int) : ℝ) / (18 : Nat))) := by
    intro k _
    have ea : ((k : ℝ) + 1 / 2) * (2 * Real.pi * ((j : Int) : ℝ) / (18 : Nat)) =
        (((k : ℝ) + 1 / 2) * (Real.pi / 18)) * (2 * (j : ℝ) + 1) -
          ((k : ℝ) + 1 / 2) * Real.pi / 18 := by
      push_cast
      ring
    have eb : ((k : ℝ) + 1 / 2) * (2 * Real.pi * ((j + 1 : Int) : ℝ) / (18 : Nat)) =
        (((k : ℝ) + 1 / 2) * (Real.pi / 18)) * (2 * (j : ℝ) + 1) +
          ((k : ℝ) + 1 / 2) * Real.pi / 18 := by
      push_cast
      ring
    rw [ea, eb, Real.cos_sub, Real.cos_add, Real.sin_sub, Real.sin_add]
    ring
  rw [Finset.sum_congr rfl hterm, Finset.sum_sub_distrib, Finset.sum_add_distrib,
    Finset.sum_add_distrib, ← Finset.mul_sum, ← Finset.mul_sum, ← Finset.mul_sum,
    ← Finset.mul_sum, sum_cos_bins 18 j (by rw [abs_lt]; constructor <;> omega),
    sum_cos_bins 18 (j + 1) (by rw [abs_lt]; constructor <;> omega),
    sum_sin_bins 18 j (by rw [abs_lt]; constructor <;> omega),
    sum_sin_bins 18 (j + 1) (by rw [abs_lt]; constructor <;> omega),
    if_neg (show ¬ ((j : Int) + 1 = 0) by omega)]
  by_cases h0 : j = 0
  · rw [if_pos h0, if_pos (by exact_mod_cast h0)]
    push_cast
    ring
  · rw [if_neg h0, if_neg (by exact_mod_cast h0)]
    ring

/-- C15. Over the reals, for an antiperiodic air-gap element with `arc = 180`
degrees and `N = 18` pads whose pad values are the first harmonic
`br[k] = c·cos(t_k) + s·sin(t_k)`, `t_k = (k+1/2)·π/18` (complex amplitudes `c`,
`s`), the loader's projection yields `brc[0] = c`, `brs[0] = s` and
`brc[j] = brs[j] = 0` for every `j` with `1 ≤ j < 9`. -/
theorem OpenDocument_harmonics_first (E : MathEnv ℝ) (hE : E.IsReal) (age : CAirGapElement ℝ)
    (hfmt : age.BdryFormat ≠ 0) (harc : age.totalArcLength = 180)
    (hN : age.totalArcElements = 18) (c s : Cx ℝ)
    (hbr : ∀ k, k < 18 → age.br.getD k 0 =
      c * Real.cos (((k : ℝ) + 1 / 2) * Real.pi / 18) +
        s * Real.sin (((k : ℝ) + 1 / 2) * Real.pi / 18)) :
    (OpenDocument_harmonics E age).brc.getD 0 0 = c ∧
      (OpenDocument_harmonics E age).brs.getD 0 0 = s ∧
      ∀ j, 1 ≤ j → j < 9 →
        (OpenDocument_harmonics E age).brc.getD j 0 = 0 ∧
          (OpenDocument_harmonics E age).brs.getD j 0 = 0 := by
  obtain ⟨hPI, hsin, hcos, -, -⟩ := hE
  have hm : ageBaseOrder age = 1 := by
    unfold ageBaseOrder
    rw [if_neg hfmt, harc, div_self (by norm_num), cround_one]
  have hcount : ageCount age = 9 := by simp [ageCount, hfmt, hN]
  have hord : ∀ j : Nat, ((ageOrder age j : Int) : ℝ) = 2 * (j : ℝ) + 1 := by
    intro j
    unfold ageOrder
    rw [if_neg hfmt, hm]
    push_cast
    ring
  have hdt : ageStep E age = Real.pi / 18 := by
    unfold ageStep
    rw [hPI, harc, hN]
    push_cast
    ring
  have hdiv : ∀ j : Nat, ageDivisor age j = 9 := by
    intro j
    unfold ageDivisor
    rw [if_neg, hN]
    · push_cast
      norm_num
    · rintro (h | ⟨⟨-, h⟩, -⟩)
      · unfold ageOrder at h
        rw [if_neg hfmt, hm] at h
        omega
      · exact hfmt h
  have hre : ∀ k ∈ Finset.range 18, ∀ f : ℝ → ℝ, ∀ x : ℝ,
      (age.br.getD k 0).re * f x =
        (c.re * Real.cos (((k : ℝ) + 1 / 2) * Real.pi / 18) +
          s.re * Real.sin (((k : ℝ) + 1 / 2) * Real.pi / 18)) * f x := by
    intro k hk f x
    rw [hbr k (Finset.mem_range.mp hk)]
    rfl
  have him : ∀ k ∈ Finset.range 18, ∀ f : ℝ → ℝ, ∀ x : ℝ,
      (age.br.getD k 0).im * f x =
        (c.im * Real.cos (((k : ℝ) + 1 / 2) * Real.pi / 18) +
          s.im * Real.sin (((k : ℝ) + 1 / 2) * Real.pi / 18)) * f x := by
    intro k hk f x
    rw [hbr k (Finset.mem_range.mp hk)]
    rfl
  have hc : ∀ j, j < 9 → (OpenDocument_harmonics E age).brc.getD j 0 =
      if j = 0 then c else 0 := by
    intro j hj
    simp only [OpenDocument_harmonics, hcount]
    rw [getD_map_range _ _ _ _ hj, hdiv, hdt, hN, hcos]
    ext
    · rw [cx_divr_re, ageProject_re, Finset.sum_congr rfl (fun k hk => hre k hk _ _), hord,
        first_harmonic_cos _ _ j hj]
      split_ifs <;> simp [cx_zero_re]
    · rw [cx_divr_im, ageProject_im, Finset.sum_congr rfl (fun k hk => him k hk _ _), hord,
        first_harmonic_cos _ _ j hj]
      split_ifs <;> simp [cx_zero_im]
  have hs : ∀ j, j < 9 → (OpenDocument_harmonics E age).brs.getD j 0 =
      if j = 0 then s else 0 := by
    intro j hj
    simp only [OpenDocument_harmonics, hcount]
    rw [getD_map_range _ _ _ _ hj, hdiv, hdt, hN, hsin]
    ext
    · rw [cx_divr_re, ageProject_re, Finset.sum_congr rfl (fun k hk => hre k hk _ _), hord,
        first_harmonic_sin _ _ j hj]
      split_ifs <;> simp [cx_zero_re]
    · rw [cx_divr_im, ageProject_im, Finset.sum_congr rfl (fun k hk => him k hk _ _), hord,
        first_harmonic_sin _ _ j hj]
      split_ifs <;> simp [cx_zero_im]
  refine ⟨by rw [hc 0 (by norm_num), if_pos rfl], by rw [hs 0 (by norm_num), if_pos rfl],
    fun j h1 h9 => ⟨?_, ?_⟩⟩
  · rw [hc j h9, if_neg (by omega)]
  · rw [hs j h9, if_neg (by omega)]

/-- C15, witness: the amplitudes `c = 2 + i`, `s = 3` are recovered in
`brc[0]`, `brs[0]`, and the harmonic of order 9 (`j = 4`) is zero. -/
theorem OpenDocument_harmonics_first_witness :
    (firstHarmonicAGE (⟨Real.pi, 1, Real.sin, Real.cos, Real.exp, Real.sqrt⟩ : MathEnv ℝ)
        ⟨2, 1⟩ ⟨3, 0⟩).BdryFormat ≠ 0 ∧
      (OpenDocument_harmonics ⟨Real.pi, 1, Real.sin, Real.cos, Real.exp, Real.sqrt⟩
        (firstHarmonicAGE (⟨Real.pi, 1, Real.sin, Real.cos, Real.exp, Real.sqrt⟩ : MathEnv ℝ)
          ⟨2, 1⟩ ⟨3, 0⟩)).brc.getD 0 0 = ⟨2, 1⟩ ∧
      (OpenDocument_harmonics ⟨Real.pi, 1, Real.sin, Real.cos, Real.exp, Real.sqrt⟩
        (firstHarmonicAGE (⟨Real.pi, 1, Real.sin, Real.cos, Real.exp, Real.sqrt⟩ : MathEnv ℝ)
          ⟨2, 1⟩ ⟨3, 0⟩)).brs.getD 0 0 = ⟨3, 0⟩ ∧
      (OpenDocument_harmonics ⟨Real.pi, 1, Real.sin, Real.cos, Real.exp, Real.sqrt⟩
        (firstHarmonicAGE (⟨Real.pi, 1, Real.sin, Real.cos, Real.exp, Real.sqrt⟩ : MathEnv ℝ)
          ⟨2, 1⟩ ⟨3, 0⟩)).brc.getD 4 0 = 0 :=
  have h := OpenDocument_harmonics_first ⟨Real.pi, 1, Real.sin, Real.cos, Real.exp, Real.sqrt⟩
    ⟨rfl, rfl, rfl, rfl, rfl⟩
    (firstHarmonicAGE (⟨Real.pi, 1, Real.sin, Real.cos, Real.exp, Real.sqrt⟩ : MathEnv ℝ)
      ⟨2, 1⟩ ⟨3, 0⟩)
    (by decide) rfl rfl ⟨2, 1⟩ ⟨3, 0⟩
    (fun k hk => getD_map_range
      (fun k : Nat => (⟨2, 1⟩ : Cx ℝ) * Real.cos (((k : ℝ) + 1 / 2) * Real.pi / 18) +
        (⟨3, 0⟩ : Cx ℝ) * Real.sin (((k : ℝ) + 1 / 2) * Real.pi / 18)) 18 k 0 hk)
  ⟨by decide, h.1, h.2.1, (h.2.2 4 (by norm_num) (by norm_num)).1⟩

/-- Projection of `cos θ` sampled at the 36 bin centres of a full turn on the
cosine of the harmonic `j`. -/
theorem cosine_cos (j : Nat) (hj : j < 19) :
    (∑ k in Finset.range 36,
        Real.cos (((k : ℝ) + 1 / 2) * Real.pi / 18) *
          Real.cos ((((k : ℝ) + 1 / 2) * (Real.pi / 18)) * (j : ℝ))) =
      if j = 1 then 18 else 0 := by
  have hterm : ∀ k ∈ Finset.range 36,
      Real.cos (((k : ℝ) + 1 / 2) * Real.pi / 18) *
          Real.cos ((((k : ℝ) + 1 / 2) * (Real.pi / 18)) * (j : ℝ)) =
        1 / 2 * Real.cos (((k : ℝ) + 1 / 2) * (2 * Real.pi * (((j : Int) - 1 : Int) : ℝ) / (36 : Nat))) +
          1 / 2 * Real.cos (((k : ℝ) + 1 / 2) * (2 * Real.pi * (((j : Int) + 1 : Int) : ℝ) / (36 : Nat))) := by
    intro k _
    have ea : ((k : ℝ) + 1 / 2) * (2 * Real.pi * (((j : Int) - 1 : Int) : ℝ) / (36 : Nat)) =
        (((k : ℝ) + 1 / 2) * (Real.pi / 18)) * (j : ℝ) - ((k : ℝ) + 1 / 2) * Real.pi / 18 := by
      push_cast
      ring
    have eb : ((k : ℝ) + 1 / 2) * (2 * Real.pi * (((j : Int) + 1 : Int) : ℝ) / (36 : Nat)) =
        (((k : ℝ) + 1 / 2) * (Real.pi / 18)) * (j : ℝ) + ((k : ℝ) + 1 / 2) * Real.pi / 18 := by
      push_cast
      ring
    rw [ea, eb, Real.cos_sub, Real.cos_add]
    ring
  rw [Finset.sum_congr rfl hterm, Finset.sum_add_distrib, ← Finset.mul_sum, ← Finset.mul_sum,
    sum_cos_bins 36 ((j : Int) - 1) (by rw [abs_lt]; constructor <;> omega),
    sum_cos_bins 36 ((j : Int) + 1) (by rw [abs_lt]; constructor <;> omega),
    if_neg (show ¬ ((j : Int) + 1 = 0) by omega)]
  by_cases h1 : j = 1
  · rw [if_pos h1, if_pos (by omega)]
    push_cast
    ring
  · rw [if_neg h1, if_neg (by omega)]
    ring

/-- Projection of `cos θ` sampled at the 36 bin centres of a full turn on the
sine of the harmonic `j`. -/
theorem cosine_sin (j : Nat) (hj : j < 19) :
    (∑ k in Finset.range 36,
        Real.cos (((k : ℝ) + 1 / 2) * Real.pi / 18) *
          Real.sin ((((k : ℝ) + 1 / 2) * (Real.pi / 18)) * (j : ℝ))) = 0 := by
  have hterm : ∀ k ∈ Finset.range 36,
      Real.cos (((k : ℝ) + 1 / 2) * Real.pi / 18) *
          Real.sin ((((k : ℝ) + 1 / 2) * (Real.pi / 18)) * (j : ℝ)) =
        1 / 2 * Real.sin (((k : ℝ) + 1 / 2) * (2 * Real.pi * (((j : Int) - 1 : Int) : ℝ) / (36 : Nat))) +
          1 / 2 * Real.sin (((k : ℝ) + 1 / 2) * (2 * Real.pi * (((j : Int) + 1 : Int) : ℝ) / (36 : Nat))) := by
    intro k _
    have ea : ((k : ℝ) + 1 / 2) * (2 * Real.pi * (((j : Int) - 1 : Int) : ℝ) / (36 : Nat)) =
        (((k : ℝ) + 1 / 2) * (Real.pi / 18)) * (j : ℝ) - ((k : ℝ) + 1 / 2) * Real.pi / 18 := by
      push_cast
      ring
    have eb : ((k : ℝ) + 1 / 2) * (2 * Real.pi * (((j : Int) + 1 : Int) : ℝ) / (36 : Nat)) =
        (((k : ℝ) + 1 / 2) * (Real.pi / 18)) * (j : ℝ) + ((k : ℝ) + 1 / 2) * Real.pi / 18 := by
      push_cast
      ring
    rw [ea, eb, Real.sin_sub, Real.sin_add]
    ring
  rw [Finset.sum_congr rfl hterm, Finset.sum_add_distrib, ← Finset.mul_sum, ← Finset.mul_sum,
    sum_sin_bins 36 ((j : Int) - 1) (by rw [abs_lt]; constructor <;> omega),
    sum_sin_bins 36 ((j : Int) + 1) (by rw [abs_lt]; constructor <;> omega)]
  ring

/-- The harmonics the loader derives for `B_r = cos θ`, `B_t = 0` on 36 pads
over the full turn: `brc[1] = 1`, every other coefficient is zero. -/
theorem cosineAGE_harmonics (E : MathEnv ℝ) (hE : E.IsReal) (j : Nat) (hj : j < 19) :
    (OpenDocument_harmonics E (cosineAGE E)).nh.getD j 0 = (j : Int) ∧
      (OpenDocument_harmonics E (cosineAGE E)).brc.getD j 0 = (if j = 1 then ⟨1, 0⟩ else 0) ∧
      (OpenDocument_harmonics E (cosineAGE E)).brs.getD j 0 = 0 ∧
      (OpenDocument_harmonics E (cosineAGE E)).btc.getD j 0 = 0 ∧
      (OpenDocument_harmonics E (cosineAGE E)).bts.getD j 0 = 0 := by
  obtain ⟨hPI, hsin, hcos, -, -⟩ := hE
  have hm : ageBaseOrder (cosineAGE E) = 1 := by
    simp only [ageBaseOrder, cosineAGE, mkAGE, if_true]
    rw [div_self (by norm_num), cround_one]
  have hcount : ageCount (cosineAGE E) = 19 := by simp [ageCount, cosineAGE, mkAGE]
  have hN : (cosineAGE E).totalArcElements = 36 := rfl
  have hord : ∀ j : Nat, ageOrder (cosineAGE E) j = (j : Int) := by
    intro j
    unfold ageOrder
    rw [if_pos (show (cosineAGE E).BdryFormat = 0 from rfl), hm, one_mul]
  have hdt : ageStep E (cosineAGE E) = Real.pi / 18 := by
    simp only [ageStep, cosineAGE, mkAGE, hPI]
    push_cast
    ring
  have hdiv1 : ageDivisor (cosineAGE E) 1 = 18 := by
    unfold ageDivisor
    rw [if_neg, hN]
    · push_cast
      norm_num
    · rw [hord, hcount]
      rintro (h | ⟨⟨h, -⟩, -⟩)
      · omega
      · omega
  have hbr : ∀ k ∈ Finset.range 36,
      (cosineAGE E).br.getD k 0 = ⟨Real.cos (((k : ℝ) + 1 / 2) * Real.pi / 18), 0⟩ := by
    intro k hk
    simp only [cosineAGE, mkAGE]
    rw [getD_map_range _ _ _ _ (Finset.mem_range.mp hk), hcos, hPI]
  have hbt : ∀ k, (cosineAGE E).bt.getD k 0 = 0 := fun k => getD_replicate_zero 36 k
  refine ⟨?_, ?_, ?_, ?_, ?_⟩
  · simp only [OpenDocument_harmonics, hcount]
    rw [getD_map_range _ _ _ _ hj, hord]
  · simp only [OpenDocument_harmonics, hcount]
    rw [getD_map_range _ _ _ _ hj, hdt, hN, hcos, hord]
    have hp : ageProject Real.cos (Real.pi / 18) (((j : Int) : ℝ)) 36 (cosineAGE E).br =
        if j = 1 then ⟨18, 0⟩ else 0 := by
      ext
      · rw [ageProject_re, Finset.sum_congr rfl (fun k hk => by rw [hbr k hk])]
        push_cast
        rw [cosine_cos j hj]
        split_ifs <;> rfl
      · rw [ageProject_im, Finset.sum_congr rfl (fun k hk => by rw [hbr k hk])]
        simp only [zero_mul, Finset.sum_const_zero]
        split_ifs <;> rfl
    rw [hp]
    by_cases h1 : j = 1
    · subst h1
      rw [if_pos rfl, if_pos rfl, hdiv1]
      ext <;> simp [cx_divr_re, cx_divr_im]
    · rw [if_neg h1, if_neg h1, cx_zero_divr]
  · simp only [OpenDocument_harmonics, hcount]
    rw [getD_map_range _ _ _ _ hj, hdt, hN, hsin, hord]
    have hp : ageProject Real.sin (Real.pi / 18) (((j : Int) : ℝ)) 36 (cosineAGE E).br = 0 := by
      ext
      · rw [ageProject_re, Finset.sum_congr rfl (fun k hk => by rw [hbr k hk])]
        push_cast
        rw [cosine_sin j hj]
        rfl
      · rw [ageProject_im, Finset.sum_congr rfl (fun k hk => by rw [hbr k hk])]
        simp only [zero_mul, Finset.sum_const_zero]
        rfl
    rw [hp, cx_zero_divr]
  · simp only [OpenDocument_harmonics, hcount]
    rw [getD_map_range _ _ _ _ hj, ageProject_zero _ _ _ _ _ hbt, cx_zero_divr]
  · simp only [OpenDocument_harmonics, hcount]
    rw [getD_map_range _ _ _ _ hj, ageProject_zero _ _ _ _ _ hbt, cx_zero_divr]

/-- C17, witness: the scenario of the claim. For the loaded periodic element
of 36 pads over 360 degrees between the radii 1 and 2 with `B_r = cos θ`,
`B_t = 0`, unit depth and `f = 0`, only `brc[1] = 1` is non-zero and the
stored energy is `π·1.5·Depth·1/(2·μ0)` (here `Depth = 1`, `μ0 = 1`). -/
theorem gapTimeAvgStoredEnergyIntegral_spec_witness :
    (∃ a ∈ (loadedGap (⟨Real.pi, 1, Real.sin, Real.cos, Real.exp, Real.sqrt⟩ : MathEnv ℝ)
        (cosineAGE ⟨Real.pi, 1, Real.sin, Real.cos, Real.exp, Real.sqrt⟩)).agelist,
        a.BdryName = "gap") ∧
      gapTimeAvgStoredEnergyIntegral (⟨Real.pi, 1, Real.sin, Real.cos, Real.exp, Real.sqrt⟩ : MathEnv ℝ)
          (loadedGap ⟨Real.pi, 1, Real.sin, Real.cos, Real.exp, Real.sqrt⟩
            (cosineAGE ⟨Real.pi, 1, Real.sin, Real.cos, Real.exp, Real.sqrt⟩)) "gap" 0 =
        (.NoError, ⟨Real.pi * (3 / 2) * 1 / (2 * 1), 0⟩) := by
  have hE : (⟨Real.pi, 1, Real.sin, Real.cos, Real.exp, Real.sqrt⟩ : MathEnv ℝ).IsReal :=
    ⟨rfl, rfl, rfl, rfl, rfl⟩
  generalize hEq : (⟨Real.pi, 1, Real.sin, Real.cos, Real.exp, Real.sqrt⟩ : MathEnv ℝ) = E at hE ⊢
  have hPI : E.PI = Real.pi := hE.1
  have hmu : E.muo = 1 := by rw [← hEq]
  have hex : ∃ a ∈ (loadedGap E (cosineAGE E)).agelist, a.BdryName = "gap" :=
    ⟨_, List.mem_singleton_self _, rfl⟩
  have hload : firstAGE (loadedGap E (cosineAGE E)) "gap" =
      OpenDocument_harmonics E (cosineAGE E) := rfl
  have hnn : (OpenDocument_harmonics E (cosineAGE E)).nn = 19 := by
    simp [OpenDocument_harmonics, ageCount, cosineAGE, mkAGE]
  have H := cosineAGE_harmonics E hE
  have hreal : ∀ k, k < (firstAGE (loadedGap E (cosineAGE E)) "gap").nn →
      ((firstAGE (loadedGap E (cosineAGE E)) "gap").brc.getD k 0).im = 0 ∧
        ((firstAGE (loadedGap E (cosineAGE E)) "gap").brs.getD k 0).im = 0 ∧
        ((firstAGE (loadedGap E (cosineAGE E)) "gap").btc.getD k 0).im = 0 ∧
        ((firstAGE (loadedGap E (cosineAGE E)) "gap").bts.getD k 0).im = 0 := by
    intro k hk
    rw [hload] at hk ⊢
    rw [hnn] at hk
    obtain ⟨-, h1, h2, h3, h4⟩ := H k hk
    rw [h1, h2, h3, h4]
    refine ⟨?_, rfl, rfl, rfl⟩
    split_ifs <;> rfl
  have hri : (firstAGE (loadedGap E (cosineAGE E)) "gap").ri = 1 := rfl
  have hro : (firstAGE (loadedGap E (cosineAGE E)) "gap").ro = 2 := rfl
  have hR : ((firstAGE (loadedGap E (cosineAGE E)) "gap").ri +
      (firstAGE (loadedGap E (cosineAGE E)) "gap").ro) / 2 ≠ 0 := by
    rw [hri, hro]
    norm_num
  have h := gapTimeAvgStoredEnergyIntegral_spec E (loadedGap E (cosineAGE E)) "gap" 0 hex hR hreal
  have hterm : ∀ k ∈ List.range 19,
      gapEnergyTerm (OpenDocument_harmonics E (cosineAGE E)) k = if k = 1 then 1 else 0 := by
    intro k hk
    obtain ⟨h0, h1, h2, h3, h4⟩ := H k (List.mem_range.mp hk)
    unfold gapEnergyTerm
    rw [h0, h1, h2, h3, h4]
    by_cases hk0 : k = 0
    · subst hk0
      simp [Cx.normSq, cx_zero_re, cx_zero_im]
    · rw [if_pos (by exact_mod_cast hk0)]
      by_cases hk1 : k = 1
      · rw [if_pos hk1, if_pos hk1]
        simp [Cx.normSq, cx_zero_re, cx_zero_im]
      · rw [if_neg hk1, if_neg hk1]
        simp [Cx.normSq, cx_zero_re, cx_zero_im]
  have hsum : ((List.range (firstAGE (loadedGap E (cosineAGE E)) "gap").nn).map
      (gapEnergyTerm (firstAGE (loadedGap E (cosineAGE E)) "gap"))).sum = 1 := by
    rw [hload, hnn, List.map_congr_left hterm]
    simp [List.range_succ]
  refine ⟨hex, Prod.ext h.1 ?_⟩
  rw [h.2, hsum, hri, hro, hPI, hmu,
    if_neg (show ¬ (loadedGap E (cosineAGE E)).Frequency ≠ 0 from fun hne => hne rfl)]
  show (⟨_, 0⟩ : Cx ℝ) = ⟨_, 0⟩
  congr 1
  simp only [loadedGap]
  norm_num

/-! ## Theorems: flux linkage of a parallel circuit -/

/-- C21. For a non-series circuit `c` with zero total current at `f = 0`,
`GetFluxLinkage(c)` is `GetParallelLinkage` or `GetParallelLinkageAlt`
(according to whether a block label of circuit `c` has `Case = 0`) evaluated
at the number of block labels, the value the loop variable `i` is left with,
not at `c`. -/
theorem GetFluxLinkage_parallel_static (PI : ℚ) (P : FPProc) (c : Nat)
    (hA : (P.circ c).Amps = 0) (hf : P.Frequency = 0) (hT : (P.circ c).CircType ≠ 1) :
    GetFluxLinkage PI P c =
      if ∃ i, i < P.blocklist.length ∧ (P.label i).Case = 0 ∧
          (P.label i).InCircuit = (c : Int) then
        GetParallelLinkage PI P (P.blocklist.length : Int)
      else GetParallelLinkageAlt PI P (P.blocklist.length : Int) := by
  unfold GetFluxLinkage
  simp only [hA, hf, hT, CComplex.zero_re, CComplex.zero_im, ne_eq, not_true_eq_false,
    or_self, if_false]
  by_cases h : ∃ i, i < P.blocklist.length ∧ (P.label i).Case = 0 ∧
      (P.label i).InCircuit = (c : Int)
  · rw [if_pos h, if_pos]
    rw [List.any_eq_true]
    obtain ⟨i, hi, h1, h2⟩ := h
    exact ⟨i, List.mem_range.mpr hi, by simp [h1, h2]⟩
  · rw [if_neg h, if_neg]
    rw [List.any_eq_true]
    rintro ⟨i, hi, h1⟩
    exact h ⟨i, List.mem_range.mp hi, by simpa using h1⟩

/-- C21, evaluation: in `twoCoilMesh` (with `π` replaced by `3`), circuit `0`
has the uniform-current-density linkage `1`, but `GetFluxLinkage(0)` returns
`3`, the linkage of circuit `2`, because `2` is the number of block labels. -/
theorem GetFluxLinkage_parallel_static_witness :
    (twoCoilMesh.circ 0).Amps = 0 ∧ twoCoilMesh.Frequency = 0 ∧
      (twoCoilMesh.circ 0).CircType ≠ 1 ∧
      GetFluxLinkage 3 twoCoilMesh 0 = ⟨3, 0⟩ ∧
      GetParallelLinkageAlt 3 twoCoilMesh ((0 : Nat) : Int) = ⟨1, 0⟩ ∧
      GetParallelLinkageAlt 3 twoCoilMesh (twoCoilMesh.blocklist.length : Int) = ⟨3, 0⟩ := by
  have h := GetFluxLinkage_parallel_static 3 twoCoilMesh 0 (by decide!) (by decide!) (by decide!)
  refine ⟨by decide!, by decide!, by decide!, ?_, by decide!, by decide!⟩
  rw [h, if_neg]
  · decide!
  · rintro ⟨i, hi, h1, -⟩
    have h2 : twoCoilMesh.blocklist.length = 2 := rfl
    have h3 : i = 0 ∨ i = 1 := by omega
    rcases h3 with rfl | rfl
    · exact absurd h1 (by decide!)
    · exact absurd h1 (by decide!)

/-! ## Theorems: the point-in-triangle test -/

/-- Each pass of the loop of `InTriangleTest` accepts the point exactly when the
barycentric numerator of the vertex opposite to the edge is non-negative,
whichever of the two index-ordered cases is taken. -/
theorem edgeTest_iff (P : FPProc) (x y : ℚ) (e : CPostProcMElement) :
    (edgeTest P x y e 0 = true ↔ 0 ≤ baryNum P e x y 2) ∧
      (edgeTest P x y e 1 = true ↔ 0 ≤ baryNum P e x y 0) ∧
      (edgeTest P x y e 2 = true ↔ 0 ≤ baryNum P e x y 1) := by
  refine ⟨?_, ?_, ?_⟩
  all_goals
    simp only [edgeTest, baryNum, coefA, coefB, coefC]
    norm_num only
    split_ifs
    all_goals
      first
      | contradiction
      | (simp only [decide_not, Bool.not_eq_true', decide_eq_false_iff_not, not_lt, not_not,
          Bool.not_not, decide_eq_true_eq, ge_iff_le, gt_iff_lt]
         constructor <;> intro h <;> linarith)

/-- The three barycentric numerators add up to `da`. -/
theorem baryNum_sum (P : FPProc) (e : CPostProcMElement) (x y : ℚ) :
    baryNum P e x y 0 + baryNum P e x y 1 + baryNum P e x y 2 = coefDa P e := by
  simp only [baryNum, coefDa, coefA, coefB, coefC]
  ring

/-- C27. `InTriangleTest(x, y, i)` is true exactly when `i` is an element index
in range and the three barycentric numerators `a_j + b_j·x + c_j·y` of that
element are non-negative (so it is false for an index outside
`[0, numElements)`); when `da > 0` (vertices counter-clockwise) this says that
the point is a convex combination of the three vertices, a point of the closed
triangle. -/
theorem InTriangleTest_barycentric (P : FPProc) (x y : ℚ) (i : Int) :
    (InTriangleTest P x y i = true ↔
        (0 ≤ i ∧ i < (P.meshelem.length : Int)) ∧
          ∀ j, j < 3 → 0 ≤ baryNum P (P.elem i.toNat) x y j) ∧
      (0 < coefDa P (P.elem i.toNat) →
        ((∀ j, j < 3 → 0 ≤ baryNum P (P.elem i.toNat) x y j) ↔
          ∃ l0 l1 l2 : ℚ, 0 ≤ l0 ∧ 0 ≤ l1 ∧ 0 ≤ l2 ∧ l0 + l1 + l2 = 1 ∧
            x = l0 * (P.node ((P.elem i.toNat).p 0)).x + l1 * (P.node ((P.elem i.toNat).p 1)).x +
              l2 * (P.node ((P.elem i.toNat).p 2)).x ∧
            y = l0 * (P.node ((P.elem i.toNat).p 0)).y + l1 * (P.node ((P.elem i.toNat).p 1)).y +
              l2 * (P.node ((P.elem i.toNat).p 2)).y)) := by
  constructor
  · obtain ⟨h0, h1, h2⟩ := edgeTest_iff P x y (P.elem i.toNat)
    unfold InTriangleTest
    by_cases hr : i < 0 ∨ i ≥ (P.meshelem.length : Int)
    · rw [if_pos hr]
      constructor
      · intro h
        exact absurd h (by simp)
      · rintro ⟨⟨ha, hb⟩, -⟩
        omega
    · rw [if_neg hr]
      simp only [List.all_cons, List.all_nil, Bool.and_true, Bool.and_eq_true, h0, h1, h2]
      constructor
      · rintro ⟨e0, e1, e2⟩
        refine ⟨by omega, fun j hj => ?_⟩
        interval_cases j
        · exact e1
        · exact e2
        · exact e0
      · rintro ⟨-, h⟩
        exact ⟨h 2 (by norm_num), h 0 (by norm_num), h 1 (by norm_num)⟩
  · intro hda
    generalize P.elem i.toNat = e at hda ⊢
    have hsum := baryNum_sum P e x y
    have hx : baryNum P e x y 0 * (P.node (e.p 0)).x + baryNum P e x y 1 * (P.node (e.p 1)).x +
        baryNum P e x y 2 * (P.node (e.p 2)).x = coefDa P e * x := by
      simp only [baryNum, coefDa, coefA, coefB, coefC]
      ring
    have hy : baryNum P e x y 0 * (P.node (e.p 0)).y + baryNum P e x y 1 * (P.node (e.p 1)).y +
        baryNum P e x y 2 * (P.node (e.p 2)).y = coefDa P e * y := by
      simp only [baryNum, coefDa, coefA, coefB, coefC]
      ring
    constructor
    · intro h
      refine ⟨baryNum P e x y 0 / coefDa P e, baryNum P e x y 1 / coefDa P e,
        baryNum P e x y 2 / coefDa P e, div_nonneg (h 0 (by norm_num)) hda.le,
        div_nonneg (h 1 (by norm_num)) hda.le, div_nonneg (h 2 (by norm_num)) hda.le, ?_, ?_, ?_⟩
      · rw [← add_div, ← add_div, hsum, div_self hda.ne']
      · field_simp
        linarith
      · field_simp
        linarith
    · rintro ⟨l0, l1, l2, p0, p1, p2, hl, rfl, rfl⟩ j hj
      have e0 : baryNum P e (l0 * (P.node (e.p 0)).x + l1 * (P.node (e.p 1)).x +
            l2 * (P.node (e.p 2)).x) (l0 * (P.node (e.p 0)).y + l1 * (P.node (e.p 1)).y +
            l2 * (P.node (e.p 2)).y) 0 = l0 * coefDa P e := by
        simp only [baryNum, coefDa, coefA, coefB, coefC]
        linear_combination (-((P.node (e.p 1)).x * (P.node (e.p 2)).y -
          (P.node (e.p 2)).x * (P.node (e.p 1)).y)) * hl
      have e1 : baryNum P e (l0 * (P.node (e.p 0)).x + l1 * (P.node (e.p 1)).x +
            l2 * (P.node (e.p 2)).x) (l0 * (P.node (e.p 0)).y + l1 * (P.node (e.p 1)).y +
            l2 * (P.node (e.p 2)).y) 1 = l1 * coefDa P e := by
        simp only [baryNum, coefDa, coefA, coefB, coefC]
        linear_combination (-((P.node (e.p 2)).x * (P.node (e.p 0)).y -
          (P.node (e.p 0)).x * (P.node (e.p 2)).y)) * hl
      have e2 : baryNum P e (l0 * (P.node (e.p 0)).x + l1 * (P.node (e.p 1)).x +
            l2 * (P.node (e.p 2)).x) (l0 * (P.node (e.p 0)).y + l1 * (P.node (e.p 1)).y +
            l2 * (P.node (e.p 2)).y) 2 = l2 * coefDa P e := by
        simp only [baryNum, coefDa, coefA, coefB, coefC]
        linear_combination (-((P.node (e.p 0)).x * (P.node (e.p 1)).y -
          (P.node (e.p 1)).x * (P.node (e.p 0)).y)) * hl
      interval_cases j
      · rw [e0]
        exact mul_nonneg p0 hda.le
      · rw [e1]
        exact mul_nonneg p1 hda.le
      · rw [e2]
        exact mul_nonneg p2 hda.le

/-- C26 (amended). For a triangle of positive signed area listed
counter-clockwise as `(p0, p1, p2)` in element `i`, `InTriangleTest` on the
same triangle listed in the opposite orientation `(p0, p2, p1)` (element `i'`)
is false at every point, so the two listings give the same result exactly at
the points where the counter-clockwise listing fails, the points outside the
closed triangle. -/
theorem InTriangleTest_winding (P : FPProc) (x y : ℚ) (i i' : Nat)
    (hi : i < P.meshelem.length)
    (h0 : (P.elem i').p0 = (P.elem i).p0) (h1 : (P.elem i').p1 = (P.elem i).p2)
    (h2 : (P.elem i').p2 = (P.elem i).p1) (hda : 0 < coefDa P (P.elem i)) :
    InTriangleTest P x y i' = false ∧
      (InTriangleTest P x y i = InTriangleTest P x y i' ↔
        ¬ ∀ j, j < 3 → 0 ≤ baryNum P (P.elem i) x y j) := by
  have hrev : InTriangleTest P x y i' = false := by
    by_contra hc
    have ht : InTriangleTest P x y (i' : Int) = true := by simpa using hc
    obtain ⟨-, hn⟩ := (InTriangleTest_barycentric P x y i').1.1 ht
    rw [Int.toNat_ofNat] at hn
    have n0 := hn 0 (by norm_num)
    have n1 := hn 1 (by norm_num)
    have n2 := hn 2 (by norm_num)
    have hsum := baryNum_sum P (P.elem i) x y
    simp only [baryNum, coefA, coefB, coefC, CPostProcMElement.p, h0, h1, h2] at n0 n1 n2
    simp only [baryNum, coefA, coefB, coefC, CPostProcMElement.p] at hsum
    linarith
  refine ⟨hrev, ?_⟩
  rw [hrev]
  have hb := (InTriangleTest_barycentric P x y i).1
  rw [Int.toNat_ofNat] at hb
  constructor
  · intro hf hall
    have : InTriangleTest P x y (i : Int) = true := hb.2 ⟨⟨by omega, by omega⟩, hall⟩
    rw [hf] at this
    exact absurd this (by simp)
  · intro hn
    by_contra hc
    have ht : InTriangleTest P x y (i : Int) = true := by simpa using hc
    exact hn (hb.1 ht).2

/-- C26, witness: in `windingMesh` the clockwise listing rejects every point;
the point `(2, 2)` is rejected by both listings. -/
theorem InTriangleTest_winding_witness :
    0 < coefDa windingMesh (windingMesh.elem 0) ∧
      InTriangleTest windingMesh 2 2 ((1 : Nat) : Int) = false ∧
      InTriangleTest windingMesh 2 2 ((0 : Nat) : Int) =
        InTriangleTest windingMesh 2 2 ((1 : Nat) : Int) :=
  have h := InTriangleTest_winding windingMesh 2 2 0 1 (by decide) rfl rfl rfl
    (by decide!)
  ⟨by decide!, h.1, h.2.2 (fun hall => absurd (hall 0 (by norm_num)) (by decide!))⟩

/-- C26, counterexample to the claim as stated: at the point `(1/4, 1/4)` of
the triangle `(0,0), (1,0), (0,1)` the test is true for the listing
`(0, 1, 2)` and false for the listing `(0, 2, 1)`. -/
theorem InTriangleTest_winding_counterexample :
    (windingMesh.elem 1).p0 = (windingMesh.elem 0).p0 ∧
      (windingMesh.elem 1).p1 = (windingMesh.elem 0).p2 ∧
      (windingMesh.elem 1).p2 = (windingMesh.elem 0).p1 ∧
      InTriangleTest windingMesh (1 / 4) (1 / 4) 0 = true ∧
      InTriangleTest windingMesh (1 / 4) (1 / 4) 1 = false := by
  decide!

/-! ## Theorems: boundary edges -/

theorem edgeDone_congr (P Q : FPProc) (h1 : Q.NumList = P.NumList) (h2 : Q.ConList = P.ConList)
    (hp : ∀ i k, (Q.elem i).p k = (P.elem i).p k) (i j : Nat) :
    edgeDone Q i j = edgeDone P i j := by
  simp only [edgeDone, h1, h2, hp]

theorem elem_set_self (P : FPProc) (i : Nat) (e : CPostProcMElement)
    (hi : i < P.meshelem.length) :
    FPProc.elem { P with meshelem := P.meshelem.set i e } i = e := by
  simp only [FPProc.elem]
  exact getD_set_self _ _ _ _ hi

theorem elem_set_ne (P : FPProc) (i k : Nat) (e : CPostProcMElement) (hk : i ≠ k) :
    FPProc.elem { P with meshelem := P.meshelem.set i e } k = P.elem k := by
  simp only [FPProc.elem]
  exact getD_set_ne _ _ _ _ _ hk

theorem boundaryStep_inv (P Q : FPProc) (t jj : Nat) (ht : t < P.meshelem.length) (hjj : jj < 3)
    (h : BdryInv P Q t jj) : BdryInv P (boundaryStep Q t jj) t (jj + 1) := by
  obtain ⟨h1, h2, h3, hp, hn⟩ := h
  have hz : (Q.elem t).n jj = 0 := by
    rw [hn t jj ht hjj, if_neg]
    omega
  have hd : edgeDone Q t jj = edgeDone P t jj := edgeDone_congr P Q h1 h2 hp t jj
  unfold boundaryStep
  rw [if_pos hz, hd]
  by_cases hdone : edgeDone P t jj = true
  · rw [if_pos hdone]
    refine ⟨h1, h2, h3, hp, fun i j hi hj => ?_⟩
    rw [hn i j hi hj]
    by_cases hc : i = t ∧ j = jj
    · obtain ⟨rfl, rfl⟩ := hc
      rw [if_neg (by omega), if_pos (by omega), if_pos hdone]
    · split_ifs <;> first | rfl | (exfalso; omega)
  · rw [if_neg hdone]
    have htQ : t < Q.meshelem.length := by omega
    refine ⟨h1, h2, by simpa using h3, fun i k => ?_, fun i j hi hj => ?_⟩
    · by_cases hit : t = i
      · subst hit
        rw [elem_set_self Q t _ htQ]
        exact hp t k
      · rw [elem_set_ne Q t i _ hit]
        exact hp i k
    · by_cases hit : t = i
      · subst hit
        rw [elem_set_self Q t _ htQ]
        show (if j = jj then 1 else (Q.elem t).n j) = _
        by_cases hj2 : j = jj
        · subst hj2
          rw [if_pos rfl, if_pos (by omega), if_neg hdone]
        · rw [if_neg hj2, hn t j hi hj]
          split_ifs <;> first | rfl | (exfalso; omega)
      · rw [elem_set_ne Q t i _ hit, hn i j hi hj]
        split_ifs <;> first | rfl | (exfalso; omega)

theorem FindBoundaryEdges_inv (P : FPProc) :
    BdryInv P (FindBoundaryEdges P) P.meshelem.length 0 := by
  unfold FindBoundaryEdges
  simp only [List.length_map]
  refine foldl_range_invariant _ (fun t Q => BdryInv P Q t 0) _ P.meshelem.length ?_ ?_
  · refine ⟨rfl, rfl, by simp, fun i k => ?_, fun i j hi hj => ?_⟩
    · simp only [FPProc.elem, List.getD_eq_getElem?_getD, List.getElem?_map]
      cases h : P.meshelem[i]? <;> simp [CPostProcMElement.p]
    · rw [if_neg (by omega)]
      simp only [FPProc.elem, List.getD_eq_getElem?_getD, List.getElem?_map]
      rw [List.getElem?_eq_getElem hi]
      simp [hj]
  · intro t Q ht hQ
    have s1 := boundaryStep_inv P Q t 0 ht (by norm_num) hQ
    have s2 := boundaryStep_inv P _ t 1 ht (by norm_num) s1
    have s3 := boundaryStep_inv P _ t 2 ht (by norm_num) s2
    obtain ⟨h1, h2, h3, hp, hn⟩ := s3
    refine ⟨h1, h2, h3, hp, fun i j hi hj => ?_⟩
    have := hn i j hi hj
    simp only [List.foldl_cons, List.foldl_nil]
    rw [this]
    split_ifs <;> first | rfl | (exfalso; omega)

theorem edgeDone_iff (P : FPProc) (hc : ConListComplete P) (i j : Nat)
    (hi : i < P.meshelem.length) (hj : j < 3) :
    edgeDone P i j = true ↔
      ∃ e, e < P.meshelem.length ∧ e ≠ i ∧ hasNode P e ((P.elem i).p ((j + 1) % 3)) ∧
        hasNode P e ((P.elem i).p ((j + 2) % 3)) := by
  have hp1 : plus1mod3 j = (j + 1) % 3 := by interval_cases j <;> rfl
  have hp2 : minus1mod3 j = (j + 2) % 3 := by interval_cases j <;> rfl
  have hl : (j + 1) % 3 < 3 := Nat.mod_lt _ (by norm_num)
  have horg : ∃ i', i' < P.meshelem.length ∧ hasNode P i' ((P.elem i).p ((j + 1) % 3)) := by
    refine ⟨i, hi, ?_⟩
    unfold hasNode
    have : (j + 1) % 3 = 0 ∨ (j + 1) % 3 = 1 ∨ (j + 1) % 3 = 2 := by omega
    rcases this with h | h | h <;> rw [h] <;> simp
  simp only [edgeDone, hp1, hp2, List.any_eq_true, Bool.and_eq_true, bne_iff_ne, ne_eq,
    Bool.or_eq_true, beq_iff_eq]
  constructor
  · rintro ⟨e, hmem, hne, hdest⟩
    obtain ⟨he, hn⟩ := (hc _ horg e).1 hmem
    exact ⟨e, he, hne, hn, by unfold hasNode; tauto⟩
  · rintro ⟨e, he, hne, hn, hdest⟩
    exact ⟨e, (hc _ horg e).2 ⟨he, hn⟩, hne, by unfold hasNode at hdest; tauto⟩

/-- C28. After `FindBoundaryEdges`, given complete node-to-element lists, for
every element `i` and every `j` in `{0, 1, 2}`: `n[j] = 1` exactly when no
other element `e ≠ i` has both nodes `p[(j+1) mod 3]` and `p[(j+2) mod 3]` of
element `i` among its vertices, and `n[j] = 0` otherwise; the vertices of the
elements are untouched. -/
theorem FindBoundaryEdges_spec (P : FPProc) (hc : ConListComplete P) (i j : Nat)
    (hi : i < P.meshelem.length) (hj : j < 3) :
    (((FindBoundaryEdges P).elem i).n j = 1 ↔
        ¬ ∃ e, e < P.meshelem.length ∧ e ≠ i ∧ hasNode P e ((P.elem i).p ((j + 1) % 3)) ∧
          hasNode P e ((P.elem i).p ((j + 2) % 3))) ∧
      (((FindBoundaryEdges P).elem i).n j = 0 ↔
        ∃ e, e < P.meshelem.length ∧ e ≠ i ∧ hasNode P e ((P.elem i).p ((j + 1) % 3)) ∧
          hasNode P e ((P.elem i).p ((j + 2) % 3))) ∧
      (∀ k, ((FindBoundaryEdges P).elem i).p k = (P.elem i).p k) := by
  obtain ⟨-, -, -, hp, hn⟩ := FindBoundaryEdges_inv P
  have hv := hn i j hi hj
  rw [if_pos (Or.inl hi)] at hv
  rw [← edgeDone_iff P hc i j hi hj, hv]
  refine ⟨?_, ?_, hp i⟩
  · by_cases hd : edgeDone P i j = true
    · simp [hd]
    · simp [hd]
  · by_cases hd : edgeDone P i j = true
    · simp [hd]
    · simp [hd]

theorem hasNode_iff (P : FPProc) (e n : Nat) :
    hasNode P e n ↔ ∃ j, j < 3 ∧ (P.elem e).p j = n := by
  unfold hasNode
  constructor
  · rintro (h | h | h)
    · exact ⟨0, by norm_num, h⟩
    · exact ⟨1, by norm_num, h⟩
    · exact ⟨2, by norm_num, h⟩
  · rintro ⟨j, hj, h⟩
    interval_cases j
    · exact Or.inl h
    · exact Or.inr (Or.inl h)
    · exact Or.inr (Or.inr h)

/-- The lists built by the loader are complete when every vertex of every
element is a node of the mesh. -/
theorem ConListComplete_connections (P : FPProc)
    (hv : ∀ i, i < P.meshelem.length → ∀ j, j < 3 → (P.elem i).p j < P.meshnode.length) :
    ConListComplete (OpenDocument_connections P) := by
  intro n hex e
  have hn : n < P.meshnode.length := by
    obtain ⟨i, hi, hh⟩ := hex
    obtain ⟨j, hj, hp⟩ := (hasNode_iff _ i n).1 hh
    have := hv i hi j hj
    have he : (FPProc.elem (OpenDocument_connections P) i).p j = (P.elem i).p j := rfl
    omega
  obtain ⟨hcon, hnum⟩ := OpenDocument_connections_spec P n hn
  rw [hcon, hnum, List.take_length, mem_incident, hasNode_iff]
  exact Iff.rfl

/-- C28, witness: in the unit square cut along its diagonal, edge `0` of
element `0` (nodes `1`, `2`) lies on the boundary. -/
theorem FindBoundaryEdges_spec_witness :
    ConListComplete (OpenDocument_connections squareMesh) ∧
      ((FindBoundaryEdges (OpenDocument_connections squareMesh)).elem 0).n 0 = 1 :=
  ⟨ConListComplete_connections squareMesh (by decide),
    (FindBoundaryEdges_spec (OpenDocument_connections squareMesh)
      (ConListComplete_connections squareMesh (by decide)) 0 0 (by decide) (by decide)).1.2
      (by
        rintro ⟨e, he, hne, h1, h2⟩
        have he2 : e < 2 := he
        interval_cases e
        · exact hne rfl
        · exact absurd h1 (by unfold hasNode; decide))⟩

/-! ## Theorems: permeability -/

/-- C22, amended. `AECF(k) = r²·extRi/extRo³` with `r = |ctr(k) − i·extZo|`
for every element `k` of an axisymmetric problem whose block label has
`IsExternal` set, and `AECF(k) = 1` for every other element and for every
element of a planar problem, whatever the name of the material; both overloads
of `GetMu` divide `mu1` and `mu2` by `AECF(k)`. -/
theorem AECF_external (E : LibEnv) (P : FPProc) (k : Nat) :
    (AECF E P k =
        if P.problemType = ProblemType.AXISYMMETRIC ∧
            (P.label (P.elem k).lbl).IsExternal = true then
          (E.abs ((P.elem k).ctr - CComplex.I * P.extZo) *
              E.abs ((P.elem k).ctr - CComplex.I * P.extZo) * P.extRi) /
            (P.extRo * P.extRo * P.extRo)
        else 1) ∧
      (∀ b1 b2 : ℚ, GetMu E P b1 b2 k =
        ((E.GetMu (P.blockprop (P.elem k).blk) b1 b2).1 / AECF E P k,
          (E.GetMu (P.blockprop (P.elem k).blk) b1 b2).2 / AECF E P k)) ∧
      (∀ b1 b2 : CComplex, ¬ (P.blockprop (P.elem k).blk).LamType > 2 →
        GetMu_complex E P b1 b2 k =
          ((E.GetMuC (P.blockprop (P.elem k).blk) b1 b2).1 / AECF E P k,
            (E.GetMuC (P.blockprop (P.elem k).blk) b1 b2).2 / AECF E P k)) ∧
      (∀ b1 b2 : CComplex, (P.blockprop (P.elem k).blk).LamType > 2 →
        GetMu_complex E P b1 b2 k =
          ((P.label (P.elem k).lbl).mu / AECF E P k, (P.label (P.elem k).lbl).mu / AECF E P k)) := by
  refine ⟨?_, fun b1 b2 => rfl, fun b1 b2 h => ?_, fun b1 b2 h => ?_⟩
  · unfold AECF
    by_cases h1 : P.problemType = ProblemType.AXISYMMETRIC
    · cases h2 : (P.label (P.elem k).lbl).IsExternal <;> simp [h1, h2]
    · simp [h1]
  · simp only [GetMu_complex, if_neg h]
  · simp only [GetMu_complex, if_pos h]

/-- C22, counterexample: an element of an axisymmetric problem whose material
is named `u1` and whose block label is not external, with centroid `(2, 0)`
and `extRi = extRo = 1`, `extZo = 0`: `AECF` is `1`, not `r²·extRi/extRo³ = 4`. -/
theorem AECF_external_counterexample :
    shellMesh.problemType = ProblemType.AXISYMMETRIC ∧
      OpenDocument_isExtName (shellMesh.blockprop (shellMesh.elem 0).blk).BlockName = true ∧
      AECF stubLib shellMesh 0 = 1 ∧
      (stubLib.abs ((shellMesh.elem 0).ctr - CComplex.I * shellMesh.extZo) *
          stubLib.abs ((shellMesh.elem 0).ctr - CComplex.I * shellMesh.extZo) *
            shellMesh.extRi) / (shellMesh.extRo * shellMesh.extRo * shellMesh.extRo) = 4 := by
  refine ⟨rfl, by decide, by decide!, by decide!⟩

/-- C30, amended. In an incremental problem at zero frequency, for an element
whose previous-solution flux density is not zero, `GetPointValues` reports the
linearised tensor `(mu1, mu12, mu2)` built from `B1p`, `B2p` when
`PrevType = 1` and `mu1 = mu2 = murel`, `mu12 = 0` for every other `PrevType`
(`2`, frozen permeability); when that flux density is zero it reports
`mu1 = mu2 = muinc`, `mu12 = 0`. At non-zero frequency every incremental
problem, `PrevType` `1` or `2` alike, gets the linearised tensor when the
previous-solution flux density is not zero, and `mu1 = mu2 = murel`,
`mu12 = 0` when it is zero. Here `(muinc, murel)` is the pair that `GetMu`
returns at `(B1p, B2p)`. -/
theorem GetPointValues_mu_incremental (E : LibEnv) (P : FPProc) (B1 B2 : CComplex) (k : Nat)
    (hinc : P.bIncremental ≠ 0) :
    (P.Frequency = 0 →
        E.sqrt ((P.elem k).B1p * (P.elem k).B1p + (P.elem k).B2p * (P.elem k).B2p) ≠ 0 →
        P.PrevType ≠ 1 →
        GetPointValues_mu E P B1 B2 k =
          ⟨⟨(GetMu E P (P.elem k).B1p (P.elem k).B2p k).2, 0⟩,
            ⟨(GetMu E P (P.elem k).B1p (P.elem k).B2p k).2, 0⟩, 0⟩) ∧
      (P.Frequency = 0 →
        E.sqrt ((P.elem k).B1p * (P.elem k).B1p + (P.elem k).B2p * (P.elem k).B2p) ≠ 0 →
        P.PrevType = 1 →
        GetPointValues_mu E P B1 B2 k =
          (let B1p := (P.elem k).B1p
           let B2p := (P.elem k).B2p
           let B := E.sqrt (B1p * B1p + B2p * B2p)
           let muinc := (GetMu E P B1p B2p k).1
           let murel := (GetMu E P B1p B2p k).2
           ⟨⟨(B1p * B1p * muinc + B2p * B2p * murel) / (B * B), 0⟩,
             ⟨(B2p * B2p * muinc + B1p * B1p * murel) / (B * B), 0⟩,
             ⟨(B1p * B2p * (muinc - murel)) / (B * B), 0⟩⟩)) ∧
      (P.Frequency = 0 →
        E.sqrt ((P.elem k).B1p * (P.elem k).B1p + (P.elem k).B2p * (P.elem k).B2p) = 0 →
        GetPointValues_mu E P B1 B2 k =
          ⟨⟨(GetMu E P (P.elem k).B1p (P.elem k).B2p k).1, 0⟩,
            ⟨(GetMu E P (P.elem k).B1p (P.elem k).B2p k).1, 0⟩, 0⟩) ∧
      (P.Frequency ≠ 0 →
        E.sqrt ((P.elem k).B1p * (P.elem k).B1p + (P.elem k).B2p * (P.elem k).B2p) ≠ 0 →
        GetPointValues_mu E P B1 B2 k =
          (let B1p := (P.elem k).B1p
           let B2p := (P.elem k).B2p
           let B := E.sqrt (B1p * B1p + B2p * B2p)
           let muinc := (GetMu_complex E P ⟨B1p, 0⟩ ⟨B2p, 0⟩ k).1
           let murel := (GetMu_complex E P ⟨B1p, 0⟩ ⟨B2p, 0⟩ k).2
           ⟨((B1p * B1p) * muinc + (B2p * B2p) * murel) / (B * B),
             ((B2p * B2p) * muinc + (B1p * B1p) * murel) / (B * B),
             ((B1p * B2p) * (muinc - murel)) / (B * B)⟩)) ∧
      (P.Frequency ≠ 0 →
        E.sqrt ((P.elem k).B1p * (P.elem k).B1p + (P.elem k).B2p * (P.elem k).B2p) = 0 →
        GetPointValues_mu E P B1 B2 k =
          ⟨(GetMu_complex E P ⟨(P.elem k).B1p, 0⟩ ⟨(P.elem k).B2p, 0⟩ k).2,
            (GetMu_complex E P ⟨(P.elem k).B1p, 0⟩ ⟨(P.elem k).B2p, 0⟩ k).2, 0⟩) := by
  refine ⟨fun hf hB ht => ?_, fun hf hB ht => ?_, fun hf hB => ?_, fun hf hB => ?_,
    fun hf hB => ?_⟩
  · simp only [GetPointValues_mu, if_pos hf, if_neg hinc, if_neg hB, if_neg ht]
  · simp only [GetPointValues_mu, if_pos hf, if_neg hinc, if_neg hB, if_pos ht]
  · simp only [GetPointValues_mu, if_pos hf, if_neg hinc, if_pos hB]
  · simp only [GetPointValues_mu, if_neg hf, if_neg hinc, if_neg hB]
  · simp only [GetPointValues_mu, if_neg hf, if_neg hinc, if_pos hB]

/-- C30, witness: the frozen-permeability problem at zero frequency reports
`mu1 = mu2 = murel = 1` and `mu12 = 0`. -/
theorem GetPointValues_mu_incremental_witness :
    (frozenMesh 0 2).bIncremental ≠ 0 ∧
      GetPointValues_mu stubLib (frozenMesh 0 2) 0 0 0 = ⟨⟨1, 0⟩, ⟨1, 0⟩, 0⟩ :=
  ⟨by decide,
    ((GetPointValues_mu_incremental stubLib (frozenMesh 0 2) 0 0 0 (by decide)).1 rfl
      (by decide!) (by decide)).trans (by decide!)⟩

/-- C30, counterexample: the frozen-permeability problem (`PrevType = 2`) at
frequency `1` with previous-solution flux density `(1, 0)` and a material with
`muinc = 2`, `murel = 1`: `GetPointValues` reports `mu1 = 2`, `mu2 = 1`, the
linearised tensor, not `mu1 = mu2 = murel`. -/
theorem GetPointValues_mu_incremental_counterexample :
    (frozenMesh 1 2).bIncremental ≠ 0 ∧ (frozenMesh 1 2).PrevType = 2 ∧
      (frozenMesh 1 2).Frequency ≠ 0 ∧
      (GetMu_complex stubLib (frozenMesh 1 2) ⟨1, 0⟩ ⟨0, 0⟩ 0).2 = ⟨1, 0⟩ ∧
      (GetPointValues_mu stubLib (frozenMesh 1 2) 0 0 0).mu1 = ⟨2, 0⟩ ∧
      (GetPointValues_mu stubLib (frozenMesh 1 2) 0 0 0).mu2 = ⟨1, 0⟩ := by
  refine ⟨by decide, by decide, by decide!, by decide!, by decide!, by decide!⟩

/-! ## Theorems: reading the solution file -/

theorem ctrunc_format (v : ℚ) :
    ctrunc (10 * v + 1 / 2) = 40 ↔ 79 / 20 ≤ v ∧ v < 81 / 20 := by
  unfold ctrunc
  split_ifs with h
  · rw [Int.floor_eq_iff]
    push_cast
    constructor
    · rintro ⟨h1, h2⟩
      constructor <;> linarith
    · rintro ⟨h1, h2⟩
      constructor <;> linarith
  · rw [Int.ceil_eq_iff]
    push_cast
    constructor
    · rintro ⟨h1, h2⟩
      exfalso
      linarith
    · rintro ⟨h1, h2⟩
      exfalso
      linarith

/-- The header loop sends one message when it stops at a `[Format]` line and
none otherwise, and leaves the mesh and the air-gap list alone. -/
theorem readHeader_spec (es : List HeaderEntry) :
    ∀ s : LoadState,
      ((readHeader s es).1 = HeaderEnd.badVersion →
          (readHeader s es).2.warnings = s.warnings ++ [Warning.differentVersion]) ∧
        ((readHeader s es).1 ≠ HeaderEnd.badVersion →
          (readHeader s es).2.warnings = s.warnings) ∧
        (readHeader s es).2.meshnode = s.meshnode ∧
        (readHeader s es).2.meshelem = s.meshelem ∧
        (readHeader s es).2.agelist = s.agelist := by
  induction es with
  | nil => intro s; simp [readHeader]
  | cons e es ih =>
    intro s
    cases e <;> simp only [readHeader]
    case format v =>
      split_ifs with hv
      · simp [LoadState.warn]
      · exact ih s
    all_goals first
      | exact ih _
      | simp

/-- The end of the header loop and the sizes of the lists that it fills depend
on the file and on the sizes before only. -/
theorem readHeader_lists (es : List HeaderEntry) :
    ∀ s s' : LoadState,
      s.nodelist = s'.nodelist → s.linelist = s'.linelist → s.arclist = s'.arclist →
      s.blocklist = s'.blocklist → s.nodeproplist = s'.nodeproplist →
      s.lineproplist = s'.lineproplist → s.blockproplist = s'.blockproplist →
      s.circproplist = s'.circproplist →
      (readHeader s es).1 = (readHeader s' es).1 ∧
        (readHeader s es).2.nodelist = (readHeader s' es).2.nodelist ∧
        (readHeader s es).2.linelist = (readHeader s' es).2.linelist ∧
        (readHeader s es).2.arclist = (readHeader s' es).2.arclist ∧
        (readHeader s es).2.blocklist = (readHeader s' es).2.blocklist ∧
        (readHeader s es).2.nodeproplist = (readHeader s' es).2.nodeproplist ∧
        (readHeader s es).2.lineproplist = (readHeader s' es).2.lineproplist ∧
        (readHeader s es).2.blockproplist = (readHeader s' es).2.blockproplist ∧
        (readHeader s es).2.circproplist = (readHeader s' es).2.circproplist := by
  induction es with
  | nil => intro s s' h1 h2 h3 h4 h5 h6 h7 h8; exact ⟨rfl, h1, h2, h3, h4, h5, h6, h7, h8⟩
  | cons e es ih =>
    intro s s' h1 h2 h3 h4 h5 h6 h7 h8
    cases e <;> simp only [readHeader]
    case format v =>
      split_ifs with hv
      · exact ⟨rfl, h1, h2, h3, h4, h5, h6, h7, h8⟩
      · exact ih s s' h1 h2 h3 h4 h5 h6 h7 h8
    case solution => exact ⟨trivial, h1, h2, h3, h4, h5, h6, h7, h8⟩
    all_goals
      apply ih <;> simp only [h1, h2, h3, h4, h5, h6, h7, h8]

/-- A `[Format]` line that fails the version check, with no `[solution]` line
before it, ends the header loop at a version check. -/
theorem readHeader_badVersion (post : List HeaderEntry) (v : ℚ)
    (hv : ctrunc (10 * v + 1 / 2) ≠ 40) (pre : List HeaderEntry) :
    ∀ s : LoadState, (∀ e ∈ pre, e ≠ HeaderEntry.solution) →
      (readHeader s (pre ++ HeaderEntry.format v :: post)).1 = HeaderEnd.badVersion := by
  induction pre with
  | nil =>
    intro s _
    simp only [List.nil_append, readHeader]
    rw [if_pos hv]
  | cons e es ih =>
    intro s hpre
    have hes : ∀ e ∈ es, e ≠ HeaderEntry.solution := fun e he => hpre e (List.mem_cons_of_mem _ he)
    have he : e ≠ HeaderEntry.solution := hpre e (List.mem_cons_self _ _)
    cases e <;> simp only [List.cons_append, readHeader]
    case format w =>
      split_ifs with hw
      · rfl
      · exact ih s hes
    case solution => exact absurd rfl he
    all_goals exact ih _ hes

theorem LoadState.SameHeader.refl (s : LoadState) : s.SameHeader s :=
  ⟨rfl, rfl, rfl, rfl, rfl, rfl, rfl, rfl, rfl, rfl⟩

theorem LoadState.SameHeader.chain {s s' s'' : LoadState} (h : s.SameHeader s')
    (h' : s'.SameHeader s'') : s.SameHeader s'' := by
  obtain ⟨a1, a2, a3, a4, a5, a6, a7, a8, a9, a10⟩ := h
  obtain ⟨b1, b2, b3, b4, b5, b6, b7, b8, b9, b10⟩ := h'
  exact ⟨b1.trans a1, b2.trans a2, b3.trans a3, b4.trans a4, b5.trans a5, b6.trans a6,
    b7.trans a7, b8.trans a8, b9.trans a9, b10.trans a10⟩

theorem nodeFields_congr {s s' : LoadState} (h : s.SameHeader s') :
    nodeFields s' = nodeFields s := by
  simp only [nodeFields, h.1, h.2.1]

theorem readNodeRow_spec (s : LoadState) (i : Nat) (row : Row) :
    s.SameHeader (readNodeRow s i row).2 ∧ s.Warned (readNodeRow s i row) ∧
      (readNodeRow s i row).2.meshnode = s.meshnode ∧
      (readNodeRow s i row).2.meshelem = s.meshelem ∧
      (readNodeRow s i row).2.agelist = s.agelist ∧
      (¬ (s.Frequency ≠ 0 ∧ s.bIncremental ≠ 0) → (readNodeRow s i row).1 = true →
        sscanfCount (nodeFields s) row = (nodeFields s : Int)) := by
  unfold readNodeRow
  by_cases hm : s.Frequency ≠ 0 ∧ s.bIncremental ≠ 0
  · simp only [if_pos hm]
    split_ifs with h
    · exact ⟨LoadState.SameHeader.refl s, ⟨by simp, by simp [LoadState.warn]⟩, rfl, rfl, rfl,
        fun hh => absurd hm hh⟩
    · exact ⟨LoadState.SameHeader.refl s, ⟨by simp, by simp⟩, rfl, rfl, rfl,
        fun hh => absurd hm hh⟩
  · simp only [if_neg hm]
    have hnf : nodeFields { s with sscnt := sscanfCount (nodeFields s) row } = nodeFields s := rfl
    rw [hnf]
    split_ifs with h
    · exact ⟨LoadState.SameHeader.refl s, ⟨by simp, by simp [LoadState.warn]⟩, rfl, rfl, rfl,
        fun _ hh => by simp at hh⟩
    · exact ⟨LoadState.SameHeader.refl s, ⟨by simp, by simp⟩, rfl, rfl, rfl,
        fun _ _ => not_not.1 h⟩

theorem readNodes_spec (n : Nat) :
    ∀ (s : LoadState) (i : Nat) (rows : List Row),
      s.SameHeader (readNodes s n i rows).2 ∧ s.Warned (readNodes s n i rows) ∧
        (readNodes s n i rows).2.meshnode = s.meshnode ∧
        (readNodes s n i rows).2.meshelem = s.meshelem ∧
        (readNodes s n i rows).2.agelist = s.agelist ∧
        (¬ (s.Frequency ≠ 0 ∧ s.bIncremental ≠ 0) → (readNodes s n i rows).1 = true →
          ∀ j, j < n → ∃ row, rows[j]? = some row ∧
            sscanfCount (nodeFields s) row = (nodeFields s : Int)) := by
  induction n with
  | zero =>
    intro s i rows
    exact ⟨LoadState.SameHeader.refl s, ⟨fun _ => rfl, fun h => by simp [readNodes] at h⟩,
      rfl, rfl, rfl, fun _ _ j hj => absurd hj (Nat.not_lt_zero j)⟩
  | succ n ih =>
    intro s i rows
    cases rows with
    | nil =>
      exact ⟨LoadState.SameHeader.refl s,
        ⟨fun h => by simp [readNodes] at h, fun _ => by simp [readNodes, LoadState.warn]⟩,
        rfl, rfl, rfl, fun _ h => by simp [readNodes] at h⟩
    | cons row rows =>
      obtain ⟨r1, r2, r3, r4, r5, r6⟩ := readNodeRow_spec s i row
      simp only [readNodes]
      by_cases hr : (readNodeRow s i row).1 = true
      · rw [if_pos hr]
        obtain ⟨q1, q2, q3, q4, q5, q6⟩ := ih (readNodeRow s i row).2 (i + 1) rows
        have hw := r2.1 hr
        refine ⟨r1.chain q1, ⟨fun h => (q2.1 h).trans hw, fun h => ?_⟩, q3.trans r3,
          q4.trans r4, q5.trans r5, fun hm ht j hj => ?_⟩
        · rw [q2.2 h, hw]
        · have hm' : ¬ ((readNodeRow s i row).2.Frequency ≠ 0 ∧
              (readNodeRow s i row).2.bIncremental ≠ 0) := by
            rw [r1.1, r1.2.1]
            exact hm
          cases j with
          | zero => exact ⟨row, by simp, r6 hm hr⟩
          | succ j =>
            obtain ⟨row', hrow, hc⟩ := q6 hm' ht j (by omega)
            rw [nodeFields_congr r1] at hc
            exact ⟨row', by simpa using hrow, hc⟩
      · rw [if_neg hr]
        have hf : (readNodeRow s i row).1 = false := by simpa using hr
        exact ⟨r1, r2, r3, r4, r5, fun _ ht => absurd ht hr⟩

theorem readElemRow_spec (s : LoadState) (i : Nat) (row : Row) :
    s.SameHeader (readElemRow s i row).2 ∧ s.Warned (readElemRow s i row) ∧
      (readElemRow s i row).2.meshnode = s.meshnode ∧
      (readElemRow s i row).2.meshelem = s.meshelem ∧
      (readElemRow s i row).2.agelist = s.agelist ∧
      (s.bIncremental = 0 → (readElemRow s i row).1 = true → sscanfCount 4 row = 4) := by
  unfold readElemRow
  by_cases hm : s.bIncremental = 0
  · simp only [if_pos hm]
    split_ifs with h
    · exact ⟨LoadState.SameHeader.refl s, ⟨by simp, by simp [LoadState.warn]⟩, rfl, rfl, rfl,
        fun _ hh => by simp at hh⟩
    · exact ⟨LoadState.SameHeader.refl s, ⟨by simp, by simp⟩, rfl, rfl, rfl,
        fun _ _ => not_not.1 h⟩
  · simp only [if_neg hm]
    split_ifs with h
    · exact ⟨LoadState.SameHeader.refl s, ⟨by simp, by simp [LoadState.warn]⟩, rfl, rfl, rfl,
        fun hh => absurd hh hm⟩
    · exact ⟨LoadState.SameHeader.refl s, ⟨by simp, by simp⟩, rfl, rfl, rfl,
        fun hh => absurd hh hm⟩

theorem readElems_spec (n : Nat) :
    ∀ (s : LoadState) (i : Nat) (rows : List Row),
      s.SameHeader (readElems s n i rows).2 ∧ s.Warned (readElems s n i rows) ∧
        (readElems s n i rows).2.meshnode = s.meshnode ∧
        (readElems s n i rows).2.meshelem = s.meshelem ∧
        (readElems s n i rows).2.agelist = s.agelist ∧
        (s.bIncremental = 0 → (readElems s n i rows).1 = true →
          ∀ j, j < n → ∃ row, rows[j]? = some row ∧ sscanfCount 4 row = 4) := by
  induction n with
  | zero =>
    intro s i rows
    exact ⟨LoadState.SameHeader.refl s, ⟨fun _ => rfl, fun h => by simp [readElems] at h⟩,
      rfl, rfl, rfl, fun _ _ j hj => absurd hj (Nat.not_lt_zero j)⟩
  | succ n ih =>
    intro s i rows
    cases rows with
    | nil =>
      exact ⟨LoadState.SameHeader.refl s,
        ⟨fun h => by simp [readElems] at h, fun _ => by simp [readElems, LoadState.warn]⟩,
        rfl, rfl, rfl, fun _ h => by simp [readElems] at h⟩
    | cons row rows =>
      obtain ⟨r1, r2, r3, r4, r5, r6⟩ := readElemRow_spec s i row
      simp only [readElems]
      by_cases hr : (readElemRow s i row).1 = true
      · rw [if_pos hr]
        obtain ⟨q1, q2, q3, q4, q5, q6⟩ := ih (readElemRow s i row).2 (i + 1) rows
        have hw := r2.1 hr
        refine ⟨r1.chain q1, ⟨fun h => (q2.1 h).trans hw, fun h => ?_⟩, q3.trans r3,
          q4.trans r4, q5.trans r5, fun hm ht j hj => ?_⟩
        · rw [q2.2 h, hw]
        · cases j with
          | zero => exact ⟨row, by simp, r6 hm hr⟩
          | succ j =>
            obtain ⟨row', hrow, hc⟩ := q6 (r1.2.1.trans hm) ht j (by omega)
            exact ⟨row', by simpa using hrow, hc⟩
      · rw [if_neg hr]
        exact ⟨r1, r2, r3, r4, r5, fun _ ht => absurd ht hr⟩

theorem readQuadNodes_spec (a : AGERows) (n : Nat) :
    ∀ (s : LoadState) (j : Nat),
      s.SameHeader (readQuadNodes s a n j).2 ∧ s.Warned (readQuadNodes s a n j) ∧
        (readQuadNodes s a n j).2.meshnode = s.meshnode ∧
        (readQuadNodes s a n j).2.meshelem = s.meshelem ∧
        (readQuadNodes s a n j).2.agelist = s.agelist := by
  induction n with
  | zero =>
    intro s j
    exact ⟨LoadState.SameHeader.refl s, ⟨fun _ => rfl, fun h => by simp [readQuadNodes] at h⟩,
      rfl, rfl, rfl⟩
  | succ n ih =>
    intro s j
    simp only [readQuadNodes]
    split_ifs with h
    · exact ⟨LoadState.SameHeader.refl s, ⟨by simp, by simp [LoadState.warn]⟩, rfl, rfl, rfl⟩
    · exact ih s (j + 1)

theorem readAGEs_spec (as : List AGERows) :
    ∀ s : LoadState,
      s.SameHeader (readAGEs s as).2 ∧ s.Warned (readAGEs s as) ∧
        (readAGEs s as).2.meshnode = s.meshnode ∧
        (readAGEs s as).2.meshelem = s.meshelem ∧
        (readAGEs s as).2.agelist ≤ s.agelist + as.length ∧
        ((readAGEs s as).1 = false → (readAGEs s as).2.agelist < s.agelist + as.length) := by
  induction as with
  | nil =>
    intro s
    exact ⟨LoadState.SameHeader.refl s, ⟨fun _ => rfl, fun h => by simp [readAGEs] at h⟩,
      rfl, rfl, Nat.le_refl _, fun h => by simp [readAGEs] at h⟩
  | cons a as ih =>
    intro s
    obtain ⟨r1, r2, r3, r4, r5⟩ := readQuadNodes_spec a (a.totalArcElements + 1).toNat s 0
    simp only [readAGEs]
    by_cases hr : (readQuadNodes s a (a.totalArcElements + 1).toNat 0).1 = true
    · rw [if_pos hr]
      have hw := r2.1 hr
      by_cases ht : a.totalArcElements > 0
      · rw [if_pos ht]
        obtain ⟨q1, q2, q3, q4, q5, q6⟩ := ih
          { (readQuadNodes s a (a.totalArcElements + 1).toNat 0).2 with
            agelist := (readQuadNodes s a (a.totalArcElements + 1).toNat 0).2.agelist + 1 }
        have e5 : (readQuadNodes s a (a.totalArcElements + 1).toNat 0).2.agelist + 1 +
            as.length = s.agelist + (as.length + 1) := by rw [r5]; omega
        simp only [e5] at q5 q6
        refine ⟨LoadState.SameHeader.chain r1 q1, ⟨fun h => (q2.1 h).trans hw, fun h => ?_⟩,
          q3.trans r3, q4.trans r4, q5, q6⟩
        rw [q2.2 h]
        exact congrArg (fun l : List Warning => l.length + 1) hw
      · rw [if_neg ht]
        obtain ⟨q1, q2, q3, q4, q5, q6⟩ :=
          ih (readQuadNodes s a (a.totalArcElements + 1).toNat 0).2
        rw [r5] at q5 q6
        refine ⟨r1.chain q1, ⟨fun h => (q2.1 h).trans hw, fun h => ?_⟩,
          q3.trans r3, q4.trans r4, ?_, fun h => ?_⟩
        · rw [q2.2 h, hw]
        · simp only [List.length_cons]
          omega
        · have := q6 h
          simp only [List.length_cons]
          omega
    · rw [if_neg hr]
      exact ⟨r1, r2, r3, r4, by rw [r5]; omega, fun _ => by
        rw [r5]
        simp only [List.length_cons]
        omega⟩

theorem sscanfCount_append (n : Nat) (row extra : Row) (h : sscanfCount n row = (n : Int)) :
    sscanfCount n (row ++ extra) = (n : Int) := by
  cases row with
  | nil => simp [sscanfCount] at h
  | cons a row =>
    simp only [sscanfCount, List.cons_append] at h ⊢
    have hlen : ((a :: row).take n).length = n := by
      have h1 : (((a :: row).take n).takeWhile Option.isSome).length ≤ ((a :: row).take n).length :=
        (List.takeWhile_sublist _).length_le
      have h2 : ((a :: row).take n).length ≤ n := by
        rw [List.length_take]
        exact Nat.min_le_left _ _
      omega
    have hn : n ≤ (a :: row).length := by
      rw [List.length_take] at hlen
      omega
    have : (a :: (row ++ extra)).take n = (a :: row).take n := by
      rw [← List.cons_append, List.take_append_of_le_length hn]
    rw [this]
    exact h

theorem readBody_spec (H : LoadState) (f : AnsFile) :
    H.SameHeader (readBody H f).2 ∧ H.Warned (readBody H f) ∧
      (readBody H f).2.meshnode = f.numNodes ∧
      (((readBody H f).2.meshelem = H.meshelem ∧ (readBody H f).2.agelist = H.agelist) ∨
        ((readBody H f).2.meshelem = f.numElems ∧ (readBody H f).2.agelist = H.agelist) ∨
        ((readBody H f).2.meshelem = f.numElems ∧
          ((readBody H f).1 = false →
            (readBody H f).2.agelist < H.agelist + f.ages.length))) ∧
      (¬ (H.Frequency ≠ 0 ∧ H.bIncremental ≠ 0) → (readBody H f).1 = true →
        ∀ j, j < f.numNodes → ∃ row, f.nodeRows[j]? = some row ∧
          sscanfCount (nodeFields H) row = (nodeFields H : Int)) ∧
      (H.bIncremental = 0 → (readBody H f).1 = true →
        ∀ j, j < f.numElems → ∃ row, f.elemRows[j]? = some row ∧ sscanfCount 4 row = 4) := by
  have hS0 : H.SameHeader (H.resizeMeshnode f.numNodes) := LoadState.SameHeader.refl H
  obtain ⟨n1, n2, n3, n4, n5, n6⟩ :=
    readNodes_spec f.numNodes (H.resizeMeshnode f.numNodes) 0 f.nodeRows
  have n1' := hS0.chain n1
  have n3' : (readNodes (H.resizeMeshnode f.numNodes) f.numNodes 0 f.nodeRows).2.meshnode =
      f.numNodes := n3
  have n4' : (readNodes (H.resizeMeshnode f.numNodes) f.numNodes 0 f.nodeRows).2.meshelem =
      H.meshelem := n4
  have n5' : (readNodes (H.resizeMeshnode f.numNodes) f.numNodes 0 f.nodeRows).2.agelist =
      H.agelist := n5
  have n2' : H.Warned (readNodes (H.resizeMeshnode f.numNodes) f.numNodes 0 f.nodeRows) := n2
  have n6' : ¬ (H.Frequency ≠ 0 ∧ H.bIncremental ≠ 0) →
      (readNodes (H.resizeMeshnode f.numNodes) f.numNodes 0 f.nodeRows).1 = true →
      ∀ j, j < f.numNodes → ∃ row, f.nodeRows[j]? = some row ∧
        sscanfCount (nodeFields H) row = (nodeFields H : Int) := n6
  unfold readBody
  generalize readNodes (H.resizeMeshnode f.numNodes) f.numNodes 0 f.nodeRows = rN
    at n1' n2' n3' n4' n5' n6'
  obtain ⟨bN, N⟩ := rN
  cases bN with
  | false =>
    simp only [Bool.false_eq_true, if_false]
    exact ⟨n1', n2', n3', Or.inl ⟨n4', n5'⟩, fun _ h => by simp at h, fun _ h => by simp at h⟩
  | true =>
    simp only [if_true]
    have hS1 : N.SameHeader (N.resizeMeshelem f.numElems) := LoadState.SameHeader.refl N
    obtain ⟨e1, e2, e3, e4, e5, e6⟩ :=
      readElems_spec f.numElems (N.resizeMeshelem f.numElems) 0 f.elemRows
    have e1' := n1'.chain (hS1.chain e1)
    have e2' : N.Warned (readElems (N.resizeMeshelem f.numElems) f.numElems 0 f.elemRows) := e2
    have e3' : (readElems (N.resizeMeshelem f.numElems) f.numElems 0 f.elemRows).2.meshnode =
        f.numNodes := e3.trans n3'
    have e4' : (readElems (N.resizeMeshelem f.numElems) f.numElems 0 f.elemRows).2.meshelem =
        f.numElems := e4
    have e5' : (readElems (N.resizeMeshelem f.numElems) f.numElems 0 f.elemRows).2.agelist =
        H.agelist := e5.trans n5'
    have e6' : H.bIncremental = 0 →
        (readElems (N.resizeMeshelem f.numElems) f.numElems 0 f.elemRows).1 = true →
        ∀ j, j < f.numElems → ∃ row, f.elemRows[j]? = some row ∧ sscanfCount 4 row = 4 :=
      fun hb => e6 ((show (N.resizeMeshelem f.numElems).bIncremental = N.bIncremental from
        rfl).trans (n1'.2.1.trans hb))
    have hwN : N.warnings = H.warnings := n2'.1 rfl
    generalize readElems (N.resizeMeshelem f.numElems) f.numElems 0 f.elemRows = rE
      at e1' e2' e3' e4' e5' e6'
    obtain ⟨bE, E⟩ := rE
    cases bE with
    | false =>
      simp only [Bool.false_eq_true, if_false]
      refine ⟨e1', ⟨fun h => by simp at h, fun h => ?_⟩, e3', Or.inr (Or.inl ⟨e4', e5'⟩),
        fun _ h => by simp at h, fun _ h => by simp at h⟩
      rw [e2'.2 h, hwN]
    | true =>
      simp only [if_true]
      have hwE : E.warnings = H.warnings := (e2'.1 rfl).trans hwN
      obtain ⟨a1, a2, a3, a4, a5, a6⟩ := readAGEs_spec f.ages E
      have e5'' : E.agelist = H.agelist := e5'
      rw [e5''] at a5 a6
      refine ⟨e1'.chain a1, ⟨fun h => (a2.1 h).trans hwE, fun h => ?_⟩, a3.trans e3',
        Or.inr (Or.inr ⟨a4.trans e4', a6⟩), fun hm _ => n6' hm rfl, fun hb _ => e6' hb rfl⟩
      rw [a2.2 h, hwE]

/-- The reading part of `OpenDocument` sends no message when it reaches
`fclose(fp)` and exactly one when it returns `false`. -/
theorem OpenDocument_read_warned (prior : LoadState) (sscnt0 : Int) (f : AnsFile) :
    prior.Warned (OpenDocument_read prior sscnt0 f) := by
  unfold OpenDocument_read
  by_cases hr : f.readable = false
  · rw [if_pos hr]
    exact ⟨fun h => by simp at h, fun _ => by
      simp [LoadState.warn, LoadState.start, NewDocument, ClearDocument]⟩
  · rw [if_neg hr]
    obtain ⟨h1, h2, -, -, -⟩ := readHeader_spec f.header (prior.start sscnt0)
    have hw0 : (prior.start sscnt0).warnings = prior.warnings := rfl
    rw [hw0] at h1 h2
    generalize readHeader (prior.start sscnt0) f.header = h at h1 h2
    obtain ⟨e, H⟩ := h
    cases e
    · exact ⟨fun h => by simp at h, fun _ => by
        show H.warnings.length = _
        rw [h1 rfl]
        simp⟩
    · exact ⟨fun h => by simp at h, fun _ => by
        show (H.warn Warning.noSolution).warnings.length = _
        have : H.warnings = prior.warnings := h2 (by simp)
        simp [LoadState.warn, this]⟩
    · have hw : H.warnings = prior.warnings := h2 (by simp)
      obtain ⟨-, b2, -⟩ := readBody_spec H f
      show prior.Warned (readBody H f)
      unfold LoadState.Warned at b2 ⊢
      rw [hw] at b2
      exact b2

/-- C23, amended. `OpenDocument` returns `false`, after sending the version
message to the warning sink, for every input whose `[Format]` value `v` has
`(int) (10·v + 0.5) ≠ 40`, that is for every `v` outside `[3.95, 4.05)`; every
value in that interval, not only `4.0`, passes the version check. -/
theorem OpenDocument_format (prior : LoadState) (sscnt0 : Int) (f : AnsFile)
    (pre post : List HeaderEntry) (v : ℚ) (hr : f.readable = true)
    (hh : f.header = pre ++ HeaderEntry.format v :: post)
    (hpre : ∀ e ∈ pre, e ≠ HeaderEntry.solution) :
    (¬ (79 / 20 ≤ v ∧ v < 81 / 20) →
        (OpenDocument_read prior sscnt0 f).1 = false ∧
          (OpenDocument_read prior sscnt0 f).2.warnings =
            prior.warnings ++ [Warning.differentVersion]) ∧
      (79 / 20 ≤ v ∧ v < 81 / 20 →
        ∀ s : LoadState, readHeader s (HeaderEntry.format v :: post) = readHeader s post) := by
  constructor
  · intro hv
    have hv' : ctrunc (10 * v + 1 / 2) ≠ 40 := fun h => hv ((ctrunc_format v).1 h)
    have hb := readHeader_badVersion post v hv' pre (prior.start sscnt0) hpre
    have hw := (readHeader_spec (pre ++ HeaderEntry.format v :: post) (prior.start sscnt0)).1 hb
    unfold OpenDocument_read
    rw [if_neg (by simp [hr]), hh]
    generalize readHeader (prior.start sscnt0) (pre ++ HeaderEntry.format v :: post) = h
      at hb hw
    obtain ⟨e, H⟩ := h
    cases hb
    exact ⟨rfl, hw⟩
  · intro hv s
    have hv' : ctrunc (10 * v + 1 / 2) = 40 := (ctrunc_format v).2 hv
    simp only [readHeader]
    rw [if_neg (not_not.2 hv')]

/-- C23, witness: a file of version `3.0` is refused with the version
message. -/
theorem OpenDocument_format_witness :
    oldVersionFile.readable = true ∧
      (OpenDocument_read loadedState 0 oldVersionFile).1 = false ∧
      (OpenDocument_read loadedState 0 oldVersionFile).2.warnings =
        loadedState.warnings ++ [Warning.differentVersion] :=
  ⟨rfl, (OpenDocument_format loadedState 0 oldVersionFile [] [HeaderEntry.solution] 3 rfl rfl
    (fun _ h => absurd h (List.not_mem_nil _))).1 (by norm_num)⟩

/-- C23, counterexample: a file whose `[Format]` line reads `4.01`, a version
other than `4.0`, passes the version check and is read to its end without a
message. -/
theorem OpenDocument_format_counterexample :
    nearVersionFile.header = [HeaderEntry.format (401 / 100), HeaderEntry.solution] ∧
      (401 / 100 : ℚ) ≠ 4 ∧
      (OpenDocument_read loadedState 0 nearVersionFile).1 = true ∧
      (OpenDocument_read loadedState 0 nearVersionFile).2.warnings = [] := by
  have hv : ctrunc (10 * (401 / 100) + 1 / 2) = 40 := (ctrunc_format _).2 (by norm_num)
  have hh : readHeader (loadedState.start 0) nearVersionFile.header =
      (HeaderEnd.solution, loadedState.start 0) := by
    show readHeader _ [HeaderEntry.format (401 / 100), HeaderEntry.solution] = _
    simp only [readHeader]
    rw [if_neg (not_not.2 hv)]
  refine ⟨rfl, by norm_num, ?_, ?_⟩
  · unfold OpenDocument_read
    rw [if_neg (by decide), hh]
    rfl
  · unfold OpenDocument_read
    rw [if_neg (by decide), hh]
    rfl

/-- C24, amended. `OpenDocument` reports through the warning sink, once, and
returns `false` for every solution text in which some mesh-node row of a
problem that is not an incremental one at `f != 0`, or some mesh-element row
of a problem that is not incremental, is missing or has fewer leading fields
that can be read than the mode requires (`3` or `4` node fields for `f = 0` or
`f != 0`, `5` for an incremental problem at `f = 0`; `4` element fields); a
row in which the required fields are followed by further fields is counted
like the row without them. -/
theorem OpenDocument_rows (prior : LoadState) (sscnt0 : Int) (f : AnsFile)
    (hbad :
      (¬ ((readHeader (prior.start sscnt0) f.header).2.Frequency ≠ 0 ∧
            (readHeader (prior.start sscnt0) f.header).2.bIncremental ≠ 0) ∧
          ∃ i, i < f.numNodes ∧ ∀ row, f.nodeRows[i]? = some row →
            sscanfCount (nodeFields (readHeader (prior.start sscnt0) f.header).2) row ≠
              (nodeFields (readHeader (prior.start sscnt0) f.header).2 : Int)) ∨
        ((readHeader (prior.start sscnt0) f.header).2.bIncremental = 0 ∧
          ∃ i, i < f.numElems ∧ ∀ row, f.elemRows[i]? = some row → sscanfCount 4 row ≠ 4)) :
    ((OpenDocument_read prior sscnt0 f).1 = false ∧
        (OpenDocument_read prior sscnt0 f).2.warnings.length = prior.warnings.length + 1) ∧
      ∀ (n : Nat) (row extra : Row), sscanfCount n row = (n : Int) →
        sscanfCount n (row ++ extra) = (n : Int) := by
  refine ⟨?_, sscanfCount_append⟩
  have hw := OpenDocument_read_warned prior sscnt0 f
  suffices hf : (OpenDocument_read prior sscnt0 f).1 = false from ⟨hf, hw.2 hf⟩
  by_contra ht
  have ht' : (OpenDocument_read prior sscnt0 f).1 = true := by simpa using ht
  unfold OpenDocument_read at ht'
  by_cases hr : f.readable = false
  · rw [if_pos hr] at ht'
    simp at ht'
  · rw [if_neg hr] at ht'
    generalize readHeader (prior.start sscnt0) f.header = h at hbad ht'
    obtain ⟨e, H⟩ := h
    cases e
    · simp at ht'
    · simp at ht'
    · have ht'' : (readBody H f).1 = true := ht'
      obtain ⟨-, -, -, -, b5, b6⟩ := readBody_spec H f
      rcases hbad with ⟨hm, i, hi, hrow⟩ | ⟨hm, i, hi, hrow⟩
      · obtain ⟨row, h1, h2⟩ := b5 hm ht'' i hi
        exact hrow row h1 h2
      · obtain ⟨row, h1, h2⟩ := b6 hm ht'' i hi
        exact hrow row h1 h2

/-- C24, witness: the magnetostatic file whose only mesh-node row has one
field is refused with one message. -/
theorem OpenDocument_rows_witness :
    (∃ i, i < shortRowFile.numNodes ∧ ∀ row, shortRowFile.nodeRows[i]? = some row →
        sscanfCount 3 row ≠ 3) ∧
      (OpenDocument_read loadedState 0 shortRowFile).1 = false ∧
      (OpenDocument_read loadedState 0 shortRowFile).2.warnings.length =
        loadedState.warnings.length + 1 :=
  have hh : readHeader (loadedState.start 0) shortRowFile.header =
      (HeaderEnd.solution, { loadedState.start 0 with blocklist := 1 }) := by
    have hv : ctrunc (10 * 4 + 1 / 2) = 40 := (ctrunc_format _).2 (by norm_num)
    show readHeader _ [HeaderEntry.format 4, HeaderEntry.numblocklabels 1,
      HeaderEntry.solution] = _
    simp only [readHeader]
    rw [if_neg (not_not.2 hv)]
    rfl
  have hrow : ∃ i, i < shortRowFile.numNodes ∧ ∀ row, shortRowFile.nodeRows[i]? = some row →
      sscanfCount 3 row ≠ 3 :=
    ⟨0, by decide, fun row h => by
      have : row = [some 0] := by
        have h' : some [some (0 : ℚ)] = some row := h
        exact (Option.some.inj h').symm
      subst this
      decide⟩
  ⟨hrow, (OpenDocument_rows loadedState 0 shortRowFile (Or.inl (by
    rw [hh]
    exact ⟨fun h => h.1 rfl, hrow⟩))).1⟩

/-- C24, counterexample: the magnetostatic file whose mesh-node row has four
fields, not exactly the three of its mode, is read to its end without a
message. -/
theorem OpenDocument_rows_counterexample :
    longRowFile.nodeRows = [[some 0, some 0, some 1, some 7]] ∧
      (OpenDocument_read loadedState 0 longRowFile).1 = true ∧
      (OpenDocument_read loadedState 0 longRowFile).2.warnings = [] ∧
      (OpenDocument_read loadedState 0 longRowFile).2.meshnode = 1 := by
  have hv : ctrunc (10 * 4 + 1 / 2) = 40 := (ctrunc_format _).2 (by norm_num)
  have hh : readHeader (loadedState.start 0) longRowFile.header =
      (HeaderEnd.solution, loadedState.start 0) := by
    show readHeader _ [HeaderEntry.format 4, HeaderEntry.solution] = _
    simp only [readHeader]
    rw [if_neg (not_not.2 hv)]
  have hb : readBody (loadedState.start 0) longRowFile =
      (true, { (loadedState.start 0).resizeMeshnode 1 with sscnt := 3 }) := by
    decide!
  have hR : OpenDocument_read loadedState 0 longRowFile =
      (true, { (loadedState.start 0).resizeMeshnode 1 with sscnt := 3 }) := by
    unfold OpenDocument_read
    rw [if_neg (by decide), hh]
    exact hb
  rw [hR]
  exact ⟨rfl, rfl, rfl, rfl⟩

theorem readNodeRow_fail (s : LoadState) (i : Nat) (row : Row)
    (h : (readNodeRow s i row).1 = false) :
    ∃ c e, (readNodeRow s i row).2.warnings = s.warnings ++ [Warning.nodeInputs c i e] := by
  unfold readNodeRow at h ⊢
  by_cases hm : s.Frequency ≠ 0 ∧ s.bIncremental ≠ 0
  · simp only [if_pos hm] at h ⊢
    split_ifs at h ⊢ with hc
    exact ⟨_, _, rfl⟩
  · simp only [if_neg hm] at h ⊢
    split_ifs at h ⊢ with hc
    exact ⟨_, _, rfl⟩

/-- The loop over the mesh-node rows, when it makes the loader return, has
sent one message, about the node section or about a node row. -/
theorem readNodes_fail (n : Nat) :
    ∀ (s : LoadState) (i : Nat) (rows : List Row), (readNodes s n i rows).1 = false →
      ∃ w, (readNodes s n i rows).2.warnings = s.warnings ++ [w] ∧
        (w = Warning.nodeSection ∨ ∃ c k e, w = Warning.nodeInputs c k e) := by
  induction n with
  | zero =>
    intro s i rows h
    simp [readNodes] at h
  | succ n ih =>
    intro s i rows h
    cases rows with
    | nil => exact ⟨Warning.nodeSection, rfl, Or.inl rfl⟩
    | cons row rows =>
      simp only [readNodes] at h ⊢
      by_cases hr : (readNodeRow s i row).1 = true
      · rw [if_pos hr] at h ⊢
        obtain ⟨w, hw, hc⟩ := ih _ _ _ h
        refine ⟨w, ?_, hc⟩
        rw [hw, (readNodeRow_spec s i row).2.1.1 hr]
      · rw [if_neg hr] at h ⊢
        obtain ⟨c, e, hw⟩ := readNodeRow_fail s i row (by simpa using hr)
        exact ⟨_, hw, Or.inr ⟨c, i, e, rfl⟩⟩

theorem readElemRow_fail (s : LoadState) (i : Nat) (row : Row)
    (h : (readElemRow s i row).1 = false) :
    ∃ c, (readElemRow s i row).2.warnings = s.warnings ++ [Warning.elementInputs c i] := by
  unfold readElemRow at h ⊢
  by_cases hm : s.bIncremental = 0
  · simp only [if_pos hm] at h ⊢
    split_ifs at h ⊢ with hc
    exact ⟨_, rfl⟩
  · simp only [if_neg hm] at h ⊢
    split_ifs at h ⊢ with hc
    exact ⟨_, rfl⟩

/-- The loop over the mesh-element rows, when it makes the loader return, has
sent one message, about the element section or about an element row. -/
theorem readElems_fail (n : Nat) :
    ∀ (s : LoadState) (i : Nat) (rows : List Row), (readElems s n i rows).1 = false →
      ∃ w, (readElems s n i rows).2.warnings = s.warnings ++ [w] ∧
        (w = Warning.elementSection ∨ ∃ c k, w = Warning.elementInputs c k) := by
  induction n with
  | zero =>
    intro s i rows h
    simp [readElems] at h
  | succ n ih =>
    intro s i rows h
    cases rows with
    | nil => exact ⟨Warning.elementSection, rfl, Or.inl rfl⟩
    | cons row rows =>
      simp only [readElems] at h ⊢
      by_cases hr : (readElemRow s i row).1 = true
      · rw [if_pos hr] at h ⊢
        obtain ⟨w, hw, hc⟩ := ih _ _ _ h
        refine ⟨w, ?_, hc⟩
        rw [hw, (readElemRow_spec s i row).2.1.1 hr]
      · rw [if_neg hr] at h ⊢
        obtain ⟨c, hw⟩ := readElemRow_fail s i row (by simpa using hr)
        exact ⟨_, hw, Or.inr ⟨c, i, rfl⟩⟩

/-- The loop over the `quadNode` rows of an air-gap element, when it goes on,
has met no row with a negative node number. -/
theorem readQuadNodes_ok (a : AGERows) (n : Nat) :
    ∀ (s : LoadState) (j0 : Nat), (readQuadNodes s a n j0).1 = true →
      ∀ i, j0 ≤ i → i < j0 + n → ¬ quadNegative (a.quad i) := by
  induction n with
  | zero =>
    intro s j0 _ i h1 h2
    omega
  | succ n ih =>
    intro s j0 h i h1 h2
    simp only [readQuadNodes] at h
    split_ifs at h with hq
    rcases Nat.eq_or_lt_of_le h1 with rfl | h3
    · exact hq
    · exact ih s (j0 + 1) h i h3 (by omega)

/-- The loop over the `quadNode` rows of an air-gap element, when it makes the
loader return, has met a first row `j` with a negative node number and sent
the message about it. -/
theorem readQuadNodes_fail (a : AGERows) (n : Nat) :
    ∀ (s : LoadState) (j0 : Nat), (readQuadNodes s a n j0).1 = false →
      ∃ j, j0 ≤ j ∧ j < j0 + n ∧ quadNegative (a.quad j) ∧
        (∀ i, j0 ≤ i → i < j → ¬ quadNegative (a.quad i)) ∧
        (readQuadNodes s a n j0).2.warnings = s.warnings ++
          [Warning.quadNode j (a.quad j).1 (a.quad j).2.1 (a.quad j).2.2.1 (a.quad j).2.2.2] := by
  induction n with
  | zero =>
    intro s j0 h
    simp [readQuadNodes] at h
  | succ n ih =>
    intro s j0 h
    simp only [readQuadNodes] at h ⊢
    split_ifs at h ⊢ with hq
    · exact ⟨j0, Nat.le_refl _, by omega, hq, fun i h1 h2 => by omega, rfl⟩
    · obtain ⟨j, h1, h2, h3, h4, h5⟩ := ih s (j0 + 1) h
      refine ⟨j, by omega, by omega, h3, fun i hi1 hi2 => ?_, h5⟩
      rcases Nat.eq_or_lt_of_le hi1 with rfl | hi3
      · exact hq
      · exact h4 i hi3 hi2

/-- The loop over the air-gap elements, when it makes the loader return, has
met a first air-gap element with a negative node number in one of its
`quadNode` rows, sent the message about the first such row, and appended to
the list those of the elements before it that have `totalArcElements > 0`. -/
theorem readAGEs_fail (as : List AGERows) :
    ∀ s : LoadState, (readAGEs s as).1 = false →
      ∃ (pre : List AGERows) (a : AGERows) (post : List AGERows) (j : Nat),
        as = pre ++ a :: post ∧
        (∀ b ∈ pre, ∀ i, i < (b.totalArcElements + 1).toNat → ¬ quadNegative (b.quad i)) ∧
        j < (a.totalArcElements + 1).toNat ∧ quadNegative (a.quad j) ∧
        (∀ i, i < j → ¬ quadNegative (a.quad i)) ∧
        (readAGEs s as).2.warnings = s.warnings ++
          [Warning.quadNode j (a.quad j).1 (a.quad j).2.1 (a.quad j).2.2.1 (a.quad j).2.2.2] ∧
        (readAGEs s as).2.agelist =
          s.agelist + (pre.filter (fun b => decide (b.totalArcElements > 0))).length := by
  induction as with
  | nil =>
    intro s h
    simp [readAGEs] at h
  | cons a as ih =>
    intro s h
    obtain ⟨-, r2, -, -, r5⟩ := readQuadNodes_spec a (a.totalArcElements + 1).toNat s 0
    simp only [readAGEs] at h ⊢
    by_cases hr : (readQuadNodes s a (a.totalArcElements + 1).toNat 0).1 = true
    · rw [if_pos hr] at h ⊢
      have hw := r2.1 hr
      have hok : ∀ b ∈ a :: ([] : List AGERows), ∀ i, i < (b.totalArcElements + 1).toNat →
          ¬ quadNegative (b.quad i) := by
        intro b hb i hi
        rw [List.mem_singleton] at hb
        subst hb
        exact readQuadNodes_ok b _ s 0 hr i (Nat.zero_le _) (by omega)
      by_cases ht : a.totalArcElements > 0
      · rw [if_pos ht] at h ⊢
        obtain ⟨pre, b, post, j, h1, hp, h2, h3, hj, h4, h5⟩ := ih _ h
        refine ⟨a :: pre, b, post, j, by rw [h1]; rfl, ?_, h2, h3, hj, ?_, ?_⟩
        · intro c hc i hi
          rcases List.mem_cons.1 hc with rfl | hc'
          · exact hok c (List.mem_singleton.2 rfl) i hi
          · exact hp c hc' i hi
        · rw [h4]
          exact congrArg (fun l : List Warning => l ++ _) hw
        · rw [h5, List.filter_cons_of_pos (by simpa using ht)]
          show (readQuadNodes s a (a.totalArcElements + 1).toNat 0).2.agelist + 1 + _ = _
          rw [r5, List.length_cons]
          omega
      · rw [if_neg ht] at h ⊢
        obtain ⟨pre, b, post, j, h1, hp, h2, h3, hj, h4, h5⟩ := ih _ h
        refine ⟨a :: pre, b, post, j, by rw [h1]; rfl, ?_, h2, h3, hj, ?_, ?_⟩
        · intro c hc i hi
          rcases List.mem_cons.1 hc with rfl | hc'
          · exact hok c (List.mem_singleton.2 rfl) i hi
          · exact hp c hc' i hi
        · rw [h4, hw]
        · rw [h5, List.filter_cons_of_neg (by simpa using ht), r5]
    · rw [if_neg hr] at h ⊢
      obtain ⟨j, -, h2, h3, hj, h4⟩ :=
        readQuadNodes_fail a (a.totalArcElements + 1).toNat s 0 (by simpa using hr)
      refine ⟨[], a, as, j, rfl, fun b hb => absurd hb (List.not_mem_nil b), by omega, h3,
        fun i hi => hj i (Nat.zero_le _) hi, h4, ?_⟩
      rw [r5]
      rfl

/-- The part of the loader after `[solution]`, when it makes the loader return,
has sent one message; the mesh-node list has the announced size, and the
element list and the air-gap list are as far as the failing section left
them. -/
theorem readBody_fail (H : LoadState) (f : AnsFile) (h : (readBody H f).1 = false) :
    ∃ w, (readBody H f).2.warnings = H.warnings ++ [w] ∧
      (readBody H f).2.meshnode = f.numNodes ∧
      (((w = Warning.nodeSection ∨ ∃ c k e, w = Warning.nodeInputs c k e) ∧
          (readBody H f).2.meshelem = H.meshelem ∧ (readBody H f).2.agelist = H.agelist) ∨
        ((w = Warning.elementSection ∨ ∃ c k, w = Warning.elementInputs c k) ∧
          (readBody H f).2.meshelem = f.numElems ∧ (readBody H f).2.agelist = H.agelist) ∨
        (∃ (pre : List AGERows) (a : AGERows) (post : List AGERows) (j : Nat),
          f.ages = pre ++ a :: post ∧
          (∀ b ∈ pre, ∀ i, i < (b.totalArcElements + 1).toNat → ¬ quadNegative (b.quad i)) ∧
          j < (a.totalArcElements + 1).toNat ∧ quadNegative (a.quad j) ∧
          (∀ i, i < j → ¬ quadNegative (a.quad i)) ∧
          w = Warning.quadNode j (a.quad j).1 (a.quad j).2.1 (a.quad j).2.2.1
            (a.quad j).2.2.2 ∧
          (readBody H f).2.meshelem = f.numElems ∧
          (readBody H f).2.agelist =
            H.agelist + (pre.filter (fun b => decide (b.totalArcElements > 0))).length)) := by
  obtain ⟨-, n2, n3, n4, n5, -⟩ :=
    readNodes_spec f.numNodes (H.resizeMeshnode f.numNodes) 0 f.nodeRows
  have nf := readNodes_fail f.numNodes (H.resizeMeshnode f.numNodes) 0 f.nodeRows
  have n2' : (readNodes (H.resizeMeshnode f.numNodes) f.numNodes 0 f.nodeRows).1 = true →
      (readNodes (H.resizeMeshnode f.numNodes) f.numNodes 0 f.nodeRows).2.warnings =
        H.warnings := n2.1
  have nf' : (readNodes (H.resizeMeshnode f.numNodes) f.numNodes 0 f.nodeRows).1 = false →
      ∃ w, (readNodes (H.resizeMeshnode f.numNodes) f.numNodes 0 f.nodeRows).2.warnings =
        H.warnings ++ [w] ∧ (w = Warning.nodeSection ∨ ∃ c k e, w = Warning.nodeInputs c k e) :=
    nf
  have n3' : (readNodes (H.resizeMeshnode f.numNodes) f.numNodes 0 f.nodeRows).2.meshnode =
      f.numNodes := n3
  have n4' : (readNodes (H.resizeMeshnode f.numNodes) f.numNodes 0 f.nodeRows).2.meshelem =
      H.meshelem := n4
  have n5' : (readNodes (H.resizeMeshnode f.numNodes) f.numNodes 0 f.nodeRows).2.agelist =
      H.agelist := n5
  unfold readBody at h ⊢
  generalize readNodes (H.resizeMeshnode f.numNodes) f.numNodes 0 f.nodeRows = rN
    at n2' nf' n3' n4' n5' h
  obtain ⟨bN, N⟩ := rN
  cases bN with
  | false =>
    obtain ⟨w, hw, hc⟩ := nf' rfl
    exact ⟨w, hw, n3', Or.inl ⟨hc, n4', n5'⟩⟩
  | true =>
    simp only [if_true] at h ⊢
    have hwN : N.warnings = H.warnings := n2' rfl
    obtain ⟨-, e2, e3, e4, e5, -⟩ :=
      readElems_spec f.numElems (N.resizeMeshelem f.numElems) 0 f.elemRows
    have ef := readElems_fail f.numElems (N.resizeMeshelem f.numElems) 0 f.elemRows
    have e2' : (readElems (N.resizeMeshelem f.numElems) f.numElems 0 f.elemRows).1 = true →
        (readElems (N.resizeMeshelem f.numElems) f.numElems 0 f.elemRows).2.warnings =
          N.warnings := e2.1
    have ef' : (readElems (N.resizeMeshelem f.numElems) f.numElems 0 f.elemRows).1 = false →
        ∃ w, (readElems (N.resizeMeshelem f.numElems) f.numElems 0 f.elemRows).2.warnings =
          N.warnings ++ [w] ∧
          (w = Warning.elementSection ∨ ∃ c k, w = Warning.elementInputs c k) := ef
    have e3' : (readElems (N.resizeMeshelem f.numElems) f.numElems 0 f.elemRows).2.meshnode =
        f.numNodes := e3.trans n3'
    have e4' : (readElems (N.resizeMeshelem f.numElems) f.numElems 0 f.elemRows).2.meshelem =
        f.numElems := e4
    have e5' : (readElems (N.resizeMeshelem f.numElems) f.numElems 0 f.elemRows).2.agelist =
        H.agelist := e5.trans n5'
    generalize readElems (N.resizeMeshelem f.numElems) f.numElems 0 f.elemRows = rE
      at e2' ef' e3' e4' e5' h
    obtain ⟨bE, E⟩ := rE
    cases bE with
    | false =>
      obtain ⟨w, hw, hc⟩ := ef' rfl
      simp only [Bool.false_eq_true, if_false]
      refine ⟨w, ?_, e3', Or.inr (Or.inl ⟨hc, e4', e5'⟩)⟩
      rw [hw, hwN]
    | true =>
      simp only [if_true] at h ⊢
      have hwE : E.warnings = H.warnings := (e2' rfl).trans hwN
      obtain ⟨-, -, a3, a4, -, -⟩ := readAGEs_spec f.ages E
      obtain ⟨pre, a, post, j, h1, hp, h2, h3, hj, h4, h5⟩ := readAGEs_fail f.ages E h
      have e5'' : E.agelist = H.agelist := e5'
      refine ⟨_, ?_, a3.trans e3', Or.inr (Or.inr ⟨pre, a, post, j, h1, hp, h2, h3, hj, rfl,
        a4.trans e4', ?_⟩)⟩
      · rw [h4, hwE]
      · rw [h5, e5'']

/-- C25, amended. Whenever `OpenDocument` returns `false` it has sent exactly
one message, which names the failure; the document loaded before has been
cleared and what the failed load has read is kept. When the file could not be
opened, `numNodes() = 0`, `numElements() = 0` and the property, geometry,
block-label and AGE lists are empty. Otherwise the property, geometry and
block-label lists hold what the header loop has read from the file, and: at a
bad version or a missing `[solution]` the mesh and the AGE list are empty; at
a bad mesh-node row `numNodes()` is the announced number of nodes,
`numElements() = 0` and the AGE list is empty; at a bad element row
`numNodes()` and `numElements()` are the announced numbers and the AGE list is
empty; at a negative `quadNode` id they are the announced numbers too and the
AGE list holds the air-gap elements read before the failing one, the first
with a negative id, namely those of them with `totalArcElements > 0`, the ones
that the loader appends. -/
theorem OpenDocument_read_failure (prior : LoadState) (sscnt0 : Int) (f : AnsFile)
    (h : (OpenDocument_read prior sscnt0 f).1 = false) :
    ∃ w : Warning,
      (OpenDocument_read prior sscnt0 f).2.warnings = prior.warnings ++ [w] ∧
      (f.readable = true →
        (OpenDocument_read prior sscnt0 f).2.nodeproplist =
            (readHeader {} f.header).2.nodeproplist ∧
          (OpenDocument_read prior sscnt0 f).2.lineproplist =
            (readHeader {} f.header).2.lineproplist ∧
          (OpenDocument_read prior sscnt0 f).2.blockproplist =
            (readHeader {} f.header).2.blockproplist ∧
          (OpenDocument_read prior sscnt0 f).2.circproplist =
            (readHeader {} f.header).2.circproplist ∧
          (OpenDocument_read prior sscnt0 f).2.nodelist =
            (readHeader {} f.header).2.nodelist ∧
          (OpenDocument_read prior sscnt0 f).2.linelist =
            (readHeader {} f.header).2.linelist ∧
          (OpenDocument_read prior sscnt0 f).2.arclist =
            (readHeader {} f.header).2.arclist ∧
          (OpenDocument_read prior sscnt0 f).2.blocklist =
            (readHeader {} f.header).2.blocklist) ∧
      (match w with
        | Warning.cannotRead =>
            f.readable = false ∧
              (OpenDocument_read prior sscnt0 f).2.meshnode = 0 ∧
              (OpenDocument_read prior sscnt0 f).2.meshelem = 0 ∧
              (OpenDocument_read prior sscnt0 f).2.nodeproplist = 0 ∧
              (OpenDocument_read prior sscnt0 f).2.lineproplist = 0 ∧
              (OpenDocument_read prior sscnt0 f).2.blockproplist = 0 ∧
              (OpenDocument_read prior sscnt0 f).2.circproplist = 0 ∧
              (OpenDocument_read prior sscnt0 f).2.nodelist = 0 ∧
              (OpenDocument_read prior sscnt0 f).2.linelist = 0 ∧
              (OpenDocument_read prior sscnt0 f).2.arclist = 0 ∧
              (OpenDocument_read prior sscnt0 f).2.blocklist = 0 ∧
              (OpenDocument_read prior sscnt0 f).2.agelist = 0
        | Warning.differentVersion =>
            f.readable = true ∧
              (readHeader (prior.start sscnt0) f.header).1 = HeaderEnd.badVersion ∧
              (OpenDocument_read prior sscnt0 f).2.meshnode = 0 ∧
              (OpenDocument_read prior sscnt0 f).2.meshelem = 0 ∧
              (OpenDocument_read prior sscnt0 f).2.agelist = 0
        | Warning.noSolution =>
            f.readable = true ∧
              (readHeader (prior.start sscnt0) f.header).1 = HeaderEnd.endOfFile ∧
              (OpenDocument_read prior sscnt0 f).2.meshnode = 0 ∧
              (OpenDocument_read prior sscnt0 f).2.meshelem = 0 ∧
              (OpenDocument_read prior sscnt0 f).2.agelist = 0
        | Warning.nodeInputs _ _ _ =>
            f.readable = true ∧
              (readHeader (prior.start sscnt0) f.header).1 = HeaderEnd.solution ∧
              (OpenDocument_read prior sscnt0 f).2.meshnode = f.numNodes ∧
              (OpenDocument_read prior sscnt0 f).2.meshelem = 0 ∧
              (OpenDocument_read prior sscnt0 f).2.agelist = 0
        | Warning.nodeSection =>
            f.readable = true ∧
              (readHeader (prior.start sscnt0) f.header).1 = HeaderEnd.solution ∧
              (OpenDocument_read prior sscnt0 f).2.meshnode = f.numNodes ∧
              (OpenDocument_read prior sscnt0 f).2.meshelem = 0 ∧
              (OpenDocument_read prior sscnt0 f).2.agelist = 0
        | Warning.elementInputs _ _ =>
            f.readable = true ∧
              (readHeader (prior.start sscnt0) f.header).1 = HeaderEnd.solution ∧
              (OpenDocument_read prior sscnt0 f).2.meshnode = f.numNodes ∧
              (OpenDocument_read prior sscnt0 f).2.meshelem = f.numElems ∧
              (OpenDocument_read prior sscnt0 f).2.agelist = 0
        | Warning.elementSection =>
            f.readable = true ∧
              (readHeader (prior.start sscnt0) f.header).1 = HeaderEnd.solution ∧
              (OpenDocument_read prior sscnt0 f).2.meshnode = f.numNodes ∧
              (OpenDocument_read prior sscnt0 f).2.meshelem = f.numElems ∧
              (OpenDocument_read prior sscnt0 f).2.agelist = 0
        | Warning.quadNode j n0 n1 n2 n3 =>
            f.readable = true ∧
              (readHeader (prior.start sscnt0) f.header).1 = HeaderEnd.solution ∧
              (OpenDocument_read prior sscnt0 f).2.meshnode = f.numNodes ∧
              (OpenDocument_read prior sscnt0 f).2.meshelem = f.numElems ∧
              ∃ (pre : List AGERows) (a : AGERows) (post : List AGERows),
                f.ages = pre ++ a :: post ∧
                (∀ b ∈ pre, ∀ i, i < (b.totalArcElements + 1).toNat →
                  ¬ quadNegative (b.quad i)) ∧
                j < (a.totalArcElements + 1).toNat ∧
                a.quad j = (n0, n1, n2, n3) ∧ quadNegative (n0, n1, n2, n3) ∧
                (∀ i, i < j → ¬ quadNegative (a.quad i)) ∧
                (OpenDocument_read prior sscnt0 f).2.agelist =
                  (pre.filter (fun b => decide (b.totalArcElements > 0))).length
        | Warning.multiplyDefined _ _ => False) := by
  by_cases hr : f.readable = false
  · refine ⟨Warning.cannotRead, ?_, fun ht => ?_, ?_⟩
    · unfold OpenDocument_read
      rw [if_pos hr]
      rfl
    · rw [hr] at ht
      exact absurd ht (by decide)
    · show f.readable = false ∧ _
      unfold OpenDocument_read
      rw [if_pos hr]
      exact ⟨hr, rfl, rfl, rfl, rfl, rfl, rfl, rfl, rfl, rfl, rfl, rfl⟩
  · have ht : f.readable = true := by simpa using hr
    obtain ⟨-, l1, l2, l3, l4, l5, l6, l7, l8⟩ :=
      readHeader_lists f.header (prior.start sscnt0) {} rfl rfl rfl rfl rfl rfl rfl rfl
    obtain ⟨w1, w2, m1, m2, m3⟩ := readHeader_spec f.header (prior.start sscnt0)
    have m1' : (readHeader (prior.start sscnt0) f.header).2.meshnode = 0 := m1
    have m2' : (readHeader (prior.start sscnt0) f.header).2.meshelem = 0 := m2
    have m3' : (readHeader (prior.start sscnt0) f.header).2.agelist = 0 := m3
    have w1' : (readHeader (prior.start sscnt0) f.header).1 = HeaderEnd.badVersion →
        (readHeader (prior.start sscnt0) f.header).2.warnings =
          prior.warnings ++ [Warning.differentVersion] := w1
    have w2' : (readHeader (prior.start sscnt0) f.header).1 ≠ HeaderEnd.badVersion →
        (readHeader (prior.start sscnt0) f.header).2.warnings = prior.warnings := w2
    unfold OpenDocument_read at h ⊢
    rw [if_neg hr] at h ⊢
    generalize readHeader (prior.start sscnt0) f.header = hd
      at l1 l2 l3 l4 l5 l6 l7 l8 m1' m2' m3' w1' w2' h ⊢
    obtain ⟨e, H⟩ := hd
    cases e
    · exact ⟨Warning.differentVersion, w1' rfl, fun _ => ⟨l5, l6, l7, l8, l1, l2, l3, l4⟩,
        ht, rfl, m1', m2', m3'⟩
    · refine ⟨Warning.noSolution, ?_, fun _ => ⟨l5, l6, l7, l8, l1, l2, l3, l4⟩,
        ht, rfl, m1', m2', m3'⟩
      show (H.warn Warning.noSolution).warnings = _
      have hw : H.warnings = prior.warnings := w2' (by simp)
      simp only [LoadState.warn, hw]
    · have hb : (readBody H f).1 = false := h
      have hw : H.warnings = prior.warnings := w2' (by simp)
      obtain ⟨⟨-, -, c1, c2, c3, c4, c5, c6, c7, c8⟩, -⟩ := readBody_spec H f
      obtain ⟨w, bw, bn, bc⟩ := readBody_fail H f hb
      have m2'' : H.meshelem = 0 := m2'
      have m3'' : H.agelist = 0 := m3'
      rw [hw] at bw
      rw [m2'', m3''] at bc
      refine ⟨w, bw, fun _ => ⟨c5.trans l5, c6.trans l6, c7.trans l7, c8.trans l8,
        c1.trans l1, c2.trans l2, c3.trans l3, c4.trans l4⟩, ?_⟩
      rcases bc with ⟨hc, b1, b2⟩ | ⟨hc, b1, b2⟩ |
        ⟨pre, a, post, j, h1, hp, h2, h3, hj, rfl, b1, b2⟩
      · rcases hc with rfl | ⟨c, k, e, rfl⟩
        · exact ⟨ht, rfl, bn, b1, b2⟩
        · exact ⟨ht, rfl, bn, b1, b2⟩
      · rcases hc with rfl | ⟨c, k, rfl⟩
        · exact ⟨ht, rfl, bn, b1, b2⟩
        · exact ⟨ht, rfl, bn, b1, b2⟩
      · rw [Nat.zero_add] at b2
        exact ⟨ht, rfl, bn, b1, pre, a, post, h1, hp, h2, rfl, h3, hj, b2⟩

/-- C25, witness: the file `badQuadFile`, opened over a loaded document, makes
`OpenDocument` return `false` with the message about the `quadNode` row `0`;
the block label, the mesh node and the element of the file and its first
air-gap element are kept. -/
theorem OpenDocument_read_failure_witness :
    (OpenDocument_read loadedState 0 badQuadFile).1 = false ∧
      (OpenDocument_read loadedState 0 badQuadFile).2.warnings =
        [Warning.quadNode 0 (-1) 0 0 0] ∧
      (OpenDocument_read loadedState 0 badQuadFile).2.blocklist = 1 ∧
      (OpenDocument_read loadedState 0 badQuadFile).2.meshnode = 1 ∧
      (OpenDocument_read loadedState 0 badQuadFile).2.meshelem = 1 ∧
      (OpenDocument_read loadedState 0 badQuadFile).2.agelist = 1 := by
  have hf : (OpenDocument_read loadedState 0 badQuadFile).1 = false := by decide!
  have hW : (OpenDocument_read loadedState 0 badQuadFile).2.warnings =
      [Warning.quadNode 0 (-1) 0 0 0] := by decide!
  obtain ⟨w, hw, hl, hm⟩ := OpenDocument_read_failure loadedState 0 badQuadFile hf
  have hw' : w = Warning.quadNode 0 (-1) 0 0 0 := by
    rw [hW] at hw
    have h0 : loadedState.warnings = [] := rfl
    rw [h0, List.nil_append] at hw
    exact (List.cons.inj hw).1.symm
  subst hw'
  obtain ⟨-, -, h1, h2, -⟩ := hm
  exact ⟨hf, hW, (hl rfl).2.2.2.2.2.2.2.trans (by decide!), h1, h2, by decide!⟩

/-- C25, counterexample: the file with one block label whose only mesh-node
row is short makes `OpenDocument` return `false` with `numNodes() = 1` and one
block label in the list. -/
theorem OpenDocument_read_failure_counterexample :
    (OpenDocument_read loadedState 0 shortRowFile).1 = false ∧
      (OpenDocument_read loadedState 0 shortRowFile).2.meshnode = 1 ∧
      (OpenDocument_read loadedState 0 shortRowFile).2.blocklist = 1 := by
  have hv : ctrunc (10 * 4 + 1 / 2) = 40 := (ctrunc_format _).2 (by norm_num)
  have hh : readHeader (loadedState.start 0) shortRowFile.header =
      (HeaderEnd.solution, { loadedState.start 0 with blocklist := 1 }) := by
    show readHeader _ [HeaderEntry.format 4, HeaderEntry.numblocklabels 1,
      HeaderEntry.solution] = _
    simp only [readHeader]
    rw [if_neg (not_not.2 hv)]
    rfl
  have hb : readBody { loadedState.start 0 with blocklist := 1 } shortRowFile =
      (false, ({ ({ loadedState.start 0 with blocklist := 1 } : LoadState).resizeMeshnode 1 with
        sscnt := 1 } : LoadState).warn (Warning.nodeInputs 1 0 3)) := by
    decide!
  have hR : OpenDocument_read loadedState 0 shortRowFile =
      (false, ({ ({ loadedState.start 0 with blocklist := 1 } : LoadState).resizeMeshnode 1 with
        sscnt := 1 } : LoadState).warn (Warning.nodeInputs 1 0 3)) := by
    unfold OpenDocument_read
    rw [if_neg (by decide), hh]
    exact hb
  rw [hR]
  exact ⟨rfl, rfl, rfl⟩

/-! ## Theorems: multiply defined regions -/

theorem labelHits_succ (P : FPProc) (kc : Int) (t : Nat) :
    labelHits P kc (t + 1) =
      labelHits P kc t ++ ((labelHit P kc t).map (Warning.multiplyDefined t)).toList := by
  unfold labelHits
  rw [List.range_succ, List.filterMap_append]
  cases h : labelHit P kc t <;> simp [h]

theorem labelStep_inv (P : FPProc) (kc : Int) (w : List Warning) (t : Nat) (s : LabelScan)
    (h : LabelInv P kc w t s) : LabelInv P kc w (t + 1) (labelStep P s t) := by
  obtain ⟨hlen, hxy, hk, hsel, hw, hflag⟩ := h
  have hr1 : (InTriangle P s.k (s.label t).x (s.label t).y).1 = labelElem P kc t := by
    rw [hk, (hxy t).1, (hxy t).2]
    rfl
  have hr2 : (InTriangle P s.k (s.label t).x (s.label t).y).2 = labelCache P kc (t + 1) := by
    rw [hk, (hxy t).1, (hxy t).2]
    rfl
  have hs := labelHits_succ P kc t
  unfold labelStep
  simp only [hr1, hr2]
  by_cases hit : labelElem P kc t ≥ 0 ∧ (P.elem (labelElem P kc t).toNat).lbl ≠ t
  · have hh : labelHit P kc t = some (P.elem (labelElem P kc t).toNat).lbl := by
      unfold labelHit
      rw [if_pos hit]
    rw [hh] at hs
    simp only [Option.map_some', Option.toList_some] at hs
    rw [if_pos hit.1, if_pos hit.2]
    generalize (P.elem (labelElem P kc t).toNat).lbl = l at hh hs hit
    have hlabel : ∀ l', (LabelScan.label ⟨s.blocklist.set l { s.label l with IsSelected := true },
        true, s.warnings ++ [Warning.multiplyDefined t l], labelCache P kc (t + 1)⟩ l') =
        if l' = l ∧ l < P.blocklist.length then { s.label l with IsSelected := true }
        else s.label l' := by
      intro l'
      unfold LabelScan.label
      by_cases hl : l' = l
      · subst hl
        by_cases hlt : l' < P.blocklist.length
        · rw [if_pos ⟨rfl, hlt⟩]
          exact getD_set_self _ _ _ _ (by rw [hlen]; exact hlt)
        · rw [if_neg (fun h => hlt h.2)]
          simp only
          rw [List.set_eq_of_length_le (by rw [hlen]; omega)]
      · rw [if_neg (fun h => hl h.1)]
        exact getD_set_ne _ _ _ _ _ (fun h => hl h.symm)
    have hsel' : ∀ l', l' < P.blocklist.length →
        ((if l' = l ∧ l < P.blocklist.length then { s.label l with IsSelected := true }
            else s.label l').IsSelected = true ↔
          (P.label l').IsSelected = true ∨ ∃ k, k < t + 1 ∧ labelHit P kc k = some l') := by
      intro l' hl'
      by_cases hl : l' = l
      · subst hl
        rw [if_pos ⟨rfl, hl'⟩]
        exact ⟨fun _ => Or.inr ⟨t, by omega, hh⟩, fun _ => rfl⟩
      · rw [if_neg (fun h => hl h.1), hsel l' hl']
        constructor
        · rintro (h | ⟨k, hk', hkh⟩)
          · exact Or.inl h
          · exact Or.inr ⟨k, by omega, hkh⟩
        · rintro (h | ⟨k, hk', hkh⟩)
          · exact Or.inl h
          · by_cases hkt : k = t
            · subst hkt
              rw [hh] at hkh
              exact absurd (Option.some.inj hkh).symm hl
            · exact Or.inr ⟨k, by omega, hkh⟩
    have hxy' : ∀ l', (if l' = l ∧ l < P.blocklist.length then
          { s.label l with IsSelected := true } else s.label l').x = (P.label l').x ∧
        (if l' = l ∧ l < P.blocklist.length then
          { s.label l with IsSelected := true } else s.label l').y = (P.label l').y := by
      intro l'
      by_cases hl : l' = l ∧ l < P.blocklist.length
      · rw [if_pos hl, hl.1]
        exact hxy l
      · rw [if_neg hl]
        exact hxy l'
    by_cases hf : s.bMultiplyDefinedLabels = false
    · rw [if_pos hf]
      have he := hflag.1 hf
      rw [he] at hw hs
      refine ⟨by simpa using hlen, fun l' => ?_, rfl, fun l' hl' => ?_, ?_, ?_⟩
      · rw [hlabel l']
        exact hxy' l'
      · rw [hlabel l']
        exact hsel' l' hl'
      · show s.warnings ++ [Warning.multiplyDefined t l] = _
        rw [hs, hw]
        simp
      · rw [hs]
        simp
    · rw [if_neg hf]
      have hne : labelHits P kc t ≠ [] := fun h => hf (hflag.2 h)
      have hlabel2 : ∀ l', (LabelScan.label { s with
          blocklist := s.blocklist.set l { s.label l with IsSelected := true },
          k := labelCache P kc (t + 1) } l') =
          if l' = l ∧ l < P.blocklist.length then { s.label l with IsSelected := true }
          else s.label l' := hlabel
      refine ⟨by simpa using hlen, fun l' => ?_, rfl, fun l' hl' => ?_, ?_, ?_⟩
      · rw [hlabel2 l']
        exact hxy' l'
      · rw [hlabel2 l']
        exact hsel' l' hl'
      · show s.warnings = _
        rw [hs, hw]
        cases hc : labelHits P kc t with
        | nil => exact absurd hc hne
        | cons a as => simp
      · show s.bMultiplyDefinedLabels = false ↔ _
        rw [hs]
        constructor
        · intro h
          exact absurd h hf
        · intro h
          simp at h
  · have hh : labelHit P kc t = none := by
      unfold labelHit
      rw [if_neg hit]
    rw [hh] at hs
    simp only [Option.map_none', Option.toList_none, List.append_nil] at hs
    have hsel' : ∀ l, l < P.blocklist.length →
        ((s.label l).IsSelected = true ↔
          (P.label l).IsSelected = true ∨ ∃ k, k < t + 1 ∧ labelHit P kc k = some l) := by
      intro l hl
      rw [hsel l hl]
      constructor
      · rintro (h | ⟨k, hk', hkh⟩)
        · exact Or.inl h
        · exact Or.inr ⟨k, by omega, hkh⟩
      · rintro (h | ⟨k, hk', hkh⟩)
        · exact Or.inl h
        · by_cases hkt : k = t
          · subst hkt
            rw [hh] at hkh
            exact absurd hkh (by simp)
          · exact Or.inr ⟨k, by omega, hkh⟩
    have hres : LabelInv P kc w (t + 1) { s with k := labelCache P kc (t + 1) } :=
      ⟨hlen, hxy, rfl, hsel', by rw [hs]; exact hw, by rw [hs]; exact hflag⟩
    by_cases h1 : labelElem P kc t ≥ 0
    · rw [if_pos h1]
      have h2 : ¬ (P.elem (labelElem P kc t).toNat).lbl ≠ t := fun h => hit ⟨h1, h⟩
      rw [if_neg h2]
      exact hres
    · rw [if_neg h1]
      exact hres

/-- C29, amended. When a block label `k` lies inside a mesh element whose
label `l` differs from `k`, then after `OpenDocument` the label `l` of that
element is selected (`blocklist[l].IsSelected` is true); a label is selected
afterwards exactly when it was selected before or is the label of such an
element, so `blocklist[k].IsSelected` is not set for `k` itself; the
multiply-defined warning is sent once per load, for the first such `k`,
however many such labels exist, and `OpenDocument` still returns `true`. -/
theorem OpenDocument_labels_spec (P : FPProc) (kc : Int) (w : List Warning) :
    (OpenDocument_labels P kc w).1 = true ∧
      (∀ l, l < P.blocklist.length →
        (((OpenDocument_labels P kc w).2.1.label l).IsSelected = true ↔
          (P.label l).IsSelected = true ∨
            ∃ k, k < P.blocklist.length ∧ labelHit P kc k = some l)) ∧
      (OpenDocument_labels P kc w).2.2.1 =
        w ++ (labelHits P kc P.blocklist.length).head?.toList ∧
      ((labelHits P kc P.blocklist.length).head?.toList.length = 1 ↔
        ∃ k, k < P.blocklist.length ∧ labelHit P kc k ≠ none) := by
  have hinv : LabelInv P kc w P.blocklist.length
      ((List.range P.blocklist.length).foldl (labelStep P) ⟨P.blocklist, false, w, kc⟩) := by
    refine foldl_range_invariant (labelStep P) (LabelInv P kc w) _ _ ?_
      (fun t s _ h => labelStep_inv P kc w t s h)
    refine ⟨rfl, fun l => ⟨rfl, rfl⟩, rfl, fun l _ => ?_, by simp [labelHits], by simp [labelHits]⟩
    constructor
    · intro h
      exact Or.inl h
    · rintro (h | ⟨k, hk, -⟩)
      · exact h
      · exact absurd hk (Nat.not_lt_zero k)
  obtain ⟨-, -, -, hsel, hw, -⟩ := hinv
  refine ⟨rfl, hsel, hw, ?_⟩
  have hmem : labelHits P kc P.blocklist.length ≠ [] ↔
      ∃ k, k < P.blocklist.length ∧ labelHit P kc k ≠ none := by
    unfold labelHits
    rw [ne_eq, List.filterMap_eq_nil_iff]
    simp only [List.mem_range, Option.map_eq_none', not_forall]
    constructor
    · rintro ⟨k, hk, h⟩
      exact ⟨k, hk, h⟩
    · rintro ⟨k, hk, h⟩
      exact ⟨k, hk, h⟩
  rw [← hmem]
  cases labelHits P kc P.blocklist.length <;> simp

/-- C29, counterexample: in the unit square with both elements tagged by label
`0`, label `1` lies in an element of label `0`; after the check label `0` is
selected and label `1` is not. -/
theorem OpenDocument_labels_counterexample :
    labelElem doubleLabelMesh 0 1 = 1 ∧ (doubleLabelMesh.elem 1).lbl = 0 ∧
      ((OpenDocument_labels doubleLabelMesh 0 []).2.1.label 0).IsSelected = true ∧
      ((OpenDocument_labels doubleLabelMesh 0 []).2.1.label 1).IsSelected = false ∧
      (OpenDocument_labels doubleLabelMesh 0 []).2.2.1 = [Warning.multiplyDefined 1 0] := by
  refine ⟨by decide!, by decide!, by decide!, by decide!, by decide!⟩

/-! ## Theorems: quadrature of a product over a triangle -/

/-- C39. The two quadrature helpers are consistent:
`AxiInt(a, u, v, (r, r, r)) = 2·PI·r·PlnInt(a, u, v)`, where
`PlnInt(a, u, v) = (a/12)·Σ_i v_i·(2u_i + u_{i+1} + u_{i+2})`, and both are
symmetric in their integrands. -/
theorem AxiInt_PlnInt (PI a r : ℚ) (u v : Nat → CComplex) :
    AxiInt PI a u v (fun _ => r) = (2 * PI * r) * PlnInt a u v ∧
      PlnInt a u v =
        (a / 12) * (v 0 * ((2 : ℚ) * u 0 + u 1 + u 2) + v 1 * ((2 : ℚ) * u 1 + u 2 + u 0) +
          v 2 * ((2 : ℚ) * u 2 + u 0 + u 1)) ∧
      PlnInt a u v = PlnInt a v u ∧
      ∀ r3 : Nat → ℚ, AxiInt PI a u v r3 = AxiInt PI a v u r3 := by
  refine ⟨?_, ?_, ?_, fun r3 => ?_⟩
  · apply CComplex.ext <;> simp [AxiInt, PlnInt] <;> ring
  · apply CComplex.ext <;> simp [PlnInt] <;> ring
  · apply CComplex.ext <;> simp [PlnInt] <;> ring
  · apply CComplex.ext <;> simp [AxiInt] <;> ring

/-! ## Theorems: the header of an incremental solution -/

/-- C37. When the `[PrevSoln]` line (with a name) comes after the `[PrevType]`
line, the header loop leaves `bIncremental` at the `PrevType` of the file;
when it comes before, `bIncremental` is the `PrevType` that the state held
before the file was read. -/
theorem readHeader_prev_order (s : LoadState) (name : String) (t : Int)
    (rest : List HeaderEntry) (hn : name.isEmpty = false) :
    (readHeader s (HeaderEntry.prevtype t :: HeaderEntry.prevsoln name ::
        HeaderEntry.solution :: rest)).2.bIncremental = t ∧
      (readHeader s (HeaderEntry.prevsoln name :: HeaderEntry.prevtype t ::
        HeaderEntry.solution :: rest)).2.bIncremental = s.PrevType := by
  simp [readHeader, hn]

/-- C37, evaluation: the file that declares `PrevType = 1` with a previous
solution is loaded with `bIncremental = 1` when `[PrevType]` comes first; with
`[PrevSoln]` first it is loaded with `bIncremental = 0` into a fresh state and
with `bIncremental = 2` after a frozen-permeability problem. -/
theorem readHeader_prev_order_witness :
    ("dc.ans" : String).isEmpty = false ∧
      (readHeader (frozenLoaded.start 0) [HeaderEntry.prevtype 1, HeaderEntry.prevsoln "dc.ans",
        HeaderEntry.solution]).2.bIncremental = 1 ∧
      (readHeader (frozenLoaded.start 0) [HeaderEntry.prevsoln "dc.ans", HeaderEntry.prevtype 1,
        HeaderEntry.solution]).2.bIncremental = 2 ∧
      (OpenDocument_read {} 0 prevTypeFirstFile).2.bIncremental = 1 ∧
      (OpenDocument_read {} 0 prevSolnFirstFile).2.bIncremental = 0 ∧
      (OpenDocument_read frozenLoaded 0 prevSolnFirstFile).2.bIncremental = 2 :=
  ⟨by decide,
    (readHeader_prev_order (frozenLoaded.start 0) "dc.ans" 1 [] (by decide)).1,
    (readHeader_prev_order (frozenLoaded.start 0) "dc.ans" 1 [] (by decide)).2,
    by decide!, by decide!, by decide!⟩

/-! ## Theorems: the largest harmonic of an air gap -/

/-- C34. `getGapHarmonics` refuses every order above the number of harmonics
`nn`, also an order `nh[j]` that is present in the table: for an air-gap
element with `j < nn` and `nn < nh[j]` the request for order `nh[j]` returns
`AGERequestedHarmonicTooLarge` and leaves the outputs as they were. -/
theorem getGapHarmonics_order_above_count {K : Type} [LinearOrderedField K] (S : FPProcGap K)
    (name : String) (j : Nat) (out : GapHarmonics K)
    (hfound : (AGEBoundNumFromName S name).1 = true)
    (hj : j < (S.age (AGEBoundNumFromName S name).2.toNat).nn)
    (hlarge : ((S.age (AGEBoundNumFromName S name).2.toNat).nn : Int) <
      (S.age (AGEBoundNumFromName S name).2.toNat).nh.getD j 0) :
    getGapHarmonics S name ((S.age (AGEBoundNumFromName S name).2.toNat).nh.getD j 0) out =
      (FPProcError.AGERequestedHarmonicTooLarge, out) := by
  unfold getGapHarmonics
  simp only [hfound, Bool.true_eq_false, if_false]
  rw [if_neg (by omega), if_neg (by omega), if_pos (by omega)]

/-- C34, evaluation: in the antiperiodic gap of 18 pads over 180 degrees the
table holds the orders `1, 3, ..., 17` and `numGapHarmonics` reports `17`, but
the request for order `11`, entry `5` of the table, is refused. -/
theorem getGapHarmonics_order_above_count_witness :
    (AGEBoundNumFromName gapState18 "gap").1 = true ∧
      (gapState18.age (AGEBoundNumFromName gapState18 "gap").2.toNat).nn = 9 ∧
      (gapState18.age (AGEBoundNumFromName gapState18 "gap").2.toNat).nh.getD 5 0 = 11 ∧
      numGapHarmonics gapState18 "gap" 0 = (FPProcError.NoError, 17) ∧
      (getGapHarmonics gapState18 "gap" 11 noHarmonics).1 =
        FPProcError.AGERequestedHarmonicTooLarge := by
  have h := getGapHarmonics_order_above_count gapState18 "gap" 5 noHarmonics (by decide!)
    (by decide!) (by decide!)
  have h11 : (gapState18.age (AGEBoundNumFromName gapState18 "gap").2.toNat).nh.getD 5 0 = 11 := by
    decide!
  rw [h11] at h
  refine ⟨by decide!, by decide!, h11, by decide!, ?_⟩
  rw [h]

/-! ## Theorems: closest node -/

theorem ClosestNode_loop (GetDistance : CNode → ℚ → ℚ → ℚ) (P : FPProc) (x y : ℚ) (t : Nat) :
    ∃ j : Nat,
      ((List.range t).foldl
        (fun (s : Int × ℚ) i =>
          let d1 := GetDistance (P.gnode i) x y
          if d1 < s.2 then ((i : Int), d1) else s)
        (0, GetDistance (P.gnode 0) x y)) = ((j : Int), GetDistance (P.gnode j) x y) ∧
      (j = 0 ∨ j < t) ∧
      (∀ i, i < t → GetDistance (P.gnode j) x y ≤ GetDistance (P.gnode i) x y) ∧
      (∀ i, i < j → GetDistance (P.gnode j) x y < GetDistance (P.gnode i) x y) := by
  induction t with
  | zero =>
    exact ⟨0, rfl, Or.inl rfl, fun i hi => absurd hi (Nat.not_lt_zero i),
      fun i hi => absurd hi (Nat.not_lt_zero i)⟩
  | succ t ih =>
    obtain ⟨j, hj, hjt, hmin, hfirst⟩ := ih
    rw [List.range_succ, List.foldl_append, hj]
    simp only [List.foldl_cons, List.foldl_nil]
    by_cases hlt : GetDistance (P.gnode t) x y < GetDistance (P.gnode j) x y
    · rw [if_pos hlt]
      refine ⟨t, rfl, Or.inr (Nat.lt_succ_self t), fun i hi => ?_, fun i hi => ?_⟩
      · rcases Nat.lt_succ_iff_lt_or_eq.1 hi with h | h
        · exact le_of_lt (lt_of_lt_of_le hlt (hmin i h))
        · rw [h]
      · exact lt_of_lt_of_le hlt (hmin i hi)
    · rw [if_neg hlt]
      refine ⟨j, rfl, ?_, fun i hi => ?_, hfirst⟩
      · rcases hjt with h | h
        · exact Or.inl h
        · exact Or.inr (Nat.lt_succ_of_lt h)
      · rcases Nat.lt_succ_iff_lt_or_eq.1 hi with h | h
        · exact hmin i h
        · rw [h]
          exact not_lt.1 hlt

/-- C38. `ClosestNode(x, y)` returns `-1` when the geometry node list is empty;
otherwise it returns the smallest index `j` such that the distance from node
`j` to `(x, y)` is less than or equal to the distance from every node to
`(x, y)`. -/
theorem ClosestNode_spec (GetDistance : CNode → ℚ → ℚ → ℚ) (P : FPProc) (x y : ℚ) :
    (P.nodelist = [] → ClosestNode GetDistance P x y = -1) ∧
      (P.nodelist ≠ [] →
        ∃ j : Nat, ClosestNode GetDistance P x y = (j : Int) ∧ j < P.nodelist.length ∧
          (∀ i, i < P.nodelist.length →
            GetDistance (P.gnode j) x y ≤ GetDistance (P.gnode i) x y) ∧
          (∀ i, i < P.nodelist.length →
            (∀ i', i' < P.nodelist.length →
              GetDistance (P.gnode i) x y ≤ GetDistance (P.gnode i') x y) → j ≤ i)) := by
  constructor
  · intro h
    simp [ClosestNode, h]
  · intro h
    have hlen : P.nodelist.length ≠ 0 := fun h0 => h (List.length_eq_zero.1 h0)
    obtain ⟨j, hj, hjt, hmin, hfirst⟩ := ClosestNode_loop GetDistance P x y P.nodelist.length
    have hjn : j < P.nodelist.length := by
      rcases hjt with h0 | h0
      · omega
      · exact h0
    refine ⟨j, ?_, hjn, hmin, fun i hi hall => ?_⟩
    · unfold ClosestNode
      rw [if_neg hlen, hj]
    · by_contra hc
      have hij : i < j := not_le.1 hc
      exact absurd (hall j hjn) (not_le.2 (hfirst i hij))

/-! ## Theorems: local stored energy of a wound region -/

/-- C35. At `Frequency == 0`, for an element `k` whose material has
`LamType > 2`, the local wound-region term that `GetPointValues` adds to the
energy density is `Re(J²)·Im(o)/2` with `o` the effective conductivity of the
block label of element `3`, not of the containing element `k`. -/
theorem GetPointValues_localE_element3 (P : FPProc) (x y : ℚ) (k : Nat)
    (hL : (P.blockprop (P.elem k).blk).LamType > 2) :
    GetPointValues_localE P x y k =
      ((GetPointValues_Js P x y k * (1000000 : ℚ)) *
        (GetPointValues_Js P x y k * (1000000 : ℚ))).re *
          (P.label (P.elem 3).lbl).o.im / 2 := by
  unfold GetPointValues_localE
  rw [if_pos hL]

/-- C35, evaluation: at the point `(1, 1/2)` of element `0` of `woundMesh`,
whose block label has `Im(o) = 2`, the source current density is `1` and the
term added is `10¹²·6/2`, from the label of element `3`, where
`Re(J²)·Im(o)/2 = 10¹²·2/2`. -/
theorem GetPointValues_localE_element3_witness :
    (woundMesh.blockprop (woundMesh.elem 0).blk).LamType > 2 ∧
      InTriangleTest woundMesh 1 (1 / 2) 0 = true ∧
      GetPointValues_Js woundMesh 1 (1 / 2) 0 = ⟨1, 0⟩ ∧
      (woundMesh.label (woundMesh.elem 0).lbl).o.im = 2 ∧
      (woundMesh.label (woundMesh.elem 3).lbl).o.im = 6 ∧
      GetPointValues_localE woundMesh 1 (1 / 2) 0 = 3000000000000 := by
  have h := GetPointValues_localE_element3 woundMesh 1 (1 / 2) 0 (by decide!)
  refine ⟨by decide!, by decide!, by decide!, by decide!, by decide!, ?_⟩
  rw [h]
  decide!

/-! ## Theorems: nodal flux density -/

theorem patchAverage_loop (E : LibEnv) (P : FPProc) (p : CComplex) (l : List Nat) :
    ∀ s : ℚ × CComplex × CComplex,
      l.foldl
        (fun (s : ℚ × CComplex × CComplex) m =>
          let z := 1 / E.abs (p - Ctr P m)
          (s.1 + z, s.2.1 + z * (P.elem m).B1, s.2.2 + z * (P.elem m).B2)) s =
        (s.1 + (l.map (fun m => 1 / E.abs (p - Ctr P m))).sum,
          s.2.1 + (l.map (fun m => (1 / E.abs (p - Ctr P m)) * (P.elem m).B1)).sum,
          s.2.2 + (l.map (fun m => (1 / E.abs (p - Ctr P m)) * (P.elem m).B2)).sum) := by
  induction l with
  | nil =>
    intro s
    refine Prod.ext ?_ (Prod.ext ?_ ?_)
    · simp
    · ext <;> simp
    · ext <;> simp
  | cons a l ih =>
    intro s
    rw [List.foldl_cons, ih]
    refine Prod.ext ?_ (Prod.ext ?_ ?_)
    · simp [add_assoc]
    · ext <;> simp [add_assoc]
    · ext <;> simp [add_assoc]

theorem sum_rmul_const (w : Nat → ℚ) (B : CComplex) (l : List Nat) :
    (l.map (fun m => w m * B)).sum = (l.map w).sum * B := by
  induction l with
  | nil => ext <;> simp
  | cons a l ih =>
    rw [List.map_cons, List.sum_cons, ih, List.map_cons, List.sum_cons]
    ext <;> simp <;> ring

theorem sum_pos_of_pos (w : Nat → ℚ) (l : List Nat) (hl : l ≠ []) (hw : ∀ m ∈ l, 0 < w m) :
    0 < (l.map w).sum := by
  induction l with
  | nil => exact absurd rfl hl
  | cons a l ih =>
    rw [List.map_cons, List.sum_cons]
    by_cases hl' : l = []
    · subst hl'
      simpa using hw a (List.mem_cons_self _ _)
    · exact add_pos (hw a (List.mem_cons_self _ _))
        (ih hl' (fun m hm => hw m (List.mem_cons_of_mem _ hm)))

/-- C33. In `GetNodalB`, for a vertex `i` of `elm` at node `k` such that every
element of the patch of `k` has the label of `elm`, no point current is found
at the node and the node does not pass the test for `r = 0` of an
axisymmetric problem, the smoothed value is the weighted average
`(Σ_m z_m·B_m)/(Σ_m z_m)` over the patch with `z_m = 1/|p − Ctr(m)|`; if all
elements of the patch have the same `B` (the patch is not empty and the node
lies at no centroid), the smoothed value is that `B`. -/
theorem GetNodalB_patch_average (E : LibEnv)
    (interfaceB : FPProc → CPostProcMElement → Nat → CComplex × CComplex) (P : FPProc)
    (elm : CPostProcMElement) (i : Nat) (hi : i < 3)
    (hlbl : ∀ m ∈ patch P (elm.p i), (P.elem m).lbl = elm.lbl)
    (hpc : P.nodeproplist.length = 0 ∨ ∀ j, j < P.nodelist.length →
      pointCurrentAt E P ⟨(P.node (elm.p i)).x, (P.node (elm.p i)).y⟩ j = false)
    (hax : ¬ (|(P.node (elm.p i)).x| < 1 / 1000000 ∧
      P.problemType = ProblemType.AXISYMMETRIC)) :
    ((GetNodalB E interfaceB P elm).b1 i =
        ((patch P (elm.p i)).map (fun m =>
            (1 / E.abs (⟨(P.node (elm.p i)).x, (P.node (elm.p i)).y⟩ - Ctr P m)) *
              (P.elem m).B1)).sum /
          ((patch P (elm.p i)).map (fun m =>
            1 / E.abs (⟨(P.node (elm.p i)).x, (P.node (elm.p i)).y⟩ - Ctr P m))).sum ∧
      (GetNodalB E interfaceB P elm).b2 i =
        ((patch P (elm.p i)).map (fun m =>
            (1 / E.abs (⟨(P.node (elm.p i)).x, (P.node (elm.p i)).y⟩ - Ctr P m)) *
              (P.elem m).B2)).sum /
          ((patch P (elm.p i)).map (fun m =>
            1 / E.abs (⟨(P.node (elm.p i)).x, (P.node (elm.p i)).y⟩ - Ctr P m))).sum) ∧
      ∀ B1 B2 : CComplex, patch P (elm.p i) ≠ [] →
        (∀ m ∈ patch P (elm.p i),
          0 < E.abs (⟨(P.node (elm.p i)).x, (P.node (elm.p i)).y⟩ - Ctr P m)) →
        (∀ m ∈ patch P (elm.p i), (P.elem m).B1 = B1 ∧ (P.elem m).B2 = B2) →
        (GetNodalB E interfaceB P elm).b1 i = B1 ∧ (GetNodalB E interfaceB P elm).b2 i = B2 := by
  have hm : ((patch P (elm.p i)).filter (patchCompatible P elm)).length =
      P.NumList.getD (elm.p i) 0 := by
    rw [List.filter_eq_self.2]
    · simp [patch]
    · intro m hmem
      simp [patchCompatible, hlbl m hmem]
  have hover : ∀ b : CComplex × CComplex,
      (if P.nodeproplist.length ≠ 0 then
        (List.range P.nodelist.length).foldl
          (fun b j =>
            if pointCurrentAt E P ⟨(P.node (elm.p i)).x, (P.node (elm.p i)).y⟩ j then
              (elm.B1, elm.B2)
            else b) b
      else b) = b := by
    intro b
    rcases hpc with h0 | hno
    · rw [if_neg (not_not.2 h0)]
    · split_ifs
      · have key : ∀ n, n ≤ P.nodelist.length →
            (List.range n).foldl
              (fun b j =>
                if pointCurrentAt E P ⟨(P.node (elm.p i)).x, (P.node (elm.p i)).y⟩ j then
                  (elm.B1, elm.B2)
                else b) b = b := by
          intro n
          induction n with
          | zero => intro _; rfl
          | succ n ih =>
            intro hn
            rw [List.range_succ, List.foldl_append, ih (by omega)]
            simp [hno n (by omega)]
        exact key _ (Nat.le_refl _)
      · rfl
  have hv : GetNodalB_vertex E interfaceB P elm i =
      patchAverage E P ⟨(P.node (elm.p i)).x, (P.node (elm.p i)).y⟩ (patch P (elm.p i)) := by
    unfold GetNodalB_vertex
    simp only [hm, if_true]
    rw [hover, if_neg hax]
  have hb1 : (GetNodalB E interfaceB P elm).b1 i = (GetNodalB_vertex E interfaceB P elm i).1 := by
    simp [GetNodalB, hi]
  have hb2 : (GetNodalB E interfaceB P elm).b2 i = (GetNodalB_vertex E interfaceB P elm i).2 := by
    simp [GetNodalB, hi]
  have havg1 : (patchAverage E P ⟨(P.node (elm.p i)).x, (P.node (elm.p i)).y⟩
      (patch P (elm.p i))).1 =
      ((patch P (elm.p i)).map (fun m =>
            (1 / E.abs (⟨(P.node (elm.p i)).x, (P.node (elm.p i)).y⟩ - Ctr P m)) *
              (P.elem m).B1)).sum /
          ((patch P (elm.p i)).map (fun m =>
            1 / E.abs (⟨(P.node (elm.p i)).x, (P.node (elm.p i)).y⟩ - Ctr P m))).sum := by
    unfold patchAverage
    rw [patchAverage_loop]
    ext <;> simp
  have havg2 : (patchAverage E P ⟨(P.node (elm.p i)).x, (P.node (elm.p i)).y⟩
      (patch P (elm.p i))).2 =
      ((patch P (elm.p i)).map (fun m =>
            (1 / E.abs (⟨(P.node (elm.p i)).x, (P.node (elm.p i)).y⟩ - Ctr P m)) *
              (P.elem m).B2)).sum /
          ((patch P (elm.p i)).map (fun m =>
            1 / E.abs (⟨(P.node (elm.p i)).x, (P.node (elm.p i)).y⟩ - Ctr P m))).sum := by
    unfold patchAverage
    rw [patchAverage_loop]
    ext <;> simp
  rw [hb1, hb2, hv, havg1, havg2]
  refine ⟨⟨rfl, rfl⟩, fun B1 B2 hne hz hB => ?_⟩
  have hpos := sum_pos_of_pos
    (fun m => 1 / E.abs (⟨(P.node (elm.p i)).x, (P.node (elm.p i)).y⟩ - Ctr P m))
    (patch P (elm.p i)) hne (fun m hmem => one_div_pos.2 (hz m hmem))
  have e1 : (patch P (elm.p i)).map (fun m =>
      (1 / E.abs (⟨(P.node (elm.p i)).x, (P.node (elm.p i)).y⟩ - Ctr P m)) * (P.elem m).B1) =
      (patch P (elm.p i)).map (fun m =>
        (1 / E.abs (⟨(P.node (elm.p i)).x, (P.node (elm.p i)).y⟩ - Ctr P m)) * B1) :=
    List.map_congr_left (fun m hmem => by rw [(hB m hmem).1])
  have e2 : (patch P (elm.p i)).map (fun m =>
      (1 / E.abs (⟨(P.node (elm.p i)).x, (P.node (elm.p i)).y⟩ - Ctr P m)) * (P.elem m).B2) =
      (patch P (elm.p i)).map (fun m =>
        (1 / E.abs (⟨(P.node (elm.p i)).x, (P.node (elm.p i)).y⟩ - Ctr P m)) * B2) :=
    List.map_congr_left (fun m hmem => by rw [(hB m hmem).2])
  rw [e1, e2, sum_rmul_const, sum_rmul_const]
  have hne0 := ne_of_gt hpos
  constructor
  · ext
    · simp only [CComplex.divr_re, CComplex.rmul_re]
      exact mul_div_cancel_left₀ _ hne0
    · simp only [CComplex.divr_im, CComplex.rmul_im]
      exact mul_div_cancel_left₀ _ hne0
  · ext
    · simp only [CComplex.divr_re, CComplex.rmul_re]
      exact mul_div_cancel_left₀ _ hne0
    · simp only [CComplex.divr_im, CComplex.rmul_im]
      exact mul_div_cancel_left₀ _ hne0

/-- C33, witness: in the unit square with the flux density `(3, 4)` in both
elements, the smoothed value at vertex `0` of element `0`, whose patch is the
two elements, is `(3, 4)`. -/
theorem GetNodalB_patch_average_witness :
    patch uniformB ((uniformB.elem 0).p 0) = [0, 1] ∧
      (GetNodalB unitLib (fun _ _ _ => (0, 0)) uniformB (uniformB.elem 0)).b1 0 = ⟨3, 0⟩ ∧
      (GetNodalB unitLib (fun _ _ _ => (0, 0)) uniformB (uniformB.elem 0)).b2 0 = ⟨4, 0⟩ :=
  have hp : patch uniformB ((uniformB.elem 0).p 0) = [0, 1] := by decide!
  ⟨hp,
    (GetNodalB_patch_average unitLib (fun _ _ _ => (0, 0)) uniformB (uniformB.elem 0) 0
      (by decide)
      (fun m hm => by
        rw [hp] at hm
        have h2 : m = 0 ∨ m = 1 := by simpa using hm
        rcases h2 with rfl | rfl <;> decide!)
      (Or.inl rfl) (fun h => absurd h.2 (by decide))).2 ⟨3, 0⟩ ⟨4, 0⟩
      (by rw [hp]; simp)
      (fun m _ => by
        show (0 : ℚ) < 1
        norm_num)
      (fun m hm => by
        rw [hp] at hm
        have h2 : m = 0 ∨ m = 1 := by simpa using hm
        rcases h2 with rfl | rfl <;> decide!)⟩

/-! ## Theorems: mid-gap reconstruction -/

theorem agePad_uniform {K : Type} [Field K] [CharZero K] (a : Nat → Cx K) (c : Cx K)
    (ci co dt R dr : K) (h : ∀ kk, kk < 10 → a kk = c) :
    agePadAc a ci co = c ∧ agePadBr a ci co dt R = 0 ∧ agePadBt a ci co dr = 0 := by
  have h0 := h 0 (by norm_num)
  have h1 := h 1 (by norm_num)
  have h2 := h 2 (by norm_num)
  have h3 := h 3 (by norm_num)
  have h4 := h 4 (by norm_num)
  have h5 := h 5 (by norm_num)
  have h6 := h 6 (by norm_num)
  have h7 := h 7 (by norm_num)
  have h8 := h 8 (by norm_num)
  have h9 := h 9 (by norm_num)
  have h8' : (8 : K) ≠ 0 := by norm_num
  refine ⟨?_, ?_, ?_⟩
  · unfold agePadAc
    rw [h0, h1, h2, h3, h4, h5, h6, h7, h8, h9]
    ext
    · simp only [cx_divr_re, cx_add_re, cx_sub_re, cx_mulr_re, cx_rmul_re]
      field_simp
      ring
    · simp only [cx_divr_im, cx_add_im, cx_sub_im, cx_mulr_im, cx_rmul_im]
      field_simp
      ring
  · unfold agePadBr
    rw [h0, h1, h2, h3, h4, h5, h6, h7, h8, h9]
    ext
    · simp only [cx_divr_re, cx_add_re, cx_sub_re, cx_neg_re, cx_rmul_re, cx_zero_re]
      rw [div_eq_zero_iff]
      left
      ring
    · simp only [cx_divr_im, cx_add_im, cx_sub_im, cx_neg_im, cx_rmul_im, cx_zero_im]
      rw [div_eq_zero_iff]
      left
      ring
  · unfold agePadBt
    rw [h0, h1, h2, h3, h4, h5, h6, h7, h8, h9]
    ext
    · simp only [cx_divr_re, cx_add_re, cx_sub_re, cx_neg_re, cx_rmul_re, cx_zero_re]
      rw [div_eq_zero_iff]
      left
      ring
    · simp only [cx_divr_im, cx_add_im, cx_sub_im, cx_neg_im, cx_rmul_im, cx_zero_im]
      rw [div_eq_zero_iff]
      left
      ring

theorem foldl_const_share {K : Type} [Field K] [CharZero K] (c : Cx K) (N : Nat) (t : Nat) :
    (List.range t).foldl (fun aco (_ : Nat) => aco + c / (N : K)) 0 =
      (⟨(t : K) * (c.re / (N : K)), (t : K) * (c.im / (N : K))⟩ : Cx K) := by
  induction t with
  | zero => ext <;> simp [cx_zero_re, cx_zero_im]
  | succ t ih =>
    rw [List.range_succ, List.foldl_append, ih]
    ext
    · simp only [List.foldl_cons, List.foldl_nil, cx_add_re, cx_divr_re]
      push_cast
      ring
    · simp only [List.foldl_cons, List.foldl_nil, cx_add_im, cx_divr_im]
      push_cast
      ring

/-- C36. For a periodic air-gap element, if the ten weighted nodal potentials
`a[0..9]` gathered for a pad are all equal to `c`, then for every `InnerShift`
`ci` and `OuterShift` `co` the reconstruction gives `ac = c`, `br[k] = 0` and
`bt[k] = 0`; if that holds for every pad of an element with at least one pad,
the loader leaves `aco = c` and zero gap flux density in every pad. -/
theorem OpenDocument_midgap_uniform {K : Type} [Field K] [CharZero K] (E : MathEnv K)
    (A : Nat → Cx K) (age : CAirGapElement K) (g : AGEQuad K) (c : Cx K)
    (hf : age.BdryFormat = 0) :
    (∀ (a : Nat → Cx K) (ci co dt R dr : K), (∀ kk, kk < 10 → a kk = c) →
        agePadAc a ci co = c ∧ agePadBr a ci co dt R = 0 ∧ agePadBt a ci co dr = 0) ∧
      (0 < age.totalArcElements →
        (∀ k, k < age.totalArcElements → ∀ kk, kk < 10 →
          agePadA A g age.BdryFormat age.totalArcElements k kk = c) →
        (OpenDocument_midgap E A age g).aco = c ∧
          ∀ k, k < age.totalArcElements →
            (OpenDocument_midgap E A age g).br.getD k 0 = 0 ∧
              (OpenDocument_midgap E A age g).bt.getD k 0 = 0) := by
  refine ⟨fun a ci co dt R dr h => agePad_uniform a c ci co dt R dr h, fun hN hall => ?_⟩
  have hNK : (age.totalArcElements : K) ≠ 0 := Nat.cast_ne_zero.2 (Nat.pos_iff_ne_zero.1 hN)
  constructor
  · show (List.range age.totalArcElements).foldl _ 0 = c
    have hstep : ∀ t, t ≤ age.totalArcElements →
        (List.range t).foldl
          (fun aco k =>
            if age.BdryFormat = 0 then
              aco + agePadAc (agePadA A g age.BdryFormat age.totalArcElements k) g.InnerShift
                g.OuterShift / (age.totalArcElements : K)
            else aco) 0 =
          (List.range t).foldl (fun aco (_ : Nat) => aco + c / (age.totalArcElements : K)) 0 := by
      intro t
      induction t with
      | zero => intro _; rfl
      | succ t ih =>
        intro ht
        rw [List.range_succ, List.foldl_append, List.foldl_append, ih (by omega)]
        simp only [List.foldl_cons, List.foldl_nil]
        rw [if_pos hf, (agePad_uniform _ c g.InnerShift g.OuterShift 0 0 0
          (hall t (by omega))).1]
    rw [hstep _ (Nat.le_refl _), foldl_const_share]
    ext
    · show (age.totalArcElements : K) * (c.re / (age.totalArcElements : K)) = c.re
      field_simp
    · show (age.totalArcElements : K) * (c.im / (age.totalArcElements : K)) = c.im
      field_simp
  · intro k hk
    constructor
    · show ((List.range age.totalArcElements).map _).getD k 0 = 0
      rw [getD_map_range _ _ _ _ hk]
      exact (agePad_uniform _ c g.InnerShift g.OuterShift _ _ 0 (hall k hk)).2.1
    · show ((List.range age.totalArcElements).map _).getD k 0 = 0
      rw [getD_map_range _ _ _ _ hk]
      exact (agePad_uniform _ c g.InnerShift g.OuterShift 0 0 _ (hall k hk)).2.2

/-- C36, witness: a periodic element of four pads whose nodal potentials are
all `5` with unit weights is loaded with `aco = 5` and zero flux density. -/
theorem OpenDocument_midgap_uniform_witness :
    age4.BdryFormat = 0 ∧
      (OpenDocument_midgap stubEnv (fun _ => ⟨5, 0⟩) age4 unitQuad).aco = ⟨5, 0⟩ ∧
      (OpenDocument_midgap stubEnv (fun _ => ⟨5, 0⟩) age4 unitQuad).br.getD 2 0 = 0 ∧
      (OpenDocument_midgap stubEnv (fun _ => ⟨5, 0⟩) age4 unitQuad).bt.getD 2 0 = 0 :=
  have hall : ∀ k, k < age4.totalArcElements → ∀ kk, kk < 10 →
      agePadA (fun _ => (⟨5, 0⟩ : Cx ℚ)) unitQuad age4.BdryFormat age4.totalArcElements k kk =
        ⟨5, 0⟩ := by
    intro k hk kk hkk
    have hk4 : k < 4 := hk
    interval_cases k <;> interval_cases kk <;> decide!
  ⟨rfl,
    ((OpenDocument_midgap_uniform stubEnv (fun _ => ⟨5, 0⟩) age4 unitQuad ⟨5, 0⟩ rfl).2
      (by decide) hall).1,
    (((OpenDocument_midgap_uniform stubEnv (fun _ => ⟨5, 0⟩) age4 unitQuad ⟨5, 0⟩ rfl).2
      (by decide) hall).2 2 (by decide)).1,
    (((OpenDocument_midgap_uniform stubEnv (fun _ => ⟨5, 0⟩) age4 unitQuad ⟨5, 0⟩ rfl).2
      (by decide) hall).2 2 (by decide)).2⟩

/-! ## Theorems: fill factor of a wound region -/

/-- C31, amended. `GetFillFactor` applies the rectangular/foil model,
`FillFactor = |d²·Turns/atot|` with `d = WireD·0.001` (and foil pitch
`dd = d/sqrt(FillFactor)` in the conductivity), for a material with
`LamType = 6`; the round-wire fits are applied for `LamType` `3` (magnet
wire), `4` (stranded) and `5` (litz), with
`FillFactor = |awire/atot|`. -/
theorem GetFillFactor_wire_models {K : Type} [LinearOrderedField K] (E : MathEnv K)
    (log : K → K) (S : FPProcWire K) (lbl : Nat) (hat : wireAtot S lbl ≠ 0) :
    ((S.blockprop (S.label lbl).BlockType).LamType = 6 →
        (GetFillFactor_label E log S lbl).FillFactor =
          |(S.blockprop (S.label lbl).BlockType).WireD * (1 / 1000) *
            ((S.blockprop (S.label lbl).BlockType).WireD * (1 / 1000)) *
              ((S.label lbl).Turns : K) / wireAtot S lbl| ∧
          (S.Frequency = 0 →
            (GetFillFactor_label E log S lbl).o =
              (let d := (S.blockprop (S.label lbl).BlockType).WireD * (1 / 1000)
               let dd := d / E.sqrt (GetFillFactor_label E log S lbl).FillFactor
               ((S.blockprop (S.label lbl).BlockType).Cduct *
                   (GetFillFactor_label E log S lbl).FillFactor) +
                 ((((Cx.I : Cx K) * (dd - d)) * dd) * E.muo) / (6 : K)))) ∧
      ((S.blockprop (S.label lbl).BlockType).LamType = 3 →
        (GetFillFactor_label E log S lbl).FillFactor =
          |E.PI * ((S.blockprop (S.label lbl).BlockType).WireD * (5 / 10000)) *
            ((S.blockprop (S.label lbl).BlockType).WireD * (5 / 10000)) *
              ((S.blockprop (S.label lbl).BlockType).NStrands : K) *
                ((S.label lbl).Turns : K) / wireAtot S lbl|) ∧
      ((S.blockprop (S.label lbl).BlockType).LamType = 4 →
        (GetFillFactor_label E log S lbl).FillFactor =
          |E.PI * ((S.blockprop (S.label lbl).BlockType).WireD * (5 / 10000) *
              E.sqrt ((S.blockprop (S.label lbl).BlockType).NStrands : K)) *
            ((S.blockprop (S.label lbl).BlockType).WireD * (5 / 10000) *
              E.sqrt ((S.blockprop (S.label lbl).BlockType).NStrands : K)) *
                ((S.label lbl).Turns : K) / wireAtot S lbl|) ∧
      ((S.blockprop (S.label lbl).BlockType).LamType = 5 →
        (GetFillFactor_label E log S lbl).FillFactor =
          |E.PI * ((S.blockprop (S.label lbl).BlockType).WireD * (5 / 10000)) *
            ((S.blockprop (S.label lbl).BlockType).WireD * (5 / 10000)) *
              ((S.blockprop (S.label lbl).BlockType).NStrands : K) *
                ((S.label lbl).Turns : K) / wireAtot S lbl|) := by
  refine ⟨fun h => ?_, fun h => ?_, fun h => ?_, fun h => ?_⟩
  · have hrect : GetFillFactor_label E log S lbl =
        GetFillFactor_rect E (S.blockprop (S.label lbl).BlockType)
          { S.label lbl with
            FillFactor := if |(S.label lbl).Turns| > 1 then 1 else -1
            o := ⟨(S.blockprop (S.label lbl).BlockType).Cduct, 0⟩
            mu := 0 } (wireAtot S lbl) S.Frequency := by
      unfold GetFillFactor_label
      simp only [h, if_neg hat]
      norm_num
    have hFF : (GetFillFactor_label E log S lbl).FillFactor =
        |(S.blockprop (S.label lbl).BlockType).WireD * (1 / 1000) *
          ((S.blockprop (S.label lbl).BlockType).WireD * (1 / 1000)) *
            ((S.label lbl).Turns : K) / wireAtot S lbl| := by
      rw [hrect]
      unfold GetFillFactor_rect
      simp only []
      split_ifs <;> rfl
    refine ⟨hFF, fun hf => ?_⟩
    rw [hFF, hrect]
    unfold GetFillFactor_rect
    simp only [hf, if_true]
  all_goals
    unfold GetFillFactor_label
    simp only [h, if_neg hat]
    norm_num
    unfold GetFillFactor_round
    simp only [wireArea, wireRadius]
    norm_num
    split_ifs <;> rfl

/-- C31, witness: the winding of rectangular wire (`LamType = 6`) has the fill
factor `|1·1·2/4| = 1/2`. -/
theorem GetFillFactor_wire_models_witness :
    wireAtot (coilWire 6 (0 : ℚ)) 0 ≠ 0 ∧
      (GetFillFactor_label stubEnv (fun x => x) (coilWire 6 (0 : ℚ)) 0).FillFactor = 1 / 2 :=
  ⟨by decide!,
    ((GetFillFactor_wire_models stubEnv (fun x => x) (coilWire 6 (0 : ℚ)) 0 (by decide!)).1
      (by decide!)).1.trans (by decide!)⟩

theorem cx_div_re {K : Type} [Field K] (a b : Cx K) :
    (a / b).re = (a.re * b.re + a.im * b.im) / (b.re * b.re + b.im * b.im) := rfl

theorem cx_addl_re {K : Type} [Field K] (r : K) (a : Cx K) : (r + a).re = r + a.re := rfl

theorem cx_addl_im {K : Type} [Field K] (r : K) (a : Cx K) : (r + a).im = a.im := rfl

/-- From `LamType = 3` on and with meshed area, `GetFillFactor` leaves the
ratio of the total wire area to the block area. -/
theorem GetFillFactor_label_fill {K : Type} [LinearOrderedField K] (E : MathEnv K)
    (log : K → K) (S : FPProcWire K) (lbl : Nat)
    (h3 : 3 ≤ (S.blockprop (S.label lbl).BlockType).LamType) (hat : wireAtot S lbl ≠ 0) :
    (GetFillFactor_label E log S lbl).FillFactor =
      |totalWireArea E (S.blockprop (S.label lbl).BlockType) (S.label lbl) /
        wireAtot S lbl| := by
  unfold GetFillFactor_label totalWireArea
  dsimp only
  rw [if_neg (not_lt.2 h3), if_neg hat]
  by_cases hw : (S.blockprop (S.label lbl).BlockType).LamType - 3 = 3
  · rw [if_pos hw, if_pos hw]
    unfold GetFillFactor_rect
    dsimp only
    split_ifs <;> rfl
  · rw [if_neg hw, if_neg hw]
    unfold GetFillFactor_round
    dsimp only
    split_ifs <;> rfl

theorem coilWire_LamType {K : Type} [Field K] (lam : Int) (f : K) :
    ((coilWire lam f).blockprop ((coilWire lam f).label 0).BlockType).LamType = lam := by
  simp [coilWire, FPProcWire.blockprop, FPProcWire.label]

theorem coilWire_atot {K : Type} [Field K] (lam : Int) (f : K) :
    wireAtot (coilWire lam f) 0 = 4 := by
  simp [coilWire, wireAtot]

/-- C31, counterexample: over the reals, for the winding of a material with
`LamType = 3` (wire diameter `1000` mm, one strand, two turns, meshed area
`4`) the fill factor is `|PI·R²·NStrands·Turns/atot|` with `R = 1/2`, that is
`π/8`, not the value `|d²·Turns/atot| = 1/2` of the rectangular model. -/
theorem GetFillFactor_wire_models_counterexample :
    ((coilWire 3 (0 : ℝ)).blockprop ((coilWire 3 (0 : ℝ)).label 0).BlockType).LamType = 3 ∧
      wireAtot (coilWire 3 (0 : ℝ)) 0 = 4 ∧
      (GetFillFactor_label ⟨Real.pi, 1, Real.sin, Real.cos, Real.exp, Real.sqrt⟩ Real.log
        (coilWire 3 (0 : ℝ)) 0).FillFactor = Real.pi / 8 ∧
      (GetFillFactor_label ⟨Real.pi, 1, Real.sin, Real.cos, Real.exp, Real.sqrt⟩ Real.log
        (coilWire 3 (0 : ℝ)) 0).FillFactor ≠
        |((coilWire 3 (0 : ℝ)).blockprop ((coilWire 3 (0 : ℝ)).label 0).BlockType).WireD *
            (1 / 1000) *
          (((coilWire 3 (0 : ℝ)).blockprop ((coilWire 3 (0 : ℝ)).label 0).BlockType).WireD *
            (1 / 1000)) *
          (((coilWire 3 (0 : ℝ)).label 0).Turns : ℝ) / wireAtot (coilWire 3 (0 : ℝ)) 0| := by
  have hF := GetFillFactor_label_fill
    (⟨Real.pi, 1, Real.sin, Real.cos, Real.exp, Real.sqrt⟩ : MathEnv ℝ) Real.log
    (coilWire 3 (0 : ℝ)) 0 (by rw [coilWire_LamType]) (by rw [coilWire_atot]; norm_num)
  have hval : (GetFillFactor_label ⟨Real.pi, 1, Real.sin, Real.cos, Real.exp, Real.sqrt⟩
      Real.log (coilWire 3 (0 : ℝ)) 0).FillFactor = Real.pi / 8 := by
    rw [hF, coilWire_atot]
    simp only [totalWireArea, coilWire_LamType]
    norm_num [wireArea, wireRadius, coilWire, FPProcWire.label, FPProcWire.blockprop]
    rw [abs_of_pos (by positivity)]
    ring
  refine ⟨coilWire_LamType 3 0, coilWire_atot 3 0, hval, ?_⟩
  rw [hval, coilWire_atot]
  norm_num [coilWire, FPProcWire.label, FPProcWire.blockprop, abs_of_pos]
  have := Real.pi_lt_four
  intro h
  linarith

end Xfemm
